import Mathlib

/-!
# Scanning engine and file classification of `ack` (src/main.c)

A shallow embedding of the line reader, the literal matchers, the context
engine, the bit sets, the type registry and the file classification of
`src/main.c`, followed by the properties proved about them.

Conventions of the embedding.

* A C byte (`char`) is a `Nat`; only equality of bytes is ever used.
* A `char *` buffer is a memory `Nat → Nat` (address to byte); the fields
  `allocated`, `used`, `start` of `buf_t` are kept as in the source.  Bytes
  that the program never wrote keep whatever the memory held.
* A C string (file name, type name, extension) is the list of its bytes; the
  end of the list is the terminating NUL.
* `int`, `long` and `size_t` quantities are natural numbers: lengths are
  assumed to stay inside the range of `int`, and `realloc` is assumed to
  succeed (the out-of-memory branches are not modelled).
* Loops whose termination depends on the data carry a fuel argument and return
  `none` when it runs out; the wrappers supply the fuel and are proved never
  to return `none`.  Dereferencing a `NULL` pointer also yields `none`.
* The linked lists of `queue.h` are lists, head first; a pointer to a
  `filetype_t` is the index `i` of the type, which `add_exts` makes unique.
-/

namespace Ack

/-! ## Data model -/

/-- The C struct `buf_t`: memory `buf`, capacity, number of live bytes and the
offset of the first live byte. -/
structure buf_t where
  buf : Nat → Nat
  allocated : Nat
  used : Nat
  start : Nat

/-- One answer of the operating system to a `read` request. -/
inductive ReadStep where
  | deliver (extra : Nat)
  | fail
  deriving DecidableEq, Repr

/-- The file handle `FHANDLE` seen through `FREAD`: the bytes of the file that
were not delivered yet and the way the next requests will be answered.
`deliver c` hands over at most `c + 1` bytes (a short read), `fail` is a read
error; when the schedule is used up every request is served in full. -/
structure FHANDLE where
  data : List Nat
  sched : List ReadStep

/-- The C struct `bitfiels_t`: `size` bytes of eight bits each. -/
structure bitfiels_t where
  size : Nat
  bits : List Nat
  deriving DecidableEq, Repr

/-- The C struct `filetype_t`.  A C string is the list of its bytes before the
terminating NUL.  A pointer `filetype_t *` is represented by the field `i` of
the record it points to, `none` being `NULL`. -/
structure filetype_t where
  name : List Nat
  namelen : Nat
  i : Nat
  wanted : Int
  deriving DecidableEq, Repr

/-- The C struct `ext_t`; the pointer `type` is the index `i` of the type it
points to. -/
structure ext_t where
  ext : List Nat
  len : Nat
  type : Nat
  deriving DecidableEq, Repr

/-- The C struct `file_t`.  The bit set `filetypes` points to is held in the
record itself. -/
structure file_t where
  f : FHANDLE
  nmatches : Nat
  line : Nat
  is_binary : Bool
  buf : buf_t
  fullname : List Nat := []
  name : List Nat := []
  namelen : Nat := 0
  filetypes : bitfiels_t := ⟨0, []⟩
  type_processed : Bool := false

/-- The macro `BUFFER_SIZE`. -/
def BUFFER_SIZE : Nat := 64 * 1024

/-- The macro `OFFSETS_SIZE`. -/
def OFFSETS_SIZE : Nat := 120

/-- An empty `buf_t`, as left by `memset(..., 0, ...)`. -/
def buf_t.empty : buf_t := ⟨fun _ => 0, 0, 0, 0⟩

/-- The live bytes of a window: `buf[start .. start + used)`. -/
def buf_t.window (b : buf_t) : List Nat :=
  (List.range b.used).map (fun i => b.buf (b.start + i))

/-- The bytes of a line buffer: `buf[0 .. used)`, what `out_line` writes. -/
def buf_t.bytes (b : buf_t) : List Nat :=
  (List.range b.used).map b.buf

/-- A freshly opened file: empty window, nothing counted. -/
def file_t.opened (data : List Nat) (sched : List ReadStep) : file_t :=
  { f := ⟨data, sched⟩, nmatches := 0, line := 0, is_binary := false, buf := buf_t.empty }

/-! ## ByteWindow and LineReader -/

/-- The macro `FREAD(fid, buf, size)`, i.e. `read(2)`: the result, the bytes
stored and the handle afterwards. -/
def FREAD (f : FHANDLE) (size : Nat) : Int × List Nat × FHANDLE :=
  match f.sched with
  | ReadStep.fail :: rest => (-1, [], ⟨f.data, rest⟩)
  | ReadStep.deliver c :: rest =>
    let n := min (min size (c + 1)) f.data.length
    ((n : Int), f.data.take n, ⟨f.data.drop n, rest⟩)
  | [] =>
    let n := min size f.data.length
    ((n : Int), f.data.take n, ⟨f.data.drop n, []⟩)

/-- Storing `bytes` at address `at` of a memory. -/
def mem_write (m : Nat → Nat) (pos : Nat) (bytes : List Nat) : Nat → Nat :=
  fun i => if pos ≤ i ∧ i < pos + bytes.length then bytes.getD (i - pos) 0 else m i

/-- The C call `memmove(dst, src, n)` inside one memory. -/
def memmove (m : Nat → Nat) (dst src n : Nat) : Nat → Nat :=
  fun i => if dst ≤ i ∧ i < dst + n then m (src + (i - dst)) else m i

/-- The C call `memchr(&m[p], c, n)`: address of the first byte equal to `c`
in `m[p .. p + n)`. -/
def memchr (m : Nat → Nat) (p c : Nat) : Nat → Option Nat
  | 0 => none
  | n + 1 => if m p = c then some p else memchr m (p + 1) c n

/-- The function `read_file` (main.c 809-840): result of the read, the window
and the handle afterwards. -/
def read_file (line : buf_t) (f : FHANDLE) (size : Nat) : Int × buf_t × FHANDLE :=
  let _free := line.allocated - line.used
  -- if (!_free) { realloc; line->allocated += size; }
  let line1 : buf_t := if _free = 0 then { line with allocated := line.allocated + size } else line
  -- size = line->allocated - (line->start + line->used);
  let size1 := line1.allocated - (line1.start + line1.used)
  -- if (!size) { memmove; line->start = 0; size = ... }
  let line2 : buf_t :=
    if size1 = 0 then
      { line1 with
        buf := if line1.used ≠ 0 then memmove line1.buf 0 line1.start line1.used else line1.buf
        start := 0 }
    else line1
  let size2 := if size1 = 0 then line2.allocated - (line2.start + line2.used) else size1
  -- res = FREAD(f, &line->buf[line->start + line->used], size);
  let r := FREAD f size2
  if 0 < r.1 then
    (r.1, { line2 with buf := mem_write line2.buf (line2.start + line2.used) r.2.1,
                       used := line2.used + r.1.toNat }, r.2.2)
  else
    (r.1, line2, r.2.2)

/-- The `while(!ptr)` loop of `get_line` (main.c 871-880): the final `ptr`
(an address in the window memory) and the file afterwards. -/
def get_line_loop : Nat → Nat → file_t → Option (Option Nat × file_t)
  | 0, _, _ => none
  | fuel + 1, start, file =>
    match memchr file.buf.buf (file.buf.start + start) 0x0a (file.buf.used - start) with
    | some p => some (some p, file)
    | none =>
      let start1 := file.buf.used
      let r := read_file file.buf file.f BUFFER_SIZE
      let file1 : file_t := { file with buf := r.2.1, f := r.2.2 }
      if r.1 ≤ 0 then some (none, file1) else get_line_loop fuel start1 file1

/-- The length computed by `get_line` after the loop (main.c 882-886):
`ptr - (buf + start) + 1` when a terminator was found, `used` otherwise. -/
def get_line_len (ptr : Option Nat) (file : file_t) : Nat :=
  match ptr with
  | some p => p - file.buf.start + 1
  | none => file.buf.used

/-- The part of `get_line` after the loop (main.c 882-908). -/
def get_line_finish (line : buf_t) (ptr : Option Nat) (file : file_t) : Nat × buf_t × file_t :=
  let len := get_line_len ptr file
  -- if (line->allocated < len) { realloc(len*2); ... }
  let line1 : buf_t :=
    if line.allocated < len then { line with allocated := len * 2, used := 0, start := 0 } else line
  if len ≠ 0 then
    -- memcpy(line->buf, &file->buf.buf[file->buf.start], len);
    let lbuf : Nat → Nat := fun i => if i < len then file.buf.buf (file.buf.start + i) else line1.buf i
    let used1 := file.buf.used - len
    let start1 := file.buf.start + len
    let fbuf : buf_t := { file.buf with used := used1, start := if used1 = 0 then 0 else start1 }
    (len, { line1 with buf := lbuf, used := len }, { file with buf := fbuf })
  else
    (len, { line1 with used := len }, file)

/-- The function `get_line` (main.c 861-909): length of the line, the line
buffer and the file afterwards.  The loop reads at most once per remaining
byte of the file and once more for the end of file. -/
def get_line (line : buf_t) (file : file_t) : Option (Nat × buf_t × file_t) :=
  match get_line_loop (file.f.data.length + 1) 0 file with
  | none => none
  | some (ptr, file1) => some (get_line_finish line ptr file1)

/-- Calling `get_line` until it returns 0, collecting the lines it yields. -/
def read_lines : Nat → buf_t → file_t → Option (List (List Nat))
  | 0, _, _ => none
  | fuel + 1, line, file =>
    match get_line line file with
    | none => none
    | some (len, line1, file1) =>
      if len = 0 then some []
      else (read_lines fuel line1 file1).map (fun ls => line1.bytes :: ls)

/-- All lines of a file: every call of `get_line` that yields a line consumes
at least one byte, so one call per pending byte and one more suffice. -/
def get_lines (line : buf_t) (file : file_t) : Option (List (List Nat)) :=
  read_lines (file.buf.used + file.f.data.length + 1) line file

/-- The bytes of the file that `get_line` has not returned yet. -/
def file_t.pending (file : file_t) : List Nat :=
  file.buf.window ++ file.f.data

/-- The first line of a byte sequence, newline included. -/
def first_line : List Nat → List Nat
  | [] => []
  | x :: xs => if x = 0x0a then [x] else x :: first_line xs

/-- The schedule of a handle contains no read error. -/
def no_fail (sched : List ReadStep) : Prop :=
  ∀ s ∈ sched, s ≠ ReadStep.fail

instance (sched : List ReadStep) : Decidable (no_fail sched) := by
  unfold no_fail; infer_instance

/-- The window invariant `start + used <= allocated`. -/
def buf_t.inv (b : buf_t) : Prop := b.start + b.used ≤ b.allocated

instance (b : buf_t) : Decidable b.inv := by
  unfold buf_t.inv; infer_instance

/-! ## PatternMatcher

A `const char *` argument is a memory together with an address; the pattern
`re->pattern` is a memory read from address 0 and is assumed non-null. -/

/-- The C struct `match_t`. -/
structure match_t where
  start : Nat
  len : Nat
  deriving DecidableEq, Repr

/-- The memory holding the bytes of `l` from address 0 on. -/
def mem_of (l : List Nat) : Nat → Nat :=
  fun i => l.getD i 0

/-- The libc function `toupper` in the C locale. -/
def toupper (c : Nat) : Nat :=
  if 97 ≤ c ∧ c ≤ 122 then c - 32 else c

/-- The libc function `tolower` in the C locale. -/
def tolower (c : Nat) : Nat :=
  if 65 ≤ c ∧ c ≤ 90 then c + 32 else c

/-- The libc function `memcmp(&a[p], &b[q], n)`. -/
def memcmp (a : Nat → Nat) (p : Nat) (b : Nat → Nat) (q : Nat) : Nat → Int
  | 0 => 0
  | n + 1 =>
    if a p = b q then memcmp a (p + 1) b (q + 1) n
    else if a p < b q then -1 else 1

/-- The libc function `strncasecmp(&a[p], &b[q], n)` (the macro `STRNCASECMP`)
in the C locale: bytes are compared after `tolower`, and the comparison stops
after a NUL byte. -/
def strncasecmp (a : Nat → Nat) (p : Nat) (b : Nat → Nat) (q : Nat) : Nat → Int
  | 0 => 0
  | n + 1 =>
    if tolower (a p) ≠ tolower (b q) then (tolower (a p) : Int) - (tolower (b q) : Int)
    else if tolower (a p) = 0 then 0
    else strncasecmp a (p + 1) b (q + 1) n

/-- The `while(ptr && (ptr<eptr))` loop of `_strnstr3` (main.c 1098-1106).
`ptr` moves forward by at least one byte per iteration, so `eptr - ptr`
iterations suffice; the outer `none` is fuel exhaustion. -/
def _strnstr3_loop (m : Nat → Nat) (f : Nat → Nat) (xfl e eptr : Nat) :
    Nat → Option Nat → Option (Option Nat)
  | _, none => some none
  | 0, some ptr => if ptr < eptr then none else some none
  | fuel + 1, some ptr =>
    if ptr < eptr then
      if m (ptr + xfl) = e ∧ memcmp m ptr f 0 xfl = 0 then some (some ptr)
      else _strnstr3_loop m f xfl e eptr fuel (memchr m (ptr + 1) (f 0) (eptr - (ptr + 1)))
    else some none

/-- The function `_strnstr3` (main.c 1083-1110), the macro `strnstr`: address
of the first occurrence of `f[0 .. fl)` in `m[s .. s + sl)`. -/
def _strnstr3 (m : Nat → Nat) (s sl : Nat) (f : Nat → Nat) (fl : Nat) : Option (Option Nat) :=
  if sl < fl then some none
  else if fl ≠ 0 then
    let xfl := fl - 1
    let eptr := s + sl - xfl
    match memchr m s (f 0) (eptr - s) with
    | some ptr => _strnstr3_loop m f xfl (f xfl) eptr (eptr - ptr) (some ptr)
    | none => some none
  else some none

/-- The function `strncasechr` (main.c 1113-1128), from `i` on: `n` is
`sl - i`.  The byte `s[i]` read when `i = sl` does not influence the result. -/
def strncasechr_loop (m : Nat → Nat) (uch lch : Nat) : Nat → Nat → Option Nat
  | _, 0 => none
  | p, n + 1 =>
    if m p ≠ 0 then
      if m p = lch ∨ m p = uch then some p
      else strncasechr_loop m uch lch (p + 1) n
    else none

/-- The function `strncasechr` (main.c 1113-1128). -/
def strncasechr (m : Nat → Nat) (s sl uch lch : Nat) : Option Nat :=
  if sl ≠ 0 then strncasechr_loop m uch lch s sl else none

/-- The `while(ptr && (ptr<eptr))` loop of `_strncasestr` (main.c 1161-1173). -/
def _strncasestr_loop (m : Nat → Nat) (f : Nat → Nat) (ei mi ufirst lfirst le ue lm um eptr : Nat) :
    Nat → Option Nat → Option (Option Nat)
  | _, none => some none
  | 0, some ptr => if ptr < eptr then none else some none
  | fuel + 1, some ptr =>
    if ptr < eptr then
      if (m (ptr + ei) = le ∨ m (ptr + ei) = ue) ∧ (m (ptr + mi) = lm ∨ m (ptr + mi) = um) ∧
          strncasecmp m ptr f 0 ei = 0 then some (some ptr)
      else _strncasestr_loop m f ei mi ufirst lfirst le ue lm um eptr fuel
        (strncasechr m (ptr + 1) (eptr - (ptr + 1)) ufirst lfirst)
    else some none

/-- The function `_strncasestr` (main.c 1130-1177). -/
def _strncasestr (m : Nat → Nat) (s sl : Nat) (f : Nat → Nat) (fl : Nat) : Option (Option Nat) :=
  if sl < fl then some none
  else if fl ≠ 0 then
    let ei := fl - 1
    let mi := ei / 2
    let ufirst := toupper (f 0)
    let lfirst := tolower ufirst
    let eptr := s + sl - ei
    match strncasechr m s (eptr - s) ufirst lfirst with
    | some ptr =>
      let le := tolower (f ei)
      let ue := toupper le
      let lm := tolower (f mi)
      let um := toupper lm
      _strncasestr_loop m f ei mi ufirst lfirst le ue lm um eptr (eptr - ptr) (some ptr)
    | none => some none
  else some none

/-- The function `str_findall` (main.c 964-978) for a non-null `matches`
array: the spans written to the array, in order; the value returned is their
number.  The last argument is `matches_len - nmatches`. -/
def str_findall (pattern : Nat → Nat) (plen : Nat) (m : Nat → Nat) :
    Nat → Nat → Nat → Option (List match_t)
  | _, _, 0 => some []
  | str, len, n + 1 =>
    if len = 0 then some []
    else match _strnstr3 m str len pattern plen with
      | none => none
      | some none => some []
      | some (some r) =>
        (str_findall pattern plen m (r + plen) (len - (r + plen - str)) n).map
          (fun ms => ⟨r - str, plen⟩ :: ms)

/-- The function `str_casefindall` (main.c 980-994) for a non-null `matches`
array. -/
def str_casefindall (pattern : Nat → Nat) (plen : Nat) (m : Nat → Nat) :
    Nat → Nat → Nat → Option (List match_t)
  | _, _, 0 => some []
  | str, len, n + 1 =>
    if len = 0 then some []
    else match _strncasestr m str len pattern plen with
      | none => none
      | some none => some []
      | some (some r) =>
        (str_casefindall pattern plen m (r + plen) (len - (r + plen - str)) n).map
          (fun ms => ⟨r - str, plen⟩ :: ms)

/-- The bytes `m[p .. p + n)`. -/
def mem_slice (m : Nat → Nat) (p n : Nat) : List Nat :=
  (List.range n).map (fun i => m (p + i))

/-- The function `re_findall` (main.c 946-962) for a non-null `matches` array.
`exec subject` stands for `pcre_exec(re->re, re->pe, str, len, 0,
PCRE_NOTEMPTY, vars.offsets, OFFSETS_SIZE)` of the external regex library on
the subject `str[0 .. len)`: it is `some (offsets[0], offsets[1])` when the
call returns a positive value. -/
def re_findall (exec : List Nat → Option (Nat × Nat)) (m : Nat → Nat) :
    Nat → Nat → Nat → List match_t
  | _, _, 0 => []
  | str, len, n + 1 =>
    if len = 0 then []
    else match exec (mem_slice m str len) with
      | none => []
      | some (o0, o1) => ⟨o0, o1 - o0⟩ :: re_findall exec m (str + o1) (len - o1) n

/-- The ASCII upper-casing of a byte sequence. -/
def upper (s : List Nat) : List Nat := s.map toupper

/-- The ASCII lower-casing of a byte sequence. -/
def lower (s : List Nat) : List Nat := s.map tolower

/-- The pattern `f` occurs in `s` at index `i`: `i + |f| <= |s|` and
`s[i .. i + |f|) = f`. -/
def occurs_at (s f : List Nat) (i : Nat) : Prop :=
  i + f.length ≤ s.length ∧ (s.drop i).take f.length = f

instance (s f : List Nat) (i : Nat) : Decidable (occurs_at s f i) := by
  unfold occurs_at; infer_instance

/-- The absolute positions of spans whose `start` is counted from the end of
the previous span, as `out_context` walks them (main.c 1337-1348). -/
def abs_spans : Nat → List match_t → List match_t
  | _, [] => []
  | base, x :: xs => ⟨base + x.start, x.len⟩ :: abs_spans (base + x.start + x.len) xs

/-- The bytes `m[p .. p + fl)` equal the pattern `f[0 .. fl)`. -/
def occ_mem (m f : Nat → Nat) (fl p : Nat) : Prop := ∀ j, j < fl → m (p + j) = f j

/-- The value `r` is the first occurrence of the pattern in the addresses
`[s, eptr)`, or `none` when there is none. -/
def first_occ (m f : Nat → Nat) (fl s eptr : Nat) (r : Option Nat) : Prop :=
  match r with
  | some p => s ≤ p ∧ p < eptr ∧ occ_mem m f fl p ∧ ∀ q, s ≤ q → q < p → ¬ occ_mem m f fl q
  | none => ∀ q, s ≤ q → q < eptr → ¬ occ_mem m f fl q

/-- Spans with relative starts fit, one after the other, into `len` bytes and
are non-empty. -/
def spans_fit : Nat → List match_t → Prop
  | _, [] => True
  | len, x :: xs => 0 < x.len ∧ x.start + x.len ≤ len ∧ spans_fit (len - (x.start + x.len)) xs

/-- Absolute spans are ordered by increasing start, do not overlap and end
inside a line of `len` bytes. -/
def spans_ordered (len : Nat) (l : List match_t) : Prop :=
  l.Chain' (fun a b => a.start < b.start ∧ a.start + a.len ≤ b.start) ∧
    ∀ a ∈ l, a.start + a.len ≤ len

/-- The contract of `pcre_exec` with `PCRE_NOTEMPTY`: a reported match is not
empty and ends inside the subject. -/
def exec_ok (exec : List Nat → Option (Nat × Nat)) : Prop :=
  ∀ subject o0 o1, exec subject = some (o0, o1) → o0 < o1 ∧ o1 ≤ subject.length

/-- Two memories hold the same bytes up to ASCII case. -/
def case_eq (m1 m2 : Nat → Nat) : Prop := ∀ i, tolower (m1 i) = tolower (m2 i)

/-- A stand-in for a compiled one-byte regex: `exec_byte c` reports the first
byte equal to `c` of the subject as the match. -/
def exec_byte (c : Nat) : List Nat → Option (Nat × Nat) :=
  fun subject =>
    if subject.indexOf c < subject.length then some (subject.indexOf c, subject.indexOf c + 1)
    else none

/-! ## ContextEngine -/

/-- Which function `re->findall` points to. -/
inductive findall_t where
  | str_findall
  | str_casefindall
  | re_findall
  deriving DecidableEq, Repr

/-- The C struct `re_t`: the pattern text, its length, the strategy chosen by
`compile`, and the behaviour of the compiled regex (`re`, `pe`). -/
structure re_t where
  plen : Nat
  pattern : Nat → Nat
  findall : findall_t
  exec : List Nat → Option (Nat × Nat)

/-- The fields of the global `opt` that the scanning engine, the file
classification, the type registry, the output, the pattern set-up of `main`
and the directory walk read.  The lists `all_filetypes`, `exts` and
`ignore_dirs` are given head first; `match_pattern` is `none` for a `NULL`
pointer and `G` is `none` when `opt.G.re` is `NULL`. -/
structure opt_t where
  v : Bool
  passthru : Bool
  o : Bool
  m : Nat
  A : Nat
  B : Nat
  _break : Bool
  heading : Bool
  show_filename : Bool
  show_context : Bool
  match_ : re_t
  l : Bool := false
  c : Bool := false
  f : Bool := false
  a : Bool := false
  show_types : Bool := false
  show_total : Bool := false
  print_count0 : Bool := false
  all_filetypes : List filetype_t := []
  exts : List ext_t := []
  nfiletypes : Nat := 0
  types_type : Int := 0
  nexts : Int := 0
  req_filetypes : bitfiels_t := ⟨0, []⟩
  color : Bool := false
  column : Bool := false
  color_lineno : List Nat := []
  color_match : List Nat := []
  i : Bool := false
  smart_case : Bool := false
  Q : Bool := false
  w : Bool := false
  match_pattern : Option (List Nat) := none
  one : Bool := false
  u : Bool := false
  recursive : Bool := false
  follow : Bool := false
  sort_files : Bool := false
  invert_file_match : Nat := 0
  G : Option re_t := none
  ignore_dirs : List (List Nat) := []

/-- The fields of the global `vars` that the scanning engine and the file
classification use.  `history` is the array of `opt.B + 1` line buffers,
`matches_` the span array `vars.matches`.  The pointers `ft_text` ... are
the indices of the types they point to; the bit set `filetypes` points to is
shared with `file.filetypes`, where it is held while a file is processed. -/
structure vars_t where
  files_matched : Nat
  history : Nat → buf_t
  hused : Nat
  hprint : Nat
  nmatches : Nat
  matches_ : List match_t
  total_matches : Nat := 0
  size_processed : Nat := 0
  file_processed : Nat := 0
  filetypes : bitfiels_t := ⟨0, []⟩
  ft_text : Option Nat := none
  ft_skipped : Option Nat := none
  ft_make : Option Nat := none
  ft_ruby : Option Nat := none
  ft_binary : Option Nat := none
  file : file_t := { f := ⟨[], []⟩, nmatches := 0, line := 0, is_binary := false, buf := buf_t.empty }

/-- What `analize_file` writes to the standard output, one item per call. -/
inductive out_t where
  /-- The call `out_line(p)` of the pass-through mode. -/
  | line (bytes : List Nat)
  /-- The blank line `printf("\n")` between the blocks of two files. -/
  | blank
  /-- The notice `Binary file %s matches`. -/
  | binary
  /-- The file name heading. -/
  | heading
  /-- The group separator `--`. -/
  | separator
  /-- The call `out_context(name, str, line, column, is_match, matches,
  nmatches)`: `str` is the content of the buffer when the call is made. -/
  | context (line column : Nat) (is_match : Bool) (str : List Nat) (spans : List match_t)
  deriving DecidableEq, Repr

/-- The function `simple_match` (main.c 941-943) on the line `m[0 .. len)` with
a non-null span array. -/
def simple_match (re : re_t) (m : Nat → Nat) (len : Nat) (matches_len : Nat) :
    Option (List match_t) :=
  match re.findall with
  | findall_t.str_findall => str_findall re.pattern re.plen m 0 len matches_len
  | findall_t.str_casefindall => str_casefindall re.pattern re.plen m 0 len matches_len
  | findall_t.re_findall => some (re_findall re.exec m 0 len matches_len)

/-- The loop of `out_context` that drops trailing CR and LF bytes from
`str->used` (main.c 1325-1331). -/
def strip_used (buf : Nat → Nat) : Nat → Nat
  | 0 => 0
  | u + 1 => if buf u = 0x0d ∨ buf u = 0x0a then strip_used buf u else u + 1

/-- The buffer `str` after a call of `out_context` (main.c 1312-1333): outside
the only-matching mode the trailing line terminators are cut off. -/
def out_context_str (o : Bool) (str : buf_t) : buf_t :=
  if o then str else { str with used := strip_used str.buf str.used }

/-- The assignment `history[i] = b`. -/
def hist_set (h : Nat → buf_t) (i : Nat) (b : buf_t) : Nat → buf_t :=
  fun j => if j = i then b else h j

/-- The span array after `findall` wrote `ms` at its beginning. -/
def store_matches (old ms : List match_t) : List match_t :=
  ms ++ old.drop ms.length

/-- The `while(vars.hused)` loop of `analize_file` (main.c 1409-1414), from
`hptr` on: the context lines written and the history afterwards. -/
def flush_history (o : Bool) (line : Nat) : Nat → Nat → (Nat → buf_t) →
    List out_t × (Nat → buf_t)
  | 0, _, h => ([], h)
  | hused + 1, hptr, h =>
    let r := flush_history o line hused (hptr + 1)
      (hist_set h hptr { out_context_str o (h hptr) with used := 0 })
    (out_t.context (line - (hused + 1)) 0 false (h hptr).bytes [] :: r.1, r.2)

/-- The rotation of the full history (main.c 1431-1434): `ttt = history[0];
memmove(&history[0], &history[1], sizeof(buf_t) * hused); history[hused] = ttt`. -/
def rotate_history (h : Nat → buf_t) (hused : Nat) : Nat → buf_t :=
  fun j => if j < hused then h (j + 1) else if j = hused then h 0 else h j

/-- The end of `analize_file` (main.c 1446-1450), reached at end of input and
by `break`. -/
def analize_finish (vars : vars_t) (file : file_t) (p : Nat) (out : List out_t) :
    Nat × vars_t × file_t × List out_t :=
  (if file.nmatches ≠ 0 then 1 else 0,
   { vars with hused := 0, history := hist_set vars.history p { vars.history p with used := 0 } },
   file, out)

/-- The `while(get_line(p,file))` loop of `analize_file` (main.c 1369-1444)
followed by the end of the function; `p` is the index of the history buffer
that `p` points to.  The result is the value returned, the globals, the file
and the output. -/
def analize_loop (opt : opt_t) : Nat → vars_t → file_t → Nat → List out_t →
    Option (Nat × vars_t × file_t × List out_t)
  | 0, _, _, _, _ => none
  | fuel + 1, vars, file, p, out =>
    match get_line (vars.history p) file with
    | none => none
    | some (len, line1, file1) =>
      let vars1 : vars_t := { vars with history := hist_set vars.history p line1 }
      if len = 0 then some (analize_finish vars1 file1 p out)
      else
        -- file->line++;
        let file2 : file_t := { file1 with line := file1.line + 1 }
        if opt.passthru then
          analize_loop opt fuel
            { vars1 with history := hist_set vars1.history p { line1 with used := 0 } }
            file2 p (out ++ [out_t.line line1.bytes])
        else
          match simple_match opt.match_ line1.buf line1.used OFFSETS_SIZE with
          | none => none
          | some ms =>
            let vars2 : vars_t :=
              { vars1 with nmatches := ms.length, matches_ := store_matches vars1.matches_ ms }
            if opt.v ≠ (ms.length ≠ 0 : Bool) then
              if opt.show_context then
                if file2.is_binary then
                  some (1, vars2, file2,
                    out ++ (if vars2.files_matched ≠ 0 ∧ file2.nmatches = 0 then [out_t.blank] else [])
                      ++ [out_t.binary])
                else
                  let out1 := out
                    ++ (if opt.show_filename ∧ opt._break ∧ vars2.files_matched ≠ 0 ∧
                          file2.nmatches = 0 then [out_t.blank] else [])
                    ++ (if opt.heading ∧ opt.show_filename ∧ file2.nmatches = 0 then
                          [out_t.heading] else [])
                    ++ (if (opt.A ≠ 0 ∨ opt.B ≠ 0) ∧ (file2.nmatches ≠ 0 ∨ ¬ opt.heading) then
                          [out_t.separator] else [])
                  -- vars.hprint = opt.A; while(vars.hused) { ... }
                  let fl := flush_history opt.o file2.line vars2.hused 0 vars2.history
                  -- out_context(file->fullname, p, file->line, vars.matches->start+1, 1, ...)
                  let ev := out_t.context file2.line ((vars2.matches_.headD ⟨0, 0⟩).start + 1) true
                    (fl.2 p).bytes ms
                  let h3 := hist_set fl.2 p (out_context_str opt.o (fl.2 p))
                  -- p = &vars.history[vars.hused]; with vars.hused = 0
                  let vars3 : vars_t := { vars2 with hprint := opt.A, hused := 0, history := h3 }
                  let file3 : file_t := { file2 with nmatches := file2.nmatches + 1 }
                  let out3 := out1 ++ fl.1 ++ [ev]
                  if opt.m ≠ 0 ∧ opt.m = file3.nmatches then
                    some (analize_finish vars3 file3 0 out3)
                  else
                    analize_loop opt fuel
                      { vars3 with history := hist_set vars3.history 0 { vars3.history 0 with used := 0 } }
                      file3 0 out3
              else
                let file3 : file_t := { file2 with nmatches := file2.nmatches + 1 }
                if opt.m ≠ 0 ∧ opt.m = file3.nmatches then
                  some (analize_finish vars2 file3 p out)
                else
                  analize_loop opt fuel
                    { vars2 with history := hist_set vars2.history p { vars2.history p with used := 0 } }
                    file3 p out
            else
              if vars2.hprint ≠ 0 then
                -- out_context(file->fullname, p, file->line, 0, 0, 0, 0); vars.hprint--;
                let ev := out_t.context file2.line 0 false (vars2.history p).bytes []
                let h3 := hist_set vars2.history p (out_context_str opt.o (vars2.history p))
                analize_loop opt fuel
                  { vars2 with hprint := vars2.hprint - 1,
                               history := hist_set h3 p { h3 p with used := 0 } }
                  file2 p (out ++ [ev])
              else if opt.B ≠ 0 then
                let h3 := if vars2.hused ≥ opt.B then rotate_history vars2.history vars2.hused
                          else vars2.history
                let hused3 := if vars2.hused ≥ opt.B then vars2.hused else vars2.hused + 1
                -- p = &vars.history[vars.hused];
                analize_loop opt fuel
                  { vars2 with hused := hused3,
                               history := hist_set h3 hused3 { h3 hused3 with used := 0 } }
                  file2 hused3 out
              else
                analize_loop opt fuel
                  { vars2 with history := hist_set vars2.history p { vars2.history p with used := 0 } }
                  file2 p out

/-- The function `analize_file` (main.c 1359-1451).  Every iteration of the
loop that does not end it consumes at least one pending byte of the file. -/
def analize_file (opt : opt_t) (vars : vars_t) (file : file_t) :
    Option (Nat × vars_t × file_t × List out_t) :=
  -- vars.hprint = 0; vars.hused = 0; p = &vars.history[vars.hused]; p->used = 0;
  let vars1 : vars_t :=
    { vars with hprint := 0, hused := 0,
                history := hist_set vars.history 0 { vars.history 0 with used := 0 } }
  analize_loop opt (file.buf.used + file.f.data.length + 1) vars1 file 0 []

/-- The globals at program start: zeroed history and span array. -/
def vars_t.init : vars_t :=
  { files_matched := 0, history := fun _ => buf_t.empty, hused := 0, hprint := 0, nmatches := 0,
    matches_ := [] }

/-- A literal pattern compiled for `str_findall`. -/
def re_t.literal (pattern : List Nat) : re_t :=
  ⟨pattern.length, mem_of pattern, findall_t.str_findall, fun _ => none⟩

/-- Two memories hold the same bytes at the addresses `[lo, hi)`. -/
def agree (m1 m2 : Nat → Nat) (lo hi : Nat) : Prop := ∀ i, lo ≤ i → i < hi → m1 i = m2 i

/-! ## The context engine over the list of lines

The same state machine as `analize_loop`, reading the lines from a list
instead of the window and holding the buffered lines as a list.  It is the
reference against which `analize_loop` is proved (`analize_loop_refines`). -/

/-- The lines of a byte sequence, each with its terminator; at most `n` of
them. -/
def split_lines : Nat → List Nat → List (List Nat)
  | 0, _ => []
  | n + 1, l =>
    if l = [] then [] else first_line l :: split_lines n (l.drop (first_line l).length)

/-- The lines of a byte sequence. -/
def lines_of (l : List Nat) : List (List Nat) := split_lines l.length l

/-- The spans `simple_match` finds in the line `l` with the limit
`OFFSETS_SIZE`. -/
def line_spans (re : re_t) (l : List Nat) : Option (List match_t) :=
  simple_match re (mem_of l) l.length OFFSETS_SIZE

/-- The test `(opt.v != 0) != (0 != nmatches)` of `analize_file` for the line
`l`. -/
def is_matched (opt : opt_t) (l : List Nat) : Bool :=
  match line_spans opt.match_ l with
  | some ms => opt.v ≠ (ms.length ≠ 0 : Bool)
  | none => false

/-- The state of the scan of one file: the buffered before-context lines
(oldest first), `vars.hprint`, `file->nmatches`, `file->line`, the span array
and the output so far. -/
structure eng_t where
  ring : List (List Nat)
  hprint : Nat
  nmatches : Nat
  line : Nat
  matches_ : List match_t
  out : List out_t

/-- The buffered lines `history[0 .. n)`. -/
def ring_of (h : Nat → buf_t) (n : Nat) : List (List Nat) :=
  (List.range n).map (fun i => (h i).bytes)

/-- The state of `analize_loop` seen through the lines. -/
def eng_t.of (vars : vars_t) (file : file_t) (out : List out_t) : eng_t :=
  ⟨ring_of vars.history vars.hused, vars.hprint, file.nmatches, file.line, vars.matches_, out⟩

/-- The context lines written when the buffered lines are flushed before the
match on line `line`. -/
def flush_ring (line : Nat) : List (List Nat) → List out_t
  | [] => []
  | l :: rest => out_t.context (line - (rest.length + 1)) 0 false l [] :: flush_ring line rest

/-- The scan of the lines `ls` from the state `st`, for a file whose
`is_binary` flag is `bin` when `vars.files_matched` is `fm`: the value
returned, the final state and the lines that were not read. -/
def eng_run (opt : opt_t) (fm : Nat) (bin : Bool) :
    List (List Nat) → eng_t → Option (Nat × eng_t × List (List Nat))
  | [], st => some (if st.nmatches ≠ 0 then 1 else 0, { st with ring := [] }, [])
  | l :: ls, st =>
    let st1 : eng_t := { st with line := st.line + 1 }
    if opt.passthru then
      eng_run opt fm bin ls { st1 with out := st1.out ++ [out_t.line l] }
    else
      match line_spans opt.match_ l with
      | none => none
      | some ms =>
        let st2 : eng_t := { st1 with matches_ := store_matches st1.matches_ ms }
        if opt.v ≠ (ms.length ≠ 0 : Bool) then
          if opt.show_context then
            if bin then
              some (1, { st2 with out := st2.out
                ++ (if fm ≠ 0 ∧ st2.nmatches = 0 then [out_t.blank] else [])
                ++ [out_t.binary] }, ls)
            else
              let out1 := st2.out
                ++ (if opt.show_filename ∧ opt._break ∧ fm ≠ 0 ∧ st2.nmatches = 0 then
                      [out_t.blank] else [])
                ++ (if opt.heading ∧ opt.show_filename ∧ st2.nmatches = 0 then
                      [out_t.heading] else [])
                ++ (if (opt.A ≠ 0 ∨ opt.B ≠ 0) ∧ (st2.nmatches ≠ 0 ∨ ¬ opt.heading) then
                      [out_t.separator] else [])
              let ev := out_t.context st2.line ((st2.matches_.headD ⟨0, 0⟩).start + 1) true l ms
              let st3 : eng_t :=
                { st2 with ring := [], hprint := opt.A, nmatches := st2.nmatches + 1,
                           out := out1 ++ flush_ring st2.line st2.ring ++ [ev] }
              if opt.m ≠ 0 ∧ opt.m = st3.nmatches then
                some (if st3.nmatches ≠ 0 then 1 else 0, st3, ls)
              else eng_run opt fm bin ls st3
          else
            let st3 : eng_t := { st2 with nmatches := st2.nmatches + 1 }
            if opt.m ≠ 0 ∧ opt.m = st3.nmatches then
              some (if st3.nmatches ≠ 0 then 1 else 0, { st3 with ring := [] }, ls)
            else eng_run opt fm bin ls st3
        else
          if st2.hprint ≠ 0 then
            eng_run opt fm bin ls
              { st2 with hprint := st2.hprint - 1,
                         out := st2.out ++ [out_t.context st2.line 0 false l []] }
          else if opt.B ≠ 0 then
            eng_run opt fm bin ls
              { st2 with ring := if st2.ring.length ≥ opt.B then (st2.ring ++ [l]).tail
                                 else st2.ring ++ [l] }
          else eng_run opt fm bin ls st2

/-- The state in which `analize_file` enters its loop, seen through the lines. -/
def eng_t.start (vars : vars_t) (file : file_t) : eng_t :=
  ⟨[], 0, file.nmatches, file.line, vars.matches_, []⟩

/-- The calls of `out_context` in an output: line number, `is_match` flag and
line content of each, in order. -/
def ctx_lines (out : List out_t) : List (Nat × Bool × List Nat) :=
  out.filterMap (fun e =>
    match e with
    | out_t.context n _ im s _ => some (n, im, s)
    | _ => none)

/-- The items written before the context lines of a match: blank line,
heading, separator (main.c 1385-1405). -/
def match_header (opt : opt_t) (fm nmatches : Nat) : List out_t :=
  (if opt.show_filename ∧ opt._break ∧ fm ≠ 0 ∧ nmatches = 0 then [out_t.blank] else [])
    ++ (if opt.heading ∧ opt.show_filename ∧ nmatches = 0 then [out_t.heading] else [])
    ++ (if (opt.A ≠ 0 ∨ opt.B ≠ 0) ∧ (nmatches ≠ 0 ∨ ¬ opt.heading) then [out_t.separator]
        else [])

/-- The default options of a scan: no inversion, no context, no limit, file
names and context display on, heading and break off. -/
def opt_t.plain (re : re_t) : opt_t :=
  { v := false, passthru := false, o := false, m := 0, A := 0, B := 0, _break := false,
    heading := false, show_filename := true, show_context := true, match_ := re }

/-- The output of a run of `analize_file`. -/
def out_of (r : Option (Nat × vars_t × file_t × List out_t)) : Option (List out_t) :=
  r.map (fun x => x.2.2.2)

/-- The match count `file->nmatches` after a run of `analize_file`. -/
def nmatches_of (r : Option (Nat × vars_t × file_t × List out_t)) : Option Nat :=
  r.map (fun x => x.2.2.1.nmatches)

/-- The bytes of the file not yet returned by `get_line` after a run of
`analize_file`. -/
def pending_of (r : Option (Nat × vars_t × file_t × List out_t)) : Option (List Nat) :=
  r.map (fun x => x.2.2.1.pending)

/-- Line number `n` (the first line read has number `k + 1`) is a matched line
of `ls`. -/
def matched_at (opt : opt_t) (k : Nat) (ls : List (List Nat)) (n : Nat) : Prop :=
  k < n ∧ ∃ l, ls[n - k - 1]? = some l ∧ is_matched opt l = true

/-- Line number `n` of `ls` is to be shown: it is a matched line, or lies within
`opt.A` lines after a matched line, or within `opt.B` lines before one. -/
def emit_at (opt : opt_t) (k : Nat) (ls : List (List Nat)) (n : Nat) : Prop :=
  k < n ∧ n ≤ k + ls.length ∧
    (matched_at opt k ls n ∨ (∃ m, matched_at opt k ls m ∧ m < n ∧ n ≤ m + opt.A) ∨
      (∃ m, matched_at opt k ls m ∧ n < m ∧ m ≤ n + opt.B))

/-- The invariant of the scan in context display mode after the lines `pre`
(numbered from `k + 1`) have been read. -/
structure ctx_inv (opt : opt_t) (k : Nat) (pre : List (List Nat)) (st : eng_t) : Prop where
  line_eq : st.line = k + pre.length
  ring_le : st.ring.length ≤ pre.length
  ring_eq : st.ring = pre.drop (pre.length - st.ring.length)
  ring_cap : st.ring.length ≤ opt.B
  ring_un : ∀ l ∈ st.ring, is_matched opt l = false
  sorted : ((ctx_lines st.out).map (fun e => e.1)).Pairwise (fun a b => a < b)
  sound : ∀ e ∈ ctx_lines st.out, k < e.1 ∧ e.1 + st.ring.length ≤ k + pre.length ∧
    pre[e.1 - k - 1]? = some e.2.2 ∧ e.2.1 = is_matched opt e.2.2 ∧ emit_at opt k pre e.1
  complete : ∀ n, emit_at opt k pre n → ∃ e ∈ ctx_lines st.out, e.1 = n
  window : ∀ n, k < n → n + st.ring.length ≤ k + pre.length →
    k + pre.length + 1 ≤ n + opt.B → ∃ e ∈ ctx_lines st.out, e.1 = n
  after_on : st.hprint ≠ 0 → st.ring = [] ∧ ∃ m, matched_at opt k pre m ∧
    m + opt.A = k + pre.length + st.hprint ∧ ∀ m2, matched_at opt k pre m2 → m2 ≤ m
  after_off : st.hprint = 0 → ∀ m, matched_at opt k pre m → m + opt.A ≤ k + pre.length

/-- The options of the scenario with pattern `abc`. -/
def opt_abc : opt_t := opt_t.plain (re_t.literal [97, 98, 99])

/-- The file of the scenario with the lines `abc`, `abcd`, `xx`. -/
def file_abc : file_t := file_t.opened [97, 98, 99, 10, 97, 98, 99, 100, 10, 120, 120, 10] []

/-- The options `-B 2 -A 1` with the pattern `m`. -/
def opt_m : opt_t := { opt_t.plain (re_t.literal [109]) with A := 1, B := 2 }

/-- A file with the lines `1`, `2`, `3`, `m`, `5`, `6`, `m`. -/
def file_m : file_t :=
  file_t.opened [49, 10, 50, 10, 51, 10, 109, 10, 53, 10, 54, 10, 109, 10] []

/-! ## Bit sets -/

/-- The bytes of a string literal of the source. -/
def cstr (s : String) : List Nat := s.toList.map Char.toNat

/-- The function `bf_reset` (main.c 718-720): `memset(b->bits, 0, b->size)`. -/
def bf_reset (b : bitfiels_t) : bitfiels_t :=
  { b with bits := List.replicate b.size 0 }

/-- The function `bf_new` (main.c 722-736); `malloc` is assumed to succeed. -/
def bf_new (size : Nat) : bitfiels_t :=
  bf_reset ⟨(size + 7) / 8, List.replicate ((size + 7) / 8) 0⟩

/-- The function `bf_set` (main.c 738-748): `b->bits[i/8] |= (1 << i%8)`.  The
assertion `idx < b->size` is not modelled: outside the array nothing is
written. -/
def bf_set (b : bitfiels_t) (i : Nat) : bitfiels_t :=
  { b with bits := b.bits.set (i / 8) (b.bits.getD (i / 8) 0 ||| (1 <<< (i % 8))) }

/-- The function `bf_isset` (main.c 763-774): `(b->bits[i/8] & (1 << i%8)) != 0`. -/
def bf_isset (b : bitfiels_t) (i : Nat) : Bool :=
  (b.bits.getD (i / 8) 0 &&& (1 <<< (i % 8))) ≠ 0

/-- The loop of `bf_fast_intersect` from index `i` on, `n` bytes left. -/
def bf_fast_intersect_loop (f s : bitfiels_t) : Nat → Nat → Nat
  | _, 0 => 0
  | i, n + 1 =>
    if (f.bits.getD i 0 &&& s.bits.getD i 0) ≠ 0 then 1
    else bf_fast_intersect_loop f s (i + 1) n

/-- The function `bf_fast_intersect` (main.c 750-760). -/
def bf_fast_intersect (f s : bitfiels_t) : Nat :=
  bf_fast_intersect_loop f s 0 f.size

/-- A bit set as `bf_new` builds it and the program keeps it: `size` bytes,
each below 256. -/
def bitfiels_t.wf (b : bitfiels_t) : Prop :=
  b.bits.length = b.size ∧ ∀ x ∈ b.bits, x < 256

instance (b : bitfiels_t) : Decidable b.wf := by
  unfold bitfiels_t.wf; infer_instance

/-! ## C strings and file names -/

/-- The libc function `strlen` on a C string held in a list: the number of
bytes before the first NUL. -/
def strlen (s : List Nat) : Nat := (s.takeWhile (fun c => c ≠ 0)).length

/-- The libc function `strdup`: the bytes before the first NUL. -/
def strdup (s : List Nat) : List Nat := s.takeWhile (fun c => c ≠ 0)

/-- The libc function `strcmp`; the end of a list is the terminating NUL. -/
def strcmp : List Nat → List Nat → Int
  | [], [] => 0
  | [], y :: _ => - (y : Int)
  | x :: _, [] => (x : Int)
  | x :: xs, y :: ys =>
    if x ≠ y then (x : Int) - (y : Int) else if x = 0 then 0 else strcmp xs ys

/-- The libc function `strcasecmp` (the macro `FILENAMECMP`) in the C locale;
the end of a list is the terminating NUL. -/
def strcasecmp : List Nat → List Nat → Int
  | [], [] => 0
  | [], y :: _ => - (tolower y : Int)
  | x :: _, [] => (tolower x : Int)
  | x :: xs, y :: ys =>
    if tolower x ≠ tolower y then (tolower x : Int) - (tolower y : Int)
    else if tolower x = 0 then 0 else strcasecmp xs ys

/-- The function `_starts_with` (main.c 1539-1543). -/
def _starts_with (name : List Nat) (nsize : Nat) (start : List Nat) (ssize : Nat) : Bool :=
  if nsize < ssize ∨ mem_of name 0 ≠ mem_of start 0 then false
  else strncasecmp (mem_of name) 0 (mem_of start) 0 ssize = 0

/-- The function `_ends_with` (main.c 1545-1551). -/
def _ends_with (name : List Nat) (nsize : Nat) (ext : List Nat) (esize : Nat) : Bool :=
  if nsize < esize then false
  else strncasecmp (mem_of name) (nsize - esize) (mem_of ext) 0 esize = 0

/-- The function `is_searchable` (main.c 1553-1563). -/
def is_searchable (file : file_t) : Bool :=
  let len := file.namelen
  !(_ends_with file.name len (cstr ".bak") 4 ||
    _ends_with file.name len (cstr "~") 1 ||
    ((_starts_with file.name len (cstr ".") 1 || _starts_with file.name len (cstr "_") 1) &&
      _ends_with file.name len (cstr ".swp") 4) ||
    _ends_with file.name len (cstr ".tmp") 4 ||
    (_starts_with file.name len (cstr "#") 1 && _ends_with file.name len (cstr "#") 1) ||
    false)

/-- The function `find_filetype` (main.c 1719-1729): the first registered type
with that name, `none` for `NULL`. -/
def find_filetype (opt : opt_t) (filetype : List Nat) : Option filetype_t :=
  opt.all_filetypes.find? (fun ft => ft.namelen = strlen filetype ∧ strcmp ft.name filetype = 0)

/-! ## Content sniff -/

/-- The table `interprets` (main.c 585). -/
def interprets : List (List Nat) :=
  [cstr "ruby", cstr "perl", cstr "php", cstr "python", cstr "lua", cstr "awk"]

/-- The table `shells` (main.c 584). -/
def shells : List (List Nat) :=
  [cstr "bash", cstr "tcsh", cstr "ksh", cstr "zsh", cstr "ash", cstr "sh", cstr ",fish"]

/-- The function `_strnstr1` (main.c 1180-1220): `strnstr(s, sl, f, strlen(f))`. -/
def _strnstr1 (m : Nat → Nat) (s : Nat) (f : List Nat) (sl : Nat) : Option (Option Nat) :=
  _strnstr3 m s sl (mem_of f) (strlen f)

/-- One `for` loop of `analyse_header` over a table of names: the first name of
the table found in `m[0 .. len)`. -/
def analyse_header_loop (m : Nat → Nat) (len : Nat) : List (List Nat) → Option (Option (List Nat))
  | [] => some none
  | t :: ts =>
    match _strnstr1 m 0 t len with
    | none => none
    | some (some _) => some (some t)
    | some none => analyse_header_loop m len ts

/-- The function `analyse_header` (main.c 1222-1243) on a non-null `str`. -/
def analyse_header (m : Nat → Nat) (len : Nat) : Option (Option (List Nat)) :=
  match analyse_header_loop m len interprets with
  | none => none
  | some (some t) => some (some t)
  | some none =>
    match analyse_header_loop m len shells with
    | none => none
    | some (some _) => some (some (cstr "shell"))
    | some none => some none

/-- The function `analyse_internals` (main.c 1246-1285): the type name returned,
the globals and the file afterwards. -/
def analyse_internals (vars : vars_t) (file : file_t) : Option (List Nat × vars_t × file_t) :=
  -- size = read_file(&file->buf, file->f, 1024);
  let r := read_file file.buf file.f 1024
  let size := r.1
  let file1 : file_t := { file with buf := r.2.1, f := r.2.2 }
  if 0 < size then
    let vars1 : vars_t := { vars with size_processed := vars.size_processed + size.toNat }
    if 6 < size ∧ strncasecmp file1.buf.buf 0 (mem_of (cstr "<?xml ")) 0 6 = 0 then
      some (cstr "xml", vars1, file1)
    else if file1.buf.buf 0 = 35 ∧ file1.buf.buf 1 = 33 then
      -- ptr = _strnchr(file->buf.buf, size, 0x0a);
      match memchr file1.buf.buf 0 0x0a size.toNat with
      | some ptr =>
        match analyse_header file1.buf.buf ptr with
        | none => none
        | some (some t) => some (t, vars1, file1)
        | some none => some (cstr "text", vars1, file1)
      | none => some (cstr "text", vars1, file1)
    else
      match memchr file1.buf.buf 0 0x00 size.toNat with
      | none => some (cstr "text", vars1, file1)
      | some _ => some (cstr "binary", vars1, { file1 with is_binary := true })
  else
    some (cstr "text", vars, file1)

/-! ## File classification -/

/-- The loop over `opt.exts` in `get_filetypes` (main.c 1498-1503): the bit set
and the counter `res` afterwards. -/
def get_filetypes_exts (name : List Nat) (len : Nat) : List ext_t → bitfiels_t → Nat →
    bitfiels_t × Nat
  | [], b, res => (b, res)
  | ext :: rest, b, res =>
    if _ends_with name len ext.ext ext.len then
      get_filetypes_exts name len rest (bf_set b ext.type) (res + 1)
    else get_filetypes_exts name len rest b res

/-- The function `get_filetypes` (main.c 1454-1510): the globals and the file
afterwards; `none` when a `NULL` pointer is dereferenced or a search runs out
of fuel. -/
def get_filetypes (opt : opt_t) (vars : vars_t) (file : file_t) : Option (vars_t × file_t) :=
  if file.type_processed then some (vars, file)
  else
    let file1 : file_t := { file with type_processed := true }
    if ¬ is_searchable file1 then
      -- bf_set(file->filetypes, vars.ft_skipped->i);
      match vars.ft_skipped with
      | none => none
      | some sk => some (vars, { file1 with filetypes := bf_set file1.filetypes sk })
    else
      match analyse_internals vars file1 with
      | none => none
      | some (type, vars2, file2) =>
        -- ft = find_filetype(type); if (ft) { res++; bf_set(...); }
        let r1 : bitfiels_t × Nat :=
          match find_filetype opt type with
          | some ft => (bf_set file2.filetypes ft.i, 1)
          | none => (file2.filetypes, 0)
        let r2 : Option (bitfiels_t × Nat) :=
          if strcasecmp (cstr "makefile") file2.name = 0 ∨
              strcasecmp (cstr "gnumakefile") file2.name = 0 then
            match vars2.ft_make with
            | none => none
            | some mk => some (bf_set r1.1 mk, r1.2 + 1)
          else if strcasecmp (cstr "rakefile") file2.name = 0 then
            match find_filetype opt (cstr "rake"), vars2.ft_ruby with
            | some ft, some rb => some (bf_set (bf_set r1.1 ft.i) rb, r1.2 + 1)
            | _, _ => none
          else some r1
        match r2 with
        | none => none
        | some r2 =>
          let r3 := get_filetypes_exts file2.name file2.namelen opt.exts r2.1 r2.2
          if r3.2 ≠ 0 ∧ ¬ file2.is_binary then
            match vars2.ft_text with
            | none => none
            | some tx => some (vars2, { file2 with filetypes := bf_set r3.1 tx })
          else some (vars2, { file2 with filetypes := r3.1 })

/-- The function `is_interesting` (main.c 1533-1536). -/
def is_interesting (opt : opt_t) (vars : vars_t) (file : file_t) : Option (Nat × vars_t × file_t) :=
  match get_filetypes opt vars file with
  | none => none
  | some (vars1, file1) => some (bf_fast_intersect file1.filetypes opt.req_filetypes, vars1, file1)

/-! ## Type registry -/

/-- Modelled from the spec: the header `queue.h` is not among the sources.  The
registry is the intrusive linked list of the spec, held as a list, and a
pointer to a node is the position of the node, `none` being `NULL`.  This is
`LIST_FIRST(head)`. -/
def LIST_FIRST (l : List ext_t) : Option Nat :=
  if l = [] then none else some 0

/-- Modelled from the spec: the header `queue.h` is not among the sources.
This is `LIST_NEXT(elm, field)` of the node at position `k`. -/
def LIST_NEXT (l : List ext_t) (k : Nat) : Option Nat :=
  if k + 1 < l.length then some (k + 1) else none

/-- The `LIST_FOREACH(ext, &opt.exts, next)` loop of `add_exts` that deletes
the associations of the type `ft` (main.c 1759-1773), read as `for (ext =
LIST_FIRST(head); ext; ext = LIST_NEXT(ext, next))`: the list and `opt.nexts`
afterwards.  The list shrinks or `ext` advances in every iteration; `none`
when `LIST_NEXT` is applied to `NULL` or the fuel runs out. -/
def add_exts_del (ft : Nat) : Nat → List ext_t → Int → Option Nat → Option Nat →
    Option (List ext_t × Int)
  | 0, _, _, _, _ => none
  | fuel + 1, exts, nexts, ext, prev =>
    match ext with
    | none => some (exts, nexts)
    | some k =>
      match exts[k]? with
      | none => none
      | some e =>
        if ft = e.type then
          -- LIST_REMOVE(ext, next); opt.nexts--;
          let exts1 := exts.eraseIdx k
          -- if (prev) ext = prev; else ext = LIST_FIRST(&opt.exts);
          let ext1 : Option Nat := match prev with
            | some j => some j
            | none => LIST_FIRST exts1
          match ext1 with
          | none => none
          | some k1 => add_exts_del ft fuel exts1 (nexts - 1) (LIST_NEXT exts1 k1) prev
        else
          -- prev = ext;
          add_exts_del ft fuel exts nexts (LIST_NEXT exts k) (some k)

/-- The `while(1)` loop of `add_exts` that splits the list at commas and
inserts one association per element at the head of `opt.exts` (main.c
1780-1801); `cur` holds the bytes between `s` and `ptr`. -/
def add_exts_split (ft : Nat) : List Nat → List Nat → List ext_t → Int → List ext_t × Int
  | [], cur, exts, nexts => (⟨cur, cur.length, ft⟩ :: exts, nexts + 1)
  | c :: cs, cur, exts, nexts =>
    if c = 44 then add_exts_split ft cs [] (⟨cur, cur.length, ft⟩ :: exts) (nexts + 1)
    else if c = 0 then (⟨cur, cur.length, ft⟩ :: exts, nexts + 1)
    else add_exts_split ft cs (cur ++ [c]) exts nexts

/-- The function `add_exts` (main.c 1732-1805), which always returns 1: the
options afterwards.  `malloc` and `strdup` are assumed to succeed. -/
def add_exts (opt : opt_t) (filetype exts : List Nat) (del_old : Bool) : Option opt_t :=
  -- ft = find_filetype(filetype); if (!ft) { ... }
  let r : opt_t × Nat :=
    match find_filetype opt filetype with
    | some ft => (opt, ft.i)
    | none =>
      ({ opt with
          all_filetypes := ⟨strdup filetype, strlen filetype, opt.nfiletypes, 0⟩ :: opt.all_filetypes,
          nfiletypes := opt.nfiletypes + 1 }, opt.nfiletypes)
  let d : Option (List ext_t × Int) :=
    if del_old then
      add_exts_del r.2 (r.1.exts.length + 1) r.1.exts r.1.nexts (LIST_FIRST r.1.exts) none
    else some (r.1.exts, r.1.nexts)
  match d with
  | none => none
  | some (exts1, nexts1) =>
    let s := add_exts_split r.2 exts [] exts1 nexts1
    some { r.1 with exts := s.1, nexts := s.2 }

/-- The libc function `strncmp(&a[p], &b[q], n)`. -/
def strncmp (a : Nat → Nat) (p : Nat) (b : Nat → Nat) (q : Nat) : Nat → Int
  | 0 => 0
  | n + 1 =>
    if a p ≠ b q then (a p : Int) - (b q : Int)
    else if a p = 0 then 0
    else strncmp a (p + 1) b (q + 1) n

/-- The assignment `ft->wanted = w` through a pointer to the type of index
`i`. -/
def set_wanted (l : List filetype_t) (i : Nat) (w : Int) : List filetype_t :=
  l.map (fun t => if t.i = i then { t with wanted := w } else t)

/-- The function `_type_wanted` (main.c 2340-2370): the value returned and the
options afterwards. -/
def _type_wanted (opt : opt_t) (str : List Nat) : Int × opt_t :=
  -- ft = find_filetype(str); if (!ft && 0==strncmp(str,"no",2)) { tmp = str+2; ... }
  let r : Option filetype_t × Bool :=
    match find_filetype opt str with
    | some ft => (some ft, false)
    | none =>
      if strncmp (mem_of str) 0 (mem_of (cstr "no")) 0 2 = 0 then
        (find_filetype opt (str.drop 2), true)
      else (none, false)
  match r.1 with
  | some ft =>
    if r.2 then
      ((strlen str : Int),
       { opt with all_filetypes := set_wanted opt.all_filetypes ft.i (-1),
                  types_type := if opt.types_type = 0 then -1 else opt.types_type })
    else
      ((strlen str : Int),
       { opt with all_filetypes := set_wanted opt.all_filetypes ft.i 1, types_type := 1 })
  | none => (-1, opt)

/-- The test of `init_req_filetypes` (main.c 2906-2908) for one type. -/
def req_wanted (opt : opt_t) (vars : vars_t) (ft : filetype_t) : Bool :=
  ft.wanted = 1 ∨ opt.a = true ∨
    (opt.types_type ≤ 0 ∧ ft.wanted ≠ -1 ∧
      (some ft.i ≠ vars.ft_skipped ∧ some ft.i ≠ vars.ft_binary ∧ some ft.i ≠ vars.ft_text))

/-- The function `init_req_filetypes` (main.c 2901-2912). -/
def init_req_filetypes (opt : opt_t) (vars : vars_t) : opt_t :=
  -- opt.req_filetypes = bf_new(opt.nfiletypes); LIST_FOREACH(ft, &opt.all_filetypes, next) ...
  let req := opt.all_filetypes.foldl
    (fun b ft => if req_wanted opt vars ft then bf_set b ft.i else b) (bf_new opt.nfiletypes)
  { opt with req_filetypes := req }

/-- The table `file_types` (main.c 431-567): type names with their extension
lists. -/
def file_types : List (String × String) :=
  [("ada", ".ada,.adb,.ads"), ("actionscript", ".as,.mxml"), ("apl", ".apl"),
   ("asciidoc", ".adoc,.ad,.asc,.asciidoc"), ("asm", ".asm,.S"), ("awk", ".awk"),
   ("batch", ".bat,.cmd"), ("bitbake", ".bb,.bbappend,.bbclass,.inc"),
   ("binary", "Binary files (default: off)"), ("bro", ".bro,.bif"), ("cc", ".c,.h,.xs"),
   ("cfmx", ".cfc,.cfm,.cfml"), ("chpl", ".chpl"), ("clojure", ".clj,.cljs,.cljc,.cljx"),
   ("coffee", ".coffee,.cjsx"), ("config", ".cfg,.conf"), ("coq", ".coq,.g,.v"),
   ("cpp", ".cpp,.cc,.cxx,.m,.hpp,.hh,.h,.hxx,.C,.H"), ("crystal", ".cr,.ecr"),
   ("csharp", ".cs"), ("css", ".css"), ("ctx", ".ctx"), ("cython", ".pyx,.pxd,.pxi"),
   ("delphi", ".pas,.int,.dfm,.nfm,.dof,.dpk,.dproj,.groupproj,.bdsgroup,.bdsproj"),
   ("dlang", ".d,.di"), ("dot", ".dot,.gv"), ("dts", ".dts,.dtsi"),
   ("ebuild", ".ebuild,.eclass"), ("elisp", ".el"), ("elixir", ".ex,.eex,.exs"), ("elm", ".elm"),
   ("erlang", ".erl,.hrl"), ("factor", ".factor"),
   ("fortran", ".f,.f77,.f90,.f95,.f03,.for,.ftn,.fpp"), ("fsharp", ".fs,.fsi,.fsx"),
   ("gettext", ".po,.pot,.mo"), ("glsl", ".vert,.tesc,.tese,.geom,.frag,.comp"), ("go", ".go"),
   ("groovy", ".groovy,.gtmpl,.gpp,.grunit,.gradle"), ("haml", ".haml"), ("handlebars", ".hbs"),
   ("haskell", ".hs,.lhs,.hsig"), ("haxe", ".hx"), ("hh", ".h"),
   ("html", ".htm,.html,.shtml,.xhtml"), ("idris", ".idr,.ipkg,.lidr"), ("ini", ".ini"),
   ("ipython", ".ipynb"), ("isabelle", ".thy"), ("j", ".ijs"), ("jade", ".jade"),
   ("java", ".java,.properties"), ("jinja2", ".j2"),
   ("js", ".js,.min.js,-min.js,.es6,.jsx,.vue"), ("json", ".json"),
   ("jsp", ".jsp,.jspx,.jhtm,.jhtml,.jspf,.tag,.tagf"), ("julia", ".jl"), ("kotlin", ".kt"),
   ("less", ".less"), ("liquid", ".liquid"), ("lisp", ".lisp,.lsp"), ("log", ".log"),
   ("lua", ".lua"), ("make", ".mk,.mak,Makefile"), ("mako", ".mako"),
   ("markdown", ".markdown,.mdown,.mdwn,.mkdn,.mkd,.md"), ("mason", ".mas,.mhtml,.mpl,.mtxt"),
   ("matlab", ".m"), ("mathematica", ".m,.wl"), ("mercury", ".m,.moo"), ("naccess", ".asa,.rsa"),
   ("nim", ".nim"), ("nix", ".nix"), ("objc", ".m,.h"), ("objcpp", ".mm,.h"),
   ("ocaml", ".ml,.mli,.mll,.mly"), ("octave", ".m"), ("org", ".org"),
   ("parrot", ".pir,.pasm,.pmc,.ops,.pod,.pg,.tg"), ("pdb", ".pdb"),
   ("perl", ".pl,.pm,.pod,.t,.pm6"), ("php", ".php,.phpt,.php3,.php4,.php5,.phtml"),
   ("pike", ".pike,.pmod"), ("plist", ".plist"), ("plone", ".pt,.cpt,.metadata,.cpy,.py"),
   ("proto", ".proto"), ("pug", ".pug"), ("puppet", ".pp"), ("python", ".py"), ("qml", ".qml"),
   ("racket", ".rkt,.ss,.scm"), ("rake", "Rakefiles"), ("restructuredtext", ".rst"),
   ("rs", ".rs"), ("r", ".r,.R,.Rmd,.Rnw,.Rtex,.Rrst"), ("rdoc", ".rdoc"),
   ("ruby", ".rb,.rhtml,.rjs,.rxml,.erb,.rake,.spec,.haml"), ("rust", ".rs"), ("salt", ".sls"),
   ("sass", ".sass,.scss"), ("scala", ".scala"), ("scheme", ".scm,.ss"),
   ("shell", ".sh,.bash,.csh,.tcsh,.ksh,.zsh,.fish"),
   ("skipped", "Files, but not directories, normally skipped (default: off)"),
   ("smalltalk", ".st"), ("sml", ".sml,.fun,.mlb,.sig"), ("sql", ".sql,.ctl"),
   ("stata", ".do,.ado"), ("stylus", ".styl"), ("swift", ".swift"), ("tcl", ".tcl,.itcl,.itk"),
   ("terraform", ".tf,.tfvars"), ("tex", ".tex,.cls,.sty"), ("thrift", ".thrift"),
   ("text", "Text files (default: off)"), ("tla", ".tla"), ("tt", ".tt,.tt2,.ttml"),
   ("toml", ".toml"), ("ts", ".ts,.tsx"), ("twig", ".twig"), ("vala", ".vala,.vapi"),
   ("vb", ".bas,.cls,.frm,.ctl,.vb,.resx,.vbs"), ("velocity", ".vm,.vtl,.vsl"),
   ("verilog", ".v,.vh,.sv"), ("vhdl", ".vhd,.vhdl"), ("vim", ".vim"), ("wix", ".wxi,.wxs"),
   ("wsdl", ".wsdl"), ("wadl", ".wadl"), ("xml", ".xml,.dtd,.xsl,.xslt,.ent,.tld,.plist"),
   ("yaml", ".yaml,.yml")]

/-- The `for` loop of `init_exts` (main.c 2890-2892) over a table. -/
def init_exts_loop : List (String × String) → opt_t → Option opt_t
  | [], opt => some opt
  | t :: ts, opt =>
    match add_exts opt (cstr t.1) (cstr t.2) false with
    | none => none
    | some opt1 => init_exts_loop ts opt1

/-- The function `init_exts` (main.c 2888-2899). -/
def init_exts (opt : opt_t) (vars : vars_t) : Option (opt_t × vars_t) :=
  match init_exts_loop file_types opt with
  | none => none
  | some opt1 =>
    some (opt1,
      { vars with
        ft_text := (find_filetype opt1 (cstr "text")).map (fun ft => ft.i),
        ft_skipped := (find_filetype opt1 (cstr "skipped")).map (fun ft => ft.i),
        ft_make := (find_filetype opt1 (cstr "make")).map (fun ft => ft.i),
        ft_ruby := (find_filetype opt1 (cstr "ruby")).map (fun ft => ft.i),
        ft_binary := (find_filetype opt1 (cstr "binary")).map (fun ft => ft.i) })

/-! ## Processing a file -/

/-- What `process_file` writes, one item per call. -/
inductive pout_t where
  /-- An item written by `analize_file`. -/
  | scan (o : out_t)
  /-- The file name printed in the mode `-f`, with the names of its types under
  `--show-types`. -/
  | found (fullname : List Nat) (types : Option (List (List Nat)))
  /-- The call `print_count(filename, nmatches, le, count, show_filename)`. -/
  | count (filename : List Nat) (nmatches : Nat) (count show_filename : Bool)
  /-- The message `Failed to open`. -/
  | open_failed (fullname : List Nat)
  /-- The message `Can't stat` of `process`. -/
  | cant_stat (filename : List Nat)
  /-- The message `Failed to open directory` of `process`. -/
  | opendir_failed (filename : List Nat)
  deriving DecidableEq, Repr

/-- The test `(opt.a && is_searchable(&vars.file)) || ((!opt.a) &&
is_interesting(&vars.file))` of `process_file` (main.c 1601-1604). -/
def process_file_select (opt : opt_t) (vars : vars_t) (file : file_t) :
    Option (Bool × vars_t × file_t) :=
  if opt.a then some (is_searchable file, vars, file)
  else
    match is_interesting opt vars file with
    | none => none
    | some (r, vars1, file1) => some (r ≠ 0, vars1, file1)

/-- The body of `process_file` for a file that was opened and selected (main.c
1606-1637). -/
def process_file_body (opt : opt_t) (vars : vars_t) (file : file_t) :
    Option (vars_t × file_t × List pout_t) :=
  if opt.f then
    -- vars.file.nmatches++; printf("%s", vars.file.fullname);
    let file1 : file_t := { file with nmatches := file.nmatches + 1 }
    if opt.show_types then
      match get_filetypes opt vars file1 with
      | none => none
      | some (vars2, file2) =>
        some (vars2, file2, [pout_t.found file2.fullname
          (some ((opt.all_filetypes.filter (fun ft => bf_isset file2.filetypes ft.i)).map
            (fun ft => ft.name)))])
    else some (vars, file1, [pout_t.found file1.fullname none])
  else
    match get_filetypes opt vars file with
    | none => none
    | some (vars2, file2) =>
      match analize_file opt vars2 file2 with
      | none => none
      | some (_, vars3, file3, out) =>
        let cnt : List pout_t :=
          if ¬ opt.show_total ∧ (opt.l ∨ opt.c) then
            if file3.nmatches ≠ 0 then
              [pout_t.count file3.fullname file3.nmatches opt.c opt.show_filename]
            else if opt.print_count0 then
              [pout_t.count file3.fullname file3.nmatches true opt.show_filename]
            else []
          else []
        some (vars3, file3, out.map pout_t.scan ++ cnt)

/-- The function `process_file` (main.c 1583-1647): the value returned, the
globals and the output.  `fd` is the result of `FOPEN(fullname)`, `none` when
the file cannot be opened; the file processed is `vars.file`. -/
def process_file (opt : opt_t) (vars : vars_t) (fullname name : List Nat) (fd : Option FHANDLE) :
    Option (Nat × vars_t × List pout_t) :=
  let file0 : file_t :=
    { vars.file with
      buf := { vars.file.buf with start := 0, used := 0 }
      fullname := fullname
      name := name
      namelen := strlen name
      filetypes := bf_reset vars.filetypes
      nmatches := 0
      line := 0
      is_binary := false
      type_processed := false }
  -- vars.file_processed++;
  let vars0 : vars_t := { vars with file_processed := vars.file_processed + 1 }
  let r : Option (vars_t × file_t × List pout_t) :=
    match fd with
    | some h =>
      match process_file_select opt vars0 { file0 with f := h } with
      | none => none
      | some (true, vars1, file1) => process_file_body opt vars1 file1
      | some (false, vars1, file1) => some (vars1, file1, [])
    | none => some (vars0, file0, [pout_t.open_failed fullname])
  match r with
  | none => none
  | some (vars1, file1, out) =>
    -- vars.files_matched += vars.file.nmatches; vars.total_matches += vars.file.nmatches;
    some (file1.nmatches,
      { vars1 with
        files_matched := vars1.files_matched + file1.nmatches
        total_matches := vars1.total_matches + file1.nmatches
        file := file1
        filetypes := file1.filetypes }, out)

/-- The function `process_sdtdin` (main.c 1566-1580). -/
def process_sdtdin (opt : opt_t) (vars : vars_t) (f : FHANDLE) :
    Option (Nat × vars_t × List pout_t) :=
  let file : file_t :=
    { f := f, nmatches := 0, line := 0, is_binary := false, buf := buf_t.empty,
      filetypes := bf_reset vars.filetypes }
  let vars0 : vars_t := { vars with file_processed := vars.file_processed + 1 }
  match analize_file opt vars0 file with
  | none => none
  | some (res, vars1, file1, out) =>
    some (file1.nmatches,
      { vars1 with
        files_matched := vars1.files_matched + res
        total_matches := vars1.total_matches + file1.nmatches
        filetypes := file1.filetypes }, out.map pout_t.scan)

/-- Calling `process_file` on a sequence of files, each given by its full name,
its base name and the result of opening it: the globals afterwards and the
values returned, the per-file match counts. -/
def process_files (opt : opt_t) : vars_t → List (List Nat × List Nat × Option FHANDLE) →
    Option (vars_t × List Nat)
  | vars, [] => some (vars, [])
  | vars, x :: xs =>
    match process_file opt vars x.1 x.2.1 x.2.2 with
    | none => none
    | some (n, vars1, _) =>
      match process_files opt vars1 xs with
      | none => none
      | some (vars2, ns) => some (vars2, n :: ns)

/-- The skip rule in the words of the spec, read on the lower-cased name: it
ends with `.bak`, ends with `~`, begins with `.` or `_` and ends with `.swp`,
ends with `.tmp`, or begins and ends with `#`. -/
def skip_name (name : List Nat) : Prop :=
  cstr ".bak" <:+ lower name ∨ cstr "~" <:+ lower name ∨
    ((cstr "." <+: lower name ∨ cstr "_" <+: lower name) ∧ cstr ".swp" <:+ lower name) ∨
    cstr ".tmp" <:+ lower name ∨ (cstr "#" <+: lower name ∧ cstr "#" <:+ lower name)

instance (name : List Nat) : Decidable (skip_name name) := by
  unfold skip_name; infer_instance

/-- The pointers to the built-in types that `get_filetypes` dereferences are
not `NULL`: `init_exts` found `text`, `skipped`, `make` and `ruby`, and `rake`
is registered. -/
def ft_ready (opt : opt_t) (vars : vars_t) : Prop :=
  vars.ft_text ≠ none ∧ vars.ft_skipped ≠ none ∧ vars.ft_make ≠ none ∧ vars.ft_ruby ≠ none ∧
    find_filetype opt (cstr "rake") ≠ none

instance (opt : opt_t) (vars : vars_t) : Decidable (ft_ready opt vars) := by
  unfold ft_ready; infer_instance

/-- The fields of a file that the content sniff leaves alone. -/
def same_ident (f1 f2 : file_t) : Prop :=
  f1.filetypes = f2.filetypes ∧ f1.name = f2.name ∧ f1.namelen = f2.namelen ∧
    f1.type_processed = f2.type_processed ∧ f1.fullname = f2.fullname ∧
    f1.nmatches = f2.nmatches ∧ f1.line = f2.line

/-- The pointers to the built-in types are the same in both globals. -/
def same_ft (v1 v2 : vars_t) : Prop :=
  v1.ft_text = v2.ft_text ∧ v1.ft_skipped = v2.ft_skipped ∧ v1.ft_make = v2.ft_make ∧
    v1.ft_ruby = v2.ft_ruby ∧ v1.ft_binary = v2.ft_binary

/-- The globals when `main` starts to process files with the options `opt` and
no type option: after `init_exts`, `vars.filetypes = bf_new(opt.nfiletypes)`
and `init_req_filetypes` (main.c 3115-3116). -/
def startup (opt : opt_t) : opt_t × vars_t :=
  match init_exts opt vars_t.init with
  | some (opt1, vars1) =>
    (init_req_filetypes opt1 { vars1 with filetypes := bf_new opt1.nfiletypes },
      { vars1 with filetypes := bf_new opt1.nfiletypes })
  | none => (opt, vars_t.init)

/-- A file as `process_file` resets it before it is classified: name `name`,
content `data`, the window of capacity `cap` left by the files before it. -/
def file_t.reset (vars : vars_t) (name data : List Nat) (cap : Nat) : file_t :=
  { f := ⟨data, []⟩, nmatches := 0, line := 0, is_binary := false,
    buf := { buf_t.empty with allocated := cap }, fullname := name, name := name,
    namelen := strlen name, filetypes := bf_reset vars.filetypes, type_processed := false }

/-- The type requests `--TYPE`, `--noTYPE`, `--type=TYPE` of a command line, in
order: each one is a call of `_type_wanted`. -/
def type_requests (opt : opt_t) (reqs : List (List Nat)) : opt_t :=
  reqs.foldl (fun o s => (_type_wanted o s).2) opt

/-- The indices of the registered types are pairwise distinct and below
`opt.nfiletypes`. -/
def registry_ok (opt : opt_t) : Prop :=
  (opt.all_filetypes.map (fun ft => ft.i)).Nodup ∧ ∀ ft ∈ opt.all_filetypes, ft.i < opt.nfiletypes

instance (opt : opt_t) : Decidable (registry_ok opt) := by
  unfold registry_ok; infer_instance

/-- The bytes that `analyse_internals` examines: `file->buf.buf[0 .. size)`
after `size = read_file(&file->buf, file->f, 1024)`; for a file whose window is
empty and starts at 0 these are the bytes the read delivered. -/
def sniffed (file : file_t) : List Nat :=
  (List.range (read_file file.buf file.f 1024).fst.toNat).map
    (read_file file.buf file.f 1024).snd.fst.buf

/-- The registry and the pointers to the built-in types are those that
`init_exts` builds from the table `file_types`, and the shared bit set has the
size of that registry. -/
def is_builtin (opt : opt_t) (vars : vars_t) : Prop :=
  opt.all_filetypes = (startup opt_abc).1.all_filetypes ∧ opt.exts = (startup opt_abc).1.exts ∧
    same_ft vars (startup opt_abc).2 ∧ vars.filetypes.size = (startup opt_abc).2.filetypes.size

instance (v1 v2 : vars_t) : Decidable (same_ft v1 v2) := by
  unfold same_ft; infer_instance

instance (opt : opt_t) (vars : vars_t) : Decidable (is_builtin opt vars) := by
  unfold is_builtin; infer_instance

/-- The byte sequence `t` occurs somewhere in `l`. -/
def has_sub (l t : List Nat) : Bool :=
  (List.range (l.length + 1)).any (fun i => decide (occurs_at l t i))

/-- The shell names in the words of the spec. -/
def shell_names : List (List Nat) :=
  [cstr "bash", cstr "tcsh", cstr "ksh", cstr "zsh", cstr "ash", cstr "sh", cstr "fish"]

/-- The type name that `analyse_header` yields for the first line `fl`: the
first entry of `interprets` that occurs in it, else `shell` when an entry of
`shells` occurs in it, else the default `text`. -/
def header_type (fl : List Nat) : List Nat :=
  match interprets.find? (has_sub fl) with
  | some t => t
  | none => if shells.any (has_sub fl) = true then cstr "shell" else cstr "text"

/-- The size of the read request that `read_file(&file->buf, file->f, 1024)`
makes on an empty window at offset 0: the parameter 1024 when the capacity is
0, the whole capacity otherwise. -/
def sniff_request (b : buf_t) : Nat :=
  if b.allocated = 0 then 1024 else b.allocated

/-! ## Pattern set-up -/

/-- Modelled from the spec: the header `pcre.h` is not among the sources.  The
option bit `PCRE_CASELESS` of the regex library, which asks for caseless
matching. -/
def PCRE_CASELESS : Nat := 1

/-- The libc function `strpbrk(s, accept)`: the index of the first byte of the
C string `s` that is among the bytes of `accept`, `none` for `NULL`. -/
def strpbrk (s accept : List Nat) : Option Nat :=
  (strdup s).findIdx? (fun c => decide (c ∈ strdup accept))

/-- The array `regexp_chars` of `is_regexp` (main.c 2915). -/
def regexp_chars : List Nat := cstr ".+?*\\)]^\x7d|"

/-- The function `is_regexp` (main.c 2914-2918). -/
def is_regexp (str : List Nat) (_len : Nat) : Bool :=
  (strpbrk str regexp_chars).isSome

/-- The function `compile` (main.c 911-934): `none` when it returns 0, the
filled `re_t` when it returns 1.  `pcre_compile pattern options` stands for
the call of the external regex library: `none` for `NULL`, else the behaviour
of the compiled regex under `pcre_exec`. -/
def compile (pcre_compile : List Nat → Nat → Option (List Nat → Option (Nat × Nat)))
    (pattern : List Nat) (options : Nat) : Option re_t :=
  match pcre_compile pattern options with
  | none => none
  | some exec =>
    let plen := strlen pattern
    some { plen := plen, pattern := mem_of (strdup pattern), exec := exec,
           findall :=
             if is_regexp pattern plen then findall_t.re_findall
             else if options &&& PCRE_CASELESS ≠ 0 then findall_t.str_casefindall
             else findall_t.str_findall }

/-- The libc function `isupper` in the C locale; `k` is the non-zero value the
library returns for an upper-case letter. -/
def isupper (k : Nat) (c : Nat) : Nat := if 65 ≤ c ∧ c ≤ 90 then k else 0

/-- The `while(*ptr)` loop of the smart-case block (main.c 3155-3160): the
string at `ptr` when the loop ends. -/
def smart_case_scan (k : Nat) (upper : Nat) : List Nat → List Nat
  | [] => []
  | c :: cs =>
    if c = 0 then c :: cs
    else if upper ≠ isupper k c then c :: cs
    else smart_case_scan k upper cs

/-- The smart-case block of `main` (main.c 3148-3170): the options and the
regex options afterwards. -/
def smart_case_block (k : Nat) (opt : opt_t) (options : Nat) : opt_t × Nat :=
  let opt1 : opt_t :=
    match opt.match_pattern with
    | some pattern =>
      if opt.smart_case then
        -- ptr = opt.match_pattern; upper = isupper(*ptr); while(*ptr) ...
        let ptr := smart_case_scan k (isupper k (pattern.headD 0)) pattern
        if ptr.headD 0 ≠ 0 then { opt with smart_case := false } else opt
      else opt
    | none => opt
  -- opt.i = opt.i || opt.smart_case;
  let opt2 : opt_t := { opt1 with i := opt1.i || opt1.smart_case }
  (opt2, if opt2.i then options ||| PCRE_CASELESS else options)

/-- The libc function `strcat`. -/
def strcat (dst src : List Nat) : List Nat := strdup dst ++ strdup src

/-- The construction of the pattern under `-Q` and `-w` (main.c 3172-3194),
`malloc` succeeding. -/
def match_pattern_block (opt : opt_t) : opt_t :=
  match opt.match_pattern with
  | some tmp =>
    if opt.Q ∨ opt.w then
      -- opt.match_pattern[0] = 0;
      let p0 : List Nat := []
      let p1 := if opt.w then strcat p0 (cstr "\\b") else p0
      let p2 := if opt.Q then strcat p1 (cstr "\\Q") else p1
      let p3 := strcat p2 tmp
      let p4 := if opt.Q then strcat p3 (cstr "\\E") else p3
      { opt with match_pattern := some p4 }
    else opt
  | none => opt

/-- The pattern set-up of `main` (main.c 3148-3199): the smart-case block, the
pattern construction and `compile(&opt.match, opt.match_pattern, options)`.
The result is `none` when `errors` is incremented: no pattern (outside the
mode `-f`) or a pattern that does not compile. -/
def main_pattern (k : Nat)
    (pcre_compile : List Nat → Nat → Option (List Nat → Option (Nat × Nat)))
    (opt : opt_t) (options : Nat) : Option opt_t :=
  let r := smart_case_block k opt options
  let opt1 := match_pattern_block r.1
  match opt1.match_pattern with
  | some pattern =>
    match compile pcre_compile pattern r.2 with
    | some re => some { opt1 with match_ := re }
    | none => none
  | none => if opt1.f then some opt1 else none

/-! ## Output of a line -/

/-- The conversion `%ld` of `printf` for a number that is not negative. -/
def fmt_ld (n : Nat) : List Nat := (Nat.toDigits 10 n).map Char.toNat

/-- The line prefix that `out_context` writes (main.c 1299-1311): file name,
line number and column, each followed by `ch`. -/
def out_context_lead (opt : opt_t) (name : List Nat) (line column ch : Nat) : List Nat :=
  (if opt.show_filename then
    (if ¬ opt.heading then strdup name ++ [ch] else []) ++
    (if opt.color then strdup opt.color_lineno ++ fmt_ld line ++ cstr "\x1b[0m\x1b[K" ++ [ch]
     else fmt_ld line ++ [ch])
   else []) ++
  (if opt.column then fmt_ld column ++ [ch] else [])

/-- The `for` loop of the only-matching mode of `out_context` (main.c
1315-1321), `n` iterations from the span of index `i` with `ptr` at the offset
`ptr` of the line: the bytes written. -/
def out_context_o (buf : Nat → Nat) (ms : List match_t) : Nat → Nat → Nat → List Nat
  | 0, _, _ => []
  | n + 1, ptr, i =>
    let mptr := ms.getD i ⟨0, 0⟩
    mem_slice buf (ptr + mptr.start) mptr.len ++ [10] ++
      out_context_o buf ms n (ptr + mptr.start + mptr.len) (i + 1)

/-- The `for` loop of the colour mode of `out_context` (main.c 1340-1349): the
bytes written and `ptr` afterwards. -/
def out_context_color (color_match : List Nat) (buf : Nat → Nat) (ms : List match_t) :
    Nat → Nat → Nat → List Nat × Nat
  | 0, ptr, _ => ([], ptr)
  | n + 1, ptr, i =>
    let mptr := ms.getD i ⟨0, 0⟩
    let r := out_context_color color_match buf ms n (ptr + mptr.start + mptr.len) (i + 1)
    (mem_slice buf ptr mptr.start ++ strdup color_match ++
      mem_slice buf (ptr + mptr.start) mptr.len ++ cstr "\x1b[0m\x1b[K" ++ r.1, r.2)

/-- The function `out_context` (main.c 1292-1357): the bytes written to the
standard output and the buffer `str` afterwards.  `matches_` is `none` for a
`NULL` array; the result is `none` when `NULL` is dereferenced. -/
def out_context (opt : opt_t) (name : List Nat) (str : buf_t) (line column : Nat)
    (is_match : Bool) (matches_ : Option (List match_t)) (nmatches : Nat) :
    Option (List Nat × buf_t) :=
  let ch : Nat := if is_match then 58 else 45
  let pre := out_context_lead opt name line column ch
  if opt.o then
    match is_match, matches_ with
    | true, some ms => some (pre ++ out_context_o str.buf ms nmatches 0 0, str)
    | _, _ => some (pre, str)
  else
    let str1 : buf_t := { str with used := strip_used str.buf str.used }
    if nmatches = 0 ∨ ¬ opt.color then some (pre ++ str1.bytes ++ [10], str1)
    else
      match matches_ with
      | none => none
      | some ms =>
        let r := out_context_color opt.color_match str1.buf ms nmatches 0 0
        some (pre ++ r.1 ++
          (if r.2 < str1.used then mem_slice str1.buf r.2 (str1.used - r.2) else []) ++ [10], str1)

/-! ## The directory walk -/

/-- What the file system holds at a path, as `process` sees it: `gone` when
`lstat` fails; a symbolic link or any other file that is not a directory, with
the result of `FOPEN` on it (`none` when it cannot be opened); a directory with
the entries that `scandir` finds before filtering, in directory order, `none`
when `scandir` fails.  An entry is the name `d_name` and what the path of the
entry holds. -/
inductive node_t where
  | gone
  | reg (fd : Option FHANDLE)
  | lnk (fd : Option FHANDLE)
  | dir (dents : Option (List (List Nat × node_t)))

/-- The function `ignore_dir` (main.c 1513-1525). -/
def ignore_dir (opt : opt_t) (dirname : List Nat) : Bool :=
  opt.ignore_dirs.any (fun s =>
    decide (strlen dirname = strlen s ∧
      strncasecmp (mem_of dirname) 0 (mem_of s) 0 (strlen s) = 0))

/-- The call `scandir(filename, &dents, opt.u ? NULL : scandir_ignore_dir,
opt.sort_files ? alphasort : NULL)` on the entries `dents` of the directory:
the filter drops the ignored names and `alphasort` orders by `strcoll`, which
is `strcmp` in the C locale. -/
def scandir (opt : opt_t) (dents : List (List Nat × node_t)) : List (List Nat × node_t) :=
  let l := if opt.u then dents else dents.filter (fun d => !ignore_dir opt d.1)
  if opt.sort_files then l.insertionSort (fun a b => strcmp a.1 b.1 ≤ 0) else l

/-- The function `simple_match` (main.c 941-943) called with `matches = NULL`,
as `process` does: the value returned, `none` when a span is written through
the `NULL` pointer or a search runs out of fuel.  `re_findall` does not
advance in the subject without a span array and counts the same match until
the limit is reached; `str_findall` and `str_casefindall` write the span
without a test. -/
def simple_match_null (re : re_t) (m : Nat → Nat) (len : Nat) (matches_len : Nat) :
    Option Nat :=
  match re.findall with
  | findall_t.re_findall =>
    if len ≠ 0 ∧ (re.exec (mem_slice m 0 len)).isSome then some matches_len else some 0
  | findall_t.str_findall =>
    if len ≠ 0 ∧ 0 < matches_len then
      match _strnstr3 m 0 len re.pattern re.plen with
      | none => none
      | some none => some 0
      | some (some _) => none
    else some 0
  | findall_t.str_casefindall =>
    if len ≠ 0 ∧ 0 < matches_len then
      match _strncasestr m 0 len re.pattern re.plen with
      | none => none
      | some none => some 0
      | some (some _) => none
    else some 0

/-- The function `_basename` (main.c 1014-1031): the name after the last `/`
or `\`. -/
def _basename (fullname : List Nat) : List Nat :=
  let s := strdup fullname
  match (List.range s.length).reverse.find? (fun i => s.getD i 0 = 47 ∨ s.getD i 0 = 92) with
  | some i => s.drop (i + 1)
  | none => s

/-- The name `fullname` that `process` builds for the entry `d_name` of the
directory `filename` (main.c 1676-1681); the bound `PATH_MAX` is not
modelled. -/
def process_fullname (filename d_name : List Nat) : List Nat :=
  if strcmp filename (cstr ".") ≠ 0 then strdup filename ++ cstr "/" ++ strdup d_name
  else strdup d_name

/-- The removal of a trailing `/` from `filename` in `process` (main.c
1665-1671). -/
def process_strip (filename : List Nat) : List Nat :=
  let s := strdup filename
  let i := s.length - 1
  if s.getD i 0 = 47 then s.take i else s

mutual

/-- The function `process` (main.c 1650-1717) on the path `filename`, which
holds `node`: the globals afterwards and the output.  Every call and every
iteration of the loop takes one unit of fuel; `none` when the fuel runs out or
a callee yields `none`. -/
def process (opt : opt_t) : Nat → vars_t → List Nat → node_t → Option (vars_t × List pout_t)
  | 0, _, _, _ => none
  | fuel + 1, vars, filename, node =>
    match node with
    | node_t.gone => some (vars, [pout_t.cant_stat filename])
    | node_t.dir none => some (vars, [pout_t.opendir_failed filename])
    | node_t.dir (some dents) =>
      process_loop opt fuel vars (process_strip filename) (scandir opt dents)
    | node_t.reg fd =>
      (process_file opt vars filename (_basename filename) fd).map (fun r => (r.2.1, r.2.2))
    | node_t.lnk fd =>
      (process_file opt vars filename (_basename filename) fd).map (fun r => (r.2.1, r.2.2))

/-- The `for` loop over the entries of a directory in `process` (main.c
1672-1704), from the entry `dents[i]` on. -/
def process_loop (opt : opt_t) :
    Nat → vars_t → List Nat → List (List Nat × node_t) → Option (vars_t × List pout_t)
  | 0, _, _, _ => none
  | _ + 1, vars, _, [] => some (vars, [])
  | fuel + 1, vars, filename, dent :: rest =>
    -- (i<count) && !(opt.one && vars.total_matches)
    if opt.one ∧ vars.total_matches ≠ 0 then some (vars, [])
    else if strcmp dent.1 (cstr ".") ≠ 0 ∧ strcmp dent.1 (cstr "..") ≠ 0 then
      let fullname := process_fullname filename dent.1
      let file : Option FHANDLE → Option (vars_t × List pout_t) := fun fd =>
        -- if(opt.G.re) { if (opt.invert_file_match == simple_match(...)) continue; }
        let skip : Option Bool :=
          match opt.G with
          | some re =>
            (simple_match_null re (mem_of dent.1) (strlen dent.1) 1).map
              (fun r => decide (opt.invert_file_match = r))
          | none => some false
        match skip with
        | none => none
        | some true => process_loop opt fuel vars filename rest
        | some false =>
          match process_file opt vars fullname dent.1 fd with
          | none => none
          | some (_, vars1, out1) =>
            (process_loop opt fuel vars1 filename rest).map (fun r => (r.1, out1 ++ r.2))
      match dent.2 with
      | node_t.gone => some (vars, [pout_t.cant_stat filename])
      | node_t.lnk fd => if ¬ opt.follow then process_loop opt fuel vars filename rest else file fd
      | node_t.dir d =>
        if opt.recursive then
          match process opt fuel vars fullname (node_t.dir d) with
          | none => none
          | some (vars1, out1) =>
            (process_loop opt fuel vars1 filename rest).map (fun r => (r.1, out1 ++ r.2))
        else process_loop opt fuel vars filename rest
      | node_t.reg fd => file fd
    else process_loop opt fuel vars filename rest

end

/-- The loop of `main` over the start paths (main.c 3218-3224): `process` is
called on every path in turn. -/
def main_paths (opt : opt_t) (fuel : Nat) :
    vars_t → List (List Nat × node_t) → Option (vars_t × List pout_t)
  | vars, [] => some (vars, [])
  | vars, p :: rest =>
    match process opt fuel vars p.1 p.2 with
    | none => none
    | some (vars1, out1) => (main_paths opt fuel vars1 rest).map (fun r => (r.1, out1 ++ r.2))

/-- The processing of the paths by `main` when the input is not a pipe (main.c
3217-3228): the start paths, or the current directory `cwd` under the name `.`
when there is none. -/
def main_process (opt : opt_t) (fuel : Nat) (vars : vars_t) (paths : List (List Nat × node_t))
    (cwd : node_t) : Option (vars_t × List pout_t) :=
  match paths with
  | [] => process opt fuel vars (cstr ".") cwd
  | _ :: _ => main_paths opt fuel vars paths

/-- The statement `if (opt.one) opt.m = 1;` of `main` (main.c 3088-3090). -/
def main_one (opt : opt_t) : opt_t :=
  if opt.one then { opt with m := 1 } else opt

/-- The macro `MATCH` (main.c 184). -/
def MATCH : Nat := 0

/-- The macro `NOMATCH` (main.c 185). -/
def NOMATCH : Nat := 1

/-- The value returned by `main` (main.c 3271): `(vars.files_matched != 0) ?
MATCH : NOMATCH`. -/
def main_status (vars : vars_t) : Nat :=
  if vars.files_matched ≠ 0 then MATCH else NOMATCH

/-! ## Command-line options -/

/-- The parser functions that the table `args` and `type_opt_find` refer to
(the type `parser_func_t` of the function pointer, main.c 1861). -/
inductive parser_func_t where
  | opt_set_true
  | opt_set_false
  | opt_not_implemented
  | opt_string
  | opt_long
  | opt_uint
  | type_wanted
  | type_set
  | type_add
  | ignore_dir_add
  | ignore_dir_del
  | help_types
  | parse_colors
  | type_wanted2
  deriving DecidableEq, Repr

/-- The C struct `option_t` (main.c 1864-1871) without the fields `ptr` and
`_default`; `none` is `NULL`. -/
structure option_t where
  _short : Option (List Nat)
  _long : Option (List Nat)
  flags : Nat
  parser : parser_func_t
  deriving DecidableEq, Repr

/-- The macro `_OPT_DATA` (main.c 1881). -/
def _OPT_DATA : Nat := 0x01

/-- The macro `_OPT_OPTIONAL` (main.c 1882). -/
def _OPT_OPTIONAL : Nat := 0x02

/-- The enumerator `OPT_NODATA` (main.c 1886). -/
def OPT_NODATA : Nat := 0

/-- The enumerator `OPT_DATA` (main.c 1887): with a parameter. -/
def OPT_DATA : Nat := _OPT_DATA

/-- The enumerator `OPT_OPT_DATA` (main.c 1888): with an optional parameter. -/
def OPT_OPT_DATA : Nat := _OPT_DATA ||| _OPT_OPTIONAL

/-- The table `args` (main.c 2510-2582) up to its terminating entry. -/
def args : List option_t :=
  [
    ⟨some (cstr "v"), some (cstr "invert-match"), OPT_NODATA, parser_func_t.opt_set_true⟩,
    ⟨some (cstr "w"), some (cstr "word-regexp"), OPT_NODATA, parser_func_t.opt_set_true⟩,
    ⟨some (cstr "Q"), some (cstr "literal"), OPT_NODATA, parser_func_t.opt_set_true⟩,
    ⟨some (cstr "i"), some (cstr "ignore-case"), OPT_NODATA, parser_func_t.opt_set_true⟩,
    ⟨none, some (cstr "smart-case"), OPT_NODATA, parser_func_t.opt_set_true⟩,
    ⟨none, some (cstr "nosmart-case"), OPT_NODATA, parser_func_t.opt_set_false⟩,
    ⟨none, some (cstr "line"), OPT_DATA, parser_func_t.opt_not_implemented⟩,
    ⟨some (cstr "l"), some (cstr "files-with-matches"), OPT_NODATA, parser_func_t.opt_set_true⟩,
    ⟨some (cstr "L"), some (cstr "files-without-matches"), OPT_NODATA, parser_func_t.opt_set_true⟩,
    ⟨some (cstr "o"), none, OPT_NODATA, parser_func_t.opt_set_true⟩,
    ⟨none, some (cstr "passthru"), OPT_NODATA, parser_func_t.opt_set_true⟩,
    ⟨none, some (cstr "output"), OPT_DATA, parser_func_t.opt_string⟩,
    ⟨none, some (cstr "match"), OPT_DATA, parser_func_t.opt_string⟩,
    ⟨some (cstr "m"), some (cstr "max-count"), OPT_DATA, parser_func_t.opt_long⟩,
    ⟨some (cstr "1"), none, OPT_NODATA, parser_func_t.opt_set_true⟩,
    ⟨some (cstr "H"), some (cstr "with-filename"), OPT_NODATA, parser_func_t.opt_set_true⟩,
    ⟨some (cstr "h"), some (cstr "without-filename"), OPT_NODATA, parser_func_t.opt_set_true⟩,
    ⟨some (cstr "c"), some (cstr "count"), OPT_NODATA, parser_func_t.opt_set_true⟩,
    ⟨none, some (cstr "column"), OPT_NODATA, parser_func_t.opt_set_true⟩,
    ⟨some (cstr "A"), some (cstr "after-context"), OPT_DATA, parser_func_t.opt_uint⟩,
    ⟨some (cstr "B"), some (cstr "before-context"), OPT_DATA, parser_func_t.opt_uint⟩,
    ⟨some (cstr "C"), some (cstr "context"), OPT_OPT_DATA, parser_func_t.opt_uint⟩,
    ⟨none, some (cstr "print0"), OPT_NODATA, parser_func_t.opt_set_true⟩,
    ⟨none, some (cstr "pager"), OPT_NODATA, parser_func_t.opt_not_implemented⟩,
    ⟨none, some (cstr "nopager"), OPT_NODATA, parser_func_t.opt_set_true⟩,
    ⟨none, some (cstr "break"), OPT_NODATA, parser_func_t.opt_set_true⟩,
    ⟨none, some (cstr "nobreak"), OPT_NODATA, parser_func_t.opt_set_false⟩,
    ⟨none, some (cstr "noheading"), OPT_NODATA, parser_func_t.opt_set_false⟩,
    ⟨none, some (cstr "heading"), OPT_NODATA, parser_func_t.opt_set_true⟩,
    ⟨none, some (cstr "flush"), OPT_NODATA, parser_func_t.opt_set_true⟩,
    ⟨some (cstr "f"), none, OPT_NODATA, parser_func_t.opt_set_true⟩,
    ⟨some (cstr "g"), none, OPT_DATA, parser_func_t.opt_string⟩,
    ⟨some (cstr "G"), none, OPT_DATA, parser_func_t.opt_string⟩,
    ⟨none, some (cstr "sort-files"), OPT_NODATA, parser_func_t.opt_set_true⟩,
    ⟨none, some (cstr "invert-file-match"), OPT_NODATA, parser_func_t.opt_set_true⟩,
    ⟨none, some (cstr "show-types"), OPT_NODATA, parser_func_t.opt_set_true⟩,
    ⟨some (cstr "a"), some (cstr "all-types"), OPT_NODATA, parser_func_t.opt_set_true⟩,
    ⟨some (cstr "u"), some (cstr "unrestricted"), OPT_NODATA, parser_func_t.opt_set_true⟩,
    ⟨some (cstr "r"), some (cstr "recurse"), OPT_NODATA, parser_func_t.opt_set_true⟩,
    ⟨some (cstr "n"), some (cstr "no-recurse"), OPT_NODATA, parser_func_t.opt_set_false⟩,
    ⟨none, some (cstr "group"), OPT_NODATA, parser_func_t.opt_set_true⟩,
    ⟨none, some (cstr "nogroup"), OPT_NODATA, parser_func_t.opt_set_true⟩,
    ⟨some (cstr "R"), none, OPT_NODATA, parser_func_t.opt_set_true⟩,
    ⟨none, some (cstr "follow"), OPT_NODATA, parser_func_t.opt_set_true⟩,
    ⟨none, some (cstr "nofollow"), OPT_NODATA, parser_func_t.opt_set_false⟩,
    ⟨none, some (cstr "env"), OPT_NODATA, parser_func_t.opt_set_true⟩,
    ⟨none, some (cstr "noenv"), OPT_NODATA, parser_func_t.opt_set_false⟩,
    ⟨none, some (cstr "type"), OPT_DATA, parser_func_t.type_wanted⟩,
    ⟨none, some (cstr "type-set"), OPT_DATA, parser_func_t.type_set⟩,
    ⟨none, some (cstr "type-add"), OPT_DATA, parser_func_t.type_add⟩,
    ⟨none, some (cstr "ignore-dirs"), OPT_DATA, parser_func_t.ignore_dir_add⟩,
    ⟨none, some (cstr "noignore-dirs"), OPT_DATA, parser_func_t.ignore_dir_del⟩,
    ⟨none, some (cstr "help"), OPT_OPT_DATA, parser_func_t.help_types⟩,
    ⟨none, some (cstr "help-types"), OPT_NODATA, parser_func_t.opt_set_true⟩,
    ⟨none, some (cstr "man"), OPT_NODATA, parser_func_t.opt_set_true⟩,
    ⟨none, some (cstr "version"), OPT_NODATA, parser_func_t.opt_set_true⟩,
    ⟨none, some (cstr "color"), OPT_NODATA, parser_func_t.opt_set_true⟩,
    ⟨none, some (cstr "nocolor"), OPT_NODATA, parser_func_t.opt_set_false⟩,
    ⟨none, some (cstr "colour"), OPT_NODATA, parser_func_t.opt_set_true⟩,
    ⟨none, some (cstr "nocolour"), OPT_NODATA, parser_func_t.opt_set_false⟩,
    ⟨none, some (cstr "color-filename"), OPT_DATA, parser_func_t.parse_colors⟩,
    ⟨none, some (cstr "color-match"), OPT_DATA, parser_func_t.parse_colors⟩,
    ⟨none, some (cstr "color-lineno"), OPT_DATA, parser_func_t.parse_colors⟩,
    ⟨none, some (cstr "thpppt"), OPT_NODATA, parser_func_t.opt_set_true⟩
  ]

/-- The function `opt_find` (main.c 2090-2109): the first entry of the table
whose long name (when a long name is asked for and the entry has one) or else
whose short name is the `len` bytes given. -/
def opt_find (long_opt short_opt : Option (List Nat)) (len : Nat) (options : List option_t) :
    Option option_t :=
  if long_opt = none ∧ short_opt = none then none
  else
    options.find? (fun ptr =>
      match long_opt, ptr._long with
      | some l, some pl => decide (strncmp (mem_of l) 0 (mem_of pl) 0 len = 0 ∧ strlen pl = len)
      | _, _ =>
        match short_opt, ptr._short with
        | some s, some ps =>
          decide (strncmp (mem_of s) 0 (mem_of ps) 0 len = 0 ∧ strlen ps = len)
        | _, _ => false)

/-- The function `type_opt_find` (main.c 2408-2445): an entry of the table, or
for the name of a registered type, possibly after `no`, the entry `_opt` that
calls `type_wanted2`. -/
def type_opt_find (opt : opt_t) (long_opt short_opt : Option (List Nat)) (len : Nat)
    (options : List option_t) : Option option_t :=
  if long_opt = none ∧ short_opt = none then none
  else
    match opt_find long_opt short_opt len options with
    | some o => some o
    | none =>
      match long_opt with
      | none => none
      | some l =>
        let ft : Option filetype_t :=
          match find_filetype opt l with
          | some ft => some ft
          | none =>
            if strncmp (mem_of l) 0 (mem_of (cstr "no")) 0 2 = 0 then find_filetype opt (l.drop 2)
            else none
        match ft with
        | some _ => some ⟨none, some l, OPT_NODATA, parser_func_t.type_wanted2⟩
        | none => none

/-- The libc function `strchr` for a byte that is not NUL: the index of its
first occurrence in the C string. -/
def strchr (s : List Nat) (c : Nat) : Option Nat :=
  if c ∈ strdup s then some ((strdup s).indexOf c) else none

/-- The libc function `isspace` in the C locale. -/
def isspace (c : Nat) : Bool := c = 32 ∨ (9 ≤ c ∧ c ≤ 13)

/-- The libc function `isdigit`. -/
def isdigit (c : Nat) : Bool := 48 ≤ c ∧ c ≤ 57

/-- The `while` loop of `count_digits` (main.c 1900-1915) with the counter `i`
and the flag `hex`; the end of the list is the terminating NUL. -/
def count_digits_loop : List Nat → Nat → Bool → Nat
  | [], i, _ => i
  | c :: cs, i, hex =>
    if c = 0 then i
    else if i = 1 ∧ c = 120 then count_digits_loop cs (i + 1) true
    else if (i = 0 ∧ c = 45) ∨ isdigit c = true ∨
        (hex = true ∧ 2 ≤ i ∧ ((65 ≤ c ∧ c ≤ 70) ∨ (97 ≤ c ∧ c ≤ 102))) then
      count_digits_loop cs (i + 1) hex
    else i

/-- The function `count_digits` (main.c 1894-1917). -/
def count_digits (str : List Nat) : Nat := count_digits_loop str 0 false

/-- The constant `ULONG_MAX` of `limits.h` for a 64-bit `unsigned long`. -/
def ULONG_MAX : Nat := 2 ^ 64 - 1

/-- The value of a byte as a digit of `strtoul`: `0`-`9`, then the letters of
either case from 10 on; `none` for another byte. -/
def digit_val (c : Nat) : Option Nat :=
  if 48 ≤ c ∧ c ≤ 57 then some (c - 48)
  else if 97 ≤ c ∧ c ≤ 122 then some (c - 87)
  else if 65 ≤ c ∧ c ≤ 90 then some (c - 55)
  else none

/-- The byte is a digit in the base `base`. -/
def is_digit_in (base c : Nat) : Bool :=
  match digit_val c with
  | some v => v < base
  | none => false

/-- The libc function `strtoul(str, &endp, 0)` in the C locale: whether `errno`
is set to `ERANGE`, and `endp - str`.  White space is skipped, a sign is
optional, `0x` or `0X` before a hexadecimal digit selects the base 16, another
leading `0` the base 8, and the digits of the base are consumed; without a
digit nothing is converted and `endp` is `str`. -/
def strtoul (str : List Nat) : Bool × Nat :=
  let s := strdup str
  let ws := (s.takeWhile isspace).length
  let s1 := s.drop ws
  let sg := if s1.getD 0 0 = 43 ∨ s1.getD 0 0 = 45 then 1 else 0
  let s2 := s1.drop sg
  let hex : Bool := s2.getD 0 0 = 48 ∧ (s2.getD 1 0 = 120 ∨ s2.getD 1 0 = 88) ∧
    is_digit_in 16 (s2.getD 2 0) = true
  let base := if hex then 16 else if s2.getD 0 0 = 48 then 8 else 10
  let pre := if hex then 2 else 0
  let ds := (s2.drop pre).takeWhile (is_digit_in base)
  if ds = [] then (false, 0)
  else (decide (ULONG_MAX < ds.foldl (fun a c => a * base + (digit_val c).getD 0) 0),
    ws + sg + pre + ds.length)

/-- The function `parse_long` (main.c 1962-1976): the value returned. -/
def parse_long (str : List Nat) : Nat :=
  if (strtoul str).1 then 0 else (strtoul str).2

/-- The function `opt_long` (main.c 1993-2007): the value returned. -/
def opt_long (data : List Nat) : Int :=
  if parse_long data ≠ 0 then (count_digits data : Int) else -1

/-- The function `opt_uint` (main.c 2010-2038), whose code after the second
`return` is dead: the value returned for an option with the flags `flags`. -/
def opt_uint (flags : Nat) (data : List Nat) : Int :=
  if (strtoul data).1 = true ∨ (strtoul data).2 = 0 then
    if flags &&& _OPT_OPTIONAL ≠ 0 then 0 else -1
  else ((strtoul data).2 : Int)

/-- The function `type_modify` (main.c 2297-2317): the value returned and the
options afterwards; `none` when `add_exts` has no result. -/
def type_modify (opt : opt_t) (data : List Nat) (del : Bool) : Option (Int × opt_t) :=
  match strchr data 61 with
  | some eptr =>
    let sptr := ((strdup data).takeWhile isspace).length
    if 8 * 1024 - 1 < eptr - sptr then some (-1, opt)
    else
      match add_exts opt (((strdup data).drop sptr).take (eptr - sptr))
          ((strdup data).drop (eptr + 1)) del with
      | none => none
      | some opt1 => some ((strlen data : Int), opt1)
  | none => some (-1, opt)

/-- The function `string_find` (main.c 660-671) with `FILENAMENCMP`: the
position of the string in the list. -/
def string_find (head : List (List Nat)) (str : List Nat) : Option Nat :=
  let i := head.findIdx (fun s =>
    decide (strlen s = strlen str ∧ strncasecmp (mem_of str) 0 (mem_of s) 0 (strlen str) = 0))
  if i < head.length then some i else none

/-- The function `string_add` (main.c 683-697): the list afterwards. -/
def string_add (head : List (List Nat)) (str : List Nat) : List (List Nat) :=
  match string_find head str with
  | none => strdup str :: head
  | some _ => head

/-- The function `string_del` (main.c 673-681): the list afterwards. -/
def string_del (head : List (List Nat)) (str : List Nat) : List (List Nat) :=
  match string_find head str with
  | none => head
  | some i => head.eraseIdx i

/-- The function `help_types` (main.c 2384-2391): the value returned. -/
def help_types (data : List Nat) : Int :=
  if strcmp data (cstr "types") = 0 then (strlen data : Int) else 0

/-- The table `colors` (main.c 402-429). -/
def colors : List (List Nat × List Nat) :=
  [(cstr "clear", cstr "0"), (cstr "reset", cstr "0"), (cstr "dark", cstr ""),
   (cstr "bold", cstr "1"), (cstr "underline", cstr "4"), (cstr "underscore", cstr "4"),
   (cstr "blink", cstr "5"), (cstr "reverse", cstr "7"), (cstr "concealed", cstr "8"),
   (cstr "black", cstr "30"), (cstr "red", cstr "31"), (cstr "green", cstr "32"),
   (cstr "yellow", cstr "33"), (cstr "blue", cstr "34"), (cstr "magenta", cstr "35"),
   (cstr "cyan", cstr "36"), (cstr "white", cstr "37"), (cstr "on_black", cstr "40"),
   (cstr "on_red", cstr "41"), (cstr "on_green", cstr "42"), (cstr "on_yellow", cstr "43"),
   (cstr "on_blue", cstr "44"), (cstr "on_magenta", cstr "45"), (cstr "on_cyan", cstr "46"),
   (cstr "on_white", cstr "47")]

/-- The call `snprintf(&res[slen], f, "%s", s)` of `parse_colors` on the array
`res` of 8096 bytes: the value returned, the length of `s`; `none` when the
bytes written, at most `f` with the terminating NUL, do not lie in `res`. -/
def snprintf_res (slen : Nat) (f : Int) (s : List Nat) : Option Nat :=
  let written : Nat :=
    if f = 0 then 0 else if f < 0 then s.length + 1 else min s.length (f.toNat - 1) + 1
  if slen + written ≤ 8096 then some s.length else none

/-- How the `while(*eptr)` loop of `parse_colors` ends: at the end of the data
with `slen`, `f` and `count`, with a `return -1`, or with a write outside the
array `res`. -/
inductive colors_loop_t where
  | done (slen : Nat) (f : Int) (count : Nat)
  | invalid
  | outside
  deriving DecidableEq, Repr

/-- The `while(*eptr)` loop of `parse_colors` (main.c 2466-2500) on the rest
`eptr` of the data.  Every iteration that goes on has consumed a byte, so
`fuel` iterations suffice for a rest of at most `fuel` bytes; `none` is fuel
exhaustion. -/
def parse_colors_loop : Nat → List Nat → Nat → Int → Nat → Option colors_loop_t
  | 0, eptr, slen, f, count => if eptr = [] then some (colors_loop_t.done slen f count) else none
  | fuel + 1, eptr, slen, f, count =>
    if eptr = [] then some (colors_loop_t.done slen f count)
    else
      let sptr := eptr.dropWhile isspace
      let word := sptr.takeWhile (fun c => c ≠ 32)
      let eptr1 := sptr.dropWhile (fun c => c ≠ 32)
      match colors.find? (fun pair =>
          decide (strncmp (mem_of pair.1) 0 (mem_of sptr) 0 word.length = 0 ∧
            strlen pair.1 = word.length)) with
      | none => some colors_loop_t.invalid
      | some pair =>
        let r1 : Option (Option (Nat × Int)) :=
          if count ≠ 0 then
            match snprintf_res slen f (cstr ";") with
            | none => none
            | some tmp => if 0 < tmp then some (some (slen + tmp, f - tmp)) else some none
          else some (some (slen, f))
        match r1 with
        | none => some colors_loop_t.outside
        | some none => some colors_loop_t.invalid
        | some (some (slen1, f1)) =>
          match snprintf_res slen1 f1 pair.2 with
          | none => some colors_loop_t.outside
          | some tmp =>
            if 0 < tmp then parse_colors_loop fuel eptr1 (slen1 + tmp) (f1 - tmp) (count + 1)
            else some colors_loop_t.invalid

/-- The function `parse_colors` (main.c 2450-2508): the value returned; `none`
when a byte is written outside the array `res`. -/
def parse_colors (data : List Nat) : Option Int :=
  -- f = sizeof(res); slen = snprintf(res,f,"\e[");
  match parse_colors_loop (strlen data) (strdup data) 2 8096 0 with
  | some (colors_loop_t.done slen f _) =>
    match snprintf_res slen f (cstr "m") with
    | none => none
    | some tmp => if 0 < tmp then some (strlen data : Int) else some (-1)
  | some colors_loop_t.invalid => some (-1)
  | _ => none

/-- A message that the option parser writes to the standard error output;
`opt` is the name of the option in the message, `none` for `NULL`. -/
inductive opt_msg_t where
  | unrecognized (name : List Nat)
  | requires_argument (is_long : Bool) (opt : Option (List Nat))
  | no_argument_allowed (is_long : Bool) (opt : Option (List Nat))
  | invalid_argument (is_long : Bool) (opt : Option (List Nat))
  | not_implemented (opt : Option (List Nat))
  deriving DecidableEq, Repr

/-- The C struct `opt_ctx_t` (main.c 1844-1855) without the program name and the
unused error fields; `none` is `NULL`. -/
structure opt_ctx_t where
  op : Option option_t
  data : Option (List Nat)
  _long : Bool
  len : Int
  errors : Nat
  wait4data : Bool
  deriving DecidableEq, Repr

/-- The call `ctx->op->parser(ctx)`: the value returned, the options afterwards
(the type registry and the list of ignored directories; the stores through
`ctx->op->ptr` into the option variables are left out, no parser and no lookup
reads them) and the messages written.  `none` when `NULL` is dereferenced or a
byte is written outside an array. -/
def parser_call (opt : opt_t) (op : option_t) (is_long : Bool) (data : List Nat) :
    Option (Int × opt_t × List opt_msg_t) :=
  match op.parser with
  | parser_func_t.opt_set_true => some (0, opt, [])
  | parser_func_t.opt_set_false => some (0, opt, [])
  | parser_func_t.opt_not_implemented =>
    some (0, opt, [opt_msg_t.not_implemented (if is_long then op._long else op._short)])
  | parser_func_t.opt_string => some ((strlen data : Int), opt, [])
  | parser_func_t.opt_long => some (opt_long data, opt, [])
  | parser_func_t.opt_uint => some (opt_uint op.flags data, opt, [])
  | parser_func_t.type_wanted => some ((_type_wanted opt data).1, (_type_wanted opt data).2, [])
  | parser_func_t.type_wanted2 =>
    match op._long with
    | none => none
    | some l =>
      some (if 0 ≤ (_type_wanted opt l).1 then 0 else -1, (_type_wanted opt l).2, [])
  | parser_func_t.type_set => (type_modify opt data true).map (fun r => (r.1, r.2, []))
  | parser_func_t.type_add => (type_modify opt data false).map (fun r => (r.1, r.2, []))
  | parser_func_t.ignore_dir_add =>
    some ((strlen data : Int), { opt with ignore_dirs := string_add opt.ignore_dirs data }, [])
  | parser_func_t.ignore_dir_del =>
    some ((strlen data : Int), { opt with ignore_dirs := string_del opt.ignore_dirs data }, [])
  | parser_func_t.help_types => some (help_types data, opt, [])
  | parser_func_t.parse_colors => (parse_colors data).map (fun n => (n, opt, []))

/-- The code of `_opt_try_to_call` from the label `make_call` on (main.c
2144-2158). -/
def _opt_make_call (opt : opt_t) (op : option_t) (ctx : opt_ctx_t) :
    Option (Bool × opt_ctx_t × opt_t × List opt_msg_t) :=
  -- if (!ctx->data) ctx->data = "";
  let data := ctx.data.getD []
  match parser_call opt op ctx._long data with
  | none => none
  | some (len, opt1, msgs) =>
    let err : Bool := (len < 0 ∨ (ctx.wait4data = true ∧ len ≠ (strlen data : Int))) ∧
      op.flags &&& _OPT_OPTIONAL = 0
    some (true,
      { ctx with data := some data, len := len, wait4data := false,
                 errors := if err then ctx.errors + 1 else ctx.errors },
      opt1,
      msgs ++ (if err then
        [opt_msg_t.invalid_argument ctx._long (if ctx._long then op._long else op._short)]
        else []))

/-- The function `_opt_try_to_call` (main.c 2112-2159): the value returned, the
context and the options afterwards, and the messages written. -/
def _opt_try_to_call (opt : opt_t) (ctx0 : opt_ctx_t) :
    Option (Bool × opt_ctx_t × opt_t × List opt_msg_t) :=
  match ctx0.op with
  | none => none
  | some op =>
    let ctx : opt_ctx_t := { ctx0 with len := 0 }
    let name := if ctx._long then op._long else op._short
    if op.flags &&& _OPT_DATA ≠ 0 then
      if ctx.data = none ∨ (ctx.data.getD []).head? = none ∨ (ctx.data.getD []).head? = some 0 then
        if ctx.wait4data = false then some (false, { ctx with wait4data := true }, opt, [])
        else if op.flags &&& _OPT_OPTIONAL ≠ 0 then
          _opt_make_call opt op { ctx with wait4data := false }
        else
          some (false, { ctx with wait4data := false, errors := ctx.errors + 1 }, opt,
            [opt_msg_t.requires_argument ctx._long name])
      else _opt_make_call opt op ctx
    else
      if ctx._long = true ∧ ctx.data ≠ none then
        some (false, { ctx with wait4data := false, errors := ctx.errors + 1 }, opt,
          [opt_msg_t.no_argument_allowed ctx._long name])
      else _opt_make_call opt op ctx

/-- The state of `opt_parse` between two steps: the loop counter `i`, the
context, the options and the messages written so far. -/
structure opt_state_t where
  i : Nat
  ctx : opt_ctx_t
  opt : opt_t
  msgs : List opt_msg_t

/-- The `while(*ptr)` loop of `opt_parse` over the short options of one
element of `argv` (main.c 2256-2275); `skip` bytes are passed over first, the
bytes that the parser of the option before has taken. -/
def opt_parse_short (options : List option_t) :
    List Nat → Nat → opt_state_t → Option opt_state_t
  | [], _, st => some st
  | _ :: cs, skip + 1, st => opt_parse_short options cs skip st
  | c :: cs, 0, st =>
    if c = 0 then some st
    else if c = 45 then opt_parse_short options cs 0 st
    else
      match type_opt_find st.opt none (some (c :: cs)) 1 options with
      | some op =>
        match _opt_try_to_call st.opt { st.ctx with op := some op, data := some cs, _long := false } with
        | none => none
        | some (called, ctx1, opt1, m) =>
          opt_parse_short options cs (if called = true ∧ 0 ≤ ctx1.len then ctx1.len.toNat else 0)
            { st with ctx := ctx1, opt := opt1, msgs := st.msgs ++ m }
      | none =>
        opt_parse_short options cs 0
          { st with ctx := { st.ctx with op := none, errors := st.ctx.errors + 1 },
                    msgs := st.msgs ++ [opt_msg_t.unrecognized [c]] }

/-- The part of the body of the `for` loop of `opt_parse` after the test of
`wait4data` (main.c 2222-2276), for the element `ptr`. -/
def opt_parse_arg (options : List option_t) (ptr : List Nat) (st : opt_state_t) :
    Option opt_state_t :=
  if ptr.getD 0 0 ≠ 45 ∨ (ptr.getD 0 0 = 45 ∧ ptr.getD 1 0 = 0) then
    -- not an option: _opt_shift(old_argc,argv,i); argc--; i--; continue;
    some st
  else if ptr.getD 1 0 = 45 then
    -- long option; the test if (*ptr == 0) break; is never true here, *ptr being '-'
    let name := ptr.drop 2
    let eq := strchr name 61
    let oplen := match eq with
      | some k => k
      | none => strlen name
    let data : Option (List Nat) := eq.map (fun k => (strdup name).drop (k + 1))
    match type_opt_find st.opt (some name) none oplen options with
    | some op =>
      match _opt_try_to_call st.opt
          { st.ctx with op := some op, data := data, _long := true, wait4data := data.isSome } with
      | none => none
      | some (_, ctx1, opt1, m) =>
        some { st with i := st.i + 1, ctx := ctx1, opt := opt1, msgs := st.msgs ++ m }
    | none =>
      some { st with i := st.i + 1,
                     ctx := { st.ctx with op := none, data := data, errors := st.ctx.errors + 1 },
                     msgs := st.msgs ++ [opt_msg_t.unrecognized (strdup name)] }
  else
    (opt_parse_short options (ptr.drop 1) 0 st).map (fun s => { s with i := s.i + 1 })

/-- The `for` loop of `opt_parse` (main.c 2209-2277) over the elements of
`argv` that are left.  An element that is not an option is moved behind the
others by `_opt_shift` and `i` stays; the order of `argv` afterwards is not
modelled. -/
def opt_parse_loop (options : List option_t) : List (List Nat) → opt_state_t → Option opt_state_t
  | [], st => some st
  | ptr :: rest, st =>
    if st.ctx.wait4data = true then
      match _opt_try_to_call st.opt { st.ctx with data := some ptr } with
      | none => none
      | some (_, ctx1, opt1, m) =>
        let st1 : opt_state_t :=
          { st with ctx := { ctx1 with wait4data := false }, opt := opt1, msgs := st.msgs ++ m }
        if 0 < ctx1.len then
          if ctx1.len = (strlen ptr : Int) then opt_parse_loop options rest { st1 with i := st1.i + 1 }
          else
            match opt_parse_arg options (ptr.drop ctx1.len.toNat) st1 with
            | none => none
            | some st2 => opt_parse_loop options rest st2
        else
          match opt_parse_arg options ptr st1 with
          | none => none
          | some st2 => opt_parse_loop options rest st2
    else
      match opt_parse_arg options ptr st with
      | none => none
      | some st2 => opt_parse_loop options rest st2

/-- The function `opt_parse` (main.c 2196-2285) called with `type_opt_find` and
the table `options`, as `main` does: the value returned (negative when an error
was counted), the options afterwards and the messages written; `argv` holds the
program name first. -/
def opt_parse (opt : opt_t) (argv : List (List Nat)) (options : List option_t) :
    Option (Int × opt_t × List opt_msg_t) :=
  match opt_parse_loop options argv.tail ⟨1, ⟨none, none, false, 0, 0, false⟩, opt, []⟩ with
  | none => none
  | some st =>
    -- if (ctx.wait4data) _opt_try_to_call(&ctx);
    let fin : Option opt_state_t :=
      if st.ctx.wait4data = true then
        (_opt_try_to_call st.opt st.ctx).map
          (fun r => { st with ctx := r.2.1, opt := r.2.2.1, msgs := st.msgs ++ r.2.2.2 })
      else some st
    match fin with
    | none => none
    | some s =>
      some (if s.ctx.errors ≠ 0 then - (s.i : Int) else (s.i : Int), s.opt, s.msgs)

/-- The long options that the text of `print_usage` presents (main.c
2678-2793), in the order of the text, each as the elements of `argv` that give
it in the form shown there: `[no]` is expanded, `--context[=NUM]` is given
without and with its argument, an argument that the text separates by a blank
is the next element, and the argument named by the text is replaced by one of
its kind, `5` for `NUM`, `less` for `COMMAND`, `black on_yellow` for `COLOR`
and `TYPE=.EXTENSION,.EXT2` for the type definitions. -/
def usage_long_options : List (List (List Nat)) :=
  [[cstr "--ignore-case"], [cstr "--smart-case"], [cstr "--nosmart-case"],
   [cstr "--invert-match"], [cstr "--word-regexp"], [cstr "--literal"], [cstr "--line=5"],
   [cstr "--files-with-matches"], [cstr "--files-without-matches"], [cstr "--passthru"],
   [cstr "--output=expr"], [cstr "--match", cstr "PATTERN"], [cstr "--max-count=5"],
   [cstr "--with-filename"], [cstr "--no-filename"], [cstr "--count"], [cstr "--column"],
   [cstr "--after-context=5"], [cstr "--before-context=5"], [cstr "--context"],
   [cstr "--context=5"], [cstr "--print0"], [cstr "--pager=less"], [cstr "--nopager"],
   [cstr "--heading"], [cstr "--noheading"], [cstr "--break"], [cstr "--nobreak"],
   [cstr "--group"], [cstr "--nogroup"], [cstr "--color"], [cstr "--nocolor"],
   [cstr "--colour"], [cstr "--nocolour"], [cstr "--color-filename=black on_yellow"],
   [cstr "--color-match=black on_yellow"], [cstr "--color-lineno=black on_yellow"],
   [cstr "--flush"], [cstr "--sort-files"], [cstr "--invert-file-match"],
   [cstr "--show-types"], [cstr "--all-types"], [cstr "--unrestricted"],
   [cstr "--ignore-dir=name"], [cstr "--noignore-dir=name"], [cstr "--recurse"],
   [cstr "--no-recurse"], [cstr "--perl"], [cstr "--type=perl"], [cstr "--noperl"],
   [cstr "--type=noperl"], [cstr "--type-set", cstr "TYPE=.EXTENSION,.EXT2"],
   [cstr "--type-add", cstr "TYPE=.EXTENSION,.EXT2"], [cstr "--follow"], [cstr "--nofollow"],
   [cstr "--noenv"], [cstr "--help"], [cstr "--man"], [cstr "--version"], [cstr "--thpppt"]]

/-- The command line `ack` followed by `form` is accepted: `opt_parse` returns
and its value is not negative (on a negative value `main` only points to the
help). -/
def opt_accepts (opt : opt_t) (form : List (List Nat)) : Bool :=
  match opt_parse opt (cstr "ack" :: form) args with
  | some r => decide (0 ≤ r.1)
  | none => false

/-- The spans `ms` (each start counted from the end of the span before, the
first from `base`) are the leftmost non-overlapping occurrences of `P` in `S`
from `base` on, as many as the limit `n` allows: every span has the length of
`P` and lies on an occurrence, no occurrence starts between the end of the
span before and that one, and when fewer than `n` spans are given no
occurrence starts at or after the end of the last one. -/
def greedy_spans (P S : List Nat) : Nat → Nat → List match_t → Prop
  | _, 0, ms => ms = []
  | base, _ + 1, [] => ∀ q, base ≤ q → ¬ occurs_at S P q
  | base, n + 1, x :: xs =>
    x.len = P.length ∧ occurs_at S P (base + x.start) ∧
    (∀ q, base ≤ q → q < base + x.start → ¬ occurs_at S P q) ∧
    greedy_spans P S (base + x.start + x.len) n xs

/-- A piece of what `out_context` writes for the body of a line in the colour
mode: text outside a match, the colour sequence `opt.color_match`, the text of
a match, the reset sequence. -/
inductive seg_t where
  | plain (bytes : List Nat)
  | color_start
  | hit (bytes : List Nat)
  | color_reset
  deriving DecidableEq, Repr

/-- The bytes written for a piece. -/
def seg_t.render (color_match : List Nat) : seg_t → List Nat
  | seg_t.plain l => l
  | seg_t.color_start => strdup color_match
  | seg_t.hit l => l
  | seg_t.color_reset => cstr "\x1b[0m\x1b[K"

/-- The bytes of a piece that remain when the colour sequences are deleted. -/
def seg_t.text : seg_t → List Nat
  | seg_t.plain l => l
  | seg_t.hit l => l
  | _ => []

/-- The highlighted text of a piece. -/
def seg_t.hits : seg_t → List (List Nat)
  | seg_t.hit l => [l]
  | _ => []

/-- The pieces of a line body of `len` bytes for the spans `ms`, whose starts
are counted from the end of the span before, from the offset `ptr` on: the
text before each span, the span between the colour sequences, and the text
after the last span. -/
def color_segs (buf : Nat → Nat) (len : Nat) : Nat → List match_t → List seg_t
  | ptr, [] => [seg_t.plain (mem_slice buf ptr (len - ptr))]
  | ptr, x :: xs =>
    seg_t.plain (mem_slice buf ptr x.start) :: seg_t.color_start ::
      seg_t.hit (mem_slice buf (ptr + x.start) x.len) :: seg_t.color_reset ::
      color_segs buf len (ptr + x.start + x.len) xs

/-! ## Lemmas on the line reader -/

theorem memchr_some (m : Nat → Nat) (c : Nat) : ∀ (n p q : Nat), memchr m p c n = some q →
    p ≤ q ∧ q < p + n ∧ m q = c ∧ ∀ j, p ≤ j → j < q → m j ≠ c := by
  intro n
  induction n with
  | zero => intro p q h; simp [memchr] at h
  | succ n ih =>
    intro p q h
    simp only [memchr] at h
    split at h
    · rename_i hp
      injection h with h
      subst h
      exact ⟨le_refl _, by omega, hp, fun j h1 h2 => by omega⟩
    · rename_i hp
      obtain ⟨h1, h2, h3, h4⟩ := ih (p + 1) q h
      refine ⟨by omega, by omega, h3, ?_⟩
      intro j hj1 hj2
      by_cases hjp : j = p
      · subst hjp; exact hp
      · exact h4 j (by omega) hj2

theorem memchr_none (m : Nat → Nat) (c : Nat) : ∀ (n p : Nat), memchr m p c n = none →
    ∀ j, p ≤ j → j < p + n → m j ≠ c := by
  intro n
  induction n with
  | zero => intro p _ j h1 h2; omega
  | succ n ih =>
    intro p h j h1 h2
    simp only [memchr] at h
    split at h
    · simp at h
    · rename_i hp
      by_cases hjp : j = p
      · subst hjp; exact hp
      · exact ih (p + 1) h j (by omega) (by omega)

theorem window_length (b : buf_t) : b.window.length = b.used := by
  simp [buf_t.window]

theorem window_getD (b : buf_t) (i : Nat) (h : i < b.used) : b.window.getD i 0 = b.buf (b.start + i) := by
  simp [buf_t.window, List.getD_eq_getElem?_getD, h]

theorem window_eq_of (b : buf_t) (l : List Nat) (hl : l.length = b.used)
    (h : ∀ i, i < b.used → b.buf (b.start + i) = l.getD i 0) : b.window = l := by
  apply List.ext_getElem
  · simp [buf_t.window, hl]
  · intro i h1 h2
    simp only [buf_t.window, List.getElem_map, List.getElem_range]
    rw [h i (by simpa [buf_t.window] using h1)]
    simp [List.getD_eq_getElem?_getD, h2]

theorem FREAD_spec (f : FHANDLE) (size : Nat) (hs : no_fail f.sched) :
    ∃ n : Nat, (FREAD f size).fst = (n : Int) ∧ (FREAD f size).snd.fst = f.data.take n ∧
      (FREAD f size).snd.snd.data = f.data.drop n ∧ no_fail (FREAD f size).snd.snd.sched ∧
      n ≤ size ∧ n ≤ f.data.length ∧ (0 < size → f.data ≠ [] → 0 < n) := by
  unfold FREAD
  rcases hsch : f.sched with _ | ⟨s, rest⟩
  · refine ⟨min size f.data.length, rfl, rfl, rfl, ?_, by omega, by omega, ?_⟩
    · intro s hs; simp at hs
    · intro h1 h2
      have : 0 < f.data.length := List.length_pos.mpr h2
      omega
  · cases s with
    | fail => exact absurd rfl (hs ReadStep.fail (by simp [hsch]))
    | deliver c =>
      refine ⟨min (min size (c + 1)) f.data.length, rfl, rfl, rfl, ?_, by omega, by omega, ?_⟩
      · intro s hs1; exact hs s (by simp [hsch, hs1])
      · intro h1 h2
        have : 0 < f.data.length := List.length_pos.mpr h2
        omega

/-- The window and the request that `read_file` hands to `FREAD`. -/
theorem read_file_request (b : buf_t) (f : FHANDLE) (size : Nat) (hsz : 0 < size) (hinv : b.inv) :
    ∃ (b2 : buf_t) (size2 : Nat), 0 < size2 ∧ b2.start + b2.used + size2 = b2.allocated ∧
      b2.window = b.window ∧ b2.used = b.used ∧ b.allocated ≤ b2.allocated ∧
      read_file b f size =
        if 0 < (FREAD f size2).fst then
          ((FREAD f size2).fst, { b2 with buf := mem_write b2.buf (b2.start + b2.used) (FREAD f size2).snd.fst, used := b2.used + (FREAD f size2).fst.toNat }, (FREAD f size2).snd.snd)
        else ((FREAD f size2).fst, b2, (FREAD f size2).snd.snd) := by
  unfold buf_t.inv at hinv
  by_cases h1 : b.allocated - b.used = 0
  · -- the window is full: it starts at 0 and is grown
    have hst : b.start = 0 := by omega
    refine ⟨{ b with allocated := b.allocated + size }, size, hsz, ?_, rfl, rfl, ?_, ?_⟩
    · simp only; omega
    · simp only; omega
    · have h2 : ¬ (size = 0) := by omega
      have h3 : b.allocated + size - (b.start + b.used) = size := by omega
      simp only [read_file, h1, h2, if_true, if_false, h3]
  · by_cases h2 : b.allocated - (b.start + b.used) = 0
    · -- the tail is exhausted: compact
      refine ⟨{ b with buf := if b.used ≠ 0 then memmove b.buf 0 b.start b.used else b.buf, start := 0 },
        b.allocated - b.used, by omega, ?_, ?_, rfl, le_refl _, ?_⟩
      · simp only; omega
      · apply window_eq_of
        · simp [buf_t.window]
        · intro i hi
          simp only at hi
          have hu : b.used ≠ 0 := by omega
          simp only [hu, ne_eq, not_false_eq_true, if_true, memmove, Nat.zero_add, Nat.zero_le, true_and, hi, Nat.sub_zero]
          rw [window_getD b i hi]
      · simp only [read_file, h1, h2, if_true, if_false, Nat.zero_add]
    · refine ⟨b, b.allocated - (b.start + b.used), by omega, by omega, rfl, rfl, le_refl _, ?_⟩
      simp only [read_file, h1, h2, if_true, if_false]

theorem read_file_spec (b : buf_t) (f : FHANDLE) (size : Nat) (hsz : 0 < size) (hinv : b.inv)
    (hs : no_fail f.sched) :
    ∃ n : Nat, (read_file b f size).fst = (n : Int) ∧
      (read_file b f size).snd.fst.window = b.window ++ f.data.take n ∧
      (read_file b f size).snd.snd.data = f.data.drop n ∧
      (read_file b f size).snd.fst.inv ∧ no_fail (read_file b f size).snd.snd.sched ∧
      n ≤ f.data.length ∧ (f.data ≠ [] → 0 < n) ∧
      (read_file b f size).snd.fst.used = b.used + n := by
  obtain ⟨b2, size2, hpos, hcap, hwin, hused, _, heq⟩ := read_file_request b f size hsz hinv
  obtain ⟨n, hn1, hn2, hn3, hn4, hn5, hn6, hn7⟩ := FREAD_spec f size2 hs
  rw [heq]
  by_cases hn : 0 < n
  · have hpos1 : (0 : Int) < (FREAD f size2).fst := by rw [hn1]; exact_mod_cast hn
    rw [if_pos hpos1]
    refine ⟨n, hn1, ?_, hn3, ?_, hn4, hn6, fun _ => hn, ?_⟩
    · apply window_eq_of
      · simp [hn1, ← hused, buf_t.window, hn6]
      · intro i hi
        simp only [hn1, Int.toNat_ofNat] at hi ⊢
        simp only [mem_write, hn2, List.length_take, Nat.min_eq_left hn6]
        by_cases hi2 : i < b2.used
        · have : ¬ (b2.start + b2.used ≤ b2.start + i ∧ b2.start + i < b2.start + b2.used + n) := by omega
          rw [if_neg this, ← window_getD b2 i hi2, hwin, List.getD_append _ _ _ _ (by rw [← hwin]; simpa [buf_t.window] using hi2)]
        · have : (b2.start + b2.used ≤ b2.start + i ∧ b2.start + i < b2.start + b2.used + n) := by omega
          rw [if_pos this, List.getD_append_right _ _ _ _ (by rw [← hwin]; simp [buf_t.window]; omega)]
          congr 1
          rw [← hwin]; simp [buf_t.window]; omega
    · simp only [buf_t.inv, hn1, Int.toNat_ofNat]; omega
    · simp only [hn1, Int.toNat_ofNat, hused]
  · have hn0 : n = 0 := by omega
    have hpos1 : ¬ (0 : Int) < (FREAD f size2).fst := by rw [hn1, hn0]; simp
    rw [if_neg hpos1]
    refine ⟨n, hn1, ?_, hn3, ?_, hn4, hn6, ?_, ?_⟩
    · simp [hn0, hwin]
    · simp only [buf_t.inv]; omega
    · intro h; exact absurd (hn7 hpos h) hn
    · simp [hn0, hused]


theorem first_line_of_nl : ∀ (l : List Nat) (k : Nat), k < l.length → l.getD k 0 = 0x0a →
    (∀ j, j < k → l.getD j 0 ≠ 0x0a) → first_line l = l.take (k + 1) := by
  intro l
  induction l with
  | nil => intro k hk; simp at hk
  | cons x xs ih =>
    intro k hk h10 hno
    cases k with
    | zero =>
      simp only [List.getD_cons_zero] at h10
      simp [first_line, h10]
    | succ k =>
      have hx : x ≠ 0x0a := by simpa using hno 0 (by omega)
      simp only [first_line, hx, if_false, List.take_succ_cons]
      congr 1
      apply ih k (by simpa using hk) (by simpa using h10)
      intro j hj
      simpa using hno (j + 1) (by omega)

theorem first_line_of_no_nl : ∀ (l : List Nat), (∀ j, j < l.length → l.getD j 0 ≠ 0x0a) →
    first_line l = l := by
  intro l
  induction l with
  | nil => intro _; rfl
  | cons x xs ih =>
    intro hno
    have hx : x ≠ 0x0a := by simpa using hno 0 (by simp)
    simp only [first_line, hx, if_false]
    congr 1
    apply ih
    intro j hj
    simpa using hno (j + 1) (by simpa using hj)

theorem pending_eq (file : file_t) : file.pending = file.buf.window ++ file.f.data := rfl

theorem get_line_loop_spec : ∀ (fuel start : Nat) (file : file_t), file.buf.inv →
    no_fail file.f.sched → file.f.data.length < fuel → start ≤ file.buf.used →
    (∀ j, j < start → file.buf.window.getD j 0 ≠ 0x0a) →
    ∃ ptr file1, get_line_loop fuel start file = some (ptr, file1) ∧
      file1.pending = file.pending ∧ file1.buf.inv ∧ no_fail file1.f.sched ∧
      file1.nmatches = file.nmatches ∧ file1.line = file.line ∧
      file1.is_binary = file.is_binary ∧
      (match ptr with
       | some p => ∃ k, p = file1.buf.start + k ∧ k < file1.buf.used ∧
           file1.buf.window.getD k 0 = 0x0a ∧ ∀ j, j < k → file1.buf.window.getD j 0 ≠ 0x0a
       | none => file1.f.data = [] ∧ ∀ j, j < file1.buf.used → file1.buf.window.getD j 0 ≠ 0x0a) := by
  intro fuel
  induction fuel with
  | zero => intro start file _ _ h; omega
  | succ fuel ih =>
    intro start file hinv hs hfuel hstart hno
    simp only [get_line_loop]
    rcases hm : memchr file.buf.buf (file.buf.start + start) 0x0a (file.buf.used - start) with _ | p
    · -- no newline in the window: read more
      simp only []
      have hnone := memchr_none _ _ _ _ hm
      have hno2 : ∀ j, j < file.buf.used → file.buf.window.getD j 0 ≠ 0x0a := by
        intro j hj
        by_cases hjs : j < start
        · exact hno j hjs
        · rw [window_getD _ _ hj]
          exact hnone _ (by omega) (by omega)
      obtain ⟨n, hn1, hn2, hn3, hn4, hn5, hn6, hn7, hn8⟩ :=
        read_file_spec file.buf file.f BUFFER_SIZE (by decide) hinv hs
      by_cases hn : n = 0
      · have hle : (read_file file.buf file.f BUFFER_SIZE).fst ≤ 0 := by rw [hn1, hn]; simp
        rw [if_pos hle]
        have hd : file.f.data = [] := by
          by_contra hne
          have := hn7 hne
          omega
        refine ⟨none, _, rfl, ?_, hn4, hn5, rfl, rfl, rfl, ?_, ?_⟩
        · simp only [pending_eq, hn2, hn3, hn, hd]; simp
        · simp only [hn3, hd]; simp
        · intro j hj
          simp only [hn8, hn, Nat.add_zero] at hj
          simp only [hn2, hn, List.take_zero, List.append_nil]
          exact hno2 j hj
      · have hgt : ¬ (read_file file.buf file.f BUFFER_SIZE).fst ≤ 0 := by rw [hn1]; omega
        rw [if_neg hgt]
        obtain ⟨ptr, file1, h1, h2, h3, h4, h5, h6, h7, h8⟩ :=
          ih file.buf.used
            { file with buf := (read_file file.buf file.f BUFFER_SIZE).snd.fst,
                        f := (read_file file.buf file.f BUFFER_SIZE).snd.snd }
            hn4 hn5 (by simp only [hn3, List.length_drop]; omega) (by simp only [hn8]; omega)
            (by
              intro j hj
              simp only [hn2]
              rw [List.getD_append _ _ _ _ (by simpa [buf_t.window] using hj)]
              exact hno2 j hj)
        refine ⟨ptr, file1, h1, ?_, h3, h4, h5, h6, h7, h8⟩
        rw [h2]
        simp only [pending_eq, hn2, hn3, List.append_assoc, List.take_append_drop]
    · obtain ⟨q1, q2, q3, q4⟩ := memchr_some _ _ _ _ _ hm
      refine ⟨some p, file, rfl, rfl, hinv, hs, rfl, rfl, rfl, ?_⟩
      refine ⟨p - file.buf.start, by omega, by omega, ?_, ?_⟩
      · rw [window_getD _ _ (by omega)]
        have : file.buf.start + (p - file.buf.start) = p := by omega
        rw [this]; exact q3
      · intro j hj
        by_cases hjs : j < start
        · exact hno j hjs
        · rw [window_getD _ _ (by omega)]
          exact q4 _ (by omega) (by omega)



theorem bytes_eq_of (b : buf_t) (l : List Nat) (hl : l.length = b.used)
    (h : ∀ i, i < b.used → b.buf i = l.getD i 0) : b.bytes = l := by
  apply List.ext_getElem
  · simp [buf_t.bytes, hl]
  · intro i h1 h2
    simp only [buf_t.bytes, List.getElem_map, List.getElem_range]
    rw [h i (by simpa [buf_t.bytes] using h1)]
    simp [List.getD_eq_getElem?_getD, h2]

theorem getD_take_lt (l : List Nat) (n i : Nat) (h : i < n) : (l.take n).getD i 0 = l.getD i 0 := by
  simp [List.getD_eq_getElem?_getD, List.getElem?_take, h]

theorem getD_drop_add (l : List Nat) (n i : Nat) : (l.drop n).getD i 0 = l.getD (n + i) 0 := by
  simp [List.getD_eq_getElem?_getD, List.getElem?_drop]

theorem first_line_eq_nil (l : List Nat) : first_line l = [] ↔ l = [] := by
  cases l with
  | nil => simp [first_line]
  | cons x xs =>
    simp only [first_line]
    split <;> simp

/-- What `get_line_finish` does when the loop found the line of length `len`. -/
theorem get_line_finish_spec (line : buf_t) (ptr : Option Nat) (file : file_t) (len : Nat)
    (hinv : file.buf.inv) (hlen : len ≤ file.buf.used)
    (hptr : get_line_len ptr file = len) :
    (get_line_finish line ptr file).fst = len ∧
    (get_line_finish line ptr file).snd.fst.bytes = file.buf.window.take len ∧
    (get_line_finish line ptr file).snd.fst.used = len ∧
    (get_line_finish line ptr file).snd.snd.buf.window = file.buf.window.drop len ∧
    (get_line_finish line ptr file).snd.snd.buf.inv ∧
    (get_line_finish line ptr file).snd.snd.f = file.f ∧
    (get_line_finish line ptr file).snd.snd.nmatches = file.nmatches ∧
    (get_line_finish line ptr file).snd.snd.line = file.line ∧
    (get_line_finish line ptr file).snd.snd.is_binary = file.is_binary := by
  unfold get_line_finish
  simp only [hptr]
  by_cases h0 : len = 0
  · subst h0
    simp only [ne_eq, not_true_eq_false, if_false]
    refine ⟨(by first | rfl | trivial), ?_, (by first | rfl | trivial), by simp, hinv, (by first | rfl | trivial), (by first | rfl | trivial), (by first | rfl | trivial), (by first | rfl | trivial)⟩
    simp [buf_t.bytes]
  · simp only [ne_eq, h0, not_false_eq_true, if_true]
    refine ⟨(by first | rfl | trivial), ?_, (by first | rfl | trivial), ?_, ?_, (by first | rfl | trivial), (by first | rfl | trivial), (by first | rfl | trivial), (by first | rfl | trivial)⟩
    · apply bytes_eq_of
      · simp [window_length, hlen]
      · intro i hi
        simp only at hi
        simp only [hi, if_true]
        rw [getD_take_lt _ _ _ hi, window_getD _ _ (by omega)]
    · apply window_eq_of
      · simp [window_length]
      · intro i hi
        simp only at hi
        have hu : ¬ (file.buf.used - len = 0) := by omega
        simp only [hu, if_false]
        rw [getD_drop_add, window_getD _ _ (by omega)]
        congr 1; omega
    · unfold buf_t.inv at hinv ⊢
      simp only
      split <;> omega

theorem get_line_spec (line : buf_t) (file : file_t) (hinv : file.buf.inv)
    (hs : no_fail file.f.sched) :
    ∃ len line1 file1, get_line line file = some (len, line1, file1) ∧
      line1.bytes = first_line file.pending ∧ line1.used = len ∧
      len = (first_line file.pending).length ∧
      file1.pending = file.pending.drop len ∧
      file1.buf.inv ∧ no_fail file1.f.sched ∧ file1.nmatches = file.nmatches ∧
      file1.line = file.line ∧ file1.is_binary = file.is_binary ∧
      file1.buf.used + file1.f.data.length + len = file.buf.used + file.f.data.length := by
  obtain ⟨ptr, file1, h1, h2, h3, h4, h5, h6, h7, h8⟩ :=
    get_line_loop_spec (file.f.data.length + 1) 0 file hinv hs (by omega) (by omega)
      (by intro j hj; omega)
  have hlenp : file.pending.length = file.buf.used + file.f.data.length := by
    simp [pending_eq, window_length]
  have hlenp1 : file1.pending.length = file1.buf.used + file1.f.data.length := by
    simp [pending_eq, window_length]
  simp only [get_line, h1]
  cases ptr with
  | some p =>
    obtain ⟨k, hk1, hk2, hk3, hk4⟩ := h8
    obtain ⟨g1, g2, g3, g4, g5, g6, g7, g8, g9⟩ :=
      get_line_finish_spec line (some p) file1 (k + 1) h3 (by omega) (by simp only [get_line_len, hk1]; omega)
    rcases hr : get_line_finish line (some p) file1 with ⟨len, line2, file2⟩
    rw [hr] at g1 g2 g3 g4 g5 g6 g7 g8 g9
    simp only at g1 g2 g3 g4 g5 g6 g7 g8 g9
    have hfl : first_line file.pending = file1.buf.window.take (k + 1) := by
      rw [← h2, pending_eq]
      rw [first_line_of_nl (file1.buf.window ++ file1.f.data) k
        (by simp [window_length]; omega)
        (by rw [List.getD_append _ _ _ _ (by simpa [window_length] using hk2)]; exact hk3)
        (by
          intro j hj
          rw [List.getD_append _ _ _ _ (by simp only [window_length]; omega)]
          exact hk4 j hj)]
      rw [List.take_append_of_le_length (by simp only [window_length]; omega)]
    refine ⟨len, line2, file2, rfl, ?_, ?_, ?_, ?_, g5, ?_, ?_, ?_, ?_, ?_⟩
    · rw [g2, hfl]
    · rw [g3, g1]
    · rw [g1, hfl]; simp [window_length]; omega
    · rw [g1, ← h2, pending_eq, g4, g6, pending_eq,
        List.drop_append_of_le_length (by simp only [window_length]; omega)]
    · rw [g6]; exact h4
    · rw [g7, h5]
    · rw [g8, h6]
    · rw [g9, h7]
    · have := congrArg List.length g4
      simp only [window_length, List.length_drop] at this
      rw [g1, g6, this, ← hlenp, ← h2, hlenp1]
      omega
  | none =>
    obtain ⟨hd, hno⟩ := h8
    obtain ⟨g1, g2, g3, g4, g5, g6, g7, g8, g9⟩ :=
      get_line_finish_spec line none file1 file1.buf.used h3 (le_refl _) rfl
    rcases hr : get_line_finish line none file1 with ⟨len, line2, file2⟩
    rw [hr] at g1 g2 g3 g4 g5 g6 g7 g8 g9
    simp only at g1 g2 g3 g4 g5 g6 g7 g8 g9
    have hpw : file.pending = file1.buf.window := by
      rw [← h2, pending_eq, hd, List.append_nil]
    have hfl : first_line file.pending = file1.buf.window := by
      rw [hpw]
      apply first_line_of_no_nl
      intro j hj
      exact hno j (by simpa [window_length] using hj)
    have htk : file1.buf.window.take file1.buf.used = file1.buf.window := by
      apply List.take_of_length_le; simp [window_length]
    have hdr : file1.buf.window.drop file1.buf.used = [] := by
      apply List.drop_of_length_le; simp [window_length]
    refine ⟨len, line2, file2, rfl, ?_, ?_, ?_, ?_, g5, ?_, ?_, ?_, ?_, ?_⟩
    · rw [g2, hfl, htk]
    · rw [g3, g1]
    · rw [g1, hfl, window_length]
    · rw [g1, pending_eq, g4, g6, hd, hpw, hdr]; rfl
    · rw [g6]; exact h4
    · rw [g7, h5]
    · rw [g8, h6]
    · rw [g9, h7]
    · have := congrArg List.length g4
      simp only [window_length, List.length_drop] at this
      rw [g1, g6, this, ← hlenp, ← h2, hlenp1]
      omega



theorem first_line_append_drop : ∀ (l : List Nat),
    first_line l ++ l.drop (first_line l).length = l := by
  intro l
  induction l with
  | nil => rfl
  | cons x xs ih =>
    simp only [first_line]
    split
    · simp
    · simp only [List.length_cons, List.drop_succ_cons, List.cons_append, ih]

theorem first_line_no_inner_nl : ∀ (l : List Nat), 0x0a ∉ (first_line l).dropLast := by
  intro l
  induction l with
  | nil => simp [first_line]
  | cons x xs ih =>
    simp only [first_line]
    split
    · simp
    · rename_i hx
      cases hxs : first_line xs with
      | nil => simp
      | cons y ys =>
        rw [hxs] at ih
        simp only [List.dropLast_cons₂, List.mem_cons, not_or]
        exact ⟨fun h => hx h.symm, ih⟩

theorem first_line_ends_nl : ∀ (l : List Nat), l.drop (first_line l).length ≠ [] →
    (first_line l).getLast? = some 0x0a := by
  intro l
  induction l with
  | nil => intro h; simp [first_line] at h
  | cons x xs ih =>
    intro h
    simp only [first_line] at h ⊢
    split
    · rename_i hx; simp [hx]
    · rename_i hx
      simp only [hx, if_false, List.length_cons, List.drop_succ_cons] at h
      have := ih h
      cases hxs : first_line xs with
      | nil => rw [hxs] at this; simp at this
      | cons y ys =>
        rw [hxs] at this
        rw [List.getLast?_cons_cons]
        exact this

theorem read_lines_spec : ∀ (fuel : Nat) (line : buf_t) (file : file_t), file.buf.inv →
    no_fail file.f.sched → file.buf.used + file.f.data.length < fuel →
    ∃ ls, read_lines fuel line file = some ls ∧ ls.flatten = file.pending ∧
      (∀ l ∈ ls, l ≠ []) ∧
      (∀ l ∈ ls, 0x0a ∉ l.dropLast) ∧
      (∀ l ∈ ls.dropLast, l.getLast? = some 0x0a) := by
  intro fuel
  induction fuel with
  | zero => intro line file _ _ h; omega
  | succ fuel ih =>
    intro line file hinv hs hfuel
    obtain ⟨len, line1, file1, h1, h2, h3, h4, h5, h6, h7, _, _, _, h8⟩ :=
      get_line_spec line file hinv hs
    simp only [read_lines, h1]
    by_cases hlen : len = 0
    · rw [if_pos hlen]
      refine ⟨[], rfl, ?_, by simp, by simp, by simp⟩
      rw [hlen] at h4
      have := (first_line_eq_nil file.pending).mp (List.length_eq_zero.mp h4.symm)
      rw [this]; rfl
    · rw [if_neg hlen]
      obtain ⟨ls, g1, g2, g3, g4, g5⟩ := ih line1 file1 h6 h7 (by omega)
      refine ⟨line1.bytes :: ls, by rw [g1]; rfl, ?_, ?_, ?_, ?_⟩
      · rw [List.flatten_cons, g2, h5, h2, h4]
        exact first_line_append_drop _
      · intro l hl
        rcases List.mem_cons.mp hl with h | h
        · rw [h, h2]
          intro hnil
          rw [hnil] at h4
          exact hlen h4
        · exact g3 l h
      · intro l hl
        rcases List.mem_cons.mp hl with h | h
        · rw [h, h2]; exact first_line_no_inner_nl _
        · exact g4 l h
      · intro l hl
        cases ls with
        | nil => simp at hl
        | cons l2 ls2 =>
          rw [List.dropLast_cons₂] at hl
          rcases List.mem_cons.mp hl with h | h
          · rw [h, h2]
            apply first_line_ends_nl
            rw [← h4, ← h5, ← g2]
            have := g3 l2 (by simp)
            simp [List.flatten_cons, this]
          · exact g5 l h


/-! ## Claims on the line reader -/

/-- C1: line reconstruction round trip.  For every input byte sequence and
every way the reads deliver it without error, calling `get_line` on a freshly
opened file until it returns 0 yields lines whose concatenation is exactly the
input, and for a non-empty input the last line lacks a trailing 0x0A iff the
input does not end in 0x0A. -/
theorem C1_line_reconstruction (data : List Nat) (sched : List ReadStep) (line : buf_t)
    (hs : no_fail sched) :
    ∃ ls, get_lines line (file_t.opened data sched) = some ls ∧ ls.flatten = data ∧
      (data ≠ [] → ∃ last, ls.getLast? = some last ∧
        (last.getLast? ≠ some 0x0a ↔ data.getLast? ≠ some 0x0a)) := by
  obtain ⟨ls, h1, h2, h3, _, _⟩ :=
    read_lines_spec (0 + data.length + 1) line (file_t.opened data sched)
      (by simp [buf_t.inv, file_t.opened, buf_t.empty]) hs
      (by simp [file_t.opened, buf_t.empty])
  have hp : (file_t.opened data sched).pending = data := by
    simp [file_t.pending, file_t.opened, buf_t.empty, buf_t.window]
  rw [hp] at h2
  refine ⟨ls, h1, h2, ?_⟩
  intro hne
  rcases List.eq_nil_or_concat ls with h | ⟨init, last, h⟩
  · rw [h] at h2; exact absurd h2.symm hne
  · rw [List.concat_eq_append] at h
    subst h
    have hlast : last ≠ [] := h3 last (by simp)
    refine ⟨last, by simp, ?_⟩
    have : data.getLast? = last.getLast? := by
      rw [← h2, List.flatten_append, List.flatten_singleton]
      exact List.getLast?_append_of_ne_nil _ hlast
    rw [this]

/-- C1 at a concrete input: `a\nb` delivered one and two bytes at a time. -/
theorem C1_line_reconstruction_witness :
    get_lines buf_t.empty
        (file_t.opened [97, 10, 98] [ReadStep.deliver 0, ReadStep.deliver 1]) =
      some [[97, 10], [98]] ∧
    ∃ ls, get_lines buf_t.empty
        (file_t.opened [97, 10, 98] [ReadStep.deliver 0, ReadStep.deliver 1]) = some ls ∧
      ls.flatten = [97, 10, 98] ∧
      (([97, 10, 98] : List Nat) ≠ [] → ∃ last, ls.getLast? = some last ∧
        (last.getLast? ≠ some 0x0a ↔ ([97, 10, 98] : List Nat).getLast? ≠ some 0x0a)) :=
  ⟨by decide, C1_line_reconstruction [97, 10, 98] [ReadStep.deliver 0, ReadStep.deliver 1]
    buf_t.empty (by decide)⟩

/-- C2: line segmentation.  From any file state with a valid window and reads
that do not fail, the calls of `get_line` up to the first 0 result return
exactly the pending bytes of the file (so 0 is returned only when every byte
has been returned), every returned line is non-empty and has no 0x0A before
its last byte, and every line but the last ends with 0x0A. -/
theorem C2_line_segmentation (line : buf_t) (file : file_t)
    (hinv : file.buf.start + file.buf.used ≤ file.buf.allocated)
    (hs : no_fail file.f.sched) :
    ∃ ls, get_lines line file = some ls ∧ ls.flatten = file.pending ∧
      (∀ l ∈ ls, l ≠ [] ∧ 0x0a ∉ l.dropLast) ∧
      (∀ l ∈ ls.dropLast, l.getLast? = some 0x0a) := by
  obtain ⟨ls, h1, h2, h3, h4, h5⟩ :=
    read_lines_spec (file.buf.used + file.f.data.length + 1) line file hinv hs (by omega)
  exact ⟨ls, h1, h2, fun l hl => ⟨h3 l hl, h4 l hl⟩, h5⟩

/-- C2 at a concrete input: a file without final terminator. -/
theorem C2_line_segmentation_witness :
    get_lines buf_t.empty (file_t.opened [120, 10, 10, 121] [ReadStep.deliver 2]) =
      some [[120, 10], [10], [121]] ∧
    ∃ ls, get_lines buf_t.empty (file_t.opened [120, 10, 10, 121] [ReadStep.deliver 2]) = some ls ∧
      ls.flatten = (file_t.opened [120, 10, 10, 121] [ReadStep.deliver 2]).pending ∧
      (∀ l ∈ ls, l ≠ [] ∧ 0x0a ∉ l.dropLast) ∧
      (∀ l ∈ ls.dropLast, l.getLast? = some 0x0a) :=
  ⟨by decide, C2_line_segmentation buf_t.empty
    (file_t.opened [120, 10, 10, 121] [ReadStep.deliver 2]) (by decide) (by decide)⟩

theorem memcmp_eq_zero (a b : Nat → Nat) : ∀ (n p q : Nat),
    memcmp a p b q n = 0 ↔ ∀ j, j < n → a (p + j) = b (q + j) := by
  intro n
  induction n with
  | zero => intro p q; simp [memcmp]
  | succ n ih =>
    intro p q
    simp only [memcmp]
    split
    · rename_i h
      rw [ih]
      constructor
      · intro hj j hjn
        cases j with
        | zero => simpa using h
        | succ j =>
          have := hj j (by omega)
          rw [show p + (j + 1) = p + 1 + j by omega, show q + (j + 1) = q + 1 + j by omega]
          exact this
      · intro hj j hjn
        have := hj (j + 1) (by omega)
        rw [show p + 1 + j = p + (j + 1) by omega, show q + 1 + j = q + (j + 1) by omega]
        exact this
    · rename_i h
      constructor
      · intro h0
        split at h0 <;> simp at h0
      · intro hj
        exact absurd (by simpa using hj 0 (by omega)) h

theorem _strnstr3_loop_spec (m f : Nat → Nat) (xfl s eptr : Nat) :
    ∀ (fuel ptr : Nat), s ≤ ptr → ptr < eptr → eptr - ptr ≤ fuel →
      (∀ q, s ≤ q → q < ptr → ¬ occ_mem m f (xfl + 1) q) →
      ∃ r, _strnstr3_loop m f xfl (f xfl) eptr fuel (some ptr) = some r ∧
        first_occ m f (xfl + 1) s eptr r := by
  intro fuel
  induction fuel with
  | zero => intro ptr _ h1 h2; omega
  | succ fuel ih =>
    intro ptr hs hlt hfuel hbefore
    simp only [_strnstr3_loop, hlt, if_true]
    by_cases hc : m (ptr + xfl) = f xfl ∧ memcmp m ptr f 0 xfl = 0
    · rw [if_pos hc]
      refine ⟨some ptr, rfl, hs, hlt, ?_, hbefore⟩
      intro j hj
      by_cases hjx : j = xfl
      · rw [hjx]; exact hc.1
      · have := (memcmp_eq_zero m f xfl ptr 0).mp hc.2 j (by omega)
        simpa using this
    · rw [if_neg hc]
      have hnot : ¬ occ_mem m f (xfl + 1) ptr := by
        intro ho
        apply hc
        refine ⟨ho xfl (by omega), (memcmp_eq_zero m f xfl ptr 0).mpr ?_⟩
        intro j hj
        simpa using ho j (by omega)
      rcases hm : memchr m (ptr + 1) (f 0) (eptr - (ptr + 1)) with _ | p2
      · refine ⟨none, by simp [_strnstr3_loop], ?_⟩
        intro q hq1 hq2 ho
        by_cases hqp : q < ptr
        · exact hbefore q hq1 hqp ho
        · by_cases hqe : q = ptr
          · rw [hqe] at ho; exact hnot ho
          · have := memchr_none m (f 0) _ _ hm q (by omega) (by omega)
            exact this (by simpa using ho 0 (by omega))
      · obtain ⟨g1, g2, g3, g4⟩ := memchr_some m (f 0) _ _ _ hm
        apply ih p2 (by omega) (by omega) (by omega)
        intro q hq1 hq2 ho
        by_cases hqp : q < ptr
        · exact hbefore q hq1 hqp ho
        · by_cases hqe : q = ptr
          · rw [hqe] at ho; exact hnot ho
          · exact g4 q (by omega) hq2 (by simpa using ho 0 (by omega))

theorem _strnstr3_spec (m f : Nat → Nat) (s sl fl : Nat) (hfl : 0 < fl) :
    ∃ r, _strnstr3 m s sl f fl = some r ∧
      match r with
      | some p => s ≤ p ∧ p + fl ≤ s + sl ∧ occ_mem m f fl p ∧
          ∀ q, s ≤ q → q < p → ¬ occ_mem m f fl q
      | none => ∀ q, s ≤ q → q + fl ≤ s + sl → ¬ occ_mem m f fl q := by
  unfold _strnstr3
  by_cases h1 : sl < fl
  · rw [if_pos h1]
    exact ⟨none, rfl, fun q h2 h3 => by omega⟩
  · rw [if_neg h1, if_pos (by omega)]
    obtain ⟨xfl, rfl⟩ : ∃ x, fl = x + 1 := ⟨fl - 1, by omega⟩
    simp only [Nat.add_sub_cancel]
    rcases hm : memchr m s (f 0) (s + sl - xfl - s) with _ | ptr
    · refine ⟨none, rfl, ?_⟩
      intro q hq1 hq2 ho
      have := memchr_none m (f 0) _ _ hm q hq1 (by omega)
      exact this (by simpa using ho 0 (by omega))
    · obtain ⟨g1, g2, g3, g4⟩ := memchr_some m (f 0) _ _ _ hm
      obtain ⟨r, hr1, hr2⟩ := _strnstr3_loop_spec m f xfl s (s + sl - xfl) (s + sl - xfl - ptr) ptr
        g1 (by omega) (le_refl _)
        (fun q hq1 hq2 ho => g4 q hq1 hq2 (by simpa using ho 0 (by omega)))
      refine ⟨r, hr1, ?_⟩
      cases r with
      | none =>
        intro q hq1 hq2 ho
        exact hr2 q hq1 (by omega) ho
      | some p =>
        obtain ⟨a1, a2, a3, a4⟩ := hr2
        exact ⟨a1, by omega, a3, a4⟩

theorem mem_of_getD (l : List Nat) (i : Nat) : mem_of l i = l.getD i 0 := rfl

theorem occurs_at_iff (s f : List Nat) (i : Nat) :
    occurs_at s f i ↔ i + f.length ≤ s.length ∧ occ_mem (mem_of s) (mem_of f) f.length i := by
  unfold occurs_at occ_mem
  constructor
  · rintro ⟨h1, h2⟩
    refine ⟨h1, ?_⟩
    intro j hj
    have h3 : (List.take f.length (List.drop i s)).getD j 0 = f.getD j 0 := by rw [h2]
    rw [getD_take_lt _ _ _ hj, getD_drop_add] at h3
    exact h3
  · rintro ⟨h1, h2⟩
    refine ⟨h1, ?_⟩
    apply List.ext_getElem
    · simp; omega
    · intro j hj1 hj2
      have := h2 j hj2
      simp only [mem_of, List.getD_eq_getElem?_getD] at this
      rw [List.getElem?_eq_getElem (by omega), List.getElem?_eq_getElem hj2] at this
      simpa using this

/-- C5: the skip-based literal search equals the naive search.  For every byte
sequence `s` (NUL bytes allowed) and every non-empty pattern `f`, `_strnstr3`
returns the smallest index at which `f` occurs in `s` (an occurrence never
extends past the end of `s`), and returns no result iff `f` does not occur. -/
theorem C5_strnstr3_is_naive_search (s f : List Nat) (hf : f ≠ []) :
    ∃ r, _strnstr3 (mem_of s) 0 s.length (mem_of f) f.length = some r ∧
      (∀ i, r = some i ↔ (occurs_at s f i ∧ ∀ j, j < i → ¬ occurs_at s f j)) ∧
      (r = none ↔ ∀ i, ¬ occurs_at s f i) := by
  have hfl : 0 < f.length := List.length_pos.mpr hf
  obtain ⟨r, hr1, hr2⟩ := _strnstr3_spec (mem_of s) (mem_of f) 0 s.length f.length hfl
  refine ⟨r, hr1, ?_⟩
  cases r with
  | none =>
    have hnone : ∀ i, ¬ occurs_at s f i := by
      intro i hi
      rw [occurs_at_iff] at hi
      exact hr2 i (Nat.zero_le _) (by omega) hi.2
    refine ⟨?_, ?_⟩
    · intro i
      constructor
      · intro h; cases h
      · intro h; exact absurd h.1 (hnone i)
    · exact ⟨fun _ => hnone, fun _ => rfl⟩
  | some p =>
    obtain ⟨_, a2, a3, a4⟩ := hr2
    have hp : occurs_at s f p := (occurs_at_iff s f p).mpr ⟨by omega, a3⟩
    have hmin : ∀ j, j < p → ¬ occurs_at s f j := by
      intro j hj ho
      exact a4 j (Nat.zero_le _) hj ((occurs_at_iff s f j).mp ho).2
    refine ⟨?_, ?_⟩
    · intro i
      constructor
      · intro h
        injection h with h
        subst h
        exact ⟨hp, hmin⟩
      · rintro ⟨h1, h2⟩
        congr 1
        by_contra hne
        rcases Nat.lt_or_gt_of_ne hne with h | h
        · exact h2 p h hp
        · exact hmin i h h1
    · constructor
      · intro h; cases h
      · intro h; exact absurd hp (h p)

/-- C5 at a concrete input: `ab` in `aab` is found at index 1. -/
theorem C5_strnstr3_is_naive_search_witness :
    _strnstr3 (mem_of [97, 97, 98]) 0 3 (mem_of [97, 98]) 2 = some (some 1) ∧
    ∃ r, _strnstr3 (mem_of [97, 97, 98]) 0 ([97, 97, 98] : List Nat).length (mem_of [97, 98])
        ([97, 98] : List Nat).length = some r ∧
      (∀ i, r = some i ↔ (occurs_at [97, 97, 98] [97, 98] i ∧
        ∀ j, j < i → ¬ occurs_at [97, 97, 98] [97, 98] j)) ∧
      (r = none ↔ ∀ i, ¬ occurs_at [97, 97, 98] [97, 98] i) :=
  ⟨by decide, C5_strnstr3_is_naive_search [97, 97, 98] [97, 98] (by decide)⟩

theorem strncasechr_loop_bounds (m : Nat → Nat) (u l : Nat) : ∀ (n p q : Nat),
    strncasechr_loop m u l p n = some q → p ≤ q ∧ q < p + n := by
  intro n
  induction n with
  | zero => intro p q h; simp [strncasechr_loop] at h
  | succ n ih =>
    intro p q h
    simp only [strncasechr_loop] at h
    split at h
    · split at h
      · injection h with h; omega
      · have := ih (p + 1) q h; omega
    · simp at h

theorem strncasechr_bounds (m : Nat → Nat) (s sl u l q : Nat)
    (h : strncasechr m s sl u l = some q) : s ≤ q ∧ q < s + sl := by
  unfold strncasechr at h
  split at h
  · exact strncasechr_loop_bounds m u l sl s q h
  · simp at h

theorem _strncasestr_loop_total (m f : Nat → Nat) (ei mi uf lf le ue lm um eptr : Nat) :
    ∀ (fuel ptr : Nat), ptr < eptr → eptr - ptr ≤ fuel →
      ∃ r, _strncasestr_loop m f ei mi uf lf le ue lm um eptr fuel (some ptr) = some r ∧
        ∀ p, r = some p → ptr ≤ p ∧ p < eptr := by
  intro fuel
  induction fuel with
  | zero => intro ptr h1 h2; omega
  | succ fuel ih =>
    intro ptr hlt hfuel
    simp only [_strncasestr_loop, hlt, if_true]
    split
    · exact ⟨some ptr, rfl, fun p hp => by injection hp with hp; omega⟩
    · rcases hm : strncasechr m (ptr + 1) (eptr - (ptr + 1)) uf lf with _ | p2
      · exact ⟨none, by simp [_strncasestr_loop], fun p hp => by cases hp⟩
      · obtain ⟨g1, g2⟩ := strncasechr_bounds _ _ _ _ _ _ hm
        obtain ⟨r, hr1, hr2⟩ := ih p2 (by omega) (by omega)
        refine ⟨r, hr1, fun p hp => ?_⟩
        have := hr2 p hp
        omega

theorem _strncasestr_total (m f : Nat → Nat) (s sl fl : Nat) :
    ∃ r, _strncasestr m s sl f fl = some r ∧
      ∀ p, r = some p → 0 < fl ∧ s ≤ p ∧ p + fl ≤ s + sl := by
  unfold _strncasestr
  by_cases h1 : sl < fl
  · rw [if_pos h1]; exact ⟨none, rfl, fun p hp => by cases hp⟩
  · rw [if_neg h1]
    by_cases h2 : fl ≠ 0
    · rw [if_pos h2]
      simp only
      rcases hm : strncasechr m s (s + sl - (fl - 1) - s) (toupper (f 0))
          (tolower (toupper (f 0))) with _ | ptr
      · exact ⟨none, rfl, fun p hp => by cases hp⟩
      · obtain ⟨g1, g2⟩ := strncasechr_bounds _ _ _ _ _ _ hm
        obtain ⟨r, hr1, hr2⟩ := _strncasestr_loop_total m f (fl - 1) ((fl - 1) / 2)
          (toupper (f 0)) (tolower (toupper (f 0))) (tolower (f (fl - 1)))
          (toupper (tolower (f (fl - 1)))) (tolower (f ((fl - 1) / 2)))
          (toupper (tolower (f ((fl - 1) / 2)))) (s + sl - (fl - 1))
          (s + sl - (fl - 1) - ptr) ptr (by omega) (le_refl _)
        refine ⟨r, hr1, fun p hp => ?_⟩
        have := hr2 p hp
        omega
    · rw [if_neg h2]; exact ⟨none, rfl, fun p hp => by cases hp⟩

theorem _strnstr3_total (m f : Nat → Nat) (s sl fl : Nat) :
    ∃ r, _strnstr3 m s sl f fl = some r ∧
      ∀ p, r = some p → 0 < fl ∧ s ≤ p ∧ p + fl ≤ s + sl := by
  by_cases hfl : 0 < fl
  · obtain ⟨r, hr1, hr2⟩ := _strnstr3_spec m f s sl fl hfl
    refine ⟨r, hr1, fun p hp => ?_⟩
    subst hp
    exact ⟨hfl, hr2.1, hr2.2.1⟩
  · refine ⟨none, ?_, fun p hp => by cases hp⟩
    have : fl = 0 := by omega
    subst this
    simp [_strnstr3]

theorem str_findall_fit (pattern : Nat → Nat) (plen : Nat) (m : Nat → Nat) :
    ∀ (n str len : Nat), ∃ ms, str_findall pattern plen m str len n = some ms ∧
      ms.length ≤ n ∧ spans_fit len ms := by
  intro n
  induction n with
  | zero => intro str len; exact ⟨[], rfl, le_refl _, trivial⟩
  | succ n ih =>
    intro str len
    simp only [str_findall]
    by_cases hlen : len = 0
    · rw [if_pos hlen]; exact ⟨[], rfl, Nat.zero_le _, trivial⟩
    · rw [if_neg hlen]
      obtain ⟨r, hr1, hr2⟩ := _strnstr3_total m pattern str len plen
      rw [hr1]
      cases r with
      | none => exact ⟨[], rfl, Nat.zero_le _, trivial⟩
      | some p =>
        obtain ⟨a1, a2, a3⟩ := hr2 p rfl
        obtain ⟨ms, h1, h2, h3⟩ := ih (p + plen) (len - (p + plen - str))
        refine ⟨⟨p - str, plen⟩ :: ms, by simp [h1], by simp; omega, a1, by simp only; omega, ?_⟩
        have : len - (p - str + plen) = len - (p + plen - str) := by omega
        simp only [this]
        exact h3

theorem str_casefindall_fit (pattern : Nat → Nat) (plen : Nat) (m : Nat → Nat) :
    ∀ (n str len : Nat), ∃ ms, str_casefindall pattern plen m str len n = some ms ∧
      ms.length ≤ n ∧ spans_fit len ms := by
  intro n
  induction n with
  | zero => intro str len; exact ⟨[], rfl, le_refl _, trivial⟩
  | succ n ih =>
    intro str len
    simp only [str_casefindall]
    by_cases hlen : len = 0
    · rw [if_pos hlen]; exact ⟨[], rfl, Nat.zero_le _, trivial⟩
    · rw [if_neg hlen]
      obtain ⟨r, hr1, hr2⟩ := _strncasestr_total m pattern str len plen
      rw [hr1]
      cases r with
      | none => exact ⟨[], rfl, Nat.zero_le _, trivial⟩
      | some p =>
        obtain ⟨a1, a2, a3⟩ := hr2 p rfl
        obtain ⟨ms, h1, h2, h3⟩ := ih (p + plen) (len - (p + plen - str))
        refine ⟨⟨p - str, plen⟩ :: ms, by simp [h1], by simp; omega, a1, by simp only; omega, ?_⟩
        have : len - (p - str + plen) = len - (p + plen - str) := by omega
        simp only [this]
        exact h3

theorem re_findall_length (exec : List Nat → Option (Nat × Nat)) (m : Nat → Nat) :
    ∀ (n str len : Nat), (re_findall exec m str len n).length ≤ n := by
  intro n
  induction n with
  | zero => intro str len; simp [re_findall]
  | succ n ih =>
    intro str len
    simp only [re_findall]
    split
    · simp
    · split
      · simp
      · rename_i o0 o1 _
        simp only [List.length_cons]
        have := ih (str + o1) (len - o1)
        omega

theorem re_findall_fit (exec : List Nat → Option (Nat × Nat)) (m : Nat → Nat)
    (hexec : exec_ok exec) :
    ∀ (n str len : Nat), spans_fit len (re_findall exec m str len n) := by
  intro n
  induction n with
  | zero => intro str len; simp [re_findall, spans_fit]
  | succ n ih =>
    intro str len
    simp only [re_findall]
    split
    · trivial
    · split
      · trivial
      · rename_i o0 o1 he
        obtain ⟨a1, a2⟩ := hexec _ _ _ he
        simp only [mem_slice, List.length_map, List.length_range] at a2
        refine ⟨by simp only; omega, by simp only; omega, ?_⟩
        have : len - (o0 + (o1 - o0)) = len - o1 := by omega
        simp only [this]
        exact ih _ _

theorem abs_spans_of_fit : ∀ (ms : List match_t) (base len : Nat), spans_fit len ms →
    (∀ a ∈ abs_spans base ms, base ≤ a.start ∧ a.start + a.len ≤ base + len ∧ 0 < a.len) ∧
    (abs_spans base ms).Chain' (fun a b => a.start < b.start ∧ a.start + a.len ≤ b.start) := by
  intro ms
  induction ms with
  | nil => intro base len _; simp [abs_spans]
  | cons x xs ih =>
    intro base len hfit
    obtain ⟨h1, h2, h3⟩ := hfit
    obtain ⟨i1, i2⟩ := ih (base + x.start + x.len) (len - (x.start + x.len)) h3
    simp only [abs_spans]
    constructor
    · intro a ha
      rcases List.mem_cons.mp ha with h | h
      · subst h; simp only; omega
      · have := i1 a h; omega
    · rw [List.chain'_cons']
      refine ⟨?_, i2⟩
      intro b hb
      have hmem : b ∈ abs_spans (base + x.start + x.len) xs := by
        cases hxs : abs_spans (base + x.start + x.len) xs with
        | nil => rw [hxs] at hb; simp at hb
        | cons y ys =>
          rw [hxs] at hb
          simp only [List.head?_cons, Option.mem_def, Option.some.injEq] at hb
          rw [← hb]; simp
      have := i1 b hmem
      simp only
      omega

theorem spans_ordered_of_fit (ms : List match_t) (len : Nat) (h : spans_fit len ms) :
    spans_ordered len (abs_spans 0 ms) := by
  obtain ⟨h1, h2⟩ := abs_spans_of_fit ms 0 len h
  refine ⟨h2, fun a ha => ?_⟩
  have := h1 a ha
  omega

theorem exec_byte_ok (c : Nat) : exec_ok (exec_byte c) := by
  intro subject o0 o1 h
  unfold exec_byte at h
  split at h
  · simp only [Option.some.injEq, Prod.mk.injEq] at h
    omega
  · simp at h

theorem tolower_first_pair (v x : Nat) :
    (v = tolower (toupper x) ∨ v = toupper x) ↔ tolower v = tolower (toupper x) := by
  unfold tolower toupper
  split_ifs <;> omega

theorem tolower_last_pair (v y : Nat) :
    (v = tolower y ∨ v = toupper (tolower y)) ↔ tolower v = tolower y := by
  unfold tolower toupper
  split_ifs <;> omega

theorem tolower_eq_zero (v : Nat) : tolower v = 0 ↔ v = 0 := by
  unfold tolower
  by_cases h : 65 ≤ v ∧ v ≤ 90
  · rw [if_pos h]
    constructor <;> intro h1 <;> omega
  · rw [if_neg h]

theorem tolower_toupper (c : Nat) : tolower (toupper c) = tolower (tolower c) := by
  unfold tolower toupper
  split_ifs <;> omega

theorem strncasechr_loop_congr (m1 m2 : Nat → Nat) (h : case_eq m1 m2) (x : Nat) :
    ∀ (n p : Nat), strncasechr_loop m1 (toupper x) (tolower (toupper x)) p n =
      strncasechr_loop m2 (toupper x) (tolower (toupper x)) p n := by
  intro n
  induction n with
  | zero => intro p; rfl
  | succ n ih =>
    intro p
    simp only [strncasechr_loop]
    have h0 : m1 p ≠ 0 ↔ m2 p ≠ 0 := by
      rw [Ne, Ne, ← tolower_eq_zero (m1 p), ← tolower_eq_zero (m2 p), h p]
    have h1 : (m1 p = tolower (toupper x) ∨ m1 p = toupper x) ↔
        (m2 p = tolower (toupper x) ∨ m2 p = toupper x) := by
      rw [tolower_first_pair, tolower_first_pair, h p]
    by_cases c0 : m1 p ≠ 0
    · rw [if_pos c0, if_pos (h0.mp c0)]
      by_cases c1 : m1 p = tolower (toupper x) ∨ m1 p = toupper x
      · rw [if_pos c1, if_pos (h1.mp c1)]
      · rw [if_neg c1, if_neg (fun hh => c1 (h1.mpr hh))]
        exact ih (p + 1)
    · rw [if_neg c0, if_neg (fun hh => c0 (h0.mpr hh))]

theorem strncasechr_congr (m1 m2 : Nat → Nat) (h : case_eq m1 m2) (x s sl : Nat) :
    strncasechr m1 s sl (toupper x) (tolower (toupper x)) =
      strncasechr m2 s sl (toupper x) (tolower (toupper x)) := by
  unfold strncasechr
  split
  · exact strncasechr_loop_congr m1 m2 h x sl s
  · rfl

theorem strncasecmp_congr (m1 m2 f : Nat → Nat) (h : case_eq m1 m2) :
    ∀ (n p q : Nat), strncasecmp m1 p f q n = strncasecmp m2 p f q n := by
  intro n
  induction n with
  | zero => intro p q; rfl
  | succ n ih =>
    intro p q
    simp only [strncasecmp, h p, ih]

theorem _strncasestr_loop_congr (m1 m2 f : Nat → Nat) (h : case_eq m1 m2)
    (ei mi x y z eptr : Nat) :
    ∀ (fuel : Nat) (ptr : Option Nat),
      _strncasestr_loop m1 f ei mi (toupper x) (tolower (toupper x)) (tolower y)
          (toupper (tolower y)) (tolower z) (toupper (tolower z)) eptr fuel ptr =
        _strncasestr_loop m2 f ei mi (toupper x) (tolower (toupper x)) (tolower y)
          (toupper (tolower y)) (tolower z) (toupper (tolower z)) eptr fuel ptr := by
  intro fuel
  induction fuel with
  | zero => intro ptr; cases ptr <;> rfl
  | succ fuel ih =>
    intro ptr
    cases ptr with
    | none => rfl
    | some ptr =>
      simp only [_strncasestr_loop]
      have h1 : ((m1 (ptr + ei) = tolower y ∨ m1 (ptr + ei) = toupper (tolower y)) ∧
          (m1 (ptr + mi) = tolower z ∨ m1 (ptr + mi) = toupper (tolower z)) ∧
          strncasecmp m1 ptr f 0 ei = 0) ↔
          ((m2 (ptr + ei) = tolower y ∨ m2 (ptr + ei) = toupper (tolower y)) ∧
          (m2 (ptr + mi) = tolower z ∨ m2 (ptr + mi) = toupper (tolower z)) ∧
          strncasecmp m2 ptr f 0 ei = 0) := by
        rw [tolower_last_pair, tolower_last_pair, tolower_last_pair, tolower_last_pair,
          h (ptr + ei), h (ptr + mi), strncasecmp_congr m1 m2 f h]
      by_cases c0 : ptr < eptr
      · rw [if_pos c0, if_pos c0]
        by_cases c1 : (m1 (ptr + ei) = tolower y ∨ m1 (ptr + ei) = toupper (tolower y)) ∧
            (m1 (ptr + mi) = tolower z ∨ m1 (ptr + mi) = toupper (tolower z)) ∧
            strncasecmp m1 ptr f 0 ei = 0
        · rw [if_pos c1, if_pos (h1.mp c1)]
        · rw [if_neg c1, if_neg (fun hh => c1 (h1.mpr hh)), strncasechr_congr m1 m2 h]
          exact ih _
      · rw [if_neg c0, if_neg c0]

theorem _strncasestr_congr (m1 m2 f : Nat → Nat) (h : case_eq m1 m2) (s sl fl : Nat) :
    _strncasestr m1 s sl f fl = _strncasestr m2 s sl f fl := by
  unfold _strncasestr
  simp only [strncasechr_congr m1 m2 h, _strncasestr_loop_congr m1 m2 f h]

theorem str_casefindall_congr (pattern : Nat → Nat) (plen : Nat) (m1 m2 : Nat → Nat)
    (h : case_eq m1 m2) :
    ∀ (n str len : Nat), str_casefindall pattern plen m1 str len n =
      str_casefindall pattern plen m2 str len n := by
  intro n
  induction n with
  | zero => intro str len; rfl
  | succ n ih =>
    intro str len
    simp only [str_casefindall, _strncasestr_congr m1 m2 pattern h, ih]

theorem case_eq_upper_lower (S : List Nat) : case_eq (mem_of (upper S)) (mem_of (lower S)) := by
  intro i
  simp only [mem_of, upper, lower, List.getD_eq_getElem?_getD, List.getElem?_map]
  cases S[i]? with
  | none => rfl
  | some c => exact tolower_toupper c

/-! ## Claims on the pattern matchers -/

/-- C3 as stated fails: on the line `abab` the pattern `ab` yields the spans
(0,2) and (0,2), whose starts do not increase, because each start is counted
from the end of the previous span. -/
theorem C3_spans_relative_counterexample :
    ∃ ms, str_findall (mem_of [97, 98]) 2 (mem_of [97, 98, 97, 98]) 0 4 OFFSETS_SIZE = some ms ∧
      ¬ ms.Chain' (fun a b => a.start + a.len ≤ b.start) :=
  ⟨[⟨0, 2⟩, ⟨0, 2⟩], by decide, by simp⟩

/-- C3 (amended): the start of a span is stored relative to the end of the
previous span.  For every pattern, input line, limit and matcher variant
(`str_findall`, `str_casefindall`, and `re_findall` over a `pcre_exec` that
honours `PCRE_NOTEMPTY` and reports offsets inside the subject), the absolute
spans rebuilt from the match array are ordered by strictly increasing start,
consecutive ones satisfy `a[i].start + a[i].len <= a[i+1].start`, and every
span ends inside the line. -/
theorem C3_spans_ordered (P S : List Nat) (n : Nat)
    (exec : List Nat → Option (Nat × Nat)) (hexec : exec_ok exec) :
    (∃ ms, str_findall (mem_of P) P.length (mem_of S) 0 S.length n = some ms ∧
      spans_ordered S.length (abs_spans 0 ms)) ∧
    (∃ ms, str_casefindall (mem_of P) P.length (mem_of S) 0 S.length n = some ms ∧
      spans_ordered S.length (abs_spans 0 ms)) ∧
    spans_ordered S.length (abs_spans 0 (re_findall exec (mem_of S) 0 S.length n)) := by
  refine ⟨?_, ?_, ?_⟩
  · obtain ⟨ms, h1, _, h3⟩ := str_findall_fit (mem_of P) P.length (mem_of S) n 0 S.length
    exact ⟨ms, h1, spans_ordered_of_fit ms S.length h3⟩
  · obtain ⟨ms, h1, _, h3⟩ := str_casefindall_fit (mem_of P) P.length (mem_of S) n 0 S.length
    exact ⟨ms, h1, spans_ordered_of_fit ms S.length h3⟩
  · exact spans_ordered_of_fit _ S.length (re_findall_fit exec (mem_of S) hexec n 0 S.length)

/-- C3 (amended) at a concrete input: the line `abab`, the pattern `ab` and a
regex matching the byte `a`. -/
theorem C3_spans_ordered_witness :
    abs_spans 0 [⟨0, 2⟩, ⟨0, 2⟩] = [⟨0, 2⟩, ⟨2, 2⟩] ∧
    re_findall (exec_byte 97) (mem_of [97, 98, 97, 98]) 0 4 OFFSETS_SIZE = [⟨0, 1⟩, ⟨1, 1⟩] ∧
    ((∃ ms, str_findall (mem_of [97, 98]) ([97, 98] : List Nat).length (mem_of [97, 98, 97, 98])
        0 ([97, 98, 97, 98] : List Nat).length OFFSETS_SIZE = some ms ∧
      spans_ordered ([97, 98, 97, 98] : List Nat).length (abs_spans 0 ms)) ∧
    (∃ ms, str_casefindall (mem_of [97, 98]) ([97, 98] : List Nat).length
        (mem_of [97, 98, 97, 98]) 0 ([97, 98, 97, 98] : List Nat).length OFFSETS_SIZE = some ms ∧
      spans_ordered ([97, 98, 97, 98] : List Nat).length (abs_spans 0 ms)) ∧
    spans_ordered ([97, 98, 97, 98] : List Nat).length
      (abs_spans 0 (re_findall (exec_byte 97) (mem_of [97, 98, 97, 98]) 0
        ([97, 98, 97, 98] : List Nat).length OFFSETS_SIZE))) :=
  ⟨by decide, by decide,
    C3_spans_ordered [97, 98] [97, 98, 97, 98] OFFSETS_SIZE (exec_byte 97) (exec_byte_ok 97)⟩

/-- C4: match-count bound.  For every pattern, input and limit `n`, each
`find_all` variant returns (writes) at most `n` spans, however many
occurrences the input contains. -/
theorem C4_match_count_bound (pattern : Nat → Nat) (plen : Nat) (m : Nat → Nat)
    (str len n : Nat) (exec : List Nat → Option (Nat × Nat)) :
    (∃ ms, str_findall pattern plen m str len n = some ms ∧ ms.length ≤ n) ∧
    (∃ ms, str_casefindall pattern plen m str len n = some ms ∧ ms.length ≤ n) ∧
    (re_findall exec m str len n).length ≤ n := by
  refine ⟨?_, ?_, re_findall_length exec m n str len⟩
  · obtain ⟨ms, h1, h2, _⟩ := str_findall_fit pattern plen m n str len
    exact ⟨ms, h1, h2⟩
  · obtain ⟨ms, h1, h2, _⟩ := str_casefindall_fit pattern plen m n str len
    exact ⟨ms, h1, h2⟩

/-- C6: case-insensitive equivalence.  For every literal pattern `P`, input
`S` and limit, `str_casefindall` on the upper-cased `S` and on the lower-cased
`S` (ASCII folding) returns the same spans: same number, same `start` and
`len` values. -/
theorem C6_case_insensitive_equivalence (P S : List Nat) (n : Nat) :
    ∃ ms, str_casefindall (mem_of P) P.length (mem_of (upper S)) 0 (upper S).length n = some ms ∧
      str_casefindall (mem_of P) P.length (mem_of (lower S)) 0 (lower S).length n = some ms := by
  obtain ⟨ms, h1, _, _⟩ :=
    str_casefindall_fit (mem_of P) P.length (mem_of (upper S)) n 0 (upper S).length
  refine ⟨ms, h1, ?_⟩
  rw [← h1, str_casefindall_congr (mem_of P) P.length _ _ (case_eq_upper_lower S)]
  simp [upper, lower]

theorem agree_mono (m1 m2 : Nat → Nat) (lo hi lo2 hi2 : Nat) (h : agree m1 m2 lo hi)
    (h1 : lo ≤ lo2) (h2 : hi2 ≤ hi) : agree m1 m2 lo2 hi2 :=
  fun i a b => h i (by omega) (by omega)

theorem memchr_local (m1 m2 : Nat → Nat) (c : Nat) : ∀ (n p : Nat), agree m1 m2 p (p + n) →
    memchr m1 p c n = memchr m2 p c n := by
  intro n
  induction n with
  | zero => intro p _; rfl
  | succ n ih =>
    intro p h
    simp only [memchr, h p (le_refl _) (by omega)]
    rw [ih (p + 1) (agree_mono _ _ _ _ _ _ h (by omega) (by omega))]

theorem memcmp_local (m1 m2 f : Nat → Nat) : ∀ (n p q : Nat), agree m1 m2 p (p + n) →
    memcmp m1 p f q n = memcmp m2 p f q n := by
  intro n
  induction n with
  | zero => intro p q _; rfl
  | succ n ih =>
    intro p q h
    simp only [memcmp, h p (le_refl _) (by omega)]
    rw [ih (p + 1) (q + 1) (agree_mono _ _ _ _ _ _ h (by omega) (by omega))]

theorem _strnstr3_loop_local (m1 m2 f : Nat → Nat) (xfl e eptr s : Nat)
    (h : agree m1 m2 s (eptr + xfl)) :
    ∀ (fuel : Nat) (ptr : Option Nat), (∀ p, ptr = some p → s ≤ p) →
      _strnstr3_loop m1 f xfl e eptr fuel ptr = _strnstr3_loop m2 f xfl e eptr fuel ptr := by
  intro fuel
  induction fuel with
  | zero => intro ptr _; cases ptr <;> rfl
  | succ fuel ih =>
    intro ptr hp
    cases ptr with
    | none => rfl
    | some ptr =>
      have hs := hp ptr rfl
      simp only [_strnstr3_loop]
      by_cases c0 : ptr < eptr
      · rw [if_pos c0, if_pos c0, h (ptr + xfl) (by omega) (by omega),
          memcmp_local m1 m2 f xfl ptr 0 (agree_mono _ _ _ _ _ _ h hs (by omega)),
          memchr_local m1 m2 (f 0) _ _ (agree_mono _ _ _ _ _ _ h (by omega) (by omega))]
        rw [ih]
        intro p hm
        have := (memchr_some m2 (f 0) _ _ _ hm).1
        omega
      · rw [if_neg c0, if_neg c0]

theorem _strnstr3_local (m1 m2 f : Nat → Nat) (s sl fl : Nat) (h : agree m1 m2 s (s + sl)) :
    _strnstr3 m1 s sl f fl = _strnstr3 m2 s sl f fl := by
  unfold _strnstr3
  by_cases h1 : sl < fl
  · rw [if_pos h1, if_pos h1]
  · rw [if_neg h1, if_neg h1]
    by_cases h2 : fl ≠ 0
    · rw [if_pos h2, if_pos h2]
      simp only
      rw [memchr_local m1 m2 (f 0) _ _ (agree_mono _ _ _ _ _ _ h (le_refl _) (by omega))]
      rcases hm : memchr m2 s (f 0) (s + sl - (fl - 1) - s) with _ | ptr
      · rfl
      · simp only
        apply _strnstr3_loop_local m1 m2 f (fl - 1) _ _ s
          (agree_mono _ _ _ _ _ _ h (le_refl _) (by omega))
        intro p hp
        injection hp with hp
        have := (memchr_some m2 (f 0) _ _ _ hm).1
        omega
    · rw [if_neg h2, if_neg h2]

theorem str_findall_local (pattern : Nat → Nat) (plen : Nat) (m1 m2 : Nat → Nat) :
    ∀ (n str len : Nat), agree m1 m2 str (str + len) →
      str_findall pattern plen m1 str len n = str_findall pattern plen m2 str len n := by
  intro n
  induction n with
  | zero => intro str len _; rfl
  | succ n ih =>
    intro str len h
    simp only [str_findall]
    rw [_strnstr3_local m1 m2 pattern str len plen h]
    by_cases hlen : len = 0
    · rw [if_pos hlen, if_pos hlen]
    · rw [if_neg hlen, if_neg hlen]
      obtain ⟨r, hr1, hr2⟩ := _strnstr3_total m2 pattern str len plen
      rw [hr1]
      cases r with
      | none => rfl
      | some p =>
        obtain ⟨a1, a2, a3⟩ := hr2 p rfl
        simp only
        rw [ih (p + plen) _ (agree_mono _ _ _ _ _ _ h (by omega) (by omega))]

theorem strncasechr_loop_local (m1 m2 : Nat → Nat) (u l : Nat) : ∀ (n p : Nat),
    agree m1 m2 p (p + n) → strncasechr_loop m1 u l p n = strncasechr_loop m2 u l p n := by
  intro n
  induction n with
  | zero => intro p _; rfl
  | succ n ih =>
    intro p h
    simp only [strncasechr_loop, h p (le_refl _) (by omega)]
    rw [ih (p + 1) (agree_mono _ _ _ _ _ _ h (by omega) (by omega))]

theorem strncasechr_local (m1 m2 : Nat → Nat) (s sl u l : Nat) (h : agree m1 m2 s (s + sl)) :
    strncasechr m1 s sl u l = strncasechr m2 s sl u l := by
  unfold strncasechr
  rw [strncasechr_loop_local m1 m2 u l sl s h]

theorem strncasecmp_local (m1 m2 f : Nat → Nat) : ∀ (n p q : Nat), agree m1 m2 p (p + n) →
    strncasecmp m1 p f q n = strncasecmp m2 p f q n := by
  intro n
  induction n with
  | zero => intro p q _; rfl
  | succ n ih =>
    intro p q h
    simp only [strncasecmp, h p (le_refl _) (by omega)]
    rw [ih (p + 1) (q + 1) (agree_mono _ _ _ _ _ _ h (by omega) (by omega))]

theorem _strncasestr_loop_local (m1 m2 f : Nat → Nat) (ei mi uf lf le ue lm um eptr s : Nat)
    (hmi : mi ≤ ei) (h : agree m1 m2 s (eptr + ei)) :
    ∀ (fuel : Nat) (ptr : Option Nat), (∀ p, ptr = some p → s ≤ p) →
      _strncasestr_loop m1 f ei mi uf lf le ue lm um eptr fuel ptr =
        _strncasestr_loop m2 f ei mi uf lf le ue lm um eptr fuel ptr := by
  intro fuel
  induction fuel with
  | zero => intro ptr _; cases ptr <;> rfl
  | succ fuel ih =>
    intro ptr hp
    cases ptr with
    | none => rfl
    | some ptr =>
      have hs := hp ptr rfl
      simp only [_strncasestr_loop]
      by_cases c0 : ptr < eptr
      · rw [if_pos c0, if_pos c0, h (ptr + ei) (by omega) (by omega),
          h (ptr + mi) (by omega) (by omega),
          strncasecmp_local m1 m2 f ei ptr 0 (agree_mono _ _ _ _ _ _ h hs (by omega)),
          strncasechr_local m1 m2 _ _ uf lf (agree_mono _ _ _ _ _ _ h (by omega) (by omega))]
        rw [ih]
        intro p hm
        have := (strncasechr_bounds _ _ _ _ _ _ hm).1
        omega
      · rw [if_neg c0, if_neg c0]

theorem _strncasestr_local (m1 m2 f : Nat → Nat) (s sl fl : Nat) (h : agree m1 m2 s (s + sl)) :
    _strncasestr m1 s sl f fl = _strncasestr m2 s sl f fl := by
  unfold _strncasestr
  by_cases h1 : sl < fl
  · rw [if_pos h1, if_pos h1]
  · rw [if_neg h1, if_neg h1]
    by_cases h2 : fl ≠ 0
    · rw [if_pos h2, if_pos h2]
      simp only
      rw [strncasechr_local m1 m2 _ _ _ _ (agree_mono _ _ _ _ _ _ h (le_refl _) (by omega))]
      rcases hm : strncasechr m2 s (s + sl - (fl - 1) - s) (toupper (f 0))
          (tolower (toupper (f 0))) with _ | ptr
      · rfl
      · simp only
        apply _strncasestr_loop_local m1 m2 f (fl - 1) _ _ _ _ _ _ _ _ s
          (Nat.div_le_self _ _) (agree_mono _ _ _ _ _ _ h (le_refl _) (by omega))
        intro p hp
        injection hp with hp
        have := (strncasechr_bounds _ _ _ _ _ _ hm).1
        omega
    · rw [if_neg h2, if_neg h2]

theorem str_casefindall_local (pattern : Nat → Nat) (plen : Nat) (m1 m2 : Nat → Nat) :
    ∀ (n str len : Nat), agree m1 m2 str (str + len) →
      str_casefindall pattern plen m1 str len n = str_casefindall pattern plen m2 str len n := by
  intro n
  induction n with
  | zero => intro str len _; rfl
  | succ n ih =>
    intro str len h
    simp only [str_casefindall]
    rw [_strncasestr_local m1 m2 pattern str len plen h]
    by_cases hlen : len = 0
    · rw [if_pos hlen, if_pos hlen]
    · rw [if_neg hlen, if_neg hlen]
      obtain ⟨r, hr1, hr2⟩ := _strncasestr_total m2 pattern str len plen
      rw [hr1]
      cases r with
      | none => rfl
      | some p =>
        obtain ⟨a1, a2, a3⟩ := hr2 p rfl
        simp only
        rw [ih (p + plen) _ (agree_mono _ _ _ _ _ _ h (by omega) (by omega))]

theorem mem_slice_local (m1 m2 : Nat → Nat) (p n : Nat) (h : agree m1 m2 p (p + n)) :
    mem_slice m1 p n = mem_slice m2 p n := by
  unfold mem_slice
  apply List.map_congr_left
  intro i hi
  exact h (p + i) (by omega) (by simp at hi; omega)

theorem re_findall_local (exec : List Nat → Option (Nat × Nat)) (m1 m2 : Nat → Nat) :
    ∀ (n str len : Nat), agree m1 m2 str (str + len) →
      re_findall exec m1 str len n = re_findall exec m2 str len n := by
  intro n
  induction n with
  | zero => intro str len _; rfl
  | succ n ih =>
    intro str len h
    simp only [re_findall]
    rw [mem_slice_local m1 m2 str len h]
    by_cases hlen : len = 0
    · rw [if_pos hlen, if_pos hlen]
    · rw [if_neg hlen, if_neg hlen]
      rcases he : exec (mem_slice m2 str len) with _ | ⟨o0, o1⟩
      · rfl
      · simp only
        rw [ih (str + o1) _ (fun i a b => h i (by omega) (by omega))]

theorem simple_match_local (re : re_t) (m1 m2 : Nat → Nat) (len n : Nat)
    (h : agree m1 m2 0 len) : simple_match re m1 len n = simple_match re m2 len n := by
  have h2 : agree m1 m2 0 (0 + len) := by simpa using h
  unfold simple_match
  cases re.findall with
  | str_findall => exact str_findall_local _ _ m1 m2 n 0 len h2
  | str_casefindall => exact str_casefindall_local _ _ m1 m2 n 0 len h2
  | re_findall => simp only [re_findall_local re.exec m1 m2 n 0 len h2]

theorem simple_match_total (re : re_t) (m : Nat → Nat) (len n : Nat) :
    ∃ ms, simple_match re m len n = some ms ∧ ms.length ≤ n := by
  unfold simple_match
  cases re.findall with
  | str_findall =>
    obtain ⟨ms, h1, h2, _⟩ := str_findall_fit re.pattern re.plen m n 0 len
    exact ⟨ms, h1, h2⟩
  | str_casefindall =>
    obtain ⟨ms, h1, h2, _⟩ := str_casefindall_fit re.pattern re.plen m n 0 len
    exact ⟨ms, h1, h2⟩
  | re_findall => exact ⟨_, rfl, re_findall_length re.exec m n 0 len⟩

theorem agree_bytes (b : buf_t) : agree b.buf (mem_of b.bytes) 0 b.used := by
  intro i _ hi
  simp [mem_of, buf_t.bytes, List.getD_eq_getElem?_getD, hi]

theorem bytes_length (b : buf_t) : b.bytes.length = b.used := by
  simp [buf_t.bytes]

theorem ring_of_congr (h1 h2 : Nat → buf_t) (n : Nat) (h : ∀ i, i < n → h1 i = h2 i) :
    ring_of h1 n = ring_of h2 n := by
  unfold ring_of
  apply List.map_congr_left
  intro i hi
  rw [h i (by simpa using hi)]

theorem ring_of_hist_set (h : Nat → buf_t) (n k : Nat) (b : buf_t) (hk : n ≤ k) :
    ring_of (hist_set h k b) n = ring_of h n := by
  apply ring_of_congr
  intro i hi
  simp only [hist_set]
  rw [if_neg (by omega)]

theorem ring_of_succ (h : Nat → buf_t) (n : Nat) :
    ring_of h (n + 1) = ring_of h n ++ [(h n).bytes] := by
  simp [ring_of, List.range_succ]

theorem ring_of_length (h : Nat → buf_t) (n : Nat) : (ring_of h n).length = n := by
  simp [ring_of]

theorem ring_of_rotate (h : Nat → buf_t) (n : Nat) :
    ring_of (rotate_history h n) n = (ring_of h n ++ [(h n).bytes]).tail := by
  rw [← ring_of_succ]
  apply List.ext_getElem
  · simp [ring_of]
  · intro i h1 h2
    have hi : i < n := by simpa [ring_of] using h1
    simp [ring_of, rotate_history, hi]

theorem flush_history_spec (o : Bool) (line : Nat) : ∀ (n k : Nat) (h : Nat → buf_t),
    (flush_history o line n k h).1 =
      flush_ring line ((List.range n).map (fun i => (h (k + i)).bytes)) ∧
    ∀ j, k + n ≤ j → (flush_history o line n k h).2 j = h j := by
  intro n
  induction n with
  | zero => intro k h; simp [flush_history, flush_ring]
  | succ n ih =>
    intro k h
    obtain ⟨i1, i2⟩ := ih (k + 1) (hist_set h k { out_context_str o (h k) with used := 0 })
    simp only [flush_history]
    constructor
    · rw [i1, List.range_succ_eq_map]
      simp only [List.map_cons, List.map_map, flush_ring, Nat.add_zero, List.length_map,
        List.length_range]
      congr 2
      apply List.map_congr_left
      intro i _
      simp only [Function.comp, hist_set]
      rw [if_neg (by omega)]
      congr 2
      omega
    · intro j hj
      rw [i2 j (by omega)]
      simp only [hist_set]
      rw [if_neg (by omega)]

theorem flush_history_out (o : Bool) (line n : Nat) (h : Nat → buf_t) :
    (flush_history o line n 0 h).1 = flush_ring line (ring_of h n) := by
  rw [(flush_history_spec o line n 0 h).1]
  simp [ring_of]

theorem split_lines_cons (n : Nat) (l : List Nat) (h : l ≠ []) :
    split_lines (n + 1) l = first_line l :: split_lines n (l.drop (first_line l).length) := by
  simp [split_lines, h]

theorem split_lines_nil (n : Nat) : split_lines n [] = [] := by
  cases n <;> simp [split_lines]

theorem split_lines_flatten : ∀ (n : Nat) (l : List Nat), l.length ≤ n →
    (split_lines n l).flatten = l := by
  intro n
  induction n with
  | zero =>
    intro l h
    have : l = [] := List.length_eq_zero.mp (by omega)
    simp [split_lines, this]
  | succ n ih =>
    intro l h
    by_cases hl : l = []
    · simp [split_lines, hl]
    · rw [split_lines_cons n l hl, List.flatten_cons, ih]
      · exact first_line_append_drop l
      · have : first_line l ≠ [] := fun hh => hl ((first_line_eq_nil l).mp hh)
        have := List.length_pos.mpr this
        simp only [List.length_drop]
        omega

theorem simple_match_line (re : re_t) (b : buf_t) :
    simple_match re b.buf b.used OFFSETS_SIZE = line_spans re b.bytes := by
  unfold line_spans
  rw [bytes_length]
  exact simple_match_local re _ _ _ _ (agree_bytes b)

theorem refines_step (opt : opt_t) (fuel : Nat) (V : vars_t) (F : file_t) (P : Nat)
    (O : List out_t) (fm : Nat) (bin : Bool) (ls : List (List Nat)) (ST : eng_t)
    (hih : ∃ ret vars1 file1 out1 st rest,
      analize_loop opt fuel V F P O = some (ret, vars1, file1, out1) ∧
      eng_run opt V.files_matched F.is_binary (split_lines fuel F.pending)
        (eng_t.of V F O) = some (ret, st, rest) ∧
      eng_t.of vars1 file1 out1 = st ∧ file1.pending = rest.flatten ∧
      file1.buf.inv ∧ no_fail file1.f.sched ∧ vars1.files_matched = V.files_matched ∧
      file1.is_binary = F.is_binary)
    (h1 : V.files_matched = fm) (h2 : F.is_binary = bin)
    (h3 : split_lines fuel F.pending = ls) (h4 : eng_t.of V F O = ST) :
    ∃ ret vars1 file1 out1 st rest,
      analize_loop opt fuel V F P O = some (ret, vars1, file1, out1) ∧
      eng_run opt fm bin ls ST = some (ret, st, rest) ∧
      eng_t.of vars1 file1 out1 = st ∧ file1.pending = rest.flatten ∧
      file1.buf.inv ∧ no_fail file1.f.sched ∧ vars1.files_matched = fm ∧
      file1.is_binary = bin := by
  subst h1 h2 h3 h4
  exact hih

theorem analize_loop_refines (opt : opt_t) : ∀ (fuel : Nat) (vars : vars_t) (file : file_t)
    (p : Nat) (out : List out_t), file.buf.inv → no_fail file.f.sched →
    file.buf.used + file.f.data.length < fuel → p = vars.hused →
    ∃ ret vars1 file1 out1 st rest,
      analize_loop opt fuel vars file p out = some (ret, vars1, file1, out1) ∧
      eng_run opt vars.files_matched file.is_binary (split_lines fuel file.pending)
        (eng_t.of vars file out) = some (ret, st, rest) ∧
      eng_t.of vars1 file1 out1 = st ∧ file1.pending = rest.flatten ∧
      file1.buf.inv ∧ no_fail file1.f.sched ∧ vars1.files_matched = vars.files_matched ∧
      file1.is_binary = file.is_binary := by
  intro fuel
  induction fuel with
  | zero => intro vars file p out _ _ h; omega
  | succ fuel ih =>
    intro vars file p out hinv hs hfuel hp
    obtain ⟨len, line1, file1, h1, h2, h3, h4, h5, h6, h7, h8, h9, h10, h11⟩ :=
      get_line_spec (vars.history p) file hinv hs
    have hplen : file.pending.length = file.buf.used + file.f.data.length := by
      simp [pending_eq, window_length]
    have hplen1 : file1.pending.length = file1.buf.used + file1.f.data.length := by
      simp [pending_eq, window_length]
    simp only [analize_loop, h1]
    by_cases hlen : len = 0
    · -- end of input
      have hnil : file.pending = [] := by
        apply (first_line_eq_nil _).mp
        apply List.length_eq_zero.mp
        omega
      rw [if_pos hlen, hnil, split_lines_nil]
      refine ⟨_, _, _, _, { eng_t.of vars file out with ring := [] }, [], rfl, ?_, ?_, ?_,
        h6, h7, rfl, h10⟩
      · simp only [eng_run, eng_t.of, h8]
      · simp only [eng_t.of, ring_of, List.range_zero, List.map_nil, h8, h9]
      · simp only [List.flatten_nil]
        rw [h5, hnil]; simp
    · have hne : file.pending ≠ [] := by
        intro hh
        rw [hh] at h4
        simp [first_line] at h4
        exact hlen h4
      rw [if_neg hlen, split_lines_cons fuel _ hne, ← h4, ← h5, ← h2]
      have hfl : file1.pending.length ≤ fuel := by omega
      have hfuel1 : file1.buf.used + file1.f.data.length < fuel := by omega
      simp only [eng_run]
      by_cases hpt : opt.passthru = true
      · -- pass-through
        rw [if_pos hpt, if_pos hpt]
        obtain ⟨ret, vars2, file2, out2, st, rest, g1, g2, g3, g4, g5, g6, g7, g8⟩ :=
          ih { vars with history := hist_set (hist_set vars.history p line1) p { line1 with used := 0 } }
            { file1 with line := file1.line + 1 } p (out ++ [out_t.line line1.bytes])
            h6 h7 hfuel1 hp
        refine ⟨ret, vars2, file2, out2, st, rest, g1, ?_, g3, g4, g5, g6, g7, ?_⟩
        · rw [← g2]
          simp only [eng_t.of, h8, h9, h10, file_t.pending]
          rw [ring_of_hist_set _ _ _ _ (by omega), ring_of_hist_set _ _ _ _ (by omega)]
        · rw [g8, h10]
      · rw [if_neg hpt, if_neg hpt, simple_match_line]
        obtain ⟨ms, hms, _⟩ := simple_match_total opt.match_ (mem_of line1.bytes) line1.bytes.length
          OFFSETS_SIZE
        have hms2 : line_spans opt.match_ line1.bytes = some ms := hms
        rw [hms2]
        simp only
        have hpu : vars.hused ≤ p := by omega
        have hfl1 : ∀ L, (flush_history opt.o L vars.hused 0 (hist_set vars.history p line1)).1 =
            flush_ring L (ring_of vars.history vars.hused) := by
          intro L
          rw [flush_history_out, ring_of_hist_set _ _ _ _ hpu]
        have hfl2 : ∀ L, (flush_history opt.o L vars.hused 0 (hist_set vars.history p line1)).2 p =
            line1 := by
          intro L
          rw [(flush_history_spec opt.o L vars.hused 0 _).2 p (by omega)]
          simp [hist_set]
        have hset : hist_set vars.history p line1 p = line1 := by simp [hist_set]
        simp only [eng_t.of, ← h8, ← h9]
        by_cases hm : opt.v ≠ decide (ms.length ≠ 0)
        · rw [if_pos hm, if_pos hm]
          by_cases hsc : opt.show_context = true
          · rw [if_pos hsc, if_pos hsc]
            by_cases hb : file.is_binary = true
            · -- binary file: notice and return
              rw [h10, if_pos hb, if_pos hb]
              refine ⟨_, _, _, _, _, _, rfl, rfl, ?_, ?_, h6, h7, rfl, rfl⟩
              · simp only [eng_t.of]
                rw [ring_of_hist_set _ _ _ _ hpu]
              · exact (split_lines_flatten fuel _ hfl).symm
            · rw [h10, if_neg hb, if_neg hb]
              by_cases hmax : opt.m ≠ 0 ∧ opt.m = file1.nmatches + 1
              · -- the match limit is reached
                rw [if_pos hmax, if_pos hmax]
                refine ⟨_, _, _, _, _, _, rfl, rfl, ?_, ?_, h6, h7, rfl, rfl⟩
                · simp only [eng_t.of, analize_finish, ring_of, List.range_zero,
                    List.map_nil, hfl1, hfl2]
                · exact (split_lines_flatten fuel _ hfl).symm
              · rw [if_neg hmax, if_neg hmax]
                refine refines_step opt fuel _ _ _ _ _ _ _ _ ?_ rfl rfl rfl ?_
                · exact ih _ _ _ _ h6 h7 hfuel1 rfl
                · simp only [eng_t.of, ring_of, List.range_zero, List.map_nil, hfl1, hfl2]
          · rw [if_neg hsc, if_neg hsc]
            by_cases hmax : opt.m ≠ 0 ∧ opt.m = file1.nmatches + 1
            · rw [if_pos hmax, if_pos hmax]
              refine ⟨_, _, _, _, _, _, rfl, rfl, ?_, ?_, h6, h7, rfl, h10⟩
              · simp only [eng_t.of, analize_finish, ring_of, List.range_zero, List.map_nil]
              · exact (split_lines_flatten fuel _ hfl).symm
            · rw [if_neg hmax, if_neg hmax]
              refine refines_step opt fuel _ _ _ _ _ _ _ _ ?_ rfl h10 rfl ?_
              · exact ih _ _ _ _ h6 h7 hfuel1 hp
              · simp only [eng_t.of, h10]
                rw [ring_of_hist_set _ _ _ _ hpu, ring_of_hist_set _ _ _ _ hpu]
        · rw [if_neg hm, if_neg hm]
          by_cases hhp : vars.hprint ≠ 0
          · -- after-context line
            rw [if_pos hhp, if_pos hhp]
            refine refines_step opt fuel _ _ _ _ _ _ _ _ ?_ rfl h10 rfl ?_
            · exact ih _ _ _ _ h6 h7 hfuel1 hp
            · simp only [eng_t.of, h10, hset]
              rw [ring_of_hist_set _ _ _ _ hpu, ring_of_hist_set _ _ _ _ hpu,
                ring_of_hist_set _ _ _ _ hpu]
          · rw [if_neg hhp, if_neg hhp]
            by_cases hB : opt.B ≠ 0
            · -- the line is buffered
              rw [if_pos hB, if_pos hB]
              by_cases hfull : vars.hused ≥ opt.B
              · refine refines_step opt fuel _ _ _ _ _ _ _ _ ?_ rfl h10 rfl ?_
                · exact ih _ _ _ _ h6 h7 hfuel1 rfl
                · simp only [eng_t.of, h10, if_pos hfull, ring_of_length]
                  rw [ring_of_hist_set _ _ _ _ (le_refl _), ring_of_rotate, ← hp, hset,
                    ring_of_hist_set _ _ _ _ (le_refl _)]
              · refine refines_step opt fuel _ _ _ _ _ _ _ _ ?_ rfl h10 rfl ?_
                · exact ih _ _ _ _ h6 h7 hfuel1 rfl
                · simp only [eng_t.of, h10, if_neg hfull, ring_of_length]
                  rw [ring_of_hist_set _ _ _ _ (le_refl _), ring_of_succ, ← hp, hset,
                    ring_of_hist_set _ _ _ _ (le_refl _)]
            · rw [if_neg hB, if_neg hB]
              refine refines_step opt fuel _ _ _ _ _ _ _ _ ?_ rfl h10 rfl ?_
              · exact ih _ _ _ _ h6 h7 hfuel1 hp
              · simp only [eng_t.of, h10]
                rw [ring_of_hist_set _ _ _ _ hpu, ring_of_hist_set _ _ _ _ hpu]

theorem split_lines_fuel : ∀ (n m : Nat) (l : List Nat), l.length ≤ n → l.length ≤ m →
    split_lines n l = split_lines m l := by
  intro n
  induction n with
  | zero =>
    intro m l h _
    have : l = [] := List.length_eq_zero.mp (by omega)
    rw [this, split_lines_nil, split_lines_nil]
  | succ n ih =>
    intro m l h1 h2
    by_cases hl : l = []
    · rw [hl, split_lines_nil, split_lines_nil]
    · have hpos : 0 < l.length := List.length_pos.mpr hl
      obtain ⟨m, rfl⟩ : ∃ m', m = m' + 1 := ⟨m - 1, by omega⟩
      have hf : first_line l ≠ [] := fun hh => hl ((first_line_eq_nil l).mp hh)
      have hfp : 0 < (first_line l).length := List.length_pos.mpr hf
      rw [split_lines_cons n l hl, split_lines_cons m l hl,
        ih m _ (by simp only [List.length_drop]; omega) (by simp only [List.length_drop]; omega)]

theorem split_lines_eq_lines_of (n : Nat) (l : List Nat) (h : l.length ≤ n) :
    split_lines n l = lines_of l :=
  split_lines_fuel n l.length l h (le_refl _)

theorem pending_length (file : file_t) :
    file.pending.length = file.buf.used + file.f.data.length := by
  simp [pending_eq, window_length]

theorem read_lines_eq : ∀ (fuel : Nat) (line : buf_t) (file : file_t), file.buf.inv →
    no_fail file.f.sched → file.buf.used + file.f.data.length < fuel →
    read_lines fuel line file = some (split_lines fuel file.pending) := by
  intro fuel
  induction fuel with
  | zero => intro line file _ _ h; omega
  | succ fuel ih =>
    intro line file hinv hs hfuel
    obtain ⟨len, line1, file1, h1, h2, h3, h4, h5, h6, h7, _, _, _, h8⟩ :=
      get_line_spec line file hinv hs
    simp only [read_lines, h1]
    by_cases hlen : len = 0
    · rw [if_pos hlen]
      rw [hlen] at h4
      have := (first_line_eq_nil file.pending).mp (List.length_eq_zero.mp h4.symm)
      rw [this, split_lines_nil]
    · rw [if_neg hlen]
      have hne : file.pending ≠ [] := by
        intro hh
        rw [hh] at h4
        simp [first_line] at h4
        exact hlen h4
      rw [ih line1 file1 h6 h7 (by omega), split_lines_cons fuel _ hne, ← h4, ← h5, ← h2]
      rfl

theorem get_lines_eq (line : buf_t) (file : file_t) (hinv : file.buf.inv)
    (hs : no_fail file.f.sched) : get_lines line file = some (lines_of file.pending) := by
  unfold get_lines
  rw [read_lines_eq _ line file hinv hs (by omega),
    split_lines_eq_lines_of _ _ (by rw [pending_length]; omega)]

theorem analize_file_refines (opt : opt_t) (vars : vars_t) (file : file_t)
    (hinv : file.buf.inv) (hs : no_fail file.f.sched) :
    ∃ ret vars1 file1 out1 st rest,
      analize_file opt vars file = some (ret, vars1, file1, out1) ∧
      eng_run opt vars.files_matched file.is_binary (lines_of file.pending)
        (eng_t.start vars file) = some (ret, st, rest) ∧
      eng_t.of vars1 file1 out1 = st ∧ file1.pending = rest.flatten ∧
      file1.buf.inv ∧ no_fail file1.f.sched ∧ vars1.files_matched = vars.files_matched ∧
      file1.is_binary = file.is_binary := by
  obtain ⟨ret, vars1, file1, out1, st, rest, g1, g2, g3, g4, g5, g6, g7, g8⟩ :=
    analize_loop_refines opt (file.buf.used + file.f.data.length + 1)
      { vars with hprint := 0, hused := 0,
                  history := hist_set vars.history 0 { vars.history 0 with used := 0 } }
      file 0 [] hinv hs (by omega) rfl
  refine ⟨ret, vars1, file1, out1, st, rest, g1, ?_, g3, g4, g5, g6, g7, g8⟩
  rw [← g2, split_lines_eq_lines_of _ _ (by rw [pending_length]; omega)]
  rfl

theorem ctx_lines_append (a b : List out_t) : ctx_lines (a ++ b) = ctx_lines a ++ ctx_lines b := by
  simp [ctx_lines, List.filterMap_append]

theorem ctx_lines_match_header (opt : opt_t) (fm n : Nat) :
    ctx_lines (match_header opt fm n) = [] := by
  unfold match_header
  simp only [ctx_lines_append]
  split_ifs <;> simp [ctx_lines]

theorem is_matched_of_spans (opt : opt_t) (l : List Nat) (ms : List match_t)
    (h : line_spans opt.match_ l = some ms) :
    is_matched opt l = (opt.v ≠ (ms.length ≠ 0 : Bool) : Bool) := by
  simp [is_matched, h]

theorem line_spans_total (re : re_t) (l : List Nat) : ∃ ms, line_spans re l = some ms := by
  obtain ⟨ms, h, _⟩ := simple_match_total re (mem_of l) l.length OFFSETS_SIZE
  exact ⟨ms, h⟩

/-- One step of `eng_run` on a matched line of a non-binary file in context
display mode. -/
theorem eng_run_matched (opt : opt_t) (fm : Nat) (l : List Nat) (ls : List (List Nat))
    (st : eng_t) (hpt : opt.passthru = false) (hsc : opt.show_context = true)
    (hl : is_matched opt l = true) :
    ∃ ms mt, line_spans opt.match_ l = some ms ∧
      eng_run opt fm false (l :: ls) st =
        (if opt.m ≠ 0 ∧ opt.m = st.nmatches + 1 then
          some (1, ⟨[], opt.A, st.nmatches + 1, st.line + 1, mt,
            st.out ++ match_header opt fm st.nmatches ++ flush_ring (st.line + 1) st.ring
              ++ [out_t.context (st.line + 1) ((mt.headD ⟨0, 0⟩).start + 1) true l ms]⟩, ls)
        else eng_run opt fm false ls ⟨[], opt.A, st.nmatches + 1, st.line + 1, mt,
            st.out ++ match_header opt fm st.nmatches ++ flush_ring (st.line + 1) st.ring
              ++ [out_t.context (st.line + 1) ((mt.headD ⟨0, 0⟩).start + 1) true l ms]⟩) := by
  obtain ⟨ms, hms⟩ := line_spans_total opt.match_ l
  refine ⟨ms, store_matches st.matches_ ms, hms, ?_⟩
  have hm : opt.v ≠ decide (ms.length ≠ 0) := by
    have := is_matched_of_spans opt l ms hms
    rw [hl] at this
    simpa using this.symm
  simp only [eng_run, hpt, hms, if_pos hm, hsc, if_true, match_header, List.append_assoc]
  simp

/-- One step of `eng_run` on a line that is not matched. -/
theorem eng_run_unmatched (opt : opt_t) (fm : Nat) (bin : Bool) (l : List Nat)
    (ls : List (List Nat)) (st : eng_t) (hpt : opt.passthru = false)
    (hl : is_matched opt l = false) :
    ∃ mt, eng_run opt fm bin (l :: ls) st =
      (if st.hprint ≠ 0 then
        eng_run opt fm bin ls ⟨st.ring, st.hprint - 1, st.nmatches, st.line + 1, mt,
          st.out ++ [out_t.context (st.line + 1) 0 false l []]⟩
      else if opt.B ≠ 0 then
        eng_run opt fm bin ls ⟨if st.ring.length ≥ opt.B then (st.ring ++ [l]).tail
          else st.ring ++ [l], st.hprint, st.nmatches, st.line + 1, mt, st.out⟩
      else eng_run opt fm bin ls ⟨st.ring, st.hprint, st.nmatches, st.line + 1, mt, st.out⟩) := by
  obtain ⟨ms, hms⟩ := line_spans_total opt.match_ l
  refine ⟨store_matches st.matches_ ms, ?_⟩
  have hm : ¬ (opt.v ≠ decide (ms.length ≠ 0)) := by
    have := is_matched_of_spans opt l ms hms
    rw [hl] at this
    simpa using this.symm
  simp only [eng_run, hpt, hms, if_neg hm]
  simp

theorem eng_run_zero_context (opt : opt_t) (fm : Nat) (hpt : opt.passthru = false)
    (hsc : opt.show_context = true) (hA : opt.A = 0) (hB : opt.B = 0) (hm : opt.m = 0) :
    ∀ (ls : List (List Nat)) (st : eng_t) (ret : Nat) (st1 : eng_t) (rest : List (List Nat)),
      st.ring = [] → st.hprint = 0 →
      eng_run opt fm false ls st = some (ret, st1, rest) →
      ctx_lines st1.out = ctx_lines st.out ++
        ((ls.enumFrom (st.line + 1)).filter (fun x => is_matched opt x.2)).map
          (fun x => (x.1, true, x.2)) := by
  intro ls
  induction ls with
  | nil =>
    intro st ret st1 rest _ _ h
    simp only [eng_run, Option.some.injEq, Prod.mk.injEq] at h
    rw [← h.2.1]
    simp
  | cons l ls ih =>
    intro st ret st1 rest hr hh h
    cases hl : is_matched opt l with
    | true =>
      obtain ⟨ms, mt, _, hstep⟩ := eng_run_matched opt fm l ls st hpt hsc hl
      rw [hstep, if_neg (by simp [hm])] at h
      have := ih _ ret st1 rest rfl hA h
      rw [this]
      simp only [ctx_lines_append, ctx_lines_match_header, hr, flush_ring, List.enumFrom_cons,
        List.filter_cons, hl, if_true, List.map_cons, List.append_assoc]
      simp [ctx_lines]
    | false =>
      obtain ⟨mt, hstep⟩ := eng_run_unmatched opt fm false l ls st hpt hl
      rw [hstep, if_neg (by simp [hh]), if_neg (by simp [hB])] at h
      have := ih ⟨st.ring, st.hprint, st.nmatches, st.line + 1, mt, st.out⟩ ret st1 rest hr hh h
      rw [this]
      simp only [List.enumFrom_cons, List.filter_cons, hl]
      simp

/-- C7 (amended): zero-context selection.  With before-context =
after-context = 0, no max-match limit, context display on, pass-through off
and a non-binary file whose reads do not fail, the calls of `out_context` made
by `analize_file` are exactly the input lines for which (invert flag XOR
`find_all` returns at least one span), each once, in input order, with their
line numbers and all as matches: no context line is emitted. -/
theorem C7_zero_context_selection (opt : opt_t) (vars : vars_t) (file : file_t) (line0 : buf_t)
    (hinv : file.buf.start + file.buf.used ≤ file.buf.allocated)
    (hs : no_fail file.f.sched) (hA : opt.A = 0) (hB : opt.B = 0) (hm : opt.m = 0)
    (hsc : opt.show_context = true) (hbin : file.is_binary = false)
    (hpt : opt.passthru = false) :
    ∃ ls ret vars1 file1 out1, get_lines line0 file = some ls ∧
      analize_file opt vars file = some (ret, vars1, file1, out1) ∧
      ctx_lines out1 =
        ((ls.enumFrom (file.line + 1)).filter (fun x => is_matched opt x.2)).map
          (fun x => (x.1, true, x.2)) := by
  obtain ⟨ret, vars1, file1, out1, st, rest, g1, g2, g3, _⟩ :=
    analize_file_refines opt vars file hinv hs
  refine ⟨lines_of file.pending, ret, vars1, file1, out1, get_lines_eq line0 file hinv hs, g1, ?_⟩
  rw [hbin] at g2
  have := eng_run_zero_context opt vars.files_matched hpt hsc hA hB hm _ _ ret st rest rfl rfl g2
  rw [← g3] at this
  simpa [eng_t.of, eng_t.start, ctx_lines] using this

theorem flush_ring_bound (line : Nat) : ∀ (ring : List (List Nat)),
    ∀ e ∈ ctx_lines (flush_ring line ring), e.1 ≤ line := by
  intro ring
  induction ring with
  | nil => intro e he; simp [flush_ring, ctx_lines] at he
  | cons l rest ih =>
    intro e he
    simp only [flush_ring, ctx_lines, List.filterMap_cons, List.mem_cons] at he
    rcases he with h | h
    · rw [h]; simp
    · exact ih e h

/-- One step of `eng_run` on a matched line of a non-binary file, in any
display mode. -/
theorem eng_run_matched_any (opt : opt_t) (fm : Nat) (l : List Nat) (ls : List (List Nat))
    (st : eng_t) (hpt : opt.passthru = false) (hl : is_matched opt l = true) :
    ∃ st3 : eng_t, st3.nmatches = st.nmatches + 1 ∧ st3.line = st.line + 1 ∧
      (∀ e ∈ ctx_lines st3.out, e ∈ ctx_lines st.out ∨ e.1 ≤ st.line + 1) ∧
      eng_run opt fm false (l :: ls) st =
        (if opt.m ≠ 0 ∧ opt.m = st.nmatches + 1 then some (1, { st3 with ring := [] }, ls)
         else eng_run opt fm false ls st3) := by
  by_cases hsc : opt.show_context = true
  · obtain ⟨ms, mt, _, hstep⟩ := eng_run_matched opt fm l ls st hpt hsc hl
    refine ⟨_, rfl, rfl, ?_, hstep⟩
    intro e he
    simp only [ctx_lines_append, ctx_lines_match_header, List.append_nil, List.mem_append] at he
    rcases he with (h | h) | h
    · exact Or.inl h
    · exact Or.inr (flush_ring_bound _ _ e h)
    · simp only [ctx_lines, List.filterMap_cons, List.filterMap_nil, List.mem_singleton] at h
      rw [h]; exact Or.inr (le_refl _)
  · obtain ⟨ms, hms⟩ := line_spans_total opt.match_ l
    have hm : opt.v ≠ decide (ms.length ≠ 0) := by
      have := is_matched_of_spans opt l ms hms
      rw [hl] at this
      simpa using this.symm
    refine ⟨⟨st.ring, st.hprint, st.nmatches + 1, st.line + 1, store_matches st.matches_ ms,
      st.out⟩, rfl, rfl, fun e he => Or.inl he, ?_⟩
    simp only [eng_run, hpt, hms, if_pos hm, hsc]
    simp

/-- One step of `eng_run` on a line that is not matched, in any display mode. -/
theorem eng_run_unmatched_any (opt : opt_t) (fm : Nat) (bin : Bool) (l : List Nat)
    (ls : List (List Nat)) (st : eng_t) (hpt : opt.passthru = false)
    (hl : is_matched opt l = false) :
    ∃ st3 : eng_t, st3.nmatches = st.nmatches ∧ st3.line = st.line + 1 ∧
      (∀ e ∈ ctx_lines st3.out, e ∈ ctx_lines st.out ∨ e.1 ≤ st.line + 1) ∧
      eng_run opt fm bin (l :: ls) st = eng_run opt fm bin ls st3 := by
  obtain ⟨mt, hstep⟩ := eng_run_unmatched opt fm bin l ls st hpt hl
  rw [hstep]
  by_cases h1 : st.hprint ≠ 0
  · rw [if_pos h1]
    refine ⟨⟨st.ring, st.hprint - 1, st.nmatches, st.line + 1, mt,
      st.out ++ [out_t.context (st.line + 1) 0 false l []]⟩, rfl, rfl, ?_, rfl⟩
    intro e he
    simp only [ctx_lines_append, List.mem_append] at he
    rcases he with h | h
    · exact Or.inl h
    · simp only [ctx_lines, List.filterMap_cons, List.filterMap_nil, List.mem_singleton] at h
      rw [h]; exact Or.inr (le_refl _)
  · rw [if_neg h1]
    by_cases h2 : opt.B ≠ 0
    · rw [if_pos h2]
      exact ⟨⟨if st.ring.length ≥ opt.B then (st.ring ++ [l]).tail else st.ring ++ [l],
        st.hprint, st.nmatches, st.line + 1, mt, st.out⟩, rfl, rfl, fun e he => Or.inl he, rfl⟩
    · rw [if_neg h2]
      exact ⟨⟨st.ring, st.hprint, st.nmatches, st.line + 1, mt, st.out⟩, rfl, rfl,
        fun e he => Or.inl he, rfl⟩

theorem eng_run_max_count (opt : opt_t) (fm : Nat) (hpt : opt.passthru = false) :
    ∀ (ls : List (List Nat)) (st : eng_t) (ret : Nat) (st1 : eng_t) (rest : List (List Nat)),
      st.nmatches < opt.m → (∀ e ∈ ctx_lines st.out, e.1 ≤ st.line) →
      eng_run opt fm false ls st = some (ret, st1, rest) →
      ∃ pre, ls = pre ++ rest ∧
        st1.nmatches = st.nmatches + pre.countP (is_matched opt) ∧
        st1.nmatches = min opt.m (st.nmatches + ls.countP (is_matched opt)) ∧
        (st1.nmatches = opt.m → ∃ l, pre.getLast? = some l ∧ is_matched opt l = true) ∧
        (st1.nmatches < opt.m → rest = []) ∧
        st1.line = st.line + pre.length ∧
        (∀ e ∈ ctx_lines st1.out, e.1 ≤ st1.line) := by
  intro ls
  induction ls with
  | nil =>
    intro st ret st1 rest hlt hb h
    simp only [eng_run, Option.some.injEq, Prod.mk.injEq] at h
    obtain ⟨_, h2, h3⟩ := h
    subst h2 h3
    refine ⟨[], rfl, by simp, by simp; omega, ?_, fun _ => rfl, by simp, hb⟩
    intro h; simp only at h; omega
  | cons l ls ih =>
    intro st ret st1 rest hlt hb h
    cases hl : is_matched opt l with
    | true =>
      obtain ⟨st3, a1, a2, a3, hstep⟩ := eng_run_matched_any opt fm l ls st hpt hl
      have hb3 : ∀ e ∈ ctx_lines st3.out, e.1 ≤ st3.line := by
        intro e he
        rcases a3 e he with h1 | h1
        · have := hb e h1; omega
        · omega
      rw [hstep] at h
      by_cases hmax : opt.m ≠ 0 ∧ opt.m = st.nmatches + 1
      · rw [if_pos hmax] at h
        simp only [Option.some.injEq, Prod.mk.injEq] at h
        obtain ⟨_, h2, h3⟩ := h
        subst h2 h3
        refine ⟨[l], rfl, ?_, ?_, ?_, ?_, ?_, hb3⟩
        · simp [hl, a1]
        · simp only [a1, List.countP_cons, hl, if_true]; omega
        · intro _; exact ⟨l, rfl, hl⟩
        · intro h; simp only [a1] at h; omega
        · simp [a2]
      · rw [if_neg hmax] at h
        obtain ⟨pre, b1, b2, b3, b4, b5, b6, b7⟩ := ih st3 ret st1 rest (by omega) hb3 h
        refine ⟨l :: pre, by rw [b1]; rfl, ?_, ?_, ?_, b5, ?_, b7⟩
        · rw [b2, a1]; simp [hl]; omega
        · rw [b3, a1]; simp [hl]; omega
        · intro hh
          obtain ⟨l2, c1, c2⟩ := b4 hh
          refine ⟨l2, ?_, c2⟩
          cases pre with
          | nil => simp at c1
          | cons x xs => rw [List.getLast?_cons_cons]; exact c1
        · rw [b6, a2]; simp; omega
    | false =>
      obtain ⟨st3, a1, a2, a3, hstep⟩ := eng_run_unmatched_any opt fm false l ls st hpt hl
      have hb3 : ∀ e ∈ ctx_lines st3.out, e.1 ≤ st3.line := by
        intro e he
        rcases a3 e he with h1 | h1
        · have := hb e h1; omega
        · omega
      rw [hstep] at h
      obtain ⟨pre, b1, b2, b3, b4, b5, b6, b7⟩ := ih st3 ret st1 rest (by omega) hb3 h
      refine ⟨l :: pre, by rw [b1]; rfl, ?_, ?_, ?_, b5, ?_, b7⟩
      · rw [b2, a1]; simp [hl]
      · rw [b3, a1]; simp [hl]
      · intro hh
        obtain ⟨l2, c1, c2⟩ := b4 hh
        refine ⟨l2, ?_, c2⟩
        cases pre with
        | nil => simp at c1
        | cons x xs => rw [List.getLast?_cons_cons]; exact c1
      · rw [b6, a2]; simp; omega

/-- C10 (amended): max-match cutoff.  For every limit `m >= 1` and every
non-binary file entered with a zero match count, with pass-through off and
reads that do not fail, `analize_file` stops reading immediately after the
m-th matched line: the lines split into the lines read `pre` and the lines
left unread `rest` (still pending in the file), the final match count is
`min(m, number of matched lines)`, when it is `m` the last line read is a
matched one, when it is smaller everything was read, and no call of
`out_context` concerns a line after the last line read. -/
theorem C10_max_match_cutoff (opt : opt_t) (vars : vars_t) (file : file_t) (line0 : buf_t)
    (hinv : file.buf.start + file.buf.used ≤ file.buf.allocated)
    (hs : no_fail file.f.sched) (hm : 1 ≤ opt.m) (hbin : file.is_binary = false)
    (hpt : opt.passthru = false) (hn : file.nmatches = 0) :
    ∃ ls ret vars1 file1 out1 pre rest, get_lines line0 file = some ls ∧
      analize_file opt vars file = some (ret, vars1, file1, out1) ∧
      ls = pre ++ rest ∧ file1.pending = rest.flatten ∧
      file1.nmatches = pre.countP (is_matched opt) ∧
      file1.nmatches = min opt.m (ls.countP (is_matched opt)) ∧
      (file1.nmatches = opt.m → ∃ l, pre.getLast? = some l ∧ is_matched opt l = true) ∧
      (file1.nmatches < opt.m → rest = []) ∧
      file1.line = file.line + pre.length ∧
      (∀ e ∈ ctx_lines out1, e.1 ≤ file.line + pre.length) := by
  obtain ⟨ret, vars1, file1, out1, st, rest, g1, g2, g3, g4, _⟩ :=
    analize_file_refines opt vars file hinv hs
  rw [hbin] at g2
  obtain ⟨pre, b1, b2, b3, b4, b5, b6, b7⟩ :=
    eng_run_max_count opt vars.files_matched hpt _ _ ret st rest
      (by simp only [eng_t.start, hn]; omega) (by simp [eng_t.start, ctx_lines]) g2
  rw [← g3] at b2 b3 b4 b5 b6 b7
  simp only [eng_t.of, eng_t.start, hn, Nat.zero_add] at b2 b3 b4 b5 b6 b7
  refine ⟨lines_of file.pending, ret, vars1, file1, out1, pre, rest,
    get_lines_eq line0 file hinv hs, g1, b1, g4, b2, b3, b4, b5, b6, ?_⟩
  intro e he
  have := b7 e he
  omega

theorem ring_push_eq (B : Nat) (ring : List (List Nat)) (l : List Nat) (h : ring.length ≤ B)
    (_hB : B ≠ 0) :
    (if ring.length ≥ B then (ring ++ [l]).tail else ring ++ [l]) =
      (ring ++ [l]).drop ((ring ++ [l]).length - B) := by
  by_cases hfull : ring.length ≥ B
  · rw [if_pos hfull]
    have : (ring ++ [l]).length - B = 1 := by simp; omega
    rw [this, List.drop_one]
  · rw [if_neg hfull]
    have : (ring ++ [l]).length - B = 0 := by simp; omega
    rw [this, List.drop_zero]

/-- A run of lines that are not matched, met with no after-context pending,
only fills the ring: it keeps the last `opt.B` lines. -/
theorem eng_run_gap (opt : opt_t) (fm : Nat) (bin : Bool) (tail : List (List Nat))
    (hpt : opt.passthru = false) :
    ∀ (gap : List (List Nat)) (st : eng_t), (∀ l ∈ gap, is_matched opt l = false) →
      st.hprint = 0 → st.ring.length ≤ opt.B →
      ∃ mt, eng_run opt fm bin (gap ++ tail) st =
        eng_run opt fm bin tail
          ⟨(st.ring ++ gap).drop ((st.ring ++ gap).length - opt.B), 0, st.nmatches,
            st.line + gap.length, mt, st.out⟩ := by
  intro gap
  induction gap with
  | nil =>
    intro st _ hh hr
    refine ⟨st.matches_, ?_⟩
    have h0 : st.ring.length - opt.B = 0 := by omega
    simp only [List.nil_append, List.append_nil, h0, List.drop_zero, List.length_nil,
      Nat.add_zero]
    rw [← hh]
  | cons l g ih =>
    intro st hg hh hr
    have hl : is_matched opt l = false := hg l (by simp)
    obtain ⟨mt, hstep⟩ := eng_run_unmatched opt fm bin l (g ++ tail) st hpt hl
    rw [List.cons_append, hstep, if_neg (by simp [hh])]
    by_cases hB : opt.B ≠ 0
    · rw [if_pos hB, ring_push_eq opt.B st.ring l hr hB]
      obtain ⟨mt2, h2⟩ := ih
        ⟨(st.ring ++ [l]).drop ((st.ring ++ [l]).length - opt.B), st.hprint, st.nmatches,
          st.line + 1, mt, st.out⟩
        (fun x hx => hg x (by simp [hx])) hh (by simp only [List.length_drop]; omega)
      refine ⟨mt2, ?_⟩
      rw [h2]
      congr 2
      · simp only
        rw [← List.drop_append_of_le_length (by simp), List.drop_drop]
        simp only [List.append_assoc, List.singleton_append]
        congr 1
        simp only [List.length_append, List.length_drop, List.length_cons, List.length_nil]
        omega
      · simp only [List.length_cons]; omega
    · rw [if_neg hB]
      have hB0 : opt.B = 0 := by omega
      have hr0 : st.ring = [] := List.length_eq_zero.mp (by omega)
      obtain ⟨mt2, h2⟩ := ih ⟨st.ring, st.hprint, st.nmatches, st.line + 1, mt, st.out⟩
        (fun x hx => hg x (by simp [hx])) hh hr
      refine ⟨mt2, ?_⟩
      rw [h2]
      congr 2
      · simp [hr0, hB0]
      · simp only [List.length_cons]; omega

theorem flush_ring_eq_enum : ∀ (r : List (List Nat)) (n : Nat),
    flush_ring (n + r.length) r = (r.enumFrom n).map (fun x => out_t.context x.1 0 false x.2 []) := by
  intro r
  induction r with
  | nil => intro n; rfl
  | cons l rest ih =>
    intro n
    simp only [flush_ring, List.length_cons, List.enumFrom_cons, List.map_cons]
    congr 1
    · congr 1; omega
    · rw [← ih (n + 1)]
      congr 1; omega

theorem enumFrom_drop : ∀ (l : List (List Nat)) (n d : Nat),
    (l.drop d).enumFrom (n + d) = (l.enumFrom n).drop d := by
  intro l
  induction l with
  | nil => intro n d; simp
  | cons x xs ih =>
    intro n d
    cases d with
    | zero => simp
    | succ d =>
      simp only [List.drop_succ_cons, List.enumFrom_cons]
      rw [← ih (n + 1) d]
      congr 1; omega

theorem flush_ring_lower (line : Nat) : ∀ (ring : List (List Nat)),
    ∀ e ∈ ctx_lines (flush_ring line ring), line - ring.length ≤ e.1 := by
  intro ring
  induction ring with
  | nil => intro e he; simp [flush_ring, ctx_lines] at he
  | cons l rest ih =>
    intro e he
    simp only [flush_ring, ctx_lines, List.filterMap_cons, List.mem_cons] at he
    rcases he with h | h
    · rw [h]; simp
    · have := ih e h
      simp only [List.length_cons]
      omega

/-- Whatever `eng_run` writes from a state whose buffered lines all come after
line `N` concerns lines after `N`. -/
theorem eng_run_later (opt : opt_t) (fm N : Nat) (hpt : opt.passthru = false) :
    ∀ (ls : List (List Nat)) (st : eng_t) (ret : Nat) (st1 : eng_t) (rest : List (List Nat)),
      N + st.ring.length ≤ st.line →
      eng_run opt fm false ls st = some (ret, st1, rest) →
      ∃ more, st1.out = st.out ++ more ∧ ∀ e ∈ ctx_lines more, N < e.1 := by
  intro ls
  induction ls with
  | nil =>
    intro st ret st1 rest _ h
    simp only [eng_run, Option.some.injEq, Prod.mk.injEq] at h
    rw [← h.2.1]
    exact ⟨[], by simp, by simp [ctx_lines]⟩
  | cons l ls ih =>
    intro st ret st1 rest hN h
    cases hl : is_matched opt l with
    | true =>
      by_cases hsc : opt.show_context = true
      · obtain ⟨ms, mt, _, hstep⟩ := eng_run_matched opt fm l ls st hpt hsc hl
        rw [hstep] at h
        obtain ⟨new, hdef⟩ : ∃ new, new = match_header opt fm st.nmatches ++
            flush_ring (st.line + 1) st.ring ++
            [out_t.context (st.line + 1) ((mt.headD ⟨0, 0⟩).start + 1) true l ms] := ⟨_, rfl⟩
        have hout : st.out ++ match_header opt fm st.nmatches ++
            flush_ring (st.line + 1) st.ring ++
            [out_t.context (st.line + 1) ((mt.headD ⟨0, 0⟩).start + 1) true l ms] =
            st.out ++ new := by
          rw [hdef]; simp only [List.append_assoc]
        rw [hout] at h
        have hnew : ∀ e ∈ ctx_lines new, N < e.1 := by
          intro e he
          rw [hdef] at he
          simp only [ctx_lines_append, ctx_lines_match_header, List.nil_append,
            List.mem_append] at he
          rcases he with h1 | h1
          · have := flush_ring_lower _ _ e h1; omega
          · simp only [ctx_lines, List.filterMap_cons, List.filterMap_nil,
              List.mem_singleton] at h1
            rw [h1]; simp only; omega
        by_cases hmax : opt.m ≠ 0 ∧ opt.m = st.nmatches + 1
        · rw [if_pos hmax] at h
          simp only [Option.some.injEq, Prod.mk.injEq] at h
          rw [← h.2.1]
          exact ⟨new, rfl, hnew⟩
        · rw [if_neg hmax] at h
          obtain ⟨more, m1, m2⟩ := ih _ ret st1 rest (by simp only [List.length_nil]; omega) h
          refine ⟨new ++ more, by rw [m1]; simp only [List.append_assoc], ?_⟩
          intro e he
          rw [ctx_lines_append, List.mem_append] at he
          rcases he with h1 | h1
          · exact hnew e h1
          · exact m2 e h1
      · obtain ⟨ms, hms⟩ := line_spans_total opt.match_ l
        have hm : opt.v ≠ decide (ms.length ≠ 0) := by
          have := is_matched_of_spans opt l ms hms
          rw [hl] at this
          simpa using this.symm
        simp only [eng_run, hpt, hms, if_pos hm, hsc] at h
        simp only [Bool.false_eq_true, if_false] at h
        by_cases hmax : opt.m ≠ 0 ∧ opt.m = st.nmatches + 1
        · rw [if_pos hmax] at h
          simp only [Option.some.injEq, Prod.mk.injEq] at h
          rw [← h.2.1]
          exact ⟨[], by simp, by simp [ctx_lines]⟩
        · rw [if_neg hmax] at h
          obtain ⟨more, m1, m2⟩ := ih _ ret st1 rest (by simp only; omega) h
          exact ⟨more, m1, m2⟩
    | false =>
      obtain ⟨mt, hstep⟩ := eng_run_unmatched opt fm false l ls st hpt hl
      rw [hstep] at h
      by_cases h1 : st.hprint ≠ 0
      · rw [if_pos h1] at h
        obtain ⟨more, m1, m2⟩ := ih _ ret st1 rest (by simp only; omega) h
        refine ⟨[out_t.context (st.line + 1) 0 false l []] ++ more,
          by rw [m1]; simp only [List.append_assoc], ?_⟩
        intro e he
        rw [ctx_lines_append, List.mem_append] at he
        rcases he with h2 | h2
        · simp only [ctx_lines, List.filterMap_cons, List.filterMap_nil,
            List.mem_singleton] at h2
          rw [h2]; simp only; omega
        · exact m2 e h2
      · rw [if_neg h1] at h
        by_cases h2 : opt.B ≠ 0
        · rw [if_pos h2] at h
          obtain ⟨more, m1, m2⟩ := ih _ ret st1 rest
            (by
              simp only
              split
              · simp only [List.length_tail, List.length_append, List.length_cons,
                  List.length_nil]; omega
              · simp only [List.length_append, List.length_cons, List.length_nil]; omega) h
          exact ⟨more, m1, m2⟩
        · rw [if_neg h2] at h
          obtain ⟨more, m1, m2⟩ := ih _ ret st1 rest (by simp only; omega) h
          exact ⟨more, m1, m2⟩

/-- The before-context window on the lines: a matched line met after a run of
`gap` lines that are not matched, entered with an empty ring and no
after-context pending. -/
theorem eng_run_before_context (opt : opt_t) (fm : Nat) (hpt : opt.passthru = false)
    (hsc : opt.show_context = true) (gap : List (List Nat)) (ml : List Nat)
    (tail : List (List Nat)) (st : eng_t) (ret : Nat) (st1 : eng_t) (rest : List (List Nat))
    (hr : st.ring = []) (hh : st.hprint = 0)
    (hg : ∀ l ∈ gap, is_matched opt l = false) (hml : is_matched opt ml = true)
    (h : eng_run opt fm false (gap ++ ml :: tail) st = some (ret, st1, rest)) :
    ∃ col ms more, st1.out = st.out ++ match_header opt fm st.nmatches ++
        ((gap.enumFrom (st.line + 1)).drop (gap.length - opt.B)).map
          (fun x => out_t.context x.1 0 false x.2 []) ++
        [out_t.context (st.line + gap.length + 1) col true ml ms] ++ more ∧
      ∀ e ∈ ctx_lines more, st.line + gap.length + 1 < e.1 := by
  obtain ⟨mt, hgap⟩ := eng_run_gap opt fm false (ml :: tail) hpt gap st hg hh (by simp [hr])
  rw [hgap] at h
  obtain ⟨ms, mt2, _, hstep⟩ := eng_run_matched opt fm ml tail
    ⟨(st.ring ++ gap).drop ((st.ring ++ gap).length - opt.B), 0, st.nmatches,
      st.line + gap.length, mt, st.out⟩ hpt hsc hml
  rw [hstep] at h
  have hflush : flush_ring (st.line + gap.length + 1)
      ((st.ring ++ gap).drop ((st.ring ++ gap).length - opt.B)) =
      ((gap.enumFrom (st.line + 1)).drop (gap.length - opt.B)).map
        (fun x => out_t.context x.1 0 false x.2 []) := by
    rw [hr, List.nil_append, ← enumFrom_drop, ← flush_ring_eq_enum]
    congr 1
    simp only [List.length_drop]
    omega
  simp only [hflush] at h
  by_cases hmax : opt.m ≠ 0 ∧ opt.m = st.nmatches + 1
  · rw [if_pos hmax] at h
    simp only [Option.some.injEq, Prod.mk.injEq] at h
    rw [← h.2.1]
    exact ⟨(mt2.headD ⟨0, 0⟩).start + 1, ms, [], by simp only [List.append_nil],
      by simp [ctx_lines]⟩
  · rw [if_neg hmax] at h
    obtain ⟨more, m1, m2⟩ := eng_run_later opt fm (st.line + gap.length + 1) hpt tail _ ret st1
      rest (by simp) h
    exact ⟨(mt2.headD ⟨0, 0⟩).start + 1, ms, more, m1, m2⟩

/-- C8 (amended): before-context window.  In context display mode, for a
non-binary file with pass-through off and reads that do not fail, and for
every `B`: when the loop of `analize_file` has no buffered line and no
after-context pending, and the next lines are `k` lines that are not matched
(`gap`) followed by a matched line `ml`, then what is written next is the
header of the match, then exactly the last `min(B, k)` lines of `gap` as
context lines, oldest first, each with its own line number, immediately
followed by the matched line; everything written later concerns later lines,
so the older lines of `gap` are never emitted. -/
theorem C8_before_context_window (opt : opt_t) (fuel : Nat) (vars : vars_t) (file : file_t)
    (out : List out_t) (line0 : buf_t) (gap : List (List Nat)) (ml : List Nat)
    (rest : List (List Nat))
    (hinv : file.buf.start + file.buf.used ≤ file.buf.allocated)
    (hs : no_fail file.f.sched) (hfuel : file.buf.used + file.f.data.length < fuel)
    (hu : vars.hused = 0) (hh : vars.hprint = 0)
    (hsc : opt.show_context = true) (hbin : file.is_binary = false)
    (hpt : opt.passthru = false)
    (hls : get_lines line0 file = some (gap ++ ml :: rest))
    (hg : ∀ l ∈ gap, is_matched opt l = false) (hml : is_matched opt ml = true) :
    ∃ ret vars1 file1 out1 col ms more,
      analize_loop opt fuel vars file 0 out = some (ret, vars1, file1, out1) ∧
      out1 = out ++ match_header opt vars.files_matched file.nmatches ++
        ((gap.enumFrom (file.line + 1)).drop (gap.length - opt.B)).map
          (fun x => out_t.context x.1 0 false x.2 []) ++
        [out_t.context (file.line + gap.length + 1) col true ml ms] ++ more ∧
      ∀ e ∈ ctx_lines more, file.line + gap.length + 1 < e.1 := by
  obtain ⟨ret, vars1, file1, out1, st, rest1, g1, g2, g3, _⟩ :=
    analize_loop_refines opt fuel vars file 0 out hinv hs hfuel hu.symm
  have hlines : split_lines fuel file.pending = gap ++ ml :: rest := by
    rw [split_lines_eq_lines_of _ _ (by rw [pending_length]; omega)]
    have := get_lines_eq line0 file hinv hs
    rw [hls] at this
    injection this with this
    exact this.symm
  rw [hlines, hbin] at g2
  obtain ⟨col, ms, more, m1, m2⟩ :=
    eng_run_before_context opt vars.files_matched hpt hsc gap ml rest (eng_t.of vars file out)
      ret st rest1 (by simp [eng_t.of, hu, ring_of]) hh hg hml g2
  rw [← g3] at m1
  exact ⟨ret, vars1, file1, out1, col, ms, more, g1, m1, m2⟩

theorem matched_at_le (opt : opt_t) (k : Nat) (ls : List (List Nat)) (m : Nat)
    (h : matched_at opt k ls m) : m ≤ k + ls.length := by
  obtain ⟨h1, l, h2, _⟩ := h
  have := (List.getElem?_eq_some_iff.mp h2).1
  omega

theorem matched_at_snoc (opt : opt_t) (k : Nat) (pre : List (List Nat)) (l : List Nat) (m : Nat) :
    matched_at opt k (pre ++ [l]) m ↔
      matched_at opt k pre m ∨ (m = k + pre.length + 1 ∧ is_matched opt l = true) := by
  unfold matched_at
  constructor
  · rintro ⟨h1, x, h2, h3⟩
    by_cases hi : m - k - 1 < pre.length
    · rw [List.getElem?_append_left hi] at h2
      exact Or.inl ⟨h1, x, h2, h3⟩
    · have hlen := (List.getElem?_eq_some_iff.mp h2).1
      simp only [List.length_append, List.length_cons, List.length_nil] at hlen
      have hm : m - k - 1 = pre.length := by omega
      rw [hm] at h2
      simp only [List.getElem?_concat_length, Option.some.injEq] at h2
      rw [h2]
      exact Or.inr ⟨by omega, h3⟩
  · rintro (⟨h1, x, h2, h3⟩ | ⟨h1, h2⟩)
    · have hi := (List.getElem?_eq_some_iff.mp h2).1
      exact ⟨h1, x, by rw [List.getElem?_append_left hi]; exact h2, h3⟩
    · refine ⟨by omega, l, ?_, h2⟩
      have hm : m - k - 1 = pre.length := by omega
      rw [hm]
      simp

theorem matched_at_mono (opt : opt_t) (k : Nat) (pre : List (List Nat)) (l : List Nat) (m : Nat)
    (h : matched_at opt k pre m) : matched_at opt k (pre ++ [l]) m :=
  (matched_at_snoc opt k pre l m).mpr (Or.inl h)

theorem emit_at_mono (opt : opt_t) (k : Nat) (pre : List (List Nat)) (l : List Nat) (n : Nat)
    (h : emit_at opt k pre n) : emit_at opt k (pre ++ [l]) n := by
  obtain ⟨h1, h2, h3⟩ := h
  refine ⟨h1, by simp; omega, ?_⟩
  rcases h3 with h | ⟨m, h, a, b⟩ | ⟨m, h, a, b⟩
  · exact Or.inl (matched_at_mono opt k pre l n h)
  · exact Or.inr (Or.inl ⟨m, matched_at_mono opt k pre l m h, a, b⟩)
  · exact Or.inr (Or.inr ⟨m, matched_at_mono opt k pre l m h, a, b⟩)

theorem getElem?_snoc_of_some (pre : List (List Nat)) (l x : List Nat) (i : Nat)
    (h : pre[i]? = some x) : (pre ++ [l])[i]? = some x := by
  have hi := (List.getElem?_eq_some_iff.mp h).1
  rw [List.getElem?_append_left hi]; exact h

theorem ctx_inv_init (opt : opt_t) (k nm : Nat) (mt : List match_t) :
    ctx_inv opt k [] ⟨[], 0, nm, k, mt, []⟩ where
  line_eq := by simp
  ring_le := by simp
  ring_eq := by simp
  ring_cap := by simp
  ring_un := by simp
  sorted := by simp [ctx_lines]
  sound := by simp [ctx_lines]
  complete := by
    intro n h
    obtain ⟨h1, h2, _⟩ := h
    simp at h2; omega
  window := by
    intro n h1 h2 _
    simp at h2; omega
  after_on := by simp
  after_off := by
    intro _ m h
    have := matched_at_le opt k [] m h
    obtain ⟨h1, _⟩ := h
    simp at this; omega

theorem ctx_lines_singleton (n c : Nat) (im : Bool) (s : List Nat) (ms : List match_t) :
    ctx_lines [out_t.context n c im s ms] = [(n, im, s)] := rfl

/-- The invariant is kept by an after-context line. -/
theorem ctx_inv_after (opt : opt_t) (k : Nat) (pre : List (List Nat)) (st : eng_t)
    (l : List Nat) (mt : List match_t) (inv : ctx_inv opt k pre st)
    (hl : is_matched opt l = false) (hp : st.hprint ≠ 0) :
    ctx_inv opt k (pre ++ [l]) ⟨st.ring, st.hprint - 1, st.nmatches, st.line + 1, mt,
      st.out ++ [out_t.context (st.line + 1) 0 false l []]⟩ := by
  obtain ⟨hr, m, hm1, hm2, hm3⟩ := inv.after_on hp
  have hline := inv.line_eq
  have hmle := matched_at_le opt k pre m hm1
  have hnew : emit_at opt k (pre ++ [l]) (k + pre.length + 1) :=
    ⟨by omega, by simp; omega, Or.inr (Or.inl ⟨m, matched_at_mono opt k pre l m hm1, by omega, by omega⟩)⟩
  have hmat : ∀ m2, matched_at opt k (pre ++ [l]) m2 → matched_at opt k pre m2 := by
    intro m2 h
    rcases (matched_at_snoc opt k pre l m2).mp h with h | ⟨_, h⟩
    · exact h
    · rw [hl] at h; exact absurd h (by simp)
  refine ⟨?_, ?_, ?_, ?_, ?_, ?_, ?_, ?_, ?_, ?_, ?_⟩
  · simp only [List.length_append, List.length_cons, List.length_nil]; omega
  · simp [hr]
  · simp [hr]
  · simp [hr]
  · simp [hr]
  · simp only [ctx_lines_append, ctx_lines_singleton, List.map_append, List.map_cons,
      List.map_nil]
    rw [List.pairwise_append]
    refine ⟨inv.sorted, by simp, ?_⟩
    intro a ha b hb
    simp only [List.mem_singleton] at hb
    obtain ⟨e, he, rfl⟩ := List.mem_map.mp ha
    have := (inv.sound e he).2.1
    omega
  · intro e he
    simp only [ctx_lines_append, ctx_lines_singleton, List.mem_append, List.mem_singleton] at he
    rcases he with he | he
    · obtain ⟨a, b, c, d, f⟩ := inv.sound e he
      refine ⟨a, ?_, getElem?_snoc_of_some pre l _ _ c, d, emit_at_mono opt k pre l _ f⟩
      simp only [hr, List.length_nil, List.length_append, List.length_cons]; omega
    · rw [he]
      refine ⟨by simp only; omega, by simp [hr, hline]; omega, ?_, by simp [hl], ?_⟩
      · simp only [hline]
        rw [show k + pre.length + 1 - k - 1 = pre.length by omega]
        simp
      · simp only [hline]; exact hnew
  · intro n h
    by_cases hn : n = k + pre.length + 1
    · refine ⟨(st.line + 1, false, l), ?_, by simp [hline, hn]⟩
      simp [ctx_lines_append, ctx_lines_singleton]
    · have hpre : emit_at opt k pre n := by
        obtain ⟨h1, h2, h3⟩ := h
        simp only [List.length_append, List.length_cons, List.length_nil] at h2
        refine ⟨h1, by omega, ?_⟩
        rcases h3 with h | ⟨m2, h, a, b⟩ | ⟨m2, h, a, b⟩
        · exact Or.inl (hmat n h)
        · exact Or.inr (Or.inl ⟨m2, hmat m2 h, a, b⟩)
        · exact Or.inr (Or.inr ⟨m2, hmat m2 h, a, b⟩)
      obtain ⟨e, he, hen⟩ := inv.complete n hpre
      exact ⟨e, by simp [ctx_lines_append, he], hen⟩
  · intro n h1 h2 h3
    simp only [hr, List.length_nil, List.length_append, List.length_cons, Nat.add_zero] at h2 h3
    by_cases hn : n = k + pre.length + 1
    · refine ⟨(st.line + 1, false, l), ?_, by simp [hline, hn]⟩
      simp [ctx_lines_append, ctx_lines_singleton]
    · obtain ⟨e, he, hen⟩ := inv.window n h1 (by simp only [hr, List.length_nil]; omega)
        (by omega)
      exact ⟨e, by simp [ctx_lines_append, he], hen⟩
  · intro _
    refine ⟨hr, m, matched_at_mono opt k pre l m hm1, ?_, fun m2 h => hm3 m2 (hmat m2 h)⟩
    simp only [List.length_append, List.length_cons, List.length_nil]
    omega
  · intro h0 m2 h
    have := hm3 m2 (hmat m2 h)
    simp only [List.length_append, List.length_cons, List.length_nil]
    simp only at h0
    omega

/-- The invariant is kept by a line that is neither matched nor shown, whatever
the ring does with it, as long as the ring stays the tail of the lines read. -/
theorem ctx_inv_skip_core (opt : opt_t) (k : Nat) (pre : List (List Nat)) (st : eng_t)
    (l : List Nat) (mt : List match_t) (ring1 : List (List Nat)) (inv : ctx_inv opt k pre st)
    (hl : is_matched opt l = false) (hp : st.hprint = 0)
    (ha : ring1.length ≤ opt.B) (hb : ring1.length ≤ pre.length + 1)
    (hc : ring1 = (pre ++ [l]).drop (pre.length + 1 - ring1.length))
    (hd : ∀ x ∈ ring1, is_matched opt x = false)
    (he : ring1.length ≤ st.ring.length + 1)
    (hf : ring1.length = st.ring.length + 1 ∨ ring1.length = opt.B) :
    ctx_inv opt k (pre ++ [l]) ⟨ring1, st.hprint, st.nmatches, st.line + 1, mt, st.out⟩ := by
  have hline := inv.line_eq
  have hmat : ∀ m2, matched_at opt k (pre ++ [l]) m2 → matched_at opt k pre m2 := by
    intro m2 h
    rcases (matched_at_snoc opt k pre l m2).mp h with h | ⟨_, h⟩
    · exact h
    · rw [hl] at h; exact absurd h (by simp)
  have hoff := inv.after_off hp
  have hemit : ∀ n, emit_at opt k (pre ++ [l]) n → emit_at opt k pre n := by
    intro n h
    obtain ⟨h1, h2, h3⟩ := h
    simp only [List.length_append, List.length_cons, List.length_nil] at h2
    rcases h3 with h | ⟨m2, h, a, b⟩ | ⟨m2, h, a, b⟩
    · have h5 := hmat n h
      exact ⟨h1, matched_at_le opt k pre n h5, Or.inl h5⟩
    · have h5 := hmat m2 h
      have := hoff m2 h5
      exact ⟨h1, by omega, Or.inr (Or.inl ⟨m2, h5, a, b⟩)⟩
    · have h5 := hmat m2 h
      have := matched_at_le opt k pre m2 h5
      exact ⟨h1, by omega, Or.inr (Or.inr ⟨m2, h5, a, b⟩)⟩
  refine ⟨?_, ?_, ?_, ha, hd, inv.sorted, ?_, ?_, ?_, ?_, ?_⟩
  · simp only [List.length_append, List.length_cons, List.length_nil]; omega
  · simpa using hb
  · simpa using hc
  · intro e hmem
    obtain ⟨a, b, c, d, f⟩ := inv.sound e hmem
    refine ⟨a, ?_, getElem?_snoc_of_some pre l _ _ c, d, emit_at_mono opt k pre l _ f⟩
    simp only [List.length_append, List.length_cons, List.length_nil]; omega
  · intro n h
    exact inv.complete n (hemit n h)
  · intro n h1 h2 h3
    simp only [List.length_append, List.length_cons, List.length_nil] at h2 h3
    rcases hf with hf | hf
    · exact inv.window n h1 (by omega) (by omega)
    · omega
  · intro h0
    exact absurd hp h0
  · intro _ m2 h
    have := hoff m2 (hmat m2 h)
    simp only [List.length_append, List.length_cons, List.length_nil]
    omega

/-- The invariant is kept when a line is pushed onto the ring. -/
theorem ctx_inv_buffer (opt : opt_t) (k : Nat) (pre : List (List Nat)) (st : eng_t)
    (l : List Nat) (mt : List match_t) (inv : ctx_inv opt k pre st)
    (hl : is_matched opt l = false) (hp : st.hprint = 0) :
    ctx_inv opt k (pre ++ [l])
      ⟨if st.ring.length ≥ opt.B then (st.ring ++ [l]).tail else st.ring ++ [l],
        st.hprint, st.nmatches, st.line + 1, mt, st.out⟩ := by
  have hcap := inv.ring_cap
  have hle := inv.ring_le
  have heq := inv.ring_eq
  by_cases hfull : st.ring.length ≥ opt.B
  · rw [if_pos hfull]
    have hlen : ((st.ring ++ [l]).tail).length = st.ring.length := by simp
    apply ctx_inv_skip_core opt k pre st l mt _ inv hl hp
    · rw [hlen]; exact hcap
    · rw [hlen]; omega
    · rw [hlen]
      conv_lhs => rw [heq]
      rw [← List.drop_append_of_le_length (by omega), ← List.drop_one, List.drop_drop]
      congr 1; omega
    · intro x hx
      have hx2 : x ∈ st.ring ++ [l] := List.mem_of_mem_tail hx
      rcases List.mem_append.mp hx2 with h | h
      · exact inv.ring_un x h
      · simp only [List.mem_singleton] at h; rw [h]; exact hl
    · rw [hlen]; omega
    · rw [hlen]; right; omega
  · rw [if_neg hfull]
    have hlen : (st.ring ++ [l]).length = st.ring.length + 1 := by simp
    apply ctx_inv_skip_core opt k pre st l mt _ inv hl hp
    · rw [hlen]; omega
    · rw [hlen]; omega
    · rw [hlen]
      conv_lhs => rw [heq]
      rw [← List.drop_append_of_le_length (by omega)]
      congr 1; omega
    · intro x hx
      rcases List.mem_append.mp hx with h | h
      · exact inv.ring_un x h
      · simp only [List.mem_singleton] at h; rw [h]; exact hl
    · rw [hlen]
    · rw [hlen]; left; rfl

/-- The invariant is kept when a line is dropped because no before-context is
asked for. -/
theorem ctx_inv_drop (opt : opt_t) (k : Nat) (pre : List (List Nat)) (st : eng_t)
    (l : List Nat) (mt : List match_t) (inv : ctx_inv opt k pre st)
    (hl : is_matched opt l = false) (hp : st.hprint = 0) (hB : ¬ opt.B ≠ 0) :
    ctx_inv opt k (pre ++ [l]) ⟨st.ring, st.hprint, st.nmatches, st.line + 1, mt, st.out⟩ := by
  have hcap := inv.ring_cap
  have hr : st.ring = [] := List.length_eq_zero.mp (by omega)
  apply ctx_inv_skip_core opt k pre st l mt _ inv hl hp
  · exact hcap
  · rw [hr]; simp
  · rw [hr]; simp
  · rw [hr]; simp
  · omega
  · right; rw [hr]; simp; omega

theorem flush_ctx_eq (n0 : Nat) (r : List (List Nat)) :
    ctx_lines (flush_ring (n0 + r.length) r) = (r.enumFrom n0).map (fun x => (x.1, false, x.2)) := by
  rw [flush_ring_eq_enum]
  simp only [ctx_lines, List.filterMap_map]
  exact congrFun (List.filterMap_eq_map (fun x : Nat × List Nat => (x.1, false, x.2))) _

theorem flush_ctx_mem (n0 : Nat) (r : List (List Nat)) (e : Nat × Bool × List Nat) :
    e ∈ ctx_lines (flush_ring (n0 + r.length) r) ↔
      ∃ i x, r[i]? = some x ∧ e = (n0 + i, false, x) := by
  rw [flush_ctx_eq, List.mem_map]
  constructor
  · rintro ⟨⟨n, x⟩, h1, h2⟩
    obtain ⟨a, b⟩ := List.mk_mem_enumFrom_iff_le_and_getElem?_sub.mp h1
    refine ⟨n - n0, x, b, ?_⟩
    rw [← h2]
    simp only [Prod.mk.injEq, and_true]
    omega
  · rintro ⟨i, x, h1, h2⟩
    exact ⟨(n0 + i, x), List.mk_add_mem_enumFrom_iff_getElem?.mpr h1, h2.symm⟩

theorem flush_ctx_sorted (n0 : Nat) (r : List (List Nat)) :
    ((ctx_lines (flush_ring (n0 + r.length) r)).map (fun e => e.1)).Pairwise
      (fun a b => a < b) := by
  rw [flush_ctx_eq, List.map_map]
  have : ((fun e : Nat × Bool × List Nat => e.1) ∘ fun x : Nat × List Nat => (x.1, false, x.2)) =
      Prod.fst := rfl
  rw [this, List.enumFrom_map_fst]
  exact List.pairwise_lt_range' n0 r.length

/-- The invariant is kept by a matched line: the ring is flushed and the line is
shown. -/
theorem ctx_inv_matched (opt : opt_t) (k fm : Nat) (pre : List (List Nat)) (st : eng_t)
    (l : List Nat) (mt ms : List match_t) (col : Nat) (inv : ctx_inv opt k pre st)
    (hl : is_matched opt l = true) :
    ctx_inv opt k (pre ++ [l]) ⟨[], opt.A, st.nmatches + 1, st.line + 1, mt,
      st.out ++ match_header opt fm st.nmatches ++ flush_ring (st.line + 1) st.ring ++
        [out_t.context (st.line + 1) col true l ms]⟩ := by
  have hline := inv.line_eq
  have hle := inv.ring_le
  have hcap := inv.ring_cap
  have heq := inv.ring_eq
  obtain ⟨n0, hn0⟩ : ∃ n0, n0 = k + pre.length + 1 - st.ring.length := ⟨_, rfl⟩
  have hfl : st.line + 1 = n0 + st.ring.length := by omega
  have hE : ctx_lines (st.out ++ match_header opt fm st.nmatches ++
      flush_ring (st.line + 1) st.ring ++ [out_t.context (st.line + 1) col true l ms]) =
      ctx_lines st.out ++ ctx_lines (flush_ring (n0 + st.ring.length) st.ring) ++
        [(k + pre.length + 1, true, l)] := by
    simp only [ctx_lines_append, ctx_lines_match_header, List.append_nil, ctx_lines_singleton,
      hfl]
    congr 3
    omega
  have hlast : matched_at opt k (pre ++ [l]) (k + pre.length + 1) :=
    (matched_at_snoc opt k pre l _).mpr (Or.inr ⟨rfl, hl⟩)
  have hring : ∀ i x, st.ring[i]? = some x → pre[pre.length - st.ring.length + i]? = some x := by
    intro i x h
    rw [heq, List.getElem?_drop] at h
    exact h
  have hwin : ∀ n, k < n → n ≤ k + pre.length → k + pre.length + 1 ≤ n + opt.B →
      ∃ e ∈ ctx_lines st.out ++ ctx_lines (flush_ring (n0 + st.ring.length) st.ring) ++
        [(k + pre.length + 1, true, l)], e.1 = n := by
    intro n h1 h2 h3
    by_cases hb : n + st.ring.length ≤ k + pre.length
    · obtain ⟨e, he, hen⟩ := inv.window n h1 hb h3
      exact ⟨e, by simp [he], hen⟩
    · have hi : n - n0 < st.ring.length := by omega
      refine ⟨(n, false, st.ring[n - n0]), ?_, rfl⟩
      simp only [List.mem_append, List.mem_singleton]
      left; right
      rw [flush_ctx_mem]
      exact ⟨n - n0, st.ring[n - n0], List.getElem?_eq_getElem hi, by
        simp only [Prod.mk.injEq, and_true]; omega⟩
  rw [show (⟨[], opt.A, st.nmatches + 1, st.line + 1, mt,
      st.out ++ match_header opt fm st.nmatches ++ flush_ring (st.line + 1) st.ring ++
        [out_t.context (st.line + 1) col true l ms]⟩ : eng_t) =
      ⟨[], opt.A, st.nmatches + 1, st.line + 1, mt,
      st.out ++ match_header opt fm st.nmatches ++ flush_ring (st.line + 1) st.ring ++
        [out_t.context (st.line + 1) col true l ms]⟩ from rfl]
  refine ⟨?_, ?_, ?_, ?_, ?_, ?_, ?_, ?_, ?_, ?_, ?_⟩
  · simp only [List.length_append, List.length_cons, List.length_nil]; omega
  · simp
  · simp
  · simp
  · simp
  · simp only [hE, List.map_append, List.map_cons, List.map_nil]
    rw [List.pairwise_append, List.pairwise_append]
    refine ⟨⟨inv.sorted, flush_ctx_sorted n0 st.ring, ?_⟩, by simp, ?_⟩
    · intro a ha b hb
      obtain ⟨e, he, rfl⟩ := List.mem_map.mp ha
      obtain ⟨e2, he2, rfl⟩ := List.mem_map.mp hb
      obtain ⟨i, x, _, h2⟩ := (flush_ctx_mem n0 st.ring e2).mp he2
      have := (inv.sound e he).2.1
      rw [h2]; simp only; omega
    · intro a ha b hb
      simp only [List.mem_singleton] at hb
      rcases List.mem_append.mp ha with ha | ha
      · obtain ⟨e, he, rfl⟩ := List.mem_map.mp ha
        have := (inv.sound e he).2.1
        omega
      · obtain ⟨e2, he2, rfl⟩ := List.mem_map.mp ha
        obtain ⟨i, x, h1, h2⟩ := (flush_ctx_mem n0 st.ring e2).mp he2
        have := (List.getElem?_eq_some_iff.mp h1).1
        rw [h2]; simp only; omega
  · intro e he
    simp only [hE, List.mem_append, List.mem_singleton] at he
    rcases he with (he | he) | he
    · obtain ⟨a, b, c, d, f⟩ := inv.sound e he
      refine ⟨a, ?_, getElem?_snoc_of_some pre l _ _ c, d, emit_at_mono opt k pre l _ f⟩
      simp only [List.length_nil, List.length_append, List.length_cons]; omega
    · obtain ⟨i, x, h1, h2⟩ := (flush_ctx_mem n0 st.ring e).mp he
      have hi := (List.getElem?_eq_some_iff.mp h1).1
      have hx : x ∈ st.ring := List.getElem?_mem h1
      rw [h2]
      refine ⟨by simp only; omega, ?_, ?_, by simp [inv.ring_un x hx], ?_⟩
      · simp only [List.length_nil, List.length_append, List.length_cons]; omega
      · simp only
        have := hring i x h1
        rw [show n0 + i - k - 1 = pre.length - st.ring.length + i by omega]
        exact getElem?_snoc_of_some pre l _ _ this
      · simp only
        refine ⟨by omega, ?_, Or.inr (Or.inr ⟨k + pre.length + 1, hlast, by omega, by omega⟩)⟩
        simp only [List.length_append, List.length_cons, List.length_nil]; omega
    · rw [he]
      refine ⟨by simp only; omega, ?_, ?_, by simp [hl], ?_⟩
      · simp only [List.length_nil, List.length_append, List.length_cons]; omega
      · simp only
        rw [show k + pre.length + 1 - k - 1 = pre.length by omega]
        simp
      · simp only
        refine ⟨by omega, ?_, Or.inl hlast⟩
        simp only [List.length_append, List.length_cons, List.length_nil]; omega
  · intro n h
    simp only [hE]
    obtain ⟨h1, h2, h3⟩ := h
    simp only [List.length_append, List.length_cons, List.length_nil] at h2
    by_cases hn : n = k + pre.length + 1
    · exact ⟨(k + pre.length + 1, true, l), by simp, hn.symm⟩
    · have hnle : n ≤ k + pre.length := by omega
      have hold : emit_at opt k pre n → ∃ e ∈ ctx_lines st.out ++
          ctx_lines (flush_ring (n0 + st.ring.length) st.ring) ++
          [(k + pre.length + 1, true, l)], e.1 = n := by
        intro h
        obtain ⟨e, he, hen⟩ := inv.complete n h
        exact ⟨e, by simp [he], hen⟩
      rcases h3 with h | ⟨m2, h, a, b⟩ | ⟨m2, h, a, b⟩
      · rcases (matched_at_snoc opt k pre l n).mp h with h | ⟨h, _⟩
        · exact hold ⟨h1, hnle, Or.inl h⟩
        · omega
      · rcases (matched_at_snoc opt k pre l m2).mp h with h | ⟨h, _⟩
        · exact hold ⟨h1, hnle, Or.inr (Or.inl ⟨m2, h, a, b⟩)⟩
        · omega
      · rcases (matched_at_snoc opt k pre l m2).mp h with h | ⟨h, _⟩
        · exact hold ⟨h1, hnle, Or.inr (Or.inr ⟨m2, h, a, b⟩)⟩
        · exact hwin n h1 hnle (by omega)
  · intro n h1 h2 h3
    simp only [List.length_nil, List.length_append, List.length_cons, Nat.add_zero] at h2 h3
    simp only [hE]
    by_cases hn : n = k + pre.length + 1
    · exact ⟨(k + pre.length + 1, true, l), by simp, hn.symm⟩
    · exact hwin n h1 (by omega) (by omega)
  · intro _
    refine ⟨rfl, k + pre.length + 1, hlast, ?_, ?_⟩
    · simp only [List.length_append, List.length_cons, List.length_nil]; omega
    · intro m2 h
      have := matched_at_le opt k (pre ++ [l]) m2 h
      simp only [List.length_append, List.length_cons, List.length_nil] at this
      omega
  · intro h0 m2 h
    have := matched_at_le opt k (pre ++ [l]) m2 h
    simp only at h0
    omega

/-- The invariant holds along the whole scan in context display mode without a
match limit. -/
theorem eng_run_ctx_inv (opt : opt_t) (fm k : Nat) (hpt : opt.passthru = false)
    (hsc : opt.show_context = true) (hm : opt.m = 0) :
    ∀ (suf pre : List (List Nat)) (st : eng_t) (ret : Nat) (st1 : eng_t)
      (rest : List (List Nat)), ctx_inv opt k pre st →
      eng_run opt fm false suf st = some (ret, st1, rest) →
      ∃ st2, ctx_inv opt k (pre ++ suf) st2 ∧ st2.out = st1.out := by
  intro suf
  induction suf with
  | nil =>
    intro pre st ret st1 rest inv h
    simp only [eng_run, Option.some.injEq, Prod.mk.injEq] at h
    refine ⟨st, by simpa using inv, ?_⟩
    rw [← h.2.1]
  | cons l suf ih =>
    intro pre st ret st1 rest inv h
    have happ : pre ++ l :: suf = (pre ++ [l]) ++ suf := by simp
    rw [happ]
    cases hl : is_matched opt l with
    | true =>
      obtain ⟨ms, mt, _, hstep⟩ := eng_run_matched opt fm l suf st hpt hsc hl
      rw [hstep, if_neg (by simp [hm])] at h
      exact ih (pre ++ [l]) _ ret st1 rest
        (ctx_inv_matched opt k fm pre st l mt ms _ inv hl) h
    | false =>
      obtain ⟨mt, hstep⟩ := eng_run_unmatched opt fm false l suf st hpt hl
      rw [hstep] at h
      by_cases h1 : st.hprint ≠ 0
      · rw [if_pos h1] at h
        exact ih (pre ++ [l]) _ ret st1 rest (ctx_inv_after opt k pre st l mt inv hl h1) h
      · rw [if_neg h1] at h
        have h0 : st.hprint = 0 := by omega
        by_cases h2 : opt.B ≠ 0
        · rw [if_pos h2] at h
          exact ih (pre ++ [l]) _ ret st1 rest (ctx_inv_buffer opt k pre st l mt inv hl h0) h
        · rw [if_neg h2] at h
          exact ih (pre ++ [l]) _ ret st1 rest (ctx_inv_drop opt k pre st l mt inv hl h0 h2) h

/-- C9 (amended): context-window semantics of the whole scan.  For a
non-binary file with context display on, no max-match limit, pass-through off
and reads that do not fail, the line numbers passed to `out_context` are
strictly increasing (no line is emitted twice), a line `n` is emitted iff it
is a matched line, or some matched line `m` has `m < n <= m + A`, or some
matched line `m` has `n < m <= n + B`, and every emitted line carries its own
content and is emitted as a match exactly when it is a matched line. -/
theorem C9_context_window_semantics (opt : opt_t) (vars : vars_t) (file : file_t)
    (line0 : buf_t) (hinv : file.buf.start + file.buf.used ≤ file.buf.allocated)
    (hs : no_fail file.f.sched) (hsc : opt.show_context = true)
    (hbin : file.is_binary = false) (hm : opt.m = 0) (hpt : opt.passthru = false) :
    ∃ ls ret vars1 file1 out1, get_lines line0 file = some ls ∧
      analize_file opt vars file = some (ret, vars1, file1, out1) ∧
      ((ctx_lines out1).map (fun e => e.1)).Pairwise (fun a b => a < b) ∧
      (∀ n, n ∈ (ctx_lines out1).map (fun e => e.1) ↔ emit_at opt file.line ls n) ∧
      (∀ e ∈ ctx_lines out1,
        ls[e.1 - file.line - 1]? = some e.2.2 ∧ e.2.1 = is_matched opt e.2.2) := by
  obtain ⟨ret, vars1, file1, out1, st, rest, g1, g2, g3, _⟩ :=
    analize_file_refines opt vars file hinv hs
  rw [hbin] at g2
  obtain ⟨st2, inv, hout⟩ := eng_run_ctx_inv opt vars.files_matched file.line hpt hsc hm
    (lines_of file.pending) [] _ ret st rest
    (ctx_inv_init opt file.line file.nmatches vars.matches_) g2
  have hout1 : st2.out = out1 := by rw [hout, ← g3]; rfl
  rw [List.nil_append] at inv
  have hsorted := inv.sorted
  have hsound := inv.sound
  have hcomplete := inv.complete
  rw [hout1] at hsorted hsound hcomplete
  refine ⟨lines_of file.pending, ret, vars1, file1, out1, get_lines_eq line0 file hinv hs, g1,
    hsorted, ?_, ?_⟩
  · intro n
    constructor
    · intro hn
      obtain ⟨e, he, rfl⟩ := List.mem_map.mp hn
      exact (hsound e he).2.2.2.2
    · intro hn
      obtain ⟨e, he, hen⟩ := hcomplete n hn
      exact List.mem_map.mpr ⟨e, he, hen⟩
  · intro e he
    obtain ⟨_, _, c, d, _⟩ := hsound e he
    exact ⟨c, d⟩

/-- C7 at the scenario `abc`, `abcd`, `xx` with pattern `abc`: two match lines,
no context line. -/
theorem C7_zero_context_selection_witness :
    out_of (analize_file opt_abc vars_t.init file_abc) =
      some [out_t.context 1 1 true [97, 98, 99, 10] [⟨0, 3⟩],
        out_t.context 2 1 true [97, 98, 99, 100, 10] [⟨0, 3⟩]] ∧
    ∃ ls ret vars1 file1 out1, get_lines buf_t.empty file_abc = some ls ∧
      analize_file opt_abc vars_t.init file_abc = some (ret, vars1, file1, out1) ∧
      ctx_lines out1 =
        ((ls.enumFrom (file_abc.line + 1)).filter (fun x => is_matched opt_abc x.2)).map
          (fun x => (x.1, true, x.2)) :=
  ⟨by decide, C7_zero_context_selection opt_abc vars_t.init file_abc buf_t.empty
    (by decide) (by decide) rfl rfl rfl rfl rfl rfl⟩

/-- C7 as stated fails in pass-through mode: with contexts 0, no limit, context
display on and a non-binary file, both lines are written by `out_line`, also
the line `xx` on which the pattern does not occur, and `out_context` is never
called. -/
theorem C7_passthru_counterexample :
    ({ opt_abc with passthru := true } : opt_t).A = 0 ∧
    ({ opt_abc with passthru := true } : opt_t).B = 0 ∧
    ({ opt_abc with passthru := true } : opt_t).m = 0 ∧
    ({ opt_abc with passthru := true } : opt_t).show_context = true ∧
    (file_t.opened [97, 98, 99, 10, 120, 120, 10] []).is_binary = false ∧
    is_matched { opt_abc with passthru := true } [97, 98, 99, 10] = true ∧
    is_matched { opt_abc with passthru := true } [120, 120, 10] = false ∧
    out_of (analize_file { opt_abc with passthru := true } vars_t.init
      (file_t.opened [97, 98, 99, 10, 120, 120, 10] [])) =
      some [out_t.line [97, 98, 99, 10], out_t.line [120, 120, 10]] := by
  decide

/-- C8 at the scenario before-context 2, lines `1`, `2`, `3`, `m`: the context
is exactly `2`, `3`, then the match. -/
theorem C8_before_context_window_witness :
    out_of (analize_loop opt_m 9 vars_t.init (file_t.opened [49, 10, 50, 10, 51, 10, 109, 10] [])
      0 []) =
      some [out_t.separator, out_t.context 2 0 false [50, 10] [],
        out_t.context 3 0 false [51, 10] [], out_t.context 4 1 true [109, 10] [⟨0, 1⟩]] ∧
    ∃ ret vars1 file1 out1 col ms more,
      analize_loop opt_m 9 vars_t.init (file_t.opened [49, 10, 50, 10, 51, 10, 109, 10] []) 0 [] =
        some (ret, vars1, file1, out1) ∧
      out1 = [] ++ match_header opt_m vars_t.init.files_matched
          (file_t.opened [49, 10, 50, 10, 51, 10, 109, 10] []).nmatches ++
        ((([[49, 10], [50, 10], [51, 10]] : List (List Nat)).enumFrom
            ((file_t.opened [49, 10, 50, 10, 51, 10, 109, 10] []).line + 1)).drop
          (([[49, 10], [50, 10], [51, 10]] : List (List Nat)).length - opt_m.B)).map
          (fun x => out_t.context x.1 0 false x.2 []) ++
        [out_t.context ((file_t.opened [49, 10, 50, 10, 51, 10, 109, 10] []).line +
          ([[49, 10], [50, 10], [51, 10]] : List (List Nat)).length + 1) col true [109, 10] ms] ++
        more ∧
      ∀ e ∈ ctx_lines more, (file_t.opened [49, 10, 50, 10, 51, 10, 109, 10] []).line +
        ([[49, 10], [50, 10], [51, 10]] : List (List Nat)).length + 1 < e.1 :=
  ⟨by decide, C8_before_context_window opt_m 9 vars_t.init
    (file_t.opened [49, 10, 50, 10, 51, 10, 109, 10] []) [] buf_t.empty
    [[49, 10], [50, 10], [51, 10]] [109, 10] [] (by decide) (by decide) (by decide) rfl rfl rfl
    rfl rfl (by decide) (by decide) (by decide)⟩

/-- C8 as stated fails when context display is off (count mode): with
before-context 2 and the lines `1`, `2`, `3`, `m`, the matched line follows
three lines that are not matched, yet nothing is written. -/
theorem C8_count_mode_counterexample :
    1 ≤ ({ opt_m with show_context := false } : opt_t).B ∧
    get_lines buf_t.empty (file_t.opened [49, 10, 50, 10, 51, 10, 109, 10] []) =
      some [[49, 10], [50, 10], [51, 10], [109, 10]] ∧
    is_matched { opt_m with show_context := false } [49, 10] = false ∧
    is_matched { opt_m with show_context := false } [50, 10] = false ∧
    is_matched { opt_m with show_context := false } [51, 10] = false ∧
    is_matched { opt_m with show_context := false } [109, 10] = true ∧
    out_of (analize_file { opt_m with show_context := false } vars_t.init
      (file_t.opened [49, 10, 50, 10, 51, 10, 109, 10] [])) = some [] := by
  decide

/-- C9 at a concrete input: `-A 1 -B 2`, lines `1`, `2`, `3`, `m`, `5`, `6`,
`m`. -/
theorem C9_context_window_semantics_witness :
    out_of (analize_file opt_m vars_t.init file_m) =
      some [out_t.separator, out_t.context 2 0 false [50, 10] [],
        out_t.context 3 0 false [51, 10] [], out_t.context 4 1 true [109, 10] [⟨0, 1⟩],
        out_t.context 5 0 false [53, 10] [], out_t.separator,
        out_t.context 6 0 false [54, 10] [], out_t.context 7 1 true [109, 10] [⟨0, 1⟩]] ∧
    ∃ ls ret vars1 file1 out1, get_lines buf_t.empty file_m = some ls ∧
      analize_file opt_m vars_t.init file_m = some (ret, vars1, file1, out1) ∧
      ((ctx_lines out1).map (fun e => e.1)).Pairwise (fun a b => a < b) ∧
      (∀ n, n ∈ (ctx_lines out1).map (fun e => e.1) ↔ emit_at opt_m file_m.line ls n) ∧
      (∀ e ∈ ctx_lines out1,
        ls[e.1 - file_m.line - 1]? = some e.2.2 ∧ e.2.1 = is_matched opt_m e.2.2) :=
  ⟨by decide, C9_context_window_semantics opt_m vars_t.init file_m buf_t.empty
    (by decide) (by decide) rfl rfl rfl rfl⟩

/-- C9 as stated fails in pass-through mode: line 1 is a matched line, the file
is not binary, context display is on and there is no limit, yet `out_context`
is never called. -/
theorem C9_passthru_counterexample :
    ({ opt_m with passthru := true } : opt_t).show_context = true ∧
    ({ opt_m with passthru := true } : opt_t).m = 0 ∧
    (file_t.opened [109, 10] []).is_binary = false ∧
    get_lines buf_t.empty (file_t.opened [109, 10] []) = some [[109, 10]] ∧
    is_matched { opt_m with passthru := true } [109, 10] = true ∧
    (out_of (analize_file { opt_m with passthru := true } vars_t.init
      (file_t.opened [109, 10] []))).map ctx_lines = some [] := by
  decide

/-- C10 at the scenario max-match 1 on a file with three matching lines: the
scan stops after the first match with the count 1, and the other two lines
stay unread. -/
theorem C10_max_match_cutoff_witness :
    nmatches_of (analize_file { opt_abc with m := 1 } vars_t.init
      (file_t.opened [97, 98, 99, 10, 97, 98, 99, 10, 97, 98, 99, 10] [])) = some 1 ∧
    pending_of (analize_file { opt_abc with m := 1 } vars_t.init
      (file_t.opened [97, 98, 99, 10, 97, 98, 99, 10, 97, 98, 99, 10] [])) =
        some [97, 98, 99, 10, 97, 98, 99, 10] ∧
    ∃ ls ret vars1 file1 out1 pre rest, get_lines buf_t.empty
        (file_t.opened [97, 98, 99, 10, 97, 98, 99, 10, 97, 98, 99, 10] []) = some ls ∧
      analize_file { opt_abc with m := 1 } vars_t.init
        (file_t.opened [97, 98, 99, 10, 97, 98, 99, 10, 97, 98, 99, 10] []) =
          some (ret, vars1, file1, out1) ∧
      ls = pre ++ rest ∧ file1.pending = rest.flatten ∧
      file1.nmatches = pre.countP (is_matched { opt_abc with m := 1 }) ∧
      file1.nmatches = min ({ opt_abc with m := 1 } : opt_t).m
        (ls.countP (is_matched { opt_abc with m := 1 })) ∧
      (file1.nmatches = ({ opt_abc with m := 1 } : opt_t).m →
        ∃ l, pre.getLast? = some l ∧ is_matched { opt_abc with m := 1 } l = true) ∧
      (file1.nmatches < ({ opt_abc with m := 1 } : opt_t).m → rest = []) ∧
      file1.line = (file_t.opened [97, 98, 99, 10, 97, 98, 99, 10, 97, 98, 99, 10] []).line +
        pre.length ∧
      (∀ e ∈ ctx_lines out1, e.1 ≤
        (file_t.opened [97, 98, 99, 10, 97, 98, 99, 10, 97, 98, 99, 10] []).line + pre.length) :=
  ⟨by decide, by decide, C10_max_match_cutoff { opt_abc with m := 1 } vars_t.init
    (file_t.opened [97, 98, 99, 10, 97, 98, 99, 10, 97, 98, 99, 10] []) buf_t.empty
    (by decide) (by decide) (by decide) rfl rfl rfl⟩

/-- C10 as stated fails in pass-through mode: with the limit 1 and a non-binary
file whose two lines both contain the pattern, the final match count is 0, not
`min(1, 2)`, and both lines are read and written. -/
theorem C10_passthru_counterexample :
    1 ≤ ({ opt_abc with m := 1, passthru := true } : opt_t).m ∧
    (file_t.opened [97, 98, 99, 10, 97, 98, 99, 10] []).is_binary = false ∧
    is_matched { opt_abc with m := 1, passthru := true } [97, 98, 99, 10] = true ∧
    nmatches_of (analize_file { opt_abc with m := 1, passthru := true } vars_t.init
      (file_t.opened [97, 98, 99, 10, 97, 98, 99, 10] [])) = some 0 ∧
    pending_of (analize_file { opt_abc with m := 1, passthru := true } vars_t.init
      (file_t.opened [97, 98, 99, 10, 97, 98, 99, 10] [])) = some [] ∧
    out_of (analize_file { opt_abc with m := 1, passthru := true } vars_t.init
      (file_t.opened [97, 98, 99, 10, 97, 98, 99, 10] [])) =
      some [out_t.line [97, 98, 99, 10], out_t.line [97, 98, 99, 10]] := by
  decide

/-! ## Lemmas on bit sets -/

theorem and_shift_ne_zero (x sh : Nat) : (x &&& (1 <<< sh) ≠ 0) ↔ x.testBit sh = true := by
  rw [Nat.one_shiftLeft]
  constructor
  · intro h
    obtain ⟨i, hi⟩ := Nat.ne_zero_implies_bit_true h
    rw [Nat.testBit_and, Nat.testBit_two_pow] at hi
    simp only [Bool.and_eq_true, decide_eq_true_eq] at hi
    obtain ⟨h1, h2⟩ := hi
    subst h2
    exact h1
  · intro h h0
    have h1 : (x &&& 2 ^ sh).testBit sh = true := by
      rw [Nat.testBit_and, h, Nat.testBit_two_pow_self]
      rfl
    rw [h0] at h1
    simp at h1

theorem bf_isset_iff (b : bitfiels_t) (i : Nat) :
    bf_isset b i = true ↔ (b.bits.getD (i / 8) 0).testBit (i % 8) = true := by
  unfold bf_isset
  rw [decide_eq_true_iff]
  exact and_shift_ne_zero _ _

theorem byte_and_ne_zero (a b : Nat) (ha : a < 256) :
    (a &&& b ≠ 0) ↔ ∃ sh, sh < 8 ∧ a.testBit sh = true ∧ b.testBit sh = true := by
  constructor
  · intro h
    obtain ⟨i, hi⟩ := Nat.ne_zero_implies_bit_true h
    rw [Nat.testBit_and] at hi
    simp only [Bool.and_eq_true] at hi
    refine ⟨i, ?_, hi.1, hi.2⟩
    by_contra hge
    have h8 : (2 : Nat) ^ 8 ≤ 2 ^ i := Nat.pow_le_pow_right (by decide) (by omega)
    have h9 : a < 2 ^ i := by
      have : (2 : Nat) ^ 8 = 256 := by decide
      omega
    rw [Nat.testBit_lt_two_pow h9] at hi
    exact absurd hi.1 (by decide)
  · rintro ⟨sh, _, h1, h2⟩ h0
    have h3 : (a &&& b).testBit sh = true := by
      rw [Nat.testBit_and, h1, h2]
      rfl
    rw [h0] at h3
    simp at h3

theorem bf_fast_intersect_loop_spec (f s : bitfiels_t) : ∀ (n i : Nat),
    (bf_fast_intersect_loop f s i n = 1 ∨ bf_fast_intersect_loop f s i n = 0) ∧
    (bf_fast_intersect_loop f s i n = 1 ↔
      ∃ j, i ≤ j ∧ j < i + n ∧ (f.bits.getD j 0 &&& s.bits.getD j 0) ≠ 0) := by
  intro n
  induction n with
  | zero =>
    intro i
    have e : bf_fast_intersect_loop f s i 0 = 0 := rfl
    rw [e]
    refine ⟨Or.inr rfl, ?_⟩
    constructor
    · intro h; cases h
    · rintro ⟨j, h1, h2, _⟩; omega
  | succ n ih =>
    intro i
    have e : bf_fast_intersect_loop f s i (n + 1) =
        if (f.bits.getD i 0 &&& s.bits.getD i 0) ≠ 0 then 1
        else bf_fast_intersect_loop f s (i + 1) n := rfl
    rw [e]
    by_cases h : (f.bits.getD i 0 &&& s.bits.getD i 0) ≠ 0
    · rw [if_pos h]
      exact ⟨Or.inl rfl, fun _ => ⟨i, le_refl _, by omega, h⟩, fun _ => rfl⟩
    · rw [if_neg h]
      refine ⟨(ih (i + 1)).1, ?_⟩
      rw [(ih (i + 1)).2]
      constructor
      · rintro ⟨j, h1, h2, h3⟩
        exact ⟨j, by omega, by omega, h3⟩
      · rintro ⟨j, h1, h2, h3⟩
        have hne : j ≠ i := by
          intro hji
          subst hji
          exact h h3
        exact ⟨j, by omega, by omega, h3⟩

theorem getD_lt_256 (l : List Nat) (h : ∀ x ∈ l, x < 256) (j : Nat) : l.getD j 0 < 256 := by
  rw [List.getD_eq_getElem?_getD]
  rcases hj : l[j]? with _ | x
  · simp
  · simp only [Option.getD_some]
    exact h x (List.getElem?_mem hj)

theorem bf_fast_intersect_spec (f s : bitfiels_t) (hf : f.wf) :
    (bf_fast_intersect f s = 1 ∨ bf_fast_intersect f s = 0) ∧
    (bf_fast_intersect f s = 1 ↔
      ∃ i, i < 8 * f.size ∧ bf_isset f i = true ∧ bf_isset s i = true) := by
  unfold bf_fast_intersect
  refine ⟨(bf_fast_intersect_loop_spec f s f.size 0).1, ?_⟩
  rw [(bf_fast_intersect_loop_spec f s f.size 0).2]
  constructor
  · rintro ⟨j, _, h2, h3⟩
    rw [byte_and_ne_zero _ _ (getD_lt_256 _ hf.2 j)] at h3
    obtain ⟨sh, h4, h5, h6⟩ := h3
    refine ⟨8 * j + sh, by omega, ?_, ?_⟩
    · rw [bf_isset_iff]
      have e1 : (8 * j + sh) / 8 = j := by omega
      have e2 : (8 * j + sh) % 8 = sh := by omega
      rw [e1, e2]
      exact h5
    · rw [bf_isset_iff]
      have e1 : (8 * j + sh) / 8 = j := by omega
      have e2 : (8 * j + sh) % 8 = sh := by omega
      rw [e1, e2]
      exact h6
  · rintro ⟨i, h1, h2, h3⟩
    rw [bf_isset_iff] at h2 h3
    refine ⟨i / 8, Nat.zero_le _, by omega, ?_⟩
    rw [byte_and_ne_zero _ _ (getD_lt_256 _ hf.2 _)]
    exact ⟨i % 8, Nat.mod_lt _ (by decide), h2, h3⟩

theorem bf_set_wf (b : bitfiels_t) (i : Nat) (h : b.wf) : (bf_set b i).wf := by
  unfold bf_set bitfiels_t.wf
  refine ⟨by simp only [List.length_set]; exact h.1, ?_⟩
  intro x hx
  rcases List.mem_or_eq_of_mem_set hx with h1 | h1
  · exact h.2 x h1
  · subst h1
    have h2 : b.bits.getD (i / 8) 0 < 2 ^ 8 := getD_lt_256 _ h.2 _
    have h3 : 1 <<< (i % 8) < 2 ^ 8 := by
      rw [Nat.one_shiftLeft]
      exact Nat.pow_lt_pow_right (by decide) (Nat.mod_lt _ (by decide))
    exact Nat.or_lt_two_pow h2 h3

theorem bf_set_size (b : bitfiels_t) (i : Nat) : (bf_set b i).size = b.size := rfl

theorem bf_isset_bf_set (b : bitfiels_t) (i j : Nat) (h : i / 8 < b.bits.length) :
    bf_isset (bf_set b i) j = true ↔ (j = i ∨ bf_isset b j = true) := by
  rw [bf_isset_iff, bf_isset_iff]
  unfold bf_set
  simp only [List.getD_eq_getElem?_getD, List.getElem?_set]
  by_cases hij : i / 8 = j / 8
  · rw [if_pos hij, if_pos h]
    simp only [Option.getD_some, Nat.testBit_or, Nat.one_shiftLeft, Nat.testBit_two_pow,
      Bool.or_eq_true, decide_eq_true_eq]
    rw [hij]
    constructor
    · rintro (h1 | h1)
      · exact Or.inr h1
      · left; omega
    · rintro (h1 | h1)
      · right; omega
      · exact Or.inl h1
  · rw [if_neg hij]
    constructor
    · intro h1; exact Or.inr h1
    · rintro (h1 | h1)
      · subst h1; exact absurd rfl hij
      · exact h1

theorem bf_reset_wf (b : bitfiels_t) : (bf_reset b).wf := by
  unfold bf_reset bitfiels_t.wf
  refine ⟨by simp, ?_⟩
  intro x hx
  rw [List.mem_replicate] at hx
  omega

theorem bf_isset_bf_reset (b : bitfiels_t) (j : Nat) : bf_isset (bf_reset b) j = false := by
  rw [← Bool.not_eq_true, bf_isset_iff]
  unfold bf_reset
  simp only [List.getD_eq_getElem?_getD]
  rcases h : (List.replicate b.size 0)[j / 8]? with _ | x
  · simp
  · have := List.getElem?_mem h
    rw [List.mem_replicate] at this
    simp [this.2]

theorem bf_new_wf (n : Nat) : (bf_new n).wf := bf_reset_wf _

/-! ## Lemmas on names -/

theorem strncasecmp_eq_zero_iff (a b : Nat → Nat) : ∀ (k p q : Nat),
    (∀ j, j < k → b (q + j) ≠ 0) →
    (strncasecmp a p b q k = 0 ↔ ∀ j, j < k → tolower (a (p + j)) = tolower (b (q + j))) := by
  intro k
  induction k with
  | zero =>
    intro p q _
    have e : strncasecmp a p b q 0 = 0 := rfl
    rw [e]
    exact ⟨fun _ j hj => by omega, fun _ => rfl⟩
  | succ k ih =>
    intro p q hb
    have e : strncasecmp a p b q (k + 1) =
        if tolower (a p) ≠ tolower (b q) then (tolower (a p) : Int) - (tolower (b q) : Int)
        else if tolower (a p) = 0 then 0
        else strncasecmp a (p + 1) b (q + 1) k := rfl
    rw [e]
    by_cases h1 : tolower (a p) ≠ tolower (b q)
    · rw [if_pos h1]
      constructor
      · intro h2
        exfalso
        apply h1
        omega
      · intro h2
        exact absurd (h2 0 (by omega)) h1
    · rw [if_neg h1]
      have h1e : tolower (a p) = tolower (b q) := by
        by_contra hc
        exact h1 hc
      have hb0 : b q ≠ 0 := hb 0 (by omega)
      have h3 : ¬ tolower (a p) = 0 := by
        rw [h1e, tolower_eq_zero]
        exact hb0
      rw [if_neg h3, ih (p + 1) (q + 1) (fun j hj => by
        have := hb (j + 1) (by omega)
        rw [show q + 1 + j = q + (j + 1) by omega]
        exact this)]
      constructor
      · intro h4 j hj
        rcases j with _ | j
        · exact h1e
        · have := h4 j (by omega)
          rw [show p + 1 + j = p + (j + 1) by omega, show q + 1 + j = q + (j + 1) by omega] at this
          exact this
      · intro h4 j hj
        have := h4 (j + 1) (by omega)
        rw [show p + 1 + j = p + (j + 1) by omega, show q + 1 + j = q + (j + 1) by omega]
        exact this

theorem lower_length (s : List Nat) : (lower s).length = s.length := by
  simp [lower]

theorem lower_getD (s : List Nat) (i : Nat) (h : i < s.length) :
    (lower s).getD i 0 = tolower (s.getD i 0) := by
  simp [lower, List.getD_eq_getElem?_getD, List.getElem?_map, h]

theorem list_eq_of_getD (l1 l2 : List Nat) (hl : l1.length = l2.length)
    (h : ∀ i, i < l1.length → l1.getD i 0 = l2.getD i 0) : l1 = l2 := by
  apply List.ext_getElem hl
  intro i h1 h2
  have := h i h1
  simp only [List.getD_eq_getElem?_getD, List.getElem?_eq_getElem h1,
    List.getElem?_eq_getElem h2, Option.getD_some] at this
  exact this

theorem _ends_with_iff (name ext : List Nat) (h0 : ∀ c ∈ ext, c ≠ 0) :
    _ends_with name name.length ext ext.length = true ↔ lower ext <:+ lower name := by
  unfold _ends_with
  by_cases h1 : name.length < ext.length
  · rw [if_pos h1]
    constructor
    · intro h; cases h
    · intro h
      have := h.length_le
      rw [lower_length, lower_length] at this
      omega
  · rw [if_neg h1, decide_eq_true_iff, strncasecmp_eq_zero_iff]
    · rw [List.suffix_iff_eq_drop, lower_length, lower_length]
      constructor
      · intro h
        apply list_eq_of_getD
        · simp [lower_length]; omega
        · intro i hi
          rw [lower_length] at hi
          rw [getD_drop_add, lower_getD _ _ hi, lower_getD _ _ (by omega)]
          have := h i hi
          simp only [mem_of, Nat.zero_add] at this
          exact this.symm
      · intro h j hj
        have h2 : (lower ext).getD j 0 = ((lower name).drop (name.length - ext.length)).getD j 0 := by
          rw [← h]
        rw [getD_drop_add, lower_getD _ _ hj, lower_getD _ _ (by omega)] at h2
        simp only [mem_of, Nat.zero_add]
        exact h2.symm
    · intro j hj
      simp only [mem_of, Nat.zero_add]
      have h2 : ext.getD j 0 ∈ ext := by
        rw [List.getD_eq_getElem?_getD, List.getElem?_eq_getElem hj]
        exact List.getElem_mem hj
      exact h0 _ h2

theorem _ends_with_short (name ext : List Nat) (n e : Nat) (h : n < e) :
    _ends_with name n ext e = false := by
  unfold _ends_with
  rw [if_pos h]

theorem tolower_eq_of_not_letter (x c : Nat) (h1 : ¬ (65 ≤ c ∧ c ≤ 90)) (h2 : ¬ (97 ≤ c ∧ c ≤ 122)) :
    tolower x = c ↔ x = c := by
  unfold tolower
  split_ifs with h <;> omega

theorem _starts_with_iff (name : List Nat) (c : Nat) (h0 : c ≠ 0) (h1 : ¬ (65 ≤ c ∧ c ≤ 90))
    (h2 : ¬ (97 ≤ c ∧ c ≤ 122)) :
    _starts_with name name.length [c] 1 = true ↔ [c] <+: lower name := by
  have hc : tolower c = c := by
    unfold tolower
    rw [if_neg h1]
  unfold _starts_with
  rcases name with _ | ⟨x, xs⟩
  · simp [lower]
  · have e1 : mem_of (x :: xs) 0 = x := rfl
    have e2 : mem_of [c] 0 = c := rfl
    have e3 : lower (x :: xs) = tolower x :: lower xs := rfl
    have e4 : strncasecmp (mem_of (x :: xs)) 0 (mem_of [c]) 0 1 =
        if tolower x ≠ tolower c then (tolower x : Int) - (tolower c : Int)
        else if tolower x = 0 then 0 else 0 := rfl
    rw [e1, e2, e3, e4, hc]
    simp only [List.length_cons, List.cons_prefix_cons, List.nil_prefix, and_true]
    have h3 := tolower_eq_of_not_letter x c h1 h2
    by_cases hx : x = c
    · subst hx
      simp [hc]
    · have h4 : ¬ c = tolower x := fun h => hx (h3.mp h.symm)
      simp [hx, h4]

theorem strlen_eq_length (s : List Nat) (h : ∀ c ∈ s, c ≠ 0) : strlen s = s.length := by
  unfold strlen
  rw [List.takeWhile_eq_self_iff.mpr]
  intro c hc
  simpa using h c hc

theorem cstr_bak : cstr ".bak" = [46, 98, 97, 107] := by decide

theorem cstr_tilde : cstr "~" = [126] := by decide

theorem cstr_swp : cstr ".swp" = [46, 115, 119, 112] := by decide

theorem cstr_tmp : cstr ".tmp" = [46, 116, 109, 112] := by decide

theorem cstr_hash : cstr "#" = [35] := by decide

theorem cstr_dot : cstr "." = [46] := by decide

theorem cstr_underscore : cstr "_" = [95] := by decide

theorem is_searchable_iff (file : file_t) (hl : file.namelen = file.name.length) :
    is_searchable file = false ↔ skip_name file.name := by
  have e1 := _ends_with_iff file.name [46, 98, 97, 107] (by decide)
  have e2 := _ends_with_iff file.name [126] (by decide)
  have e3 := _ends_with_iff file.name [46, 115, 119, 112] (by decide)
  have e4 := _ends_with_iff file.name [46, 116, 109, 112] (by decide)
  have e5 := _ends_with_iff file.name [35] (by decide)
  have s1 := _starts_with_iff file.name 46 (by decide) (by decide) (by decide)
  have s2 := _starts_with_iff file.name 95 (by decide) (by decide) (by decide)
  have s3 := _starts_with_iff file.name 35 (by decide) (by decide) (by decide)
  rw [show lower [46, 98, 97, 107] = [46, 98, 97, 107] from by decide] at e1
  rw [show lower [126] = [126] from by decide] at e2
  rw [show lower [46, 115, 119, 112] = [46, 115, 119, 112] from by decide] at e3
  rw [show lower [46, 116, 109, 112] = [46, 116, 109, 112] from by decide] at e4
  rw [show lower [35] = [35] from by decide] at e5
  simp only [List.length_cons, List.length_nil, Nat.zero_add, Nat.reduceAdd] at e1 e2 e3 e4 e5
  unfold is_searchable skip_name
  simp only [cstr_bak, cstr_tilde, cstr_swp, cstr_tmp, cstr_hash, cstr_dot, cstr_underscore, hl,
    Bool.not_eq_false', Bool.or_eq_true, Bool.and_eq_true, Bool.or_false, e1, e2, e3, e4, e5, s1,
    s2, s3]
  generalize ([46, 98, 97, 107] <:+ lower file.name) = P1
  generalize ([126] <:+ lower file.name) = P2
  generalize ([46, 115, 119, 112] <:+ lower file.name) = P3
  generalize ([46, 116, 109, 112] <:+ lower file.name) = P4
  generalize ([35] <:+ lower file.name) = P5
  generalize ([46] <+: lower file.name) = Q1
  generalize ([95] <+: lower file.name) = Q2
  generalize ([35] <+: lower file.name) = Q3
  clear e1 e2 e3 e4 e5 s1 s2 s3
  tauto

/-! ## Lemmas on the classification -/

theorem analyse_header_loop_total (m : Nat → Nat) (len : Nat) : ∀ (tbl : List (List Nat)),
    ∃ r, analyse_header_loop m len tbl = some r ∧ ∀ t, r = some t → t ∈ tbl := by
  intro tbl
  induction tbl with
  | nil => exact ⟨none, rfl, fun t h => by cases h⟩
  | cons t ts ih =>
    obtain ⟨r, hr, _⟩ := _strnstr3_total m (mem_of t) 0 len (strlen t)
    have e : analyse_header_loop m len (t :: ts) =
        match _strnstr1 m 0 t len with
        | none => none
        | some (some _) => some (some t)
        | some none => analyse_header_loop m len ts := rfl
    rw [e]
    unfold _strnstr1
    rw [hr]
    rcases r with _ | p
    · obtain ⟨r2, h1, h2⟩ := ih
      exact ⟨r2, h1, fun t2 h => List.mem_cons_of_mem _ (h2 t2 h)⟩
    · exact ⟨some t, rfl, fun t2 h => by cases h; exact List.mem_cons_self _ _⟩

theorem analyse_header_total (m : Nat → Nat) (len : Nat) :
    ∃ r, analyse_header m len = some r ∧
      ∀ t, r = some t → t ∈ interprets ∨ t = cstr "shell" := by
  unfold analyse_header
  obtain ⟨r1, h1, h1b⟩ := analyse_header_loop_total m len interprets
  obtain ⟨r2, h2, _⟩ := analyse_header_loop_total m len shells
  rw [h1]
  rcases r1 with _ | t
  · rw [h2]
    rcases r2 with _ | t2
    · exact ⟨none, rfl, fun t h => by cases h⟩
    · exact ⟨some (cstr "shell"), rfl, fun t h => by cases h; exact Or.inr rfl⟩
  · exact ⟨some t, rfl, fun t2 h => by cases h; exact Or.inl (h1b t rfl)⟩

theorem analyse_internals_total (vars : vars_t) (file : file_t) :
    ∃ t vars1 file1, analyse_internals vars file = some (t, vars1, file1) ∧
      same_ident file1 file ∧ same_ft vars1 vars ∧
      (t ∈ interprets ∨ t = cstr "shell" ∨ t = cstr "text" ∨ t = cstr "xml" ∨
        t = cstr "binary") := by
  unfold analyse_internals
  simp only []
  obtain ⟨hr, hh, hb⟩ := analyse_header_total (read_file file.buf file.f 1024).snd.fst.buf
    ((memchr (read_file file.buf file.f 1024).snd.fst.buf 0 10
      (read_file file.buf file.f 1024).fst.toNat).getD 0)
  split
  · split
    · exact ⟨_, _, _, rfl, ⟨rfl, rfl, rfl, rfl, rfl, rfl, rfl⟩, ⟨rfl, rfl, rfl, rfl, rfl⟩,
        Or.inr (Or.inr (Or.inr (Or.inl rfl)))⟩
    · split
      · split
        · rename_i ptr hptr
          rw [hptr] at hh
          simp only [Option.getD_some] at hh
          rw [hh]
          rcases hr with _ | t
          · exact ⟨_, _, _, rfl, ⟨rfl, rfl, rfl, rfl, rfl, rfl, rfl⟩, ⟨rfl, rfl, rfl, rfl, rfl⟩,
              Or.inr (Or.inr (Or.inl rfl))⟩
          · refine ⟨_, _, _, rfl, ⟨rfl, rfl, rfl, rfl, rfl, rfl, rfl⟩, ⟨rfl, rfl, rfl, rfl, rfl⟩,
              ?_⟩
            rcases hb t rfl with h | h
            · exact Or.inl h
            · exact Or.inr (Or.inl h)
        · exact ⟨_, _, _, rfl, ⟨rfl, rfl, rfl, rfl, rfl, rfl, rfl⟩, ⟨rfl, rfl, rfl, rfl, rfl⟩,
            Or.inr (Or.inr (Or.inl rfl))⟩
      · split
        · exact ⟨_, _, _, rfl, ⟨rfl, rfl, rfl, rfl, rfl, rfl, rfl⟩, ⟨rfl, rfl, rfl, rfl, rfl⟩,
            Or.inr (Or.inr (Or.inl rfl))⟩
        · exact ⟨_, _, _, rfl, ⟨rfl, rfl, rfl, rfl, rfl, rfl, rfl⟩, ⟨rfl, rfl, rfl, rfl, rfl⟩,
            Or.inr (Or.inr (Or.inr (Or.inr rfl)))⟩
  · exact ⟨_, _, _, rfl, ⟨rfl, rfl, rfl, rfl, rfl, rfl, rfl⟩, ⟨rfl, rfl, rfl, rfl, rfl⟩,
      Or.inr (Or.inr (Or.inl rfl))⟩

theorem get_filetypes_exts_spec (name : List Nat) (len : Nat) : ∀ (exts : List ext_t)
    (b : bitfiels_t) (res : Nat), (∀ e ∈ exts, e.type / 8 < b.bits.length) →
    (get_filetypes_exts name len exts b res).fst.size = b.size ∧
    (get_filetypes_exts name len exts b res).fst.bits.length = b.bits.length ∧
    (b.wf → (get_filetypes_exts name len exts b res).fst.wf) ∧
    res ≤ (get_filetypes_exts name len exts b res).snd ∧
    ((∃ e ∈ exts, _ends_with name len e.ext e.len = true) →
      res < (get_filetypes_exts name len exts b res).snd) ∧
    ∀ j, bf_isset (get_filetypes_exts name len exts b res).fst j = true ↔
      (bf_isset b j = true ∨ ∃ e ∈ exts, _ends_with name len e.ext e.len = true ∧ e.type = j) := by
  intro exts
  induction exts with
  | nil =>
    intro b res _
    refine ⟨rfl, rfl, fun h => h, le_refl _, ?_, ?_⟩
    · rintro ⟨e, he, _⟩
      cases he
    · intro j
      constructor
      · intro h; exact Or.inl h
      · rintro (h | ⟨e, he, _⟩)
        · exact h
        · cases he
  | cons e rest ih =>
    intro b res hr
    have e1 : get_filetypes_exts name len (e :: rest) b res =
        if _ends_with name len e.ext e.len then
          get_filetypes_exts name len rest (bf_set b e.type) (res + 1)
        else get_filetypes_exts name len rest b res := rfl
    rw [e1]
    have hre : ∀ x ∈ rest, x.type / 8 < b.bits.length :=
      fun x hx => hr x (List.mem_cons_of_mem _ hx)
    have he : e.type / 8 < b.bits.length := hr e (List.mem_cons_self _ _)
    by_cases hc : _ends_with name len e.ext e.len = true
    · rw [if_pos hc]
      have hlen : (bf_set b e.type).bits.length = b.bits.length := by
        simp [bf_set]
      obtain ⟨h1, h2, h3, h4, _, h6⟩ := ih (bf_set b e.type) (res + 1) (by rw [hlen]; exact hre)
      refine ⟨h1, by rw [h2, hlen], fun hw => h3 (bf_set_wf _ _ hw), by omega, fun _ => by omega,
        ?_⟩
      intro j
      rw [h6 j, bf_isset_bf_set b e.type j he]
      constructor
      · rintro ((h | h) | ⟨x, hx, hx2⟩)
        · exact Or.inr ⟨e, List.mem_cons_self _ _, hc, h.symm⟩
        · exact Or.inl h
        · exact Or.inr ⟨x, List.mem_cons_of_mem _ hx, hx2⟩
      · rintro (h | ⟨x, hx, hx2, hx3⟩)
        · exact Or.inl (Or.inr h)
        · rcases List.mem_cons.mp hx with h | h
          · subst h
            exact Or.inl (Or.inl hx3.symm)
          · exact Or.inr ⟨x, h, hx2, hx3⟩
    · rw [if_neg hc]
      obtain ⟨h1, h2, h3, h4, h5, h6⟩ := ih b res hre
      refine ⟨h1, h2, h3, h4, ?_, ?_⟩
      · rintro ⟨x, hx, hx2⟩
        rcases List.mem_cons.mp hx with h | h
        · subst h
          exact absurd hx2 hc
        · exact h5 ⟨x, h, hx2⟩
      · intro j
        rw [h6 j]
        constructor
        · rintro (h | ⟨x, hx, hx2⟩)
          · exact Or.inl h
          · exact Or.inr ⟨x, List.mem_cons_of_mem _ hx, hx2⟩
        · rintro (h | ⟨x, hx, hx2, hx3⟩)
          · exact Or.inl h
          · rcases List.mem_cons.mp hx with h | h
            · subst h
              exact absurd hx2 hc
            · exact Or.inr ⟨x, h, hx2, hx3⟩

theorem get_filetypes_exts_wf (name : List Nat) (len : Nat) : ∀ (exts : List ext_t)
    (b : bitfiels_t) (res : Nat), b.wf →
    (get_filetypes_exts name len exts b res).fst.wf ∧
      (get_filetypes_exts name len exts b res).fst.size = b.size := by
  intro exts
  induction exts with
  | nil => intro b res h; exact ⟨h, rfl⟩
  | cons e rest ih =>
    intro b res h
    have e1 : get_filetypes_exts name len (e :: rest) b res =
        if _ends_with name len e.ext e.len then
          get_filetypes_exts name len rest (bf_set b e.type) (res + 1)
        else get_filetypes_exts name len rest b res := rfl
    rw [e1]
    split_ifs
    · exact ih _ _ (bf_set_wf _ _ h)
    · exact ih _ _ h

theorem get_filetypes_total (opt : opt_t) (vars : vars_t) (file : file_t)
    (h : ft_ready opt vars) :
    ∃ vars1 file1, get_filetypes opt vars file = some (vars1, file1) ∧
      file1.type_processed = true ∧ same_ft vars1 vars ∧ file1.name = file.name ∧
      file1.namelen = file.namelen ∧ file1.fullname = file.fullname ∧
      file1.nmatches = file.nmatches ∧ file1.line = file.line ∧
      (file.filetypes.wf → file1.filetypes.wf ∧ file1.filetypes.size = file.filetypes.size) := by
  obtain ⟨htx, hsk, hmk, hrb, hrake⟩ := h
  obtain ⟨tx, htx⟩ := Option.ne_none_iff_exists'.mp htx
  obtain ⟨sk, hsk⟩ := Option.ne_none_iff_exists'.mp hsk
  obtain ⟨mk, hmk⟩ := Option.ne_none_iff_exists'.mp hmk
  obtain ⟨rb, hrb⟩ := Option.ne_none_iff_exists'.mp hrb
  obtain ⟨rk, hrake⟩ := Option.ne_none_iff_exists'.mp hrake
  unfold get_filetypes
  by_cases hp : file.type_processed = true
  · rw [if_pos hp]
    exact ⟨vars, file, rfl, hp, ⟨rfl, rfl, rfl, rfl, rfl⟩, rfl, rfl, rfl, rfl, rfl, fun hw => ⟨hw, rfl⟩⟩
  · rw [if_neg hp]
    simp only []
    by_cases hs : ¬ is_searchable { file with type_processed := true } = true
    · rw [if_pos hs, hsk]
      exact ⟨_, _, rfl, rfl, ⟨rfl, rfl, rfl, rfl, rfl⟩, rfl, rfl, rfl, rfl, rfl,
        fun hw => ⟨bf_set_wf _ _ hw, rfl⟩⟩
    · rw [if_neg hs]
      obtain ⟨t, v2, f2, hai, hid, hft, _⟩ :=
        analyse_internals_total vars { file with type_processed := true }
      rw [hai]
      obtain ⟨i1, i2, i3, i4, i5, i6, i7⟩ := hid
      obtain ⟨j1, j2, j3, j4, j5⟩ := hft
      have hr1 : file.filetypes.wf →
          (match find_filetype opt t with
            | some ft => (bf_set f2.filetypes ft.i, 1)
            | none => (f2.filetypes, 0)).fst.wf ∧
          (match find_filetype opt t with
            | some ft => (bf_set f2.filetypes ft.i, 1)
            | none => (f2.filetypes, 0)).fst.size = file.filetypes.size := by
        intro hw
        have hw2 : f2.filetypes.wf := by rw [i1]; exact hw
        rcases find_filetype opt t with _ | ft
        · exact ⟨hw2, by rw [i1]⟩
        · exact ⟨bf_set_wf _ _ hw2, by rw [bf_set_size, i1]⟩
      simp only [j1, j3, j4, htx, hmk, hrb, hrake]
      split_ifs <;> simp only [] <;> split_ifs <;>
        refine ⟨_, _, rfl, i4, ⟨j1, j2, j3, j4, j5⟩, i2, i3, i5, i6, i7, fun hw => ?_⟩
      all_goals
        have S : ∀ (b : bitfiels_t) (i : Nat), (b.wf ∧ b.size = file.filetypes.size) →
            (bf_set b i).wf ∧ (bf_set b i).size = file.filetypes.size :=
          fun b i hb => ⟨bf_set_wf _ _ hb.1, hb.2⟩
        have X : ∀ (b : bitfiels_t) (res : Nat), (b.wf ∧ b.size = file.filetypes.size) →
            (get_filetypes_exts f2.name f2.namelen opt.exts b res).fst.wf ∧
            (get_filetypes_exts f2.name f2.namelen opt.exts b res).fst.size =
              file.filetypes.size :=
          fun b res hb => ⟨(get_filetypes_exts_wf _ _ _ _ _ hb.1).1,
            by rw [(get_filetypes_exts_wf _ _ _ _ _ hb.1).2]; exact hb.2⟩
        first
        | exact S _ _ (X _ _ (S _ _ (hr1 hw)))
        | exact X _ _ (S _ _ (hr1 hw))
        | exact S _ _ (X _ _ (S _ _ (S _ _ (hr1 hw))))
        | exact X _ _ (S _ _ (S _ _ (hr1 hw)))
        | exact S _ _ (X _ _ (hr1 hw))
        | exact X _ _ (hr1 hw)

/-- C12: classification is idempotent.  Whenever the pointers to the built-in
types are set, `get_filetypes` returns, and a second call on the state the first
call left returns that state unchanged: the bit set, the `is_binary` flag and
the window stay exactly as the first call left them. -/
theorem C12_classification_idempotent (opt : opt_t) (vars : vars_t) (file : file_t)
    (h : ft_ready opt vars) :
    ∃ vars1 file1, get_filetypes opt vars file = some (vars1, file1) ∧
      get_filetypes opt vars1 file1 = some (vars1, file1) := by
  obtain ⟨vars1, file1, h1, h2, _⟩ := get_filetypes_total opt vars file h
  refine ⟨vars1, file1, h1, ?_⟩
  unfold get_filetypes
  rw [if_pos h2]

set_option maxRecDepth 100000 in
/-- C12 at a concrete input: the built-in registry and a file `a.c` with the
content `x`. -/
theorem C12_classification_idempotent_witness :
    ft_ready (startup opt_abc).1 (startup opt_abc).2 ∧
    ∃ vars1 file1,
      get_filetypes (startup opt_abc).1 (startup opt_abc).2
        (file_t.reset (startup opt_abc).2 (cstr "a.c") (cstr "x") 0) = some (vars1, file1) ∧
      get_filetypes (startup opt_abc).1 vars1 file1 = some (vars1, file1) :=
  ⟨by decide, C12_classification_idempotent (startup opt_abc).1 (startup opt_abc).2
    (file_t.reset (startup opt_abc).2 (cstr "a.c") (cstr "x") 0) (by decide)⟩

/-- C13: the skip check.  For a file name without NUL byte, `is_searchable` is
false exactly when the name, compared case-insensitively, ends with `.bak`,
ends with `~`, begins with `.` or `_` and ends with `.swp`, ends with `.tmp`,
or begins and ends with `#`; and then `get_filetypes` on a file that was not
processed yet and has an empty bit set returns with exactly the bit of
`skipped` set, the globals, the handle, the window and the `is_binary` flag
unchanged. -/
theorem C13_skip_check (opt : opt_t) (vars : vars_t) (file : file_t) (sk : Nat)
    (h0 : ∀ c ∈ file.name, c ≠ 0) (hl : file.namelen = strlen file.name)
    (hp : file.type_processed = false) (hsk : vars.ft_skipped = some sk)
    (hsz : sk / 8 < file.filetypes.size) (hfresh : file.filetypes = bf_reset file.filetypes) :
    (is_searchable file = false ↔ skip_name file.name) ∧
    (skip_name file.name →
      get_filetypes opt vars file =
        some (vars, { file with type_processed := true, filetypes := bf_set file.filetypes sk }) ∧
      ∀ j, bf_isset (bf_set file.filetypes sk) j = true ↔ j = sk) := by
  have hlen : file.namelen = file.name.length := by rw [hl, strlen_eq_length _ h0]
  refine ⟨is_searchable_iff file hlen, ?_⟩
  intro hskip
  have hns : is_searchable file = false := (is_searchable_iff file hlen).mpr hskip
  have hns2 : is_searchable { file with type_processed := true } = false := hns
  constructor
  · unfold get_filetypes
    rw [if_neg (by rw [hp]; exact Bool.false_ne_true)]
    simp only []
    rw [if_pos (by rw [hns2]; exact Bool.false_ne_true), hsk]
  · intro j
    have hbl : file.filetypes.bits.length = file.filetypes.size := by
      rw [hfresh]
      simp [bf_reset]
    rw [bf_isset_bf_set _ _ _ (by rw [hbl]; exact hsz)]
    have : bf_isset file.filetypes j = false := by
      rw [hfresh]
      exact bf_isset_bf_reset _ _
    rw [this]
    simp

set_option maxRecDepth 100000 in
/-- C13 at a concrete input: the file name `x.BAK` with the built-in registry
is skipped and gets the bit 103 of `skipped` only. -/
theorem C13_skip_check_witness :
    skip_name (cstr "x.BAK") ∧
    is_searchable (file_t.reset (startup opt_abc).2 (cstr "x.BAK") (cstr "x") 0) = false ∧
    get_filetypes (startup opt_abc).1 (startup opt_abc).2
        (file_t.reset (startup opt_abc).2 (cstr "x.BAK") (cstr "x") 0) =
      some ((startup opt_abc).2,
        { file_t.reset (startup opt_abc).2 (cstr "x.BAK") (cstr "x") 0 with
          type_processed := true,
          filetypes := bf_set
            (file_t.reset (startup opt_abc).2 (cstr "x.BAK") (cstr "x") 0).filetypes 103 }) ∧
    ∀ j, bf_isset (bf_set
      (file_t.reset (startup opt_abc).2 (cstr "x.BAK") (cstr "x") 0).filetypes 103) j = true ↔
        j = 103 :=
  ⟨by decide,
   (C13_skip_check (startup opt_abc).1 (startup opt_abc).2
    (file_t.reset (startup opt_abc).2 (cstr "x.BAK") (cstr "x") 0) 103 (by decide) (by decide)
    (by decide) (by decide) (by decide) (by decide)).1.mpr (by decide),
   (C13_skip_check (startup opt_abc).1 (startup opt_abc).2
    (file_t.reset (startup opt_abc).2 (cstr "x.BAK") (cstr "x") 0) 103 (by decide) (by decide)
    (by decide) (by decide) (by decide) (by decide)).2 (by decide)⟩

/-- C14: searchability is set intersection.  For bit sets of equal size whose
bytes are bytes, `bf_fast_intersect` returns 0 or 1, and 1 exactly when some
index is set in both; `is_interesting` classifies the file and returns that
value for the classification and the requested-type set. -/
theorem C14_searchability_is_intersection (opt : opt_t) (vars : vars_t) (file : file_t)
    (hr : ft_ready opt vars) (hw : file.filetypes.wf)
    (_hsz : file.filetypes.size = opt.req_filetypes.size) :
    (∀ f s : bitfiels_t, f.wf → f.size = s.size →
      (bf_fast_intersect f s = 1 ∨ bf_fast_intersect f s = 0) ∧
      (bf_fast_intersect f s = 1 ↔
        ∃ i, i < 8 * f.size ∧ bf_isset f i = true ∧ bf_isset s i = true)) ∧
    ∃ r vars1 file1, is_interesting opt vars file = some (r, vars1, file1) ∧
      get_filetypes opt vars file = some (vars1, file1) ∧ (r = 1 ∨ r = 0) ∧
      (r = 1 ↔ ∃ i, i < 8 * file1.filetypes.size ∧ bf_isset file1.filetypes i = true ∧
        bf_isset opt.req_filetypes i = true) := by
  refine ⟨fun f s hf _ => bf_fast_intersect_spec f s hf, ?_⟩
  obtain ⟨vars1, file1, h1, _, _, _, _, _, _, _, h9⟩ := get_filetypes_total opt vars file hr
  refine ⟨bf_fast_intersect file1.filetypes opt.req_filetypes, vars1, file1, ?_, h1, ?_⟩
  · unfold is_interesting
    rw [h1]
  · exact bf_fast_intersect_spec _ _ (h9 hw).1

set_option maxRecDepth 100000 in
/-- C14 at a concrete input: the file `a.c` with the built-in registry and the
default requested types. -/
theorem C14_searchability_is_intersection_witness :
    (is_interesting (startup opt_abc).1 (startup opt_abc).2
      (file_t.reset (startup opt_abc).2 (cstr "a.c") (cstr "x") 0)).map (fun r => r.1) = some 1 ∧
    (∀ f s : bitfiels_t, f.wf → f.size = s.size →
      (bf_fast_intersect f s = 1 ∨ bf_fast_intersect f s = 0) ∧
      (bf_fast_intersect f s = 1 ↔
        ∃ i, i < 8 * f.size ∧ bf_isset f i = true ∧ bf_isset s i = true)) ∧
    ∃ r vars1 file1,
      is_interesting (startup opt_abc).1 (startup opt_abc).2
        (file_t.reset (startup opt_abc).2 (cstr "a.c") (cstr "x") 0) = some (r, vars1, file1) ∧
      get_filetypes (startup opt_abc).1 (startup opt_abc).2
        (file_t.reset (startup opt_abc).2 (cstr "a.c") (cstr "x") 0) = some (vars1, file1) ∧
      (r = 1 ∨ r = 0) ∧
      (r = 1 ↔ ∃ i, i < 8 * file1.filetypes.size ∧ bf_isset file1.filetypes i = true ∧
        bf_isset (startup opt_abc).1.req_filetypes i = true) :=
  ⟨by decide, C14_searchability_is_intersection (startup opt_abc).1 (startup opt_abc).2
    (file_t.reset (startup opt_abc).2 (cstr "a.c") (cstr "x") 0) (by decide) (by decide)
    (by decide)⟩

/-! ## Lemmas on the requested types -/

theorem set_wanted_map_i (l : List filetype_t) (i : Nat) (w : Int) :
    (set_wanted l i w).map (fun ft => ft.i) = l.map (fun ft => ft.i) := by
  unfold set_wanted
  rw [List.map_map]
  apply List.map_congr_left
  intro t _
  simp only [Function.comp]
  split_ifs <;> rfl

theorem find_set_wanted (l : List filetype_t) (i : Nat) (w : Int) (name : List Nat) :
    ((set_wanted l i w).find?
      (fun ft => ft.namelen = strlen name ∧ strcmp ft.name name = 0)).isSome =
    (l.find? (fun ft => ft.namelen = strlen name ∧ strcmp ft.name name = 0)).isSome := by
  induction l with
  | nil => rfl
  | cons t ts ih =>
    unfold set_wanted at ih ⊢
    simp only [List.map_cons, List.find?_cons]
    have e : (decide ((if t.i = i then { t with wanted := w } else t).namelen = strlen name ∧
        strcmp (if t.i = i then { t with wanted := w } else t).name name = 0)) =
        decide (t.namelen = strlen name ∧ strcmp t.name name = 0) := by
      split_ifs <;> rfl
    rw [e]
    rcases decide (t.namelen = strlen name ∧ strcmp t.name name = 0) with _ | _
    · exact ih
    · rfl

theorem _type_wanted_spec (opt : opt_t) (s : List Nat) :
    (_type_wanted opt s).snd.a = opt.a ∧
    (_type_wanted opt s).snd.nfiletypes = opt.nfiletypes ∧
    (_type_wanted opt s).snd.all_filetypes.map (fun ft => ft.i) =
      opt.all_filetypes.map (fun ft => ft.i) ∧
    (∀ name, (find_filetype (_type_wanted opt s).snd name).isSome =
      (find_filetype opt name).isSome) ∧
    (opt.types_type = 1 → (_type_wanted opt s).snd.types_type = 1) ∧
    ((find_filetype opt s).isSome = true → (_type_wanted opt s).snd.types_type = 1) ∧
    (opt.types_type ≤ 0 → find_filetype opt s = none →
      (_type_wanted opt s).snd.types_type ≤ 0) := by
  rcases h1 : find_filetype opt s with _ | ft
  · by_cases h2 : strncmp (mem_of s) 0 (mem_of (cstr "no")) 0 2 = 0
    · rcases h3 : find_filetype opt (List.drop 2 s) with _ | ft2
      · have e : _type_wanted opt s = (-1, opt) := by
          unfold _type_wanted
          simp only [h1, h2, h3, if_true]
        rw [e]
        exact ⟨rfl, rfl, rfl, fun _ => rfl, fun h => h, (fun h => by cases h), fun h _ => h⟩
      · have e : _type_wanted opt s = ((strlen s : Int),
            { opt with all_filetypes := set_wanted opt.all_filetypes ft2.i (-1),
                       types_type := if opt.types_type = 0 then -1 else opt.types_type }) := by
          unfold _type_wanted
          simp only [h1, h2, h3, if_true]
        rw [e]
        refine ⟨rfl, rfl, set_wanted_map_i _ _ _, fun name => find_set_wanted _ _ _ _, ?_,
          (fun h => by cases h), ?_⟩
        · intro h
          show (if opt.types_type = 0 then -1 else opt.types_type) = 1
          rw [if_neg (by omega)]
          exact h
        · intro h _
          show (if opt.types_type = 0 then -1 else opt.types_type) ≤ 0
          split_ifs <;> omega
    · have e : _type_wanted opt s = (-1, opt) := by
        unfold _type_wanted
        simp only [h1, h2, if_false]
      rw [e]
      exact ⟨rfl, rfl, rfl, fun _ => rfl, fun h => h, (fun h => by cases h), fun h _ => h⟩
  · have e : _type_wanted opt s = ((strlen s : Int),
        { opt with all_filetypes := set_wanted opt.all_filetypes ft.i 1, types_type := 1 }) := by
      unfold _type_wanted
      simp only [h1, Bool.false_eq_true, if_false]
    rw [e]
    exact ⟨rfl, rfl, set_wanted_map_i _ _ _, fun name => find_set_wanted _ _ _ _,
      fun _ => rfl, fun _ => rfl, fun _ h => by cases h⟩

theorem type_requests_spec : ∀ (reqs : List (List Nat)) (opt : opt_t),
    (type_requests opt reqs).a = opt.a ∧
    (type_requests opt reqs).nfiletypes = opt.nfiletypes ∧
    (type_requests opt reqs).all_filetypes.map (fun ft => ft.i) =
      opt.all_filetypes.map (fun ft => ft.i) ∧
    (∀ name, (find_filetype (type_requests opt reqs) name).isSome =
      (find_filetype opt name).isSome) ∧
    (opt.types_type = 1 → (type_requests opt reqs).types_type = 1) ∧
    (opt.types_type ≤ 0 →
      ((type_requests opt reqs).types_type ≤ 0 ↔ ∀ s ∈ reqs, find_filetype opt s = none)) := by
  intro reqs
  induction reqs with
  | nil =>
    intro opt
    exact ⟨rfl, rfl, rfl, fun _ => rfl, fun h => h,
      fun h => ⟨(fun _ s hs => by cases hs), fun _ => h⟩⟩
  | cons s rest ih =>
    intro opt
    have e : type_requests opt (s :: rest) = type_requests (_type_wanted opt s).snd rest := rfl
    rw [e]
    obtain ⟨a1, a2, a3, a4, a5, a6, a7⟩ := _type_wanted_spec opt s
    obtain ⟨b1, b2, b3, b4, b5, b6⟩ := ih (_type_wanted opt s).snd
    refine ⟨by rw [b1, a1], by rw [b2, a2], by rw [b3, a3], fun name => by rw [b4, a4],
      fun h => b5 (a5 h), ?_⟩
    intro h
    rcases hf : find_filetype opt s with _ | ft
    · have h2 := a7 h hf
      rw [b6 h2]
      constructor
      · intro h3 x hx
        rcases List.mem_cons.mp hx with hx | hx
        · rw [hx]; exact hf
        · have := h3 x hx
          have h4 := a4 x
          rw [this] at h4
          rcases hx2 : find_filetype opt x with _ | y
          · rfl
          · rw [hx2] at h4
            cases h4
      · intro h3 x hx
        have := h3 x (List.mem_cons_of_mem _ hx)
        have h4 := a4 x
        rw [this] at h4
        rcases hx2 : find_filetype (_type_wanted opt s).snd x with _ | y
        · rfl
        · rw [hx2] at h4
          cases h4
    · have h2 := b5 (a6 (by rw [hf]; rfl))
      constructor
      · intro h3
        omega
      · intro h3
        have := h3 s (List.mem_cons_self _ _)
        rw [hf] at this
        cases this

theorem foldl_bf_set_spec (P : filetype_t → Bool) : ∀ (l : List filetype_t) (b : bitfiels_t),
    (∀ ft ∈ l, ft.i / 8 < b.bits.length) →
    ∀ j, bf_isset (l.foldl (fun b ft => if P ft = true then bf_set b ft.i else b) b) j = true ↔
      (bf_isset b j = true ∨ ∃ ft ∈ l, P ft = true ∧ ft.i = j) := by
  intro l
  induction l with
  | nil =>
    intro b _ j
    simp
  | cons t ts ih =>
    intro b hr j
    simp only [List.foldl_cons]
    have ht : t.i / 8 < b.bits.length := hr t (List.mem_cons_self _ _)
    have hts : ∀ ft ∈ ts, ft.i / 8 < b.bits.length := fun ft h => hr ft (List.mem_cons_of_mem _ h)
    by_cases hp : P t = true
    · rw [if_pos hp, ih (bf_set b t.i) (by simpa [bf_set] using hts) j,
        bf_isset_bf_set b t.i j ht]
      constructor
      · rintro ((h | h) | ⟨x, hx, hx2⟩)
        · exact Or.inr ⟨t, List.mem_cons_self _ _, hp, h.symm⟩
        · exact Or.inl h
        · exact Or.inr ⟨x, List.mem_cons_of_mem _ hx, hx2⟩
      · rintro (h | ⟨x, hx, hx2, hx3⟩)
        · exact Or.inl (Or.inr h)
        · rcases List.mem_cons.mp hx with h | h
          · subst h
            exact Or.inl (Or.inl hx3.symm)
          · exact Or.inr ⟨x, h, hx2, hx3⟩
    · rw [if_neg hp, ih b hts j]
      constructor
      · rintro (h | ⟨x, hx, hx2⟩)
        · exact Or.inl h
        · exact Or.inr ⟨x, List.mem_cons_of_mem _ hx, hx2⟩
      · rintro (h | ⟨x, hx, hx2, hx3⟩)
        · exact Or.inl h
        · rcases List.mem_cons.mp hx with h | h
          · subst h
            exact absurd hx2 hp
          · exact Or.inr ⟨x, h, hx2, hx3⟩

theorem init_req_filetypes_spec (opt : opt_t) (vars : vars_t) (h : registry_ok opt) :
    ∀ ft ∈ opt.all_filetypes,
      bf_isset (init_req_filetypes opt vars).req_filetypes ft.i = req_wanted opt vars ft := by
  intro ft hft
  have hlen : (bf_new opt.nfiletypes).bits.length = (opt.nfiletypes + 7) / 8 := by
    simp [bf_new, bf_reset]
  have hr : ∀ x ∈ opt.all_filetypes, x.i / 8 < (bf_new opt.nfiletypes).bits.length := by
    intro x hx
    have := h.2 x hx
    rw [hlen]
    omega
  have key := foldl_bf_set_spec (req_wanted opt vars) opt.all_filetypes (bf_new opt.nfiletypes)
    hr ft.i
  unfold init_req_filetypes
  simp only []
  rw [Bool.eq_iff_iff, key]
  have hz : bf_isset (bf_new opt.nfiletypes) ft.i = false := bf_isset_bf_reset _ _
  rw [hz]
  constructor
  · rintro (h1 | ⟨x, hx, hx2, hx3⟩)
    · cases h1
    · have := List.inj_on_of_nodup_map h.1 hx hft hx3
      rw [← this]
      exact hx2
  · intro h1
    exact Or.inr ⟨ft, hft, h1, rfl⟩

/-- C15 as stated fails: the requested-type set is not a function of the
tri-states and the all-types override alone.  With the built-in registry, the
requests `--perl --noperl` and the request `--noperl` leave the same tri-states
(no type included, `perl` excluded) and the same override, `python` is not
excluded and is none of `skipped`, `binary`, `text`, yet after the first
sequence the bit of `python` (88) is not set, while after the second it is. -/
theorem C15_include_then_exclude_counterexample :
    (type_requests (startup opt_abc).1 [cstr "perl", cstr "noperl"]).all_filetypes =
      (type_requests (startup opt_abc).1 [cstr "noperl"]).all_filetypes ∧
    (type_requests (startup opt_abc).1 [cstr "perl", cstr "noperl"]).a = false ∧
    (type_requests (startup opt_abc).1 [cstr "noperl"]).a = false ∧
    (∀ t ∈ (type_requests (startup opt_abc).1 [cstr "perl", cstr "noperl"]).all_filetypes,
      t.wanted ≠ 1) ∧
    (∃ t ∈ (type_requests (startup opt_abc).1 [cstr "perl", cstr "noperl"]).all_filetypes,
      t.name = cstr "python" ∧ t.i = 88 ∧ t.wanted ≠ -1 ∧
      some t.i ≠ (startup opt_abc).2.ft_skipped ∧ some t.i ≠ (startup opt_abc).2.ft_binary ∧
      some t.i ≠ (startup opt_abc).2.ft_text) ∧
    bf_isset (init_req_filetypes
      (type_requests (startup opt_abc).1 [cstr "perl", cstr "noperl"])
      (startup opt_abc).2).req_filetypes 88 = false ∧
    bf_isset (init_req_filetypes (type_requests (startup opt_abc).1 [cstr "noperl"])
      (startup opt_abc).2).req_filetypes 88 = true := by
  set_option maxRecDepth 100000 in
  decide

/-- C15 (amended): the requested-type set.  Starting from a registry with
pairwise distinct indices in which no type request was made yet
(`opt.types_type = 0`), after any sequence `reqs` of `--TYPE` / `--noTYPE` /
`--type=TYPE` requests and `init_req_filetypes`, the bit of a registered type
`t` is set iff `t` is included (`wanted = 1`), or the all-types override is
active, or no request of the sequence named a registered type directly (no
inclusion was requested at any time), `t` is not excluded and `t` is none of
`skipped`, `binary`, `text`. -/
theorem C15_requested_types (opt : opt_t) (vars : vars_t) (reqs : List (List Nat))
    (hreg : registry_ok opt) (h0 : opt.types_type = 0) :
    ∀ ft ∈ (type_requests opt reqs).all_filetypes,
      bf_isset (init_req_filetypes (type_requests opt reqs) vars).req_filetypes ft.i = true ↔
        (ft.wanted = 1 ∨ opt.a = true ∨
          ((∀ s ∈ reqs, find_filetype opt s = none) ∧ ft.wanted ≠ -1 ∧
            some ft.i ≠ vars.ft_skipped ∧ some ft.i ≠ vars.ft_binary ∧
            some ft.i ≠ vars.ft_text)) := by
  intro ft hft
  obtain ⟨b1, b2, b3, _, _, b6⟩ := type_requests_spec reqs opt
  have hreg2 : registry_ok (type_requests opt reqs) := by
    unfold registry_ok
    rw [b3, b2]
    refine ⟨hreg.1, ?_⟩
    intro x hx
    have h1 : x.i ∈ (type_requests opt reqs).all_filetypes.map (fun ft => ft.i) :=
      List.mem_map_of_mem _ hx
    rw [b3] at h1
    obtain ⟨y, hy, hy2⟩ := List.mem_map.mp h1
    rw [← hy2]
    exact hreg.2 y hy
  rw [init_req_filetypes_spec _ vars hreg2 ft hft]
  unfold req_wanted
  rw [decide_eq_true_iff, b1, b6 (by omega)]

set_option maxRecDepth 100000 in
/-- C15 at a concrete input: the built-in registry and the request `--noperl`;
the bit of `python` is set and the bit of `perl` is not. -/
theorem C15_requested_types_witness :
    registry_ok (startup opt_abc).1 ∧ (startup opt_abc).1.types_type = 0 ∧
    bf_isset (init_req_filetypes (type_requests (startup opt_abc).1 [cstr "noperl"])
      (startup opt_abc).2).req_filetypes 88 = true ∧
    bf_isset (init_req_filetypes (type_requests (startup opt_abc).1 [cstr "noperl"])
      (startup opt_abc).2).req_filetypes 80 = false ∧
    ∀ ft ∈ (type_requests (startup opt_abc).1 [cstr "noperl"]).all_filetypes,
      bf_isset (init_req_filetypes (type_requests (startup opt_abc).1 [cstr "noperl"])
        (startup opt_abc).2).req_filetypes ft.i = true ↔
        (ft.wanted = 1 ∨ (startup opt_abc).1.a = true ∨
          ((∀ s ∈ [cstr "noperl"], find_filetype (startup opt_abc).1 s = none) ∧ ft.wanted ≠ -1 ∧
            some ft.i ≠ (startup opt_abc).2.ft_skipped ∧
            some ft.i ≠ (startup opt_abc).2.ft_binary ∧
            some ft.i ≠ (startup opt_abc).2.ft_text)) :=
  ⟨by decide, by decide, by decide, by decide,
    C15_requested_types (startup opt_abc).1 (startup opt_abc).2 [cstr "noperl"] (by decide)
      (by decide)⟩

/-! ## Lemmas on the built-in registry -/

theorem strcasecmp_eq_zero_iff : ∀ (a b : List Nat), (∀ c ∈ a, c ≠ 0) → (∀ c ∈ b, c ≠ 0) →
    (strcasecmp a b = 0 ↔ lower a = lower b) := by
  intro a
  induction a with
  | nil =>
    intro b _ hb
    rcases b with _ | ⟨y, ys⟩
    · exact ⟨fun _ => rfl, fun _ => rfl⟩
    · have e : strcasecmp [] (y :: ys) = - (tolower y : Int) := rfl
      rw [e]
      have hy : y ≠ 0 := hb y (List.mem_cons_self _ _)
      have hy2 : tolower y ≠ 0 := fun h => hy ((tolower_eq_zero y).mp h)
      constructor
      · intro h; omega
      · intro h; cases h
  | cons x xs ih =>
    intro b ha hb
    have hx : x ≠ 0 := ha x (List.mem_cons_self _ _)
    have hx2 : tolower x ≠ 0 := fun h => hx ((tolower_eq_zero x).mp h)
    rcases b with _ | ⟨y, ys⟩
    · have e : strcasecmp (x :: xs) [] = (tolower x : Int) := rfl
      rw [e]
      constructor
      · intro h; omega
      · intro h; cases h
    · have e : strcasecmp (x :: xs) (y :: ys) =
          if tolower x ≠ tolower y then (tolower x : Int) - (tolower y : Int)
          else if tolower x = 0 then 0 else strcasecmp xs ys := rfl
      rw [e]
      have e2 : lower (x :: xs) = tolower x :: lower xs := rfl
      have e3 : lower (y :: ys) = tolower y :: lower ys := rfl
      rw [e2, e3]
      by_cases h1 : tolower x ≠ tolower y
      · rw [if_pos h1]
        constructor
        · intro h; exfalso; apply h1; omega
        · intro h
          exact absurd (List.cons.inj h).1 h1
      · rw [if_neg h1, if_neg hx2,
          ih ys (fun c hc => ha c (List.mem_cons_of_mem _ hc))
            (fun c hc => hb c (List.mem_cons_of_mem _ hc))]
        have h1e : tolower x = tolower y := by
          by_contra hc
          exact h1 hc
        constructor
        · intro h; rw [h1e, h]
        · intro h; exact (List.cons.inj h).2

theorem find_filetype_congr (o1 o2 : opt_t) (h : o1.all_filetypes = o2.all_filetypes)
    (name : List Nat) : find_filetype o1 name = find_filetype o2 name := by
  unfold find_filetype
  rw [h]

theorem sniffed_getD (file : file_t) (q : Nat)
    (h : q < (read_file file.buf file.f 1024).fst.toNat) :
    (read_file file.buf file.f 1024).snd.fst.buf q ∈ sniffed file := by
  unfold sniffed
  exact List.mem_map.mpr ⟨q, List.mem_range.mpr h, rfl⟩

theorem analyse_internals_no_nul (vars : vars_t) (file : file_t) (hb : file.is_binary = false)
    (hnul : ∀ c ∈ sniffed file, c ≠ 0) (t : List Nat) (vars1 : vars_t) (file1 : file_t)
    (h : analyse_internals vars file = some (t, vars1, file1)) :
    file1.is_binary = false ∧
      (t ∈ interprets ∨ t = cstr "shell" ∨ t = cstr "text" ∨ t = cstr "xml") := by
  have hq : ∀ p, memchr (read_file file.buf file.f 1024).snd.fst.buf 0 0
      (read_file file.buf file.f 1024).fst.toNat = some p → False := by
    intro p hp
    obtain ⟨_, h2, h3, _⟩ := memchr_some _ _ _ _ _ hp
    exact hnul _ (sniffed_getD file p (by omega)) h3
  obtain ⟨hr, hh, hb2⟩ := analyse_header_total (read_file file.buf file.f 1024).snd.fst.buf
    ((memchr (read_file file.buf file.f 1024).snd.fst.buf 0 10
      (read_file file.buf file.f 1024).fst.toNat).getD 0)
  unfold analyse_internals at h
  simp only [] at h
  split at h
  · split at h
    · cases h
      exact ⟨hb, Or.inr (Or.inr (Or.inr rfl))⟩
    · split at h
      · split at h
        · rename_i ptr hptr
          rw [hptr] at hh
          simp only [Option.getD_some] at hh
          rw [hh] at h
          rcases hr with _ | t2
          · cases h
            exact ⟨hb, Or.inr (Or.inr (Or.inl rfl))⟩
          · cases h
            refine ⟨hb, ?_⟩
            rcases hb2 t rfl with h5 | h5
            · exact Or.inl h5
            · exact Or.inr (Or.inl h5)
        · cases h
          exact ⟨hb, Or.inr (Or.inr (Or.inl rfl))⟩
      · split at h
        · cases h
          exact ⟨hb, Or.inr (Or.inr (Or.inl rfl))⟩
        · rename_i p hp
          exact absurd (hq p hp) id
  · cases h
    exact ⟨hb, Or.inr (Or.inr (Or.inl rfl))⟩

set_option maxRecDepth 100000 in
theorem builtin_sniff_types :
    ∀ t ∈ interprets ++ [cstr "shell", cstr "text", cstr "xml"],
      (find_filetype (startup opt_abc).1 t).map
        (fun ft => decide (ft.i ≠ 8 ∧ ft.i ≠ 103 ∧ ft.i / 8 < 17)) = some true := by
  decide

set_option maxRecDepth 100000 in
theorem builtin_exts_range :
    (∀ e ∈ (startup opt_abc).1.exts, e.type / 8 < 17) ∧
    (∀ e ∈ (startup opt_abc).1.exts, e.type = 8 → 11 < e.len) := by
  decide

set_option maxRecDepth 100000 in
theorem builtin_pointers :
    (startup opt_abc).2.ft_text = some 114 ∧ (startup opt_abc).2.ft_skipped = some 103 ∧
    (startup opt_abc).2.ft_make = some 63 ∧ (startup opt_abc).2.ft_ruby = some 96 ∧
    (startup opt_abc).2.ft_binary = some 8 ∧ (startup opt_abc).2.filetypes.size = 17 := by
  decide

theorem get_filetypes_searchable (opt : opt_t) (vars : vars_t) (file : file_t)
    (hp : file.type_processed = false)
    (hs : is_searchable { file with type_processed := true } = true)
    (t : List Nat) (vars2 : vars_t) (file2 : file_t)
    (hai : analyse_internals vars { file with type_processed := true } = some (t, vars2, file2)) :
    get_filetypes opt vars file =
      match (if strcasecmp (cstr "makefile") file2.name = 0 ∨
              strcasecmp (cstr "gnumakefile") file2.name = 0 then
            match vars2.ft_make with
            | none => none
            | some mk => some (bf_set (match find_filetype opt t with
                | some ft => (bf_set file2.filetypes ft.i, 1)
                | none => (file2.filetypes, 0)).1 mk, (match find_filetype opt t with
                | some ft => (bf_set file2.filetypes ft.i, 1)
                | none => (file2.filetypes, 0)).2 + 1)
          else if strcasecmp (cstr "rakefile") file2.name = 0 then
            match find_filetype opt (cstr "rake"), vars2.ft_ruby with
            | some ft, some rb => some (bf_set (bf_set (match find_filetype opt t with
                | some ft => (bf_set file2.filetypes ft.i, 1)
                | none => (file2.filetypes, 0)).1 ft.i) rb, (match find_filetype opt t with
                | some ft => (bf_set file2.filetypes ft.i, 1)
                | none => (file2.filetypes, 0)).2 + 1)
            | _, _ => none
          else some (match find_filetype opt t with
                | some ft => (bf_set file2.filetypes ft.i, 1)
                | none => (file2.filetypes, 0)) : Option (bitfiels_t × Nat)) with
      | none => none
      | some r2 =>
        if (get_filetypes_exts file2.name file2.namelen opt.exts r2.1 r2.2).2 ≠ 0 ∧
            ¬ file2.is_binary then
          match vars2.ft_text with
          | none => none
          | some tx =>
            let b := bf_set (get_filetypes_exts file2.name file2.namelen opt.exts r2.1 r2.2).1 tx
            some (vars2, { file2 with filetypes := b })
        else
          let b := (get_filetypes_exts file2.name file2.namelen opt.exts r2.1 r2.2).1
          some (vars2, { file2 with filetypes := b }) := by
  unfold get_filetypes
  rw [if_neg (by rw [hp]; exact Bool.false_ne_true)]
  simp only []
  rw [if_neg (by rw [hs]; exact fun h => h rfl), hai]

theorem cstr_makefile : cstr "makefile" = [109, 97, 107, 101, 102, 105, 108, 101] := by decide

theorem cstr_gnumakefile :
    cstr "gnumakefile" = [103, 110, 117, 109, 97, 107, 101, 102, 105, 108, 101] := by decide

theorem not_skip_of_lower (name l : List Nat) (h : lower name = l) (hl : ¬ skip_name l)
    (hll : lower l = l) : ¬ skip_name name := by
  unfold skip_name at hl ⊢
  rw [hll] at hl
  rw [h]
  exact hl

theorem is_searchable_of_not_skip (file : file_t) (h0 : ∀ c ∈ file.name, c ≠ 0)
    (hl : file.namelen = strlen file.name) (h : ¬ skip_name file.name) :
    is_searchable file = true := by
  have hlen : file.namelen = file.name.length := by rw [hl, strlen_eq_length _ h0]
  rcases hs : is_searchable file with _ | _
  · exact absurd ((is_searchable_iff file hlen).mp hs) h
  · rfl

theorem builtin_ptrs (opt : opt_t) (vars : vars_t) (h : is_builtin opt vars) :
    vars.ft_text = some 114 ∧ vars.ft_skipped = some 103 ∧ vars.ft_make = some 63 ∧
      vars.ft_ruby = some 96 ∧ vars.ft_binary = some 8 ∧ vars.filetypes.size = 17 := by
  obtain ⟨_, _, ⟨h1, h2, h3, h4, h5⟩, h6⟩ := h
  obtain ⟨p1, p2, p3, p4, p5, p6⟩ := builtin_pointers
  exact ⟨h1.trans p1, h2.trans p2, h3.trans p3, h4.trans p4, h5.trans p5, h6.trans p6⟩

/-- C17: Makefile classification.  With the built-in registry, for every file
whose name equals `makefile` or `gnumakefile` ignoring case, that was not
classified yet, and whose sniffed bytes contain no NUL, `get_filetypes` returns
with the bits of `make` (63) and `text` (114) set and the bit of `binary` (8)
not set. -/
theorem C17_makefile_classification (opt : opt_t) (vars : vars_t) (file : file_t)
    (hbi : is_builtin opt vars)
    (hname : strcasecmp (cstr "makefile") file.name = 0 ∨
      strcasecmp (cstr "gnumakefile") file.name = 0)
    (h0 : ∀ c ∈ file.name, c ≠ 0) (hl : file.namelen = strlen file.name)
    (hp : file.type_processed = false) (hb : file.is_binary = false)
    (hfresh : file.filetypes = bf_reset vars.filetypes)
    (hnul : ∀ c ∈ sniffed file, c ≠ 0) :
    ∃ vars1 file1, get_filetypes opt vars file = some (vars1, file1) ∧
      vars.ft_make = some 63 ∧ bf_isset file1.filetypes 63 = true ∧
      vars.ft_text = some 114 ∧ bf_isset file1.filetypes 114 = true ∧
      vars.ft_binary = some 8 ∧ bf_isset file1.filetypes 8 = false := by
  obtain ⟨ptx, _, pmk, _, pbn, psz⟩ := builtin_ptrs opt vars hbi
  obtain ⟨hall, hexts, _, _⟩ := hbi
  -- the name
  have hlow : lower file.name = cstr "makefile" ∨ lower file.name = cstr "gnumakefile" := by
    rcases hname with h | h
    · left
      rw [cstr_makefile] at h ⊢
      exact ((strcasecmp_eq_zero_iff _ _ (by decide) h0).mp h).symm
    · right
      rw [cstr_gnumakefile] at h ⊢
      exact ((strcasecmp_eq_zero_iff _ _ (by decide) h0).mp h).symm
  have hlen : file.name.length ≤ 11 := by
    rcases hlow with h | h
    · have := congrArg List.length h
      rw [lower_length, cstr_makefile] at this
      simp only [List.length_cons, List.length_nil] at this
      omega
    · have := congrArg List.length h
      rw [lower_length, cstr_gnumakefile] at this
      simp only [List.length_cons, List.length_nil] at this
      omega
  have hnamelen : file.namelen = file.name.length := by rw [hl, strlen_eq_length _ h0]
  have hns : ¬ skip_name file.name := by
    rcases hlow with h | h
    · exact not_skip_of_lower _ _ h (by decide) (by decide)
    · exact not_skip_of_lower _ _ h (by decide) (by decide)
  have hs : is_searchable { file with type_processed := true } = true :=
    is_searchable_of_not_skip { file with type_processed := true } h0 hl hns
  -- the content sniff
  obtain ⟨t, v2, f2, hai, ⟨i1, i2, i3, _⟩, ⟨j1, _, j3, _⟩, _⟩ :=
    analyse_internals_total vars { file with type_processed := true }
  obtain ⟨hbin, ht⟩ := analyse_internals_no_nul vars { file with type_processed := true } hb hnul
    t v2 f2 hai
  have htm : t ∈ interprets ++ [cstr "shell", cstr "text", cstr "xml"] := by
    rcases ht with h | h | h | h
    · exact List.mem_append_left _ h
    · exact List.mem_append_right _ (by rw [h]; simp)
    · exact List.mem_append_right _ (by rw [h]; simp)
    · exact List.mem_append_right _ (by rw [h]; simp)
  have hfind := builtin_sniff_types t htm
  rw [← find_filetype_congr opt (startup opt_abc).1 hall t] at hfind
  rcases hft : find_filetype opt t with _ | ft
  · rw [hft] at hfind
    cases hfind
  rw [hft] at hfind
  simp only [Option.map_some', Option.some.injEq, decide_eq_true_eq] at hfind
  obtain ⟨hft8, _, hftr⟩ := hfind
  -- the classification
  have hb0 : f2.filetypes.bits.length = 17 := by
    rw [i1]
    show file.filetypes.bits.length = 17
    rw [hfresh]
    simp [bf_reset, psz]
  have hz : ∀ j, bf_isset f2.filetypes j = false := by
    intro j
    rw [i1]
    show bf_isset file.filetypes j = false
    rw [hfresh]
    exact bf_isset_bf_reset _ _
  have hcond : strcasecmp (cstr "makefile") f2.name = 0 ∨
      strcasecmp (cstr "gnumakefile") f2.name = 0 := by
    rw [i2]
    exact hname
  have hl1 : (bf_set f2.filetypes ft.i).bits.length = 17 := by
    simp [bf_set, hb0]
  have hl2 : (bf_set (bf_set f2.filetypes ft.i) 63).bits.length = 17 := by
    simp [bf_set, hb0]
  have hrange : ∀ e ∈ opt.exts, e.type / 8 < (bf_set (bf_set f2.filetypes ft.i) 63).bits.length := by
    intro e he
    rw [hl2]
    rw [hexts] at he
    exact builtin_exts_range.1 e he
  obtain ⟨_, x2, _, x4, _, x6⟩ := get_filetypes_exts_spec f2.name f2.namelen opt.exts
    (bf_set (bf_set f2.filetypes ft.i) 63) (1 + 1) hrange
  have hres : (get_filetypes_exts f2.name f2.namelen opt.exts
      (bf_set (bf_set f2.filetypes ft.i) 63) (1 + 1)).2 ≠ 0 ∧ ¬ f2.is_binary = true := by
    refine ⟨by omega, ?_⟩
    rw [hbin]
    exact Bool.false_ne_true
  have hl3 : (get_filetypes_exts f2.name f2.namelen opt.exts
      (bf_set (bf_set f2.filetypes ft.i) 63) (1 + 1)).1.bits.length = 17 := by
    rw [x2, hl2]
  refine ⟨v2, { f2 with filetypes := bf_set (get_filetypes_exts f2.name f2.namelen opt.exts
      (bf_set (bf_set f2.filetypes ft.i) 63) (1 + 1)).1 114 }, ?_, pmk, ?_, ptx, ?_, pbn, ?_⟩
  · rw [get_filetypes_searchable opt vars file hp hs t v2 f2 hai, if_pos hcond, j3, pmk, hft]
    simp only []
    rw [if_pos hres, j1, ptx]
  · show bf_isset (bf_set _ 114) 63 = true
    rw [bf_isset_bf_set _ _ _ (by rw [hl3]; decide), x6, bf_isset_bf_set _ _ _ (by rw [hl1]; decide)]
    exact Or.inr (Or.inl (Or.inl rfl))
  · show bf_isset (bf_set _ 114) 114 = true
    rw [bf_isset_bf_set _ _ _ (by rw [hl3]; decide)]
    exact Or.inl rfl
  · show bf_isset (bf_set _ 114) 8 = false
    rw [← Bool.not_eq_true, bf_isset_bf_set _ _ _ (by rw [hl3]; decide), x6,
      bf_isset_bf_set _ _ _ (by rw [hl1]; decide), bf_isset_bf_set _ _ _ (by rw [hb0]; exact hftr),
      hz 8]
    rintro (h | (h | h | h) | ⟨e, he, he2, he3⟩)
    · omega
    · omega
    · exact hft8 h.symm
    · cases h
    · rw [hexts] at he
      have h11 := builtin_exts_range.2 e he he3
      rw [_ends_with_short _ _ _ _ (by rw [i3]; show file.namelen < e.len; omega)] at he2
      cases he2

set_option maxRecDepth 100000 in
/-- C17 at a concrete input: the file `Makefile` with the content `all:` is
classified as `make` and `text`, and nothing else. -/
theorem C17_makefile_classification_witness :
    (get_filetypes (startup opt_abc).1 (startup opt_abc).2
      (file_t.reset (startup opt_abc).2 (cstr "Makefile") (cstr "all:") 0)).map
        (fun r => (List.range 136).filter (fun j => bf_isset r.2.filetypes j)) = some [63, 114] ∧
    ∃ vars1 file1, get_filetypes (startup opt_abc).1 (startup opt_abc).2
        (file_t.reset (startup opt_abc).2 (cstr "Makefile") (cstr "all:") 0) =
          some (vars1, file1) ∧
      (startup opt_abc).2.ft_make = some 63 ∧ bf_isset file1.filetypes 63 = true ∧
      (startup opt_abc).2.ft_text = some 114 ∧ bf_isset file1.filetypes 114 = true ∧
      (startup opt_abc).2.ft_binary = some 8 ∧ bf_isset file1.filetypes 8 = false :=
  ⟨by decide, C17_makefile_classification (startup opt_abc).1 (startup opt_abc).2
    (file_t.reset (startup opt_abc).2 (cstr "Makefile") (cstr "all:") 0) (by decide) (by decide)
    (by decide) (by decide) (by decide) (by decide) (by decide) (by decide)⟩

/-! ## Lemmas on the shebang line -/

theorem has_sub_iff (l t : List Nat) : has_sub l t = true ↔ ∃ i, occurs_at l t i := by
  unfold has_sub
  rw [List.any_eq_true]
  constructor
  · rintro ⟨i, _, hi⟩
    exact ⟨i, of_decide_eq_true hi⟩
  · rintro ⟨i, hi⟩
    refine ⟨i, List.mem_range.mpr ?_, decide_eq_true hi⟩
    have := hi.1
    omega

theorem getD_append_mid (a b c : List Nat) (j : Nat) (h : j < b.length) :
    (a ++ b ++ c).getD (a.length + j) 0 = b.getD j 0 := by
  simp only [List.getD_eq_getElem?_getD]
  rw [List.append_assoc, List.getElem?_append_right (by omega), Nat.add_sub_cancel_left,
    List.getElem?_append_left h]

theorem occurs_at_mid (l a b c : List Nat) (i : Nat) (h : occurs_at l (a ++ b ++ c) i) :
    occurs_at l b (i + a.length) := by
  rw [occurs_at_iff] at h ⊢
  obtain ⟨h1, h2⟩ := h
  simp only [List.length_append] at h1 h2
  refine ⟨by omega, ?_⟩
  intro j hj
  have h3 := h2 (a.length + j) (by omega)
  rw [mem_of_getD (a ++ b ++ c), getD_append_mid a b c j hj] at h3
  rw [show i + a.length + j = i + (a.length + j) by omega, h3]
  rfl

theorem has_sub_mid (l a b c : List Nat) (h : has_sub l (a ++ b ++ c) = true) :
    has_sub l b = true := by
  rw [has_sub_iff] at h ⊢
  obtain ⟨i, hi⟩ := h
  exact ⟨_, occurs_at_mid l a b c i hi⟩

theorem shell_names_sh (l : List Nat) (h : shell_names.any (has_sub l) = true) :
    has_sub l (cstr "sh") = true := by
  rw [List.any_eq_true] at h
  obtain ⟨s, hs, hs2⟩ := h
  have e : shell_names = [[98, 97] ++ cstr "sh" ++ [], [116, 99] ++ cstr "sh" ++ [],
      [107] ++ cstr "sh" ++ [], [122] ++ cstr "sh" ++ [], [97] ++ cstr "sh" ++ [],
      [] ++ cstr "sh" ++ [], [102, 105] ++ cstr "sh" ++ []] := by decide
  rw [e] at hs
  simp only [List.mem_cons, List.mem_singleton, List.not_mem_nil, or_false] at hs
  rcases hs with h | h | h | h | h | h | h <;> (rw [h] at hs2; exact has_sub_mid _ _ _ _ hs2)

theorem strnstr1_has_sub (m : Nat → Nat) (fl t : List Nat) (h : agree m (mem_of fl) 0 fl.length)
    (ht : t ≠ []) (h0 : ∀ c ∈ t, c ≠ 0) :
    ∃ r, _strnstr1 m 0 t fl.length = some r ∧ (r.isSome = has_sub fl t) := by
  unfold _strnstr1
  rw [strlen_eq_length t h0, _strnstr3_local m (mem_of fl) (mem_of t) 0 fl.length t.length
    (by rw [Nat.zero_add]; exact h)]
  obtain ⟨r, hr1, hr2⟩ := _strnstr3_spec (mem_of fl) (mem_of t) 0 fl.length t.length
    (List.length_pos.mpr ht)
  refine ⟨r, hr1, ?_⟩
  rw [Bool.eq_iff_iff, has_sub_iff]
  rcases r with _ | p
  · simp only [Option.isSome_none, Bool.false_eq_true, false_iff, not_exists]
    intro i hi
    rw [occurs_at_iff] at hi
    exact hr2 i (Nat.zero_le _) (by omega) hi.2
  · simp only [Option.isSome_some, true_iff]
    refine ⟨p, ?_⟩
    rw [occurs_at_iff]
    exact ⟨by omega, hr2.2.2.1⟩

theorem analyse_header_loop_find (m : Nat → Nat) (fl : List Nat)
    (h : agree m (mem_of fl) 0 fl.length) : ∀ (tbl : List (List Nat)),
    (∀ t ∈ tbl, t ≠ [] ∧ ∀ c ∈ t, c ≠ 0) →
    analyse_header_loop m fl.length tbl = some (tbl.find? (has_sub fl)) := by
  intro tbl
  induction tbl with
  | nil => intro _; rfl
  | cons t ts ih =>
    intro ht
    obtain ⟨r, hr1, hr2⟩ := strnstr1_has_sub m fl t h (ht t (List.mem_cons_self _ _)).1
      (ht t (List.mem_cons_self _ _)).2
    have e : analyse_header_loop m fl.length (t :: ts) =
        match _strnstr1 m 0 t fl.length with
        | none => none
        | some (some _) => some (some t)
        | some none => analyse_header_loop m fl.length ts := rfl
    rw [e, hr1, List.find?_cons, ← hr2]
    rcases r with _ | p
    · exact ih (fun x hx => ht x (List.mem_cons_of_mem _ hx))
    · rfl

theorem analyse_header_spec (m : Nat → Nat) (fl : List Nat)
    (h : agree m (mem_of fl) 0 fl.length) :
    analyse_header m fl.length =
      some (match interprets.find? (has_sub fl) with
        | some t => some t
        | none => if shells.any (has_sub fl) = true then some (cstr "shell") else none) := by
  unfold analyse_header
  rw [analyse_header_loop_find m fl h interprets (by decide),
    analyse_header_loop_find m fl h shells (by decide)]
  rcases interprets.find? (has_sub fl) with _ | t
  · simp only []
    rcases h2 : shells.find? (has_sub fl) with _ | s
    · have : shells.any (has_sub fl) = false := by
        rw [List.find?_eq_none] at h2
        rw [Bool.eq_false_iff]
        intro h3
        rw [List.any_eq_true] at h3
        obtain ⟨x, hx, hx2⟩ := h3
        exact h2 x hx hx2
      rw [this]
      rfl
    · have : shells.any (has_sub fl) = true := by
        rw [List.any_eq_true]
        exact ⟨s, List.mem_of_find?_eq_some h2, List.find?_some h2⟩
      rw [this]
      rfl
  · rfl

theorem bf_isset_mono (b : bitfiels_t) (i j : Nat) (h : bf_isset b j = true) :
    bf_isset (bf_set b i) j = true := by
  by_cases hi : i / 8 < b.bits.length
  · rw [bf_isset_bf_set b i j hi]
    exact Or.inr h
  · have e : bf_set b i = b := by
      unfold bf_set
      rw [List.set_eq_of_length_le (by omega)]
    rw [e]
    exact h

theorem get_filetypes_exts_mono (name : List Nat) (len : Nat) (j : Nat) :
    ∀ (exts : List ext_t) (b : bitfiels_t) (res : Nat), bf_isset b j = true →
      bf_isset (get_filetypes_exts name len exts b res).fst j = true := by
  intro exts
  induction exts with
  | nil => intro b res h; exact h
  | cons e rest ih =>
    intro b res h
    have e1 : get_filetypes_exts name len (e :: rest) b res =
        if _ends_with name len e.ext e.len then
          get_filetypes_exts name len rest (bf_set b e.type) (res + 1)
        else get_filetypes_exts name len rest b res := rfl
    rw [e1]
    split_ifs
    · exact ih _ _ (bf_isset_mono _ _ _ h)
    · exact ih _ _ h

theorem get_filetypes_type_bit (opt : opt_t) (vars : vars_t) (file : file_t)
    (hr : ft_ready opt vars) (hp : file.type_processed = false)
    (hs : is_searchable { file with type_processed := true } = true)
    (t : List Nat) (vars2 : vars_t) (file2 : file_t)
    (hai : analyse_internals vars { file with type_processed := true } = some (t, vars2, file2))
    (ft : filetype_t) (hft : find_filetype opt t = some ft)
    (hrange : ft.i / 8 < file.filetypes.bits.length) :
    ∃ vars1 file1, get_filetypes opt vars file = some (vars1, file1) ∧
      bf_isset file1.filetypes ft.i = true := by
  obtain ⟨htx, _, hmk, hrb, hrake⟩ := hr
  obtain ⟨tx, htx⟩ := Option.ne_none_iff_exists'.mp htx
  obtain ⟨mk, hmk⟩ := Option.ne_none_iff_exists'.mp hmk
  obtain ⟨rb, hrb⟩ := Option.ne_none_iff_exists'.mp hrb
  obtain ⟨rk, hrake⟩ := Option.ne_none_iff_exists'.mp hrake
  obtain ⟨t', v2', f2', hai', ⟨i1, _⟩, ⟨j1, _, j3, j4, _⟩, _⟩ :=
    analyse_internals_total vars { file with type_processed := true }
  rw [hai] at hai'
  cases hai'
  have h1 : bf_isset (bf_set file2.filetypes ft.i) ft.i = true := by
    rw [bf_isset_bf_set _ _ _ (by rw [i1]; exact hrange)]
    exact Or.inl rfl
  rw [get_filetypes_searchable opt vars file hp hs t vars2 file2 hai]
  simp only [hft, j3, j4, j1, hmk, hrb, htx, hrake]
  split_ifs <;> simp only [] <;> split_ifs <;> refine ⟨_, _, rfl, ?_⟩
  all_goals
    with_reducible first
    | exact bf_isset_mono _ _ _ (get_filetypes_exts_mono _ _ _ _ _ _ (bf_isset_mono _ _ _ h1))
    | exact get_filetypes_exts_mono _ _ _ _ _ _ (bf_isset_mono _ _ _ h1)
    | exact bf_isset_mono _ _ _ (get_filetypes_exts_mono _ _ _ _ _ _
        (bf_isset_mono _ _ _ (bf_isset_mono _ _ _ h1)))
    | exact get_filetypes_exts_mono _ _ _ _ _ _ (bf_isset_mono _ _ _ (bf_isset_mono _ _ _ h1))
    | exact bf_isset_mono _ _ _ (get_filetypes_exts_mono _ _ _ _ _ _ h1)
    | exact get_filetypes_exts_mono _ _ _ _ _ _ h1

theorem memchr_first (m : Nat → Nat) (c k n : Nat) (hk : k < n) (hc : m k = c)
    (hj : ∀ j, j < k → m j ≠ c) : memchr m 0 c n = some k := by
  rcases h : memchr m 0 c n with _ | q
  · exact absurd hc (memchr_none m c n 0 h k (Nat.zero_le _) (by omega))
  · obtain ⟨_, _, h3, h4⟩ := memchr_some m c n 0 q h
    have h5 : ¬ q < k := fun hlt => hj q hlt h3
    have h6 : ¬ k < q := fun hlt => h4 k (Nat.zero_le _) hlt hc
    have : q = k := by omega
    rw [this]

theorem sniffed_buf (file : file_t) (l : List Nat) (h : sniffed file = l) :
    (read_file file.buf file.f 1024).fst.toNat = l.length ∧
    ∀ j, j < l.length → (read_file file.buf file.f 1024).snd.fst.buf j = l.getD j 0 := by
  unfold sniffed at h
  have h1 : (read_file file.buf file.f 1024).fst.toNat = l.length := by
    have := congrArg List.length h
    simpa using this
  refine ⟨h1, ?_⟩
  intro j hj
  have h2 := congrArg (fun x => x.getD j 0) h
  simp only [List.getD_eq_getElem?_getD, List.getElem?_map, List.getElem?_range (by omega : j < (read_file file.buf file.f 1024).fst.toNat), Option.map_some', Option.getD_some] at h2
  rw [h2, List.getD_eq_getElem?_getD]

theorem analyse_internals_shebang (vars : vars_t) (file : file_t) (fl rest : List Nat)
    (hsn : sniffed file = fl ++ 10 :: rest) (hfl : ∀ c ∈ fl, c ≠ 10) (hsb : [35, 33] <+: fl) :
    ∃ vars1 file1, analyse_internals vars file = some (header_type fl, vars1, file1) := by
  obtain ⟨hsz, hbuf⟩ := sniffed_buf file _ hsn
  simp only [List.length_append, List.length_cons] at hsz hbuf
  obtain ⟨fl', hfl'⟩ := hsb
  have hlen2 : 2 ≤ fl.length := by
    rw [← hfl']
    simp
  have hb0 : (read_file file.buf file.f 1024).snd.fst.buf 0 = 35 := by
    rw [hbuf 0 (by omega), ← hfl']
    rfl
  have hb1 : (read_file file.buf file.f 1024).snd.fst.buf 1 = 33 := by
    rw [hbuf 1 (by omega), ← hfl']
    rfl
  have hpos : 0 < (read_file file.buf file.f 1024).fst := by
    have : 0 < (read_file file.buf file.f 1024).fst.toNat := by omega
    exact Int.lt_of_toNat_lt this
  have hxml : ¬ (6 < (read_file file.buf file.f 1024).fst ∧
      strncasecmp (read_file file.buf file.f 1024).snd.fst.buf 0 (mem_of (cstr "<?xml ")) 0 6 = 0) := by
    rintro ⟨_, h⟩
    have e : strncasecmp (read_file file.buf file.f 1024).snd.fst.buf 0 (mem_of (cstr "<?xml ")) 0
        (5 + 1) =
        if tolower ((read_file file.buf file.f 1024).snd.fst.buf 0) ≠
            tolower (mem_of (cstr "<?xml ") 0) then
          (tolower ((read_file file.buf file.f 1024).snd.fst.buf 0) : Int) -
            (tolower (mem_of (cstr "<?xml ") 0) : Int)
        else if tolower ((read_file file.buf file.f 1024).snd.fst.buf 0) = 0 then 0
        else strncasecmp (read_file file.buf file.f 1024).snd.fst.buf (0 + 1)
          (mem_of (cstr "<?xml ")) (0 + 1) 5 := rfl
    rw [show (6 : Nat) = 5 + 1 from rfl, e, hb0] at h
    have e2 : tolower (mem_of (cstr "<?xml ") 0) = 60 := by decide
    have e3 : tolower 35 = 35 := by decide
    rw [e2, e3, if_pos (by decide)] at h
    omega
  have hmem : memchr (read_file file.buf file.f 1024).snd.fst.buf 0 10
      (read_file file.buf file.f 1024).fst.toNat = some fl.length := by
    apply memchr_first
    · omega
    · rw [hbuf fl.length (by omega), List.getD_eq_getElem?_getD,
        List.getElem?_append_right (le_refl _)]
      simp
    · intro j hj
      rw [hbuf j (by omega), List.getD_eq_getElem?_getD, List.getElem?_append_left hj,
        List.getElem?_eq_getElem hj]
      exact hfl _ (List.getElem_mem hj)
  have hag : agree (read_file file.buf file.f 1024).snd.fst.buf (mem_of fl) 0 fl.length := by
    intro j _ hj
    rw [hbuf j (by omega), mem_of_getD, List.getD_eq_getElem?_getD, List.getD_eq_getElem?_getD,
      List.getElem?_append_left hj]
  unfold analyse_internals
  simp only []
  rw [if_pos hpos, if_neg hxml, if_pos ⟨hb0, hb1⟩, hmem]
  simp only []
  rw [analyse_header_spec _ fl hag]
  unfold header_type
  rcases interprets.find? (has_sub fl) with _ | t
  · simp only []
    by_cases h : shells.any (has_sub fl) = true
    · rw [if_pos h, if_pos h]
      exact ⟨_, _, rfl⟩
    · rw [if_neg h, if_neg h]
      exact ⟨_, _, rfl⟩
  · exact ⟨_, _, rfl⟩

/-- C18: shebang classification.  For every file that passes the skip check,
was not classified yet, and whose sniffed bytes begin with `#!` and contain a
newline, with `fl` the bytes before the first newline: if some interpreter
name (ruby, perl, php, python, lua, awk) occurs in `fl`, the classification
includes the type of the first such name in table order; if none occurs and
one of the shell names (bash, tcsh, ksh, zsh, ash, sh, fish) occurs, it
includes `shell`.  The registry has to know these types, with indices inside
the bit set. -/
theorem C18_shebang_classification (opt : opt_t) (vars : vars_t) (file : file_t)
    (fl rest : List Nat) (hr : ft_ready opt vars)
    (hreg : ∀ t ∈ interprets ++ [cstr "shell"],
      ∃ ft, find_filetype opt t = some ft ∧ ft.i / 8 < file.filetypes.bits.length)
    (h0 : ∀ c ∈ file.name, c ≠ 0) (hl : file.namelen = strlen file.name)
    (hp : file.type_processed = false) (hns : ¬ skip_name file.name)
    (hsn : sniffed file = fl ++ 10 :: rest) (hfl : ∀ c ∈ fl, c ≠ 10) (hsb : [35, 33] <+: fl) :
    ∃ vars1 file1, get_filetypes opt vars file = some (vars1, file1) ∧
      (∀ t, interprets.find? (has_sub fl) = some t →
        ∃ ft, find_filetype opt t = some ft ∧ bf_isset file1.filetypes ft.i = true) ∧
      (interprets.find? (has_sub fl) = none → shell_names.any (has_sub fl) = true →
        ∃ ft, find_filetype opt (cstr "shell") = some ft ∧
          bf_isset file1.filetypes ft.i = true) := by
  have hs : is_searchable { file with type_processed := true } = true :=
    is_searchable_of_not_skip { file with type_processed := true } h0 hl hns
  obtain ⟨v2, f2, hai⟩ := analyse_internals_shebang vars { file with type_processed := true }
    fl rest hsn hfl hsb
  obtain ⟨vars1, file1, hg, _⟩ := get_filetypes_total opt vars file hr
  refine ⟨vars1, file1, hg, ?_, ?_⟩
  · intro t ht
    obtain ⟨ft, hft, hrange⟩ := hreg t
      (List.mem_append_left _ (List.mem_of_find?_eq_some ht))
    have hT : header_type fl = t := by
      unfold header_type
      rw [ht]
    rw [hT] at hai
    obtain ⟨v1, f1, h1, h2⟩ := get_filetypes_type_bit opt vars file hr hp hs t v2 f2 hai ft hft
      hrange
    rw [hg] at h1
    cases h1
    exact ⟨ft, hft, h2⟩
  · intro hnone hsh
    obtain ⟨ft, hft, hrange⟩ := hreg (cstr "shell") (List.mem_append_right _ (by simp))
    have hany : shells.any (has_sub fl) = true := by
      rw [List.any_eq_true]
      exact ⟨cstr "sh", by decide, shell_names_sh fl hsh⟩
    have hT : header_type fl = cstr "shell" := by
      unfold header_type
      rw [hnone]
      simp only []
      rw [if_pos hany]
    rw [hT] at hai
    obtain ⟨v1, f1, h1, h2⟩ := get_filetypes_type_bit opt vars file hr hp hs (cstr "shell") v2 f2
      hai ft hft hrange
    rw [hg] at h1
    cases h1
    exact ⟨ft, hft, h2⟩

set_option maxRecDepth 100000 in
/-- C18 at the scenario of the spec: a file `run` starting with `#!/bin/bash`
is classified as `shell` (102) and `text` (114); the interpreter wins in
`#!/usr/bin/perl -w # not sh`. -/
theorem C18_shebang_classification_witness :
    (get_filetypes (startup opt_abc).1 (startup opt_abc).2
      (file_t.reset (startup opt_abc).2 (cstr "run")
        (cstr "#!/bin/bash" ++ 10 :: cstr "echo") 0)).map
        (fun r => (List.range 136).filter (fun j => bf_isset r.2.filetypes j)) = some [102, 114] ∧
    shell_names.any (has_sub (cstr "#!/bin/bash")) = true ∧
    ∃ vars1 file1, get_filetypes (startup opt_abc).1 (startup opt_abc).2
        (file_t.reset (startup opt_abc).2 (cstr "run")
          (cstr "#!/bin/bash" ++ 10 :: cstr "echo") 0) = some (vars1, file1) ∧
      (∀ t, interprets.find? (has_sub (cstr "#!/bin/bash")) = some t →
        ∃ ft, find_filetype (startup opt_abc).1 t = some ft ∧
          bf_isset file1.filetypes ft.i = true) ∧
      (interprets.find? (has_sub (cstr "#!/bin/bash")) = none →
        shell_names.any (has_sub (cstr "#!/bin/bash")) = true →
        ∃ ft, find_filetype (startup opt_abc).1 (cstr "shell") = some ft ∧
          bf_isset file1.filetypes ft.i = true) :=
  ⟨by decide, by decide,
    C18_shebang_classification (startup opt_abc).1 (startup opt_abc).2
      (file_t.reset (startup opt_abc).2 (cstr "run") (cstr "#!/bin/bash" ++ 10 :: cstr "echo") 0)
      (cstr "#!/bin/bash") (cstr "echo") (by decide) (by decide) (by decide) (by decide)
      (by decide) (by decide) (by decide) (by decide) (by decide)⟩

/-! ## Lemmas on the content sniff -/

theorem read_file_fresh (b : buf_t) (f : FHANDLE) (hs : b.start = 0) (hu : b.used = 0) :
    read_file b f 1024 =
      if 0 < (FREAD f (sniff_request b)).fst then
        ((FREAD f (sniff_request b)).fst,
          { b with allocated := sniff_request b,
                   buf := mem_write b.buf 0 (FREAD f (sniff_request b)).snd.fst,
                   used := (FREAD f (sniff_request b)).fst.toNat },
          (FREAD f (sniff_request b)).snd.snd)
      else
        ((FREAD f (sniff_request b)).fst, { b with allocated := sniff_request b },
          (FREAD f (sniff_request b)).snd.snd) := by
  rcases b with ⟨buf, al, us, st⟩
  simp only [] at hs hu
  subst hs hu
  unfold read_file sniff_request
  by_cases hc : al = 0
  · subst hc
    simp
  · simp [hc]

theorem FREAD_prefix (f : FHANDLE) (size : Nat) :
    (FREAD f size).snd.fst <+: f.data ∧ (FREAD f size).snd.fst.length ≤ size ∧
    ((FREAD f size).fst.toNat = (FREAD f size).snd.fst.length) := by
  unfold FREAD
  rcases f.sched with _ | ⟨s, rest⟩
  · simp only []
    refine ⟨List.take_prefix _ _, ?_, ?_⟩
    · rw [List.length_take]; omega
    · rw [List.length_take, Int.toNat_ofNat]; omega
  · rcases s with c | _
    · simp only []
      refine ⟨List.take_prefix _ _, ?_, ?_⟩
      · rw [List.length_take]; omega
      · rw [List.length_take, Int.toNat_ofNat]
        omega
    · simp only []
      exact ⟨List.nil_prefix, by simp, rfl⟩

theorem FREAD_take (d d' : List Nat) (s : List ReadStep) (size : Nat)
    (h : d'.take size = d.take size) :
    (FREAD ⟨d', s⟩ size).fst = (FREAD ⟨d, s⟩ size).fst ∧
    (FREAD ⟨d', s⟩ size).snd.fst = (FREAD ⟨d, s⟩ size).snd.fst := by
  have hl : min size d'.length = min size d.length := by
    have := congrArg List.length h
    simpa [List.length_take] using this
  have ht : ∀ n, n ≤ size → d'.take n = d.take n := by
    intro n hn
    have := congrArg (List.take n) h
    rw [List.take_take, List.take_take, min_eq_left hn] at this
    exact this
  unfold FREAD
  rcases s with _ | ⟨st, rest⟩
  · simp only []
    rw [hl]
    exact ⟨rfl, ht _ (by omega)⟩
  · rcases st with c | _
    · simp only []
      have e : min (min size (c + 1)) d'.length = min (min size (c + 1)) d.length := by omega
      rw [e]
      exact ⟨rfl, ht _ (by omega)⟩
    · exact ⟨rfl, rfl⟩

theorem sniffed_fresh (file : file_t) (hs : file.buf.start = 0) (hu : file.buf.used = 0) :
    sniffed file = (FREAD file.f (sniff_request file.buf)).snd.fst := by
  obtain ⟨_, _, h3⟩ := FREAD_prefix file.f (sniff_request file.buf)
  unfold sniffed
  rw [read_file_fresh file.buf file.f hs hu]
  by_cases hp : 0 < (FREAD file.f (sniff_request file.buf)).fst
  · rw [if_pos hp]
    simp only []
    apply list_eq_of_getD
    · simp [h3]
    · intro i hi
      simp only [List.length_map, List.length_range] at hi
      simp only [List.getD_eq_getElem?_getD, List.getElem?_map, List.getElem?_range hi,
        Option.map_some', Option.getD_some, mem_write]
      rw [if_pos ⟨Nat.zero_le _, by omega⟩]
      simp [List.getD_eq_getElem?_getD]
  · rw [if_neg hp]
    simp only []
    have h0 : (FREAD file.f (sniff_request file.buf)).fst.toNat = 0 := by
      apply Int.toNat_eq_zero.mpr
      omega
    rw [h0] at h3 ⊢
    rw [List.length_eq_zero.mp h3.symm]
    rfl

theorem analyse_internals_congr (vars : vars_t) (file file' : file_t)
    (h1 : (read_file file'.buf file'.f 1024).fst = (read_file file.buf file.f 1024).fst)
    (h2 : (read_file file'.buf file'.f 1024).snd.fst = (read_file file.buf file.f 1024).snd.fst)
    (h3 : file'.is_binary = file.is_binary) :
    (analyse_internals vars file').map (fun r => (r.1, r.2.2.is_binary)) =
      (analyse_internals vars file).map (fun r => (r.1, r.2.2.is_binary)) := by
  unfold analyse_internals
  simp only [h1, h2]
  split_ifs
  · simp only [Option.map_some', h3]
  · rcases memchr (read_file file.buf file.f 1024).snd.fst.buf 0 10
      (read_file file.buf file.f 1024).fst.toNat with _ | ptr
    · simp only [Option.map_some', h3]
    · simp only []
      rcases analyse_header (read_file file.buf file.f 1024).snd.fst.buf ptr with _ | r
      · rfl
      · rcases r with _ | t
        · simp only [Option.map_some', h3]
        · simp only [Option.map_some', h3]
  · rcases memchr (read_file file.buf file.f 1024).snd.fst.buf 0 0
      (read_file file.buf file.f 1024).fst.toNat with _ | ptr
    · simp only [Option.map_some', h3]
    · simp only [Option.map_some']
  · simp only [Option.map_some', h3]

theorem memchr_eq_none (m : Nat → Nat) (c n : Nat) (h : ∀ j, j < n → m j ≠ c) :
    memchr m 0 c n = none := by
  rcases hm : memchr m 0 c n with _ | q
  · rfl
  · obtain ⟨_, h2, h3, _⟩ := memchr_some m c n 0 q hm
    exact absurd h3 (h q (by omega))

theorem analyse_internals_plain (vars : vars_t) (file : file_t) (x : Nat) (l : List Nat)
    (hsn : sniffed file = x :: l) (hx : x ≠ 35) (hx2 : tolower x ≠ 60) :
    ∃ vars1 file1, analyse_internals vars file =
        some (if 0 ∈ x :: l then cstr "binary" else cstr "text", vars1, file1) ∧
      file1.is_binary = (if 0 ∈ x :: l then true else file.is_binary) ∧
      file1.buf = (read_file file.buf file.f 1024).snd.fst ∧
      file1.f = (read_file file.buf file.f 1024).snd.snd := by
  obtain ⟨hsz, hbuf⟩ := sniffed_buf file _ hsn
  simp only [List.length_cons] at hsz hbuf
  have hb0 : (read_file file.buf file.f 1024).snd.fst.buf 0 = x := by
    rw [hbuf 0 (by omega)]
    rfl
  have hpos : 0 < (read_file file.buf file.f 1024).fst := by
    have : 0 < (read_file file.buf file.f 1024).fst.toNat := by omega
    exact Int.lt_of_toNat_lt this
  have hxml : ¬ (6 < (read_file file.buf file.f 1024).fst ∧
      strncasecmp (read_file file.buf file.f 1024).snd.fst.buf 0 (mem_of (cstr "<?xml ")) 0 6 = 0) := by
    rintro ⟨_, h⟩
    have e : strncasecmp (read_file file.buf file.f 1024).snd.fst.buf 0 (mem_of (cstr "<?xml ")) 0
        (5 + 1) =
        if tolower ((read_file file.buf file.f 1024).snd.fst.buf 0) ≠
            tolower (mem_of (cstr "<?xml ") 0) then
          (tolower ((read_file file.buf file.f 1024).snd.fst.buf 0) : Int) -
            (tolower (mem_of (cstr "<?xml ") 0) : Int)
        else if tolower ((read_file file.buf file.f 1024).snd.fst.buf 0) = 0 then 0
        else strncasecmp (read_file file.buf file.f 1024).snd.fst.buf (0 + 1)
          (mem_of (cstr "<?xml ")) (0 + 1) 5 := rfl
    rw [show (6 : Nat) = 5 + 1 from rfl, e, hb0] at h
    have e2 : tolower (mem_of (cstr "<?xml ") 0) = 60 := by decide
    rw [e2, if_pos hx2] at h
    omega
  have hsharp : ¬ ((read_file file.buf file.f 1024).snd.fst.buf 0 = 35 ∧
      (read_file file.buf file.f 1024).snd.fst.buf 1 = 33) := by
    rintro ⟨h, _⟩
    rw [hb0] at h
    exact hx h
  unfold analyse_internals
  simp only []
  rw [if_pos hpos, if_neg hxml, if_neg hsharp]
  by_cases hz : 0 ∈ x :: l
  · rw [if_pos hz, if_pos hz]
    rcases hm : memchr (read_file file.buf file.f 1024).snd.fst.buf 0 0
        (read_file file.buf file.f 1024).fst.toNat with _ | q
    · exfalso
      obtain ⟨k, hk, hk2⟩ := List.getElem_of_mem hz
      have := memchr_none _ _ _ _ hm k (Nat.zero_le _) (by simp only [List.length_cons] at hk; omega)
      rw [hbuf k (by simpa using hk), List.getD_eq_getElem?_getD, List.getElem?_eq_getElem hk,
        Option.getD_some, hk2] at this
      exact this rfl
    · exact ⟨_, _, rfl, rfl, rfl, rfl⟩
  · rw [if_neg hz, if_neg hz, memchr_eq_none]
    · exact ⟨_, _, rfl, rfl, rfl, rfl⟩
    · intro j hj h
      apply hz
      rw [hbuf j (by omega), List.getD_eq_getElem?_getD,
        List.getElem?_eq_getElem (by simp only [List.length_cons]; omega), Option.getD_some] at h
      rw [← h]
      exact List.getElem_mem _

/-- C19 as stated fails for a window whose capacity exceeds 1024, such as the
66560 bytes left by a previous file: `analyse_internals` takes all 1025 bytes
of the file from the handle in its one read, and the byte at offset 1024
decides the result (a NUL there makes the file `binary`, the letter `a` leaves
it `text`). -/
theorem C19_large_window_counterexample :
    (file_t.reset vars_t.init (cstr "a.c") (List.replicate 1024 97 ++ [0]) 66560).buf.start = 0 ∧
    (file_t.reset vars_t.init (cstr "a.c") (List.replicate 1024 97 ++ [0]) 66560).buf.used = 0 ∧
    (analyse_internals vars_t.init
      (file_t.reset vars_t.init (cstr "a.c") (List.replicate 1024 97 ++ [0]) 66560)).map
        (fun r => (r.1, r.2.2.is_binary, r.2.2.buf.used, r.2.2.f.data)) =
      some (cstr "binary", true, 1025, []) ∧
    (analyse_internals vars_t.init
      (file_t.reset vars_t.init (cstr "a.c") (List.replicate 1024 97 ++ [97]) 66560)).map
        (fun r => (r.1, r.2.2.is_binary, r.2.2.buf.used, r.2.2.f.data)) =
      some (cstr "text", false, 1025, []) := by
  have key : ∀ c : Nat,
      (FREAD ⟨List.replicate 1024 97 ++ [c], []⟩ 66560) =
        ((1025 : Int), List.replicate 1024 97 ++ [c], ⟨[], []⟩) := by
    intro c
    have hl : (List.replicate 1024 97 ++ [c]).length = 1025 := by
      rw [List.length_append, List.length_replicate]
      rfl
    unfold FREAD
    simp only [hl]
    rw [show min 66560 1025 = 1025 from rfl, List.take_of_length_le (by omega),
      List.drop_of_length_le (by omega)]
    rfl
  have rf : ∀ c : Nat,
      (read_file
        (file_t.reset vars_t.init (cstr "a.c") (List.replicate 1024 97 ++ [c]) 66560).buf
        (file_t.reset vars_t.init (cstr "a.c") (List.replicate 1024 97 ++ [c]) 66560).f
        1024).snd.fst.used = 1025 ∧
      (read_file
        (file_t.reset vars_t.init (cstr "a.c") (List.replicate 1024 97 ++ [c]) 66560).buf
        (file_t.reset vars_t.init (cstr "a.c") (List.replicate 1024 97 ++ [c]) 66560).f
        1024).snd.snd = ⟨[], []⟩ := by
    intro c
    rw [read_file_fresh _ _ rfl rfl]
    have e : sniff_request
        (file_t.reset vars_t.init (cstr "a.c") (List.replicate 1024 97 ++ [c]) 66560).buf =
          66560 := rfl
    have e2 : (file_t.reset vars_t.init (cstr "a.c") (List.replicate 1024 97 ++ [c]) 66560).f =
        ⟨List.replicate 1024 97 ++ [c], []⟩ := rfl
    rw [e, e2, key c, if_pos (by show (0 : Int) < 1025; decide)]
    exact ⟨rfl, rfl⟩
  have sn : ∀ c : Nat,
      sniffed (file_t.reset vars_t.init (cstr "a.c") (List.replicate 1024 97 ++ [c]) 66560) =
        97 :: (List.replicate 1023 97 ++ [c]) := by
    intro c
    rw [sniffed_fresh _ rfl rfl]
    have e : sniff_request
        (file_t.reset vars_t.init (cstr "a.c") (List.replicate 1024 97 ++ [c]) 66560).buf =
          66560 := rfl
    have e2 : (file_t.reset vars_t.init (cstr "a.c") (List.replicate 1024 97 ++ [c]) 66560).f =
        ⟨List.replicate 1024 97 ++ [c], []⟩ := rfl
    rw [e, e2, key c]
    rfl
  refine ⟨rfl, rfl, ?_, ?_⟩
  · obtain ⟨v1, f1, h1, h2, h3, h4⟩ := analyse_internals_plain vars_t.init _ 97 _ (sn 0)
      (by decide) (by decide)
    have hz : (0 : Nat) ∈ 97 :: (List.replicate 1023 97 ++ [0]) :=
      List.mem_cons_of_mem _ (List.mem_append_right _ (List.mem_singleton.mpr rfl))
    rw [if_pos hz] at h1 h2
    rw [h1]
    simp only [Option.map_some', h2, h3, h4, (rf 0).1, (rf 0).2]
  · obtain ⟨v1, f1, h1, h2, h3, h4⟩ := analyse_internals_plain vars_t.init _ 97 _ (sn 97)
      (by decide) (by decide)
    have hz : ¬ (0 : Nat) ∈ 97 :: (List.replicate 1023 97 ++ [97]) := by
      intro h
      rcases List.mem_cons.mp h with h | h
      · cases h
      · rcases List.mem_append.mp h with h | h
        · exact absurd (List.mem_replicate.mp h).2 (by decide)
        · exact absurd (List.mem_singleton.mp h) (by decide)
    rw [if_neg hz] at h1 h2
    rw [h1]
    simp only [Option.map_some', h2, h3, h4, (rf 97).1, (rf 97).2]
    rfl

/-- C19 (amended): the sniff bound.  For every file and every window that is
empty and starts at offset 0, of any capacity, `analyse_internals` makes its one
read with a request of 1024 bytes when the capacity is 0 and of the whole
capacity otherwise (hence of at most 1024 bytes when the capacity is at most
1024); the bytes it examines are the bytes this read delivered, a prefix of the
file no longer than the request, and the type name and the `is_binary` flag it
yields are the same for any other content that agrees on that many first
bytes. -/
theorem C19_sniff_bound (vars : vars_t) (file : file_t) (hs : file.buf.start = 0)
    (hu : file.buf.used = 0) :
    (read_file file.buf file.f 1024).fst = (FREAD file.f (sniff_request file.buf)).fst ∧
    (read_file file.buf file.f 1024).snd.snd = (FREAD file.f (sniff_request file.buf)).snd.snd ∧
    sniff_request file.buf = (if file.buf.allocated = 0 then 1024 else file.buf.allocated) ∧
    (file.buf.allocated ≤ 1024 → sniff_request file.buf ≤ 1024) ∧
    sniffed file <+: file.f.data ∧ (sniffed file).length ≤ sniff_request file.buf ∧
    ∀ file' : file_t, file'.buf = file.buf → file'.f.sched = file.f.sched →
      file'.is_binary = file.is_binary →
      file'.f.data.take (sniff_request file.buf) = file.f.data.take (sniff_request file.buf) →
      (analyse_internals vars file').map (fun r => (r.1, r.2.2.is_binary)) =
        (analyse_internals vars file).map (fun r => (r.1, r.2.2.is_binary)) := by
  obtain ⟨p1, p2, _⟩ := FREAD_prefix file.f (sniff_request file.buf)
  have hrf := read_file_fresh file.buf file.f hs hu
  refine ⟨?_, ?_, rfl, ?_, ?_, ?_, ?_⟩
  · rw [hrf]
    split_ifs <;> rfl
  · rw [hrf]
    split_ifs <;> rfl
  · intro h
    unfold sniff_request
    split_ifs <;> omega
  · rw [sniffed_fresh file hs hu]
    exact p1
  · rw [sniffed_fresh file hs hu]
    exact p2
  · intro file' hb hsch hbin hd
    have hs' : file'.buf.start = 0 := by rw [hb]; exact hs
    have hu' : file'.buf.used = 0 := by rw [hb]; exact hu
    have hrf' := read_file_fresh file'.buf file'.f hs' hu'
    have hF := FREAD_take file.f.data file'.f.data file.f.sched (sniff_request file.buf) hd
    have e1 : file'.f = ⟨file'.f.data, file.f.sched⟩ := by
      rw [← hsch]
    have e2 : file.f = ⟨file.f.data, file.f.sched⟩ := rfl
    rw [hb, e1] at hrf'
    rw [e2] at hrf
    apply analyse_internals_congr vars file file' _ _ hbin
    · rw [hb, e1, hrf', e2, hrf, hF.1, hF.2]
      split_ifs <;> rfl
    · rw [hb, e1, hrf', e2, hrf, hF.1, hF.2]
      split_ifs <;> rfl

/-- C19 at a concrete input: the first file of a run (capacity 0) with the
content `abc`: the request is 1024 bytes and the three bytes are examined. -/
theorem C19_sniff_bound_witness :
    sniff_request (file_t.reset vars_t.init (cstr "a.c") (cstr "abc") 0).buf = 1024 ∧
    sniffed (file_t.reset vars_t.init (cstr "a.c") (cstr "abc") 0) = cstr "abc" ∧
    (read_file (file_t.reset vars_t.init (cstr "a.c") (cstr "abc") 0).buf
      (file_t.reset vars_t.init (cstr "a.c") (cstr "abc") 0).f 1024).fst =
      (FREAD (file_t.reset vars_t.init (cstr "a.c") (cstr "abc") 0).f
        (sniff_request (file_t.reset vars_t.init (cstr "a.c") (cstr "abc") 0).buf)).fst :=
  ⟨by decide, by decide,
    (C19_sniff_bound vars_t.init (file_t.reset vars_t.init (cstr "a.c") (cstr "abc") 0)
      (by decide) (by decide)).1⟩

set_option maxRecDepth 100000 in
/-- C11: the ring is not empty on every return.  With before-context 1, a file
flagged binary whose first line `x` does not match and whose second line `abc`
matches: `analize_file` returns 1 through the `return 1` of the binary notice
(main.c 1383) with `vars.hused = 1`, the line `x` still buffered; the same
happens when `process_file` classifies and scans the file `t.c` with that
content followed by a NUL byte. -/
theorem C11_binary_return_keeps_ring :
    (analize_file { opt_abc with B := 1 } vars_t.init
      { file_t.opened [120, 10, 97, 98, 99, 10, 0] [] with is_binary := true }).map
        (fun r => (r.1, r.2.1.hused, r.2.2.2)) = some (1, 1, [out_t.binary]) ∧
    (process_file (startup { opt_abc with B := 1 }).1 (startup { opt_abc with B := 1 }).2
      (cstr "t.c") (cstr "t.c") (some ⟨[120, 10, 97, 98, 99, 10, 0], []⟩)).map
        (fun r => (r.2.1.hused, r.2.1.file.is_binary, r.2.2)) =
      some (1, true, [pout_t.scan out_t.binary]) ∧
    (analize_file { opt_abc with B := 1 } vars_t.init
      (file_t.opened [120, 10, 97, 98, 99, 10, 0] [])).map
        (fun r => (r.1, r.2.1.hused)) = some (1, 0) := by
  decide

set_option maxRecDepth 100000 in
/-- C16: type-set does not remove every old association.  With the built-in
registry, `add_exts("yaml", ".foo", true)` (the option `--type-set yaml=.foo`)
leaves `yaml` (index 130) with the associations `.foo` and `.yaml`: the
deletion loop removes the head `.yml` of `opt.exts` and then steps over the new
head `.yaml`.  For `ada`, whose associations are not at the head of the list,
the old ones are all removed. -/
theorem C16_type_set_keeps_old_association :
    ((startup opt_abc).1.exts.filter (fun e => e.type = 130)).map (fun e => e.ext) =
      [cstr ".yml", cstr ".yaml"] ∧
    (add_exts (startup opt_abc).1 (cstr "yaml") (cstr ".foo") true).map
      (fun o => (o.exts.filter (fun e => e.type = 130)).map (fun e => e.ext)) =
      some [cstr ".foo", cstr ".yaml"] ∧
    ((startup opt_abc).1.exts.filter (fun e => e.type = 0)).map (fun e => e.ext) =
      [cstr ".ads", cstr ".adb", cstr ".ada"] ∧
    (add_exts (startup opt_abc).1 (cstr "ada") (cstr ".foo") true).map
      (fun o => (o.exts.filter (fun e => e.type = 0)).map (fun e => e.ext)) =
      some [cstr ".foo"] := by
  decide

set_option maxRecDepth 100000 in
/-- C20: `files_matched` is not the number of files with a match.  One file
`t.c` with two matched lines, processed by `process_file` with the built-in
registry: `vars.total_matches` is 2, the sum of the per-file counts, and
`vars.files_matched` is 2 as well, not 1 (main.c 1643 adds the match count);
`process_sdtdin` on the same content adds the 0/1 result of `analize_file` and
leaves `files_matched` at 1. -/
theorem C20_files_matched_adds_match_count :
    (process_files (startup opt_abc).1 (startup opt_abc).2
      [(cstr "t.c", cstr "t.c", some ⟨[97, 98, 99, 10, 97, 98, 99, 10], []⟩)]).map
        (fun r => (r.1.total_matches, r.1.files_matched, r.2)) = some (2, 2, [2]) ∧
    (process_sdtdin (startup opt_abc).1 (startup opt_abc).2
      ⟨[97, 98, 99, 10, 97, 98, 99, 10], []⟩).map
        (fun r => (r.2.1.total_matches, r.2.1.files_matched)) = some (2, 1) := by
  decide

/-! ## Lemmas on the pattern set-up -/

theorem regexp_chars_eq : strdup regexp_chars = [46, 43, 63, 42, 92, 41, 93, 94, 125, 124] := by
  decide

theorem is_regexp_iff (pattern : List Nat) (len : Nat) :
    is_regexp pattern len = true ↔
      ∃ c ∈ strdup pattern, c ∈ [46, 43, 63, 42, 92, 41, 93, 94, 125, 124] := by
  unfold is_regexp strpbrk
  rw [List.findIdx?_isSome, regexp_chars_eq, List.any_eq_true]
  constructor
  · rintro ⟨c, hc, h⟩
    exact ⟨c, hc, of_decide_eq_true h⟩
  · rintro ⟨c, hc, h⟩
    exact ⟨c, hc, decide_eq_true h⟩

/-- C25: strategy dispatch.  For every pattern that the regex compiler
accepts, `compile` returns 1 and selects `re_findall` iff the pattern text
contains one of the ten bytes `. + ? * \ ) ] ^ } |`; otherwise it selects
`str_casefindall` when the bit `PCRE_CASELESS` is set in the options and
`str_findall` when it is not. -/
theorem C25_strategy_dispatch
    (pcre_compile : List Nat → Nat → Option (List Nat → Option (Nat × Nat)))
    (pattern : List Nat) (options : Nat) (exec : List Nat → Option (Nat × Nat))
    (h : pcre_compile pattern options = some exec) :
    ∃ re, compile pcre_compile pattern options = some re ∧
      (re.findall = findall_t.re_findall ↔
        ∃ c ∈ strdup pattern, c ∈ [46, 43, 63, 42, 92, 41, 93, 94, 125, 124]) ∧
      ((¬ ∃ c ∈ strdup pattern, c ∈ [46, 43, 63, 42, 92, 41, 93, 94, 125, 124]) →
        (options &&& PCRE_CASELESS ≠ 0 → re.findall = findall_t.str_casefindall) ∧
        (options &&& PCRE_CASELESS = 0 → re.findall = findall_t.str_findall)) := by
  have e : compile pcre_compile pattern options =
      some { plen := strlen pattern, pattern := mem_of (strdup pattern), exec := exec,
             findall :=
               if is_regexp pattern (strlen pattern) then findall_t.re_findall
               else if options &&& PCRE_CASELESS ≠ 0 then findall_t.str_casefindall
               else findall_t.str_findall } := by
    unfold compile
    rw [h]
  refine ⟨_, e, ?_, ?_⟩
  · rw [← is_regexp_iff pattern (strlen pattern)]
    by_cases hr : is_regexp pattern (strlen pattern) = true
    · simp only [hr, if_true]
    · have hr2 : is_regexp pattern (strlen pattern) = false := by
        simpa using hr
      rw [hr2]
      by_cases hc : options &&& PCRE_CASELESS ≠ 0
      · simp [hc]
      · simp [hc]
  · intro hn
    rw [← is_regexp_iff pattern (strlen pattern)] at hn
    have hr2 : is_regexp pattern (strlen pattern) = false := by
      simpa using hn
    rw [hr2]
    constructor
    · intro hc
      simp [hc]
    · intro hc
      simp [hc]

/-- C25 at concrete inputs: the literal pattern `abc` without and with the
caseless bit, and the pattern `a.c`. -/
theorem C25_strategy_dispatch_witness :
    (compile (fun _ _ => some (fun _ => none)) (cstr "abc") 0).map (fun re => re.findall) =
      some findall_t.str_findall ∧
    (compile (fun _ _ => some (fun _ => none)) (cstr "abc") PCRE_CASELESS).map
      (fun re => re.findall) = some findall_t.str_casefindall ∧
    (compile (fun _ _ => some (fun _ => none)) (cstr "a.c") 0).map (fun re => re.findall) =
      some findall_t.re_findall ∧
    ∃ re, compile (fun _ _ => some (fun _ => none)) (cstr "a.c") 0 = some re ∧
      (re.findall = findall_t.re_findall ↔
        ∃ c ∈ strdup (cstr "a.c"), c ∈ [46, 43, 63, 42, 92, 41, 93, 94, 125, 124]) ∧
      ((¬ ∃ c ∈ strdup (cstr "a.c"), c ∈ [46, 43, 63, 42, 92, 41, 93, 94, 125, 124]) →
        (0 &&& PCRE_CASELESS ≠ 0 → re.findall = findall_t.str_casefindall) ∧
        (0 &&& PCRE_CASELESS = 0 → re.findall = findall_t.str_findall)) :=
  ⟨by decide, by decide, by decide,
    C25_strategy_dispatch (fun _ _ => some (fun _ => none)) (cstr "a.c") 0 (fun _ => none) rfl⟩

theorem smart_case_scan_upper (k : Nat) : ∀ (s : List Nat), (∀ c ∈ s, 65 ≤ c ∧ c ≤ 90) →
    smart_case_scan k k s = [] := by
  intro s
  induction s with
  | nil => intro _; rfl
  | cons c cs ih =>
    intro h
    have hc := h c (List.mem_cons_self _ _)
    have h0 : c ≠ 0 := by omega
    have hu : isupper k c = k := by
      unfold isupper
      rw [if_pos hc]
    unfold smart_case_scan
    rw [if_neg h0, hu, if_neg (by simp)]
    exact ih (fun d hd => h d (List.mem_cons_of_mem _ hd))

theorem smart_case_scan_value (k : Nat) : ∀ (t : List Nat) (u : Nat), (u = 0 ∨ u = 1) →
    smart_case_scan (k + 1) (u * (k + 1)) t = smart_case_scan 1 u t := by
  intro t
  induction t with
  | nil => intro _ _; rfl
  | cons c cs ih =>
    intro u hu
    have h2 := ih u hu
    unfold smart_case_scan
    rw [h2]
    unfold isupper
    rcases hu with rfl | rfl <;> split_ifs <;> simp_all

theorem smart_case_block_value (k : Nat) (o : opt_t) (options : Nat) :
    smart_case_block (k + 1) o options = smart_case_block 1 o options := by
  unfold smart_case_block
  rcases h : o.match_pattern with _ | s
  · rfl
  · simp only []
    have hh : isupper (k + 1) (s.headD 0) = isupper 1 (s.headD 0) * (k + 1) := by
      unfold isupper
      split_ifs <;> simp
    have hu : isupper 1 (s.headD 0) = 0 ∨ isupper 1 (s.headD 0) = 1 := by
      unfold isupper
      split_ifs <;> simp
    rw [hh, smart_case_scan_value k s _ hu]

theorem main_pattern_value (k : Nat)
    (pc : List Nat → Nat → Option (List Nat → Option (Nat × Nat))) (o : opt_t) (options : Nat) :
    main_pattern (k + 1) pc o options = main_pattern 1 pc o options := by
  unfold main_pattern
  rw [smart_case_block_value]

/-- C29: smart-case keeps an all-upper-case pattern caseless.  Whatever
non-zero value `isupper` returns for a letter, with `--smart-case` and without
`-i` the pattern `FOO` is compiled with `PCRE_CASELESS`: `opt.i` becomes 1,
`compile` selects `str_casefindall` and the line `foo` is a matched line.  The
scan of main.c 3155-3160 only looks for a byte whose `isupper` value differs
from that of the first byte.  The patterns `Foo` and `fOO` are compiled
case-sensitively and `foo` caselessly, as the help text says. -/
theorem C29_smart_case_all_upper (k : Nat) :
    (main_pattern (k + 1) (fun _ _ => some (fun _ => none))
      { opt_abc with smart_case := true, match_pattern := some (cstr "FOO") } 0).map
        (fun o => (o.i, o.match_.findall, is_matched o (cstr "foo\n"))) =
      some (true, findall_t.str_casefindall, true) ∧
    (main_pattern (k + 1) (fun _ _ => some (fun _ => none))
      { opt_abc with smart_case := true, match_pattern := some (cstr "Foo") } 0).map
        (fun o => (o.i, o.match_.findall, is_matched o (cstr "foo\n"))) =
      some (false, findall_t.str_findall, false) ∧
    (main_pattern (k + 1) (fun _ _ => some (fun _ => none))
      { opt_abc with smart_case := true, match_pattern := some (cstr "fOO") } 0).map
        (fun o => (o.i, o.match_.findall, is_matched o (cstr "foo\n"))) =
      some (false, findall_t.str_findall, false) ∧
    (main_pattern (k + 1) (fun _ _ => some (fun _ => none))
      { opt_abc with smart_case := true, match_pattern := some (cstr "foo") } 0).map
        (fun o => (o.i, o.match_.findall, is_matched o (cstr "FOO\n"))) =
      some (true, findall_t.str_casefindall, true) := by
  simp only [main_pattern_value]
  decide

/-- C30: the whole-word option adds no closing word boundary.  With `-w` the
pattern `foo` is handed to `compile` as `\bfoo`, and with `-w -Q` as
`\b\Qfoo\E`: the string ends without the second `\b`, for which the buffer is
sized (main.c 3176).  Without `-w`, `-Q` gives `\Qfoo\E`. -/
theorem C30_whole_word_no_closing_boundary :
    (match_pattern_block { opt_abc with w := true, match_pattern := some (cstr "foo") }).match_pattern
      = some [92, 98, 102, 111, 111] ∧
    (match_pattern_block
      { opt_abc with w := true, Q := true, match_pattern := some (cstr "foo") }).match_pattern
      = some [92, 98, 92, 81, 102, 111, 111, 92, 69] ∧
    (match_pattern_block { opt_abc with Q := true, match_pattern := some (cstr "foo") }).match_pattern
      = some [92, 81, 102, 111, 111, 92, 69] ∧
    (main_pattern 1 (fun p _ => if p = [92, 98, 102, 111, 111] then some (fun _ => none) else none)
      { opt_abc with w := true, match_pattern := some (cstr "foo") } 0).map
        (fun o => (o.match_.plen, o.match_.findall)) = some (5, findall_t.re_findall) ∧
    (main_pattern 1
      (fun p _ => if p = [92, 98, 102, 111, 111, 92, 98] then some (fun _ => none) else none)
      { opt_abc with w := true, match_pattern := some (cstr "foo") } 0).isNone = true := by
  decide

/-! ## Lemmas on the registration of types -/

theorem strcmp_strdup_self : ∀ (s : List Nat), strcmp (strdup s) s = 0 := by
  intro s
  induction s with
  | nil => rfl
  | cons c cs ih =>
    by_cases hc : c = 0
    · subst hc
      rfl
    · have e : strdup (c :: cs) = c :: strdup cs := by
        unfold strdup
        rw [List.takeWhile_cons]
        simp [hc]
      rw [e]
      unfold strcmp
      simp only [ne_eq, not_true_eq_false, if_false, hc]
      exact ih

theorem add_exts_types (opt : opt_t) (filetype exts : List Nat) (del_old : Bool) (opt1 : opt_t)
    (h : add_exts opt filetype exts del_old = some opt1) :
    (∀ ft, find_filetype opt filetype = some ft →
      opt1.all_filetypes = opt.all_filetypes ∧ opt1.nfiletypes = opt.nfiletypes) ∧
    (find_filetype opt filetype = none →
      opt1.all_filetypes =
        ⟨strdup filetype, strlen filetype, opt.nfiletypes, 0⟩ :: opt.all_filetypes ∧
      opt1.nfiletypes = opt.nfiletypes + 1) := by
  unfold add_exts at h
  rcases hf : find_filetype opt filetype with _ | ft
  · rw [hf] at h
    simp only [] at h
    refine ⟨(fun ft h => by cases h), fun _ => ?_⟩
    split at h
    · cases h
    · cases h
      exact ⟨rfl, rfl⟩
  · rw [hf] at h
    simp only [] at h
    refine ⟨fun ft2 _ => ?_, (fun h => by cases h)⟩
    split at h
    · cases h
    · cases h
      exact ⟨rfl, rfl⟩

theorem add_exts_keep (opt : opt_t) (filetype exts : List Nat) :
    ∃ opt1, add_exts opt filetype exts false = some opt1 := by
  unfold add_exts
  simp only [Bool.false_eq_true, if_false]
  exact ⟨_, rfl⟩

/-- C26: type registration.  In a registry whose indices are pairwise distinct
and smaller than `opt.nfiletypes`, `add_exts` without deletion always returns,
and whenever `add_exts` returns: for a name already registered the list of
types and `opt.nfiletypes` are unchanged and the name still resolves to the
same type; a new name is registered with the index `opt.nfiletypes`, the number
of indices handed out before, and `opt.nfiletypes` grows by one; the types
registered before are all still registered, unchanged; and the indices are
again pairwise distinct and smaller than `opt.nfiletypes`. -/
theorem C26_type_registration (opt : opt_t) (filetype exts : List Nat) (del_old : Bool)
    (hok : registry_ok opt) :
    (∃ opt1, add_exts opt filetype exts false = some opt1) ∧
    ∀ opt1, add_exts opt filetype exts del_old = some opt1 →
      (∀ ft, find_filetype opt filetype = some ft →
        opt1.all_filetypes = opt.all_filetypes ∧ opt1.nfiletypes = opt.nfiletypes ∧
        find_filetype opt1 filetype = some ft) ∧
      (find_filetype opt filetype = none →
        opt1.all_filetypes =
          ⟨strdup filetype, strlen filetype, opt.nfiletypes, 0⟩ :: opt.all_filetypes ∧
        opt1.nfiletypes = opt.nfiletypes + 1 ∧
        find_filetype opt1 filetype =
          some ⟨strdup filetype, strlen filetype, opt.nfiletypes, 0⟩) ∧
      (∀ t ∈ opt.all_filetypes, t ∈ opt1.all_filetypes) ∧
      registry_ok opt1 := by
  refine ⟨add_exts_keep opt filetype exts, ?_⟩
  intro opt1 h
  obtain ⟨h1, h2⟩ := add_exts_types opt filetype exts del_old opt1 h
  rcases hf : find_filetype opt filetype with _ | ft
  · obtain ⟨e1, e2⟩ := h2 hf
    refine ⟨(fun ft h => by cases h), fun _ => ⟨e1, e2, ?_⟩, ?_, ?_⟩
    · unfold find_filetype
      rw [e1, List.find?_cons]
      have : decide ((⟨strdup filetype, strlen filetype, opt.nfiletypes, 0⟩ : filetype_t).namelen
          = strlen filetype ∧
          strcmp (⟨strdup filetype, strlen filetype, opt.nfiletypes, 0⟩ : filetype_t).name filetype
            = 0) = true := by
        simp only [strcmp_strdup_self, and_self, decide_True]
      rw [this]
    · intro t ht
      rw [e1]
      exact List.mem_cons_of_mem _ ht
    · unfold registry_ok at hok ⊢
      rw [e1, e2]
      refine ⟨?_, ?_⟩
      · rw [List.map_cons, List.nodup_cons]
        refine ⟨?_, hok.1⟩
        intro hm
        obtain ⟨t, ht, hti⟩ := List.mem_map.mp hm
        have := hok.2 t ht
        simp only at hti
        omega
      · intro t ht
        rcases List.mem_cons.mp ht with rfl | ht
        · exact Nat.lt_succ_self _
        · exact Nat.lt_succ_of_lt (hok.2 t ht)
  · obtain ⟨e1, e2⟩ := h1 ft hf
    refine ⟨fun ft2 h2 => ⟨e1, e2, ?_⟩, (fun h => by cases h), ?_, ?_⟩
    · unfold find_filetype at hf ⊢
      rw [e1, hf]
      exact h2
    · intro t ht
      rw [e1]
      exact ht
    · unfold registry_ok at hok ⊢
      rw [e1, e2]
      exact hok

set_option maxRecDepth 100000 in
/-- C26 at the built-in registry: `perl` is registered with the index 80 and
keeps it, the new name `foo` gets the index 131, the number of built-in
types. -/
theorem C26_type_registration_witness :
    registry_ok (startup opt_abc).1 ∧
    (find_filetype (startup opt_abc).1 (cstr "perl")).map (fun ft => ft.i) = some 80 ∧
    ((add_exts (startup opt_abc).1 (cstr "perl") (cstr ".foo") false).bind
      (fun o => find_filetype o (cstr "perl"))).map (fun ft => ft.i) = some 80 ∧
    (startup opt_abc).1.nfiletypes = 131 ∧
    ((add_exts (startup opt_abc).1 (cstr "foo") (cstr ".foo") false).bind
      (fun o => find_filetype o (cstr "foo"))).map (fun ft => ft.i) = some 131 ∧
    ((∃ opt1, add_exts (startup opt_abc).1 (cstr "foo") (cstr ".foo") false = some opt1) ∧
    ∀ opt1, add_exts (startup opt_abc).1 (cstr "foo") (cstr ".foo") true = some opt1 →
      (∀ ft, find_filetype (startup opt_abc).1 (cstr "foo") = some ft →
        opt1.all_filetypes = (startup opt_abc).1.all_filetypes ∧
        opt1.nfiletypes = (startup opt_abc).1.nfiletypes ∧
        find_filetype opt1 (cstr "foo") = some ft) ∧
      (find_filetype (startup opt_abc).1 (cstr "foo") = none →
        opt1.all_filetypes =
          ⟨strdup (cstr "foo"), strlen (cstr "foo"), (startup opt_abc).1.nfiletypes, 0⟩ ::
            (startup opt_abc).1.all_filetypes ∧
        opt1.nfiletypes = (startup opt_abc).1.nfiletypes + 1 ∧
        find_filetype opt1 (cstr "foo") =
          some ⟨strdup (cstr "foo"), strlen (cstr "foo"), (startup opt_abc).1.nfiletypes, 0⟩) ∧
      (∀ t ∈ (startup opt_abc).1.all_filetypes, t ∈ opt1.all_filetypes) ∧
      registry_ok opt1) :=
  ⟨by decide, by decide, by decide, by decide, by decide,
    C26_type_registration (startup opt_abc).1 (cstr "foo") (cstr ".foo") true (by decide)⟩

/-! ## Lemmas on the negated type lookup -/

theorem find_set_wanted_map (l : List filetype_t) (i : Nat) (w : Int) (name : List Nat) :
    (set_wanted l i w).find? (fun ft => ft.namelen = strlen name ∧ strcmp ft.name name = 0) =
    (l.find? (fun ft => ft.namelen = strlen name ∧ strcmp ft.name name = 0)).map
      (fun t => if t.i = i then { t with wanted := w } else t) := by
  induction l with
  | nil => rfl
  | cons t ts ih =>
    unfold set_wanted at ih ⊢
    simp only [List.map_cons, List.find?_cons]
    have e : (decide ((if t.i = i then { t with wanted := w } else t).namelen = strlen name ∧
        strcmp (if t.i = i then { t with wanted := w } else t).name name = 0)) =
        decide (t.namelen = strlen name ∧ strcmp t.name name = 0) := by
      split_ifs <;> rfl
    rw [e]
    rcases decide (t.namelen = strlen name ∧ strcmp t.name name = 0) with _ | _
    · exact ih
    · rfl

theorem strncmp_no (T : List Nat) :
    strncmp (mem_of (cstr "no" ++ T)) 0 (mem_of (cstr "no")) 0 2 = 0 := by
  have e : cstr "no" = [110, 111] := by decide
  rw [e]
  simp [strncmp, mem_of]

theorem _type_wanted_direct (opt : opt_t) (s : List Nat) (ft : filetype_t)
    (h : find_filetype opt s = some ft) :
    _type_wanted opt s = ((strlen s : Int),
      { opt with all_filetypes := set_wanted opt.all_filetypes ft.i 1, types_type := 1 }) := by
  unfold _type_wanted
  simp only [h, Bool.false_eq_true, if_false]

theorem _type_wanted_negated (opt : opt_t) (s : List Nat) (ft : filetype_t)
    (h1 : find_filetype opt s = none)
    (h2 : strncmp (mem_of s) 0 (mem_of (cstr "no")) 0 2 = 0)
    (h3 : find_filetype opt (s.drop 2) = some ft) :
    _type_wanted opt s = ((strlen s : Int),
      { opt with all_filetypes := set_wanted opt.all_filetypes ft.i (-1),
                 types_type := if opt.types_type = 0 then -1 else opt.types_type }) := by
  unfold _type_wanted
  simp only [h1, h2, h3, if_true]

theorem _type_wanted_unknown (opt : opt_t) (s : List Nat)
    (h1 : find_filetype opt s = none)
    (h2 : strncmp (mem_of s) 0 (mem_of (cstr "no")) 0 2 = 0 → find_filetype opt (s.drop 2) = none) :
    _type_wanted opt s = (-1, opt) := by
  unfold _type_wanted
  by_cases h : strncmp (mem_of s) 0 (mem_of (cstr "no")) 0 2 = 0
  · simp only [h1, h, h2 h, if_true]
  · simp only [h1, h, if_false]

set_option maxRecDepth 100000 in
/-- C27 as stated fails: with the types `te` and `note` added to the built-in
registry (`--type-add te=.te --type-add note=.txt`), the string `note` is
`no` followed by the registered name `te`, but `_type_wanted` resolves it
directly to the type `note` and marks that one as included; the state of `te`
stays 0. -/
theorem C27_direct_lookup_first_counterexample :
    (((add_exts (startup opt_abc).1 (cstr "te") (cstr ".te") false).bind
      (fun o => add_exts o (cstr "note") (cstr ".txt") false)).map
        (fun o => ((_type_wanted o (cstr "no" ++ cstr "te")).1,
          (find_filetype o (cstr "te")).map (fun ft => ft.wanted),
          (find_filetype (_type_wanted o (cstr "no" ++ cstr "te")).2 (cstr "te")).map
            (fun ft => ft.wanted),
          (find_filetype (_type_wanted o (cstr "no" ++ cstr "te")).2 (cstr "note")).map
            (fun ft => ft.wanted)))) = some (4, some 0, some 0, some 1) := by
  decide

/-- C27 (amended): negated type lookup.  For every registered type `T` such
that the string `no` followed by `T` is not itself the name of a registered
type, `_type_wanted` on that string returns its length and leaves `T` marked
as excluded (`wanted = -1`), changing the state of no type with another index;
`_type_wanted` on `T` returns its length and leaves `T` marked as included
(`wanted = 1`); and for every string that names no type directly nor, when it
begins with `no`, after stripping these two bytes, `_type_wanted` returns -1
and changes nothing. -/
theorem C27_negated_type_lookup (opt : opt_t) (T : List Nat) (ft : filetype_t)
    (hT : find_filetype opt T = some ft)
    (hno : find_filetype opt (cstr "no" ++ T) = none) :
    (_type_wanted opt (cstr "no" ++ T)).1 = (strlen (cstr "no" ++ T) : Int) ∧
    find_filetype (_type_wanted opt (cstr "no" ++ T)).2 T = some { ft with wanted := -1 } ∧
    (_type_wanted opt (cstr "no" ++ T)).2.all_filetypes =
      set_wanted opt.all_filetypes ft.i (-1) ∧
    (_type_wanted opt T).1 = (strlen T : Int) ∧
    find_filetype (_type_wanted opt T).2 T = some { ft with wanted := 1 } ∧
    (_type_wanted opt T).2.all_filetypes = set_wanted opt.all_filetypes ft.i 1 ∧
    ∀ s, find_filetype opt s = none →
      (strncmp (mem_of s) 0 (mem_of (cstr "no")) 0 2 = 0 → find_filetype opt (s.drop 2) = none) →
      _type_wanted opt s = (-1, opt) := by
  have hd : (cstr "no" ++ T).drop 2 = T := by
    have e : cstr "no" = [110, 111] := by decide
    rw [e]
    rfl
  have e1 := _type_wanted_negated opt (cstr "no" ++ T) ft hno (strncmp_no T) (by rw [hd]; exact hT)
  have e2 := _type_wanted_direct opt T ft hT
  have hf : ∀ w : Int, find_filetype
      { opt with all_filetypes := set_wanted opt.all_filetypes ft.i w } T =
        some { ft with wanted := w } := by
    intro w
    unfold find_filetype at hT ⊢
    simp only []
    rw [find_set_wanted_map, hT]
    simp only [Option.map_some', if_true]
  refine ⟨?_, ?_, ?_, ?_, ?_, ?_, ?_⟩
  · rw [e1]
  · rw [e1]
    exact hf (-1)
  · rw [e1]
  · rw [e2]
  · rw [e2]
    exact hf 1
  · rw [e2]
  · intro s h1 h2
    exact _type_wanted_unknown opt s h1 h2

set_option maxRecDepth 100000 in
/-- C27 (amended) at the built-in registry: `noperl` excludes `perl`, `perl`
includes it, and `nofoo` names no type. -/
theorem C27_negated_type_lookup_witness :
    (_type_wanted (startup opt_abc).1 (cstr "noperl")).1 = 6 ∧
    (find_filetype (_type_wanted (startup opt_abc).1 (cstr "noperl")).2 (cstr "perl")).map
      (fun ft => (ft.i, ft.wanted)) = some (80, -1) ∧
    (_type_wanted (startup opt_abc).1 (cstr "nofoo")).1 = -1 ∧
    ((_type_wanted (startup opt_abc).1 (cstr "no" ++ cstr "perl")).1 =
      (strlen (cstr "no" ++ cstr "perl") : Int) ∧
    find_filetype (_type_wanted (startup opt_abc).1 (cstr "no" ++ cstr "perl")).2 (cstr "perl") =
      some { (⟨cstr "perl", 4, 80, 0⟩ : filetype_t) with wanted := -1 } ∧
    (_type_wanted (startup opt_abc).1 (cstr "no" ++ cstr "perl")).2.all_filetypes =
      set_wanted (startup opt_abc).1.all_filetypes (⟨cstr "perl", 4, 80, 0⟩ : filetype_t).i (-1) ∧
    (_type_wanted (startup opt_abc).1 (cstr "perl")).1 = (strlen (cstr "perl") : Int) ∧
    find_filetype (_type_wanted (startup opt_abc).1 (cstr "perl")).2 (cstr "perl") =
      some { (⟨cstr "perl", 4, 80, 0⟩ : filetype_t) with wanted := 1 } ∧
    (_type_wanted (startup opt_abc).1 (cstr "perl")).2.all_filetypes =
      set_wanted (startup opt_abc).1.all_filetypes (⟨cstr "perl", 4, 80, 0⟩ : filetype_t).i 1 ∧
    ∀ s, find_filetype (startup opt_abc).1 s = none →
      (strncmp (mem_of s) 0 (mem_of (cstr "no")) 0 2 = 0 →
        find_filetype (startup opt_abc).1 (s.drop 2) = none) →
      _type_wanted (startup opt_abc).1 s = (-1, (startup opt_abc).1)) :=
  ⟨by decide, by decide, by decide,
    C27_negated_type_lookup (startup opt_abc).1 (cstr "perl") ⟨cstr "perl", 4, 80, 0⟩
      (by decide) (by decide)⟩

/-! ## Lemmas on the extension associations -/

theorem bf_set_bits_length (b : bitfiels_t) (i : Nat) :
    (bf_set b i).bits.length = b.bits.length := by
  unfold bf_set
  simp only [List.length_set]

theorem get_filetypes_exts_sets (name : List Nat) (len : Nat) (e : ext_t) :
    ∀ (exts : List ext_t) (b : bitfiels_t) (res : Nat), e ∈ exts →
      _ends_with name len e.ext e.len = true → e.type / 8 < b.bits.length →
      bf_isset (get_filetypes_exts name len exts b res).fst e.type = true := by
  intro exts
  induction exts with
  | nil => intro b res h; cases h
  | cons x rest ih =>
    intro b res hmem he hr
    have e1 : get_filetypes_exts name len (x :: rest) b res =
        if _ends_with name len x.ext x.len then
          get_filetypes_exts name len rest (bf_set b x.type) (res + 1)
        else get_filetypes_exts name len rest b res := rfl
    rw [e1]
    rcases List.mem_cons.mp hmem with rfl | hmem
    · rw [if_pos he]
      apply get_filetypes_exts_mono
      rw [bf_isset_bf_set _ _ _ hr]
      exact Or.inl rfl
    · split_ifs
      · exact ih _ _ hmem he (by rw [bf_set_bits_length]; exact hr)
      · exact ih _ _ hmem he hr

/-- C28: extension associations.  For every file whose name passes the skip
check, `get_filetypes` returns a classification in which, for every registered
association `(ext, T)` whose extension is a case-insensitive suffix of the file
name, the bit of `T` is set: all the matching associations have their types
set together, in the one bit set returned.  The bit set is large enough for
the index of `T`. -/
theorem C28_extension_associations (opt : opt_t) (vars : vars_t) (file : file_t)
    (hr : ft_ready opt vars) (hp : file.type_processed = false)
    (h0 : ∀ c ∈ file.name, c ≠ 0) (hl : file.namelen = strlen file.name)
    (hs : ¬ skip_name file.name) :
    ∃ vars1 file1, get_filetypes opt vars file = some (vars1, file1) ∧
      ∀ e ∈ opt.exts, (∀ c ∈ e.ext, c ≠ 0) → e.len = e.ext.length →
        e.type / 8 < file.filetypes.bits.length → lower e.ext <:+ lower file.name →
        bf_isset file1.filetypes e.type = true := by
  have hlen : file.namelen = file.name.length := by rw [hl, strlen_eq_length _ h0]
  have hs1 : is_searchable { file with type_processed := true } = true := by
    have h1 := is_searchable_iff file hlen
    have h2 : is_searchable file ≠ false := fun h => hs (h1.mp h)
    have h3 : is_searchable file = true := by
      rcases h : is_searchable file with _ | _
      · exact absurd h h2
      · rfl
    exact h3
  obtain ⟨htx, _, hmk, hrb, hrake⟩ := hr
  obtain ⟨tx, htx⟩ := Option.ne_none_iff_exists'.mp htx
  obtain ⟨mk, hmk⟩ := Option.ne_none_iff_exists'.mp hmk
  obtain ⟨rb, hrb⟩ := Option.ne_none_iff_exists'.mp hrb
  obtain ⟨rk, hrake⟩ := Option.ne_none_iff_exists'.mp hrake
  obtain ⟨t, vars2, file2, hai, ⟨i1, i2, i3, _⟩, ⟨j1, _, j3, j4, _⟩, _⟩ :=
    analyse_internals_total vars { file with type_processed := true }
  have key : ∀ (b : bitfiels_t) (res : Nat), b.bits.length = file.filetypes.bits.length →
      ∀ e ∈ opt.exts, (∀ c ∈ e.ext, c ≠ 0) → e.len = e.ext.length →
        e.type / 8 < file.filetypes.bits.length → lower e.ext <:+ lower file.name →
        bf_isset (get_filetypes_exts file2.name file2.namelen opt.exts b res).fst e.type
          = true := by
    intro b res hb e he hz hel hrange hsuf
    apply get_filetypes_exts_sets _ _ _ _ _ _ he
    · rw [i2, i3]
      simp only []
      rw [hlen, hel]
      exact (_ends_with_iff file.name e.ext hz).mpr hsuf
    · rw [hb]
      exact hrange
  have hb0 : file2.filetypes.bits.length = file.filetypes.bits.length := by rw [i1]
  rw [get_filetypes_searchable opt vars file hp hs1 t vars2 file2 hai]
  rcases hft : find_filetype opt t with _ | ft <;>
    simp only [j3, j4, j1, hmk, hrb, htx, hrake] <;>
    split_ifs <;> simp only [] <;> split_ifs <;> refine ⟨_, _, rfl, ?_⟩ <;>
    intro e he hz hel hrange hsuf
  all_goals
    first
    | exact bf_isset_mono _ _ _ (key _ _ (by simp only [bf_set_bits_length, hb0]) e he hz hel
        hrange hsuf)
    | exact key _ _ (by simp only [bf_set_bits_length, hb0]) e he hz hel hrange hsuf

set_option maxRecDepth 100000 in
/-- C28 at the built-in registry: the name `x.H` ends, up to case, with the
extension `.h`, which is registered under the five types of indices 10, 17,
43, 73 and 74; all five bits are set, together with `text` (114). -/
theorem C28_extension_associations_witness :
    ((startup opt_abc).1.exts.filter (fun e => e.ext = cstr ".h")).map (fun e => e.type) =
      [74, 73, 43, 17, 10] ∧
    (get_filetypes (startup opt_abc).1 (startup opt_abc).2
      (file_t.reset (startup opt_abc).2 (cstr "x.H") (cstr "int x;") 0)).map
        (fun r => (List.range 136).filter (fun j => bf_isset r.2.filetypes j)) =
      some [10, 17, 43, 73, 74, 114] ∧
    ∃ vars1 file1, get_filetypes (startup opt_abc).1 (startup opt_abc).2
        (file_t.reset (startup opt_abc).2 (cstr "x.H") (cstr "int x;") 0) = some (vars1, file1) ∧
      ∀ e ∈ (startup opt_abc).1.exts, (∀ c ∈ e.ext, c ≠ 0) → e.len = e.ext.length →
        e.type / 8 <
          (file_t.reset (startup opt_abc).2 (cstr "x.H") (cstr "int x;") 0).filetypes.bits.length →
        lower e.ext <:+ lower (file_t.reset (startup opt_abc).2 (cstr "x.H") (cstr "int x;") 0).name →
        bf_isset file1.filetypes e.type = true :=
  ⟨by decide, by decide,
    C28_extension_associations (startup opt_abc).1 (startup opt_abc).2
      (file_t.reset (startup opt_abc).2 (cstr "x.H") (cstr "int x;") 0)
      (by decide) (by decide) (by decide) (by decide) (by decide)⟩

/-! ## Lemmas on the output of a line -/

theorem abs_spans_length : ∀ (ms : List match_t) (base : Nat),
    (abs_spans base ms).length = ms.length := by
  intro ms
  induction ms with
  | nil => intro _; rfl
  | cons x xs ih =>
    intro base
    simp only [abs_spans, List.length_cons, ih]

theorem out_context_o_spec (buf : Nat → Nat) (ms : List match_t) :
    ∀ (n ptr i : Nat), i + n ≤ ms.length →
      out_context_o buf ms n ptr i =
        ((abs_spans ptr ((ms.drop i).take n)).map
          (fun s => mem_slice buf s.start s.len ++ [10])).flatten := by
  intro n
  induction n with
  | zero =>
    intro ptr i _
    simp [out_context_o, abs_spans]
  | succ n ih =>
    intro ptr i h
    have hi : i < ms.length := by omega
    have e1 : ms.getD i ⟨0, 0⟩ = ms[i] := by
      rw [List.getD_eq_getElem?_getD, List.getElem?_eq_getElem hi]
      rfl
    have e2 : (ms.drop i).take (n + 1) = ms[i] :: (ms.drop (i + 1)).take n := by
      rw [List.drop_eq_getElem_cons hi, List.take_succ_cons]
    unfold out_context_o
    simp only []
    rw [e1, e2, ih _ (i + 1) (by omega)]
    simp only [abs_spans, List.map_cons, List.flatten_cons, List.append_assoc]

/-- C24: only-matching output.  In the mode `-o`, when `out_context` is called
for a matched line with the span array that `find_all` filled with the `k`
spans `ms` (the call of `analize_file`, main.c 1417), it returns, leaves the
buffer as it is and writes the line prefix followed by exactly `k` records and
nothing else: the `i`-th record is the bytes of the line at the `i`-th span,
taken at its absolute position and with its length, followed by one newline. -/
theorem C24_only_matching_output (opt : opt_t) (name : List Nat) (str : buf_t)
    (line column : Nat) (old ms : List match_t) (ho : opt.o = true) :
    out_context opt name str line column true (some (store_matches old ms)) ms.length =
      some (out_context_lead opt name line column 58 ++
        ((abs_spans 0 ms).map (fun s => mem_slice str.buf s.start s.len ++ [10])).flatten,
        str) ∧
    ((abs_spans 0 ms).map (fun s => mem_slice str.buf s.start s.len ++ [10])).length =
      ms.length := by
  constructor
  · unfold out_context
    simp only [ho, if_true]
    rw [out_context_o_spec _ _ _ _ _ (by unfold store_matches; simp)]
    unfold store_matches
    rw [List.drop_zero, List.take_left']
    rfl
  · rw [List.length_map, abs_spans_length]

/-- C24 at a concrete input: the line `xabyab` of the file `f.c` is line 3, the
pattern `ab` gives two spans, and two records `ab` follow the prefix
`f.c:3:`. -/
theorem C24_only_matching_output_witness :
    simple_match (re_t.literal (cstr "ab")) (mem_of (cstr "xabyab\n")) 7 OFFSETS_SIZE =
      some [⟨1, 2⟩, ⟨1, 2⟩] ∧
    (out_context { opt_abc with o := true } (cstr "f.c") ⟨mem_of (cstr "xabyab\n"), 0, 7, 7⟩ 3 2
      true (some (store_matches [] [⟨1, 2⟩, ⟨1, 2⟩])) 2).map (fun r => r.1) =
      some (cstr "f.c:3:ab\nab\n") ∧
    (out_context { opt_abc with o := true } (cstr "f.c") ⟨mem_of (cstr "xabyab\n"), 0, 7, 7⟩ 3 2
      true (some (store_matches [] [⟨1, 2⟩, ⟨1, 2⟩])) ([⟨1, 2⟩, ⟨1, 2⟩] : List match_t).length =
      some (out_context_lead { opt_abc with o := true } (cstr "f.c") 3 2 58 ++
        ((abs_spans 0 [⟨1, 2⟩, ⟨1, 2⟩]).map
          (fun s => mem_slice (⟨mem_of (cstr "xabyab\n"), 0, 7, 7⟩ : buf_t).buf s.start s.len
            ++ [10])).flatten,
        ⟨mem_of (cstr "xabyab\n"), 0, 7, 7⟩) ∧
    ((abs_spans 0 [⟨1, 2⟩, ⟨1, 2⟩]).map
      (fun s => mem_slice (⟨mem_of (cstr "xabyab\n"), 0, 7, 7⟩ : buf_t).buf s.start s.len
        ++ [10])).length = ([⟨1, 2⟩, ⟨1, 2⟩] : List match_t).length) :=
  ⟨by decide, by decide,
    C24_only_matching_output { opt_abc with o := true } (cstr "f.c")
      ⟨mem_of (cstr "xabyab\n"), 0, 7, 7⟩ 3 2 [] [⟨1, 2⟩, ⟨1, 2⟩] rfl⟩

/-! ## Lemmas on the group separator and the binary notice -/

theorem separator_mem_match_header (opt : opt_t) (fm nmatches : Nat) :
    out_t.separator ∈ match_header opt fm nmatches ↔
      (opt.A ≠ 0 ∨ opt.B ≠ 0) ∧ (nmatches ≠ 0 ∨ opt.heading = false) := by
  unfold match_header
  have e : (¬ opt.heading = true) ↔ opt.heading = false := by
    cases opt.heading <;> simp
  rw [← e]
  by_cases h1 : opt.show_filename = true ∧ opt._break = true ∧ fm ≠ 0 ∧ nmatches = 0 <;>
    by_cases h2 : opt.heading = true ∧ opt.show_filename = true ∧ nmatches = 0 <;>
    by_cases h3 : (opt.A ≠ 0 ∨ opt.B ≠ 0) ∧ (nmatches ≠ 0 ∨ ¬ opt.heading = true) <;>
    simp only [h1, h2, h3, if_true, if_false] <;> simp

theorem separator_count_match_header (opt : opt_t) (fm nmatches : Nat) :
    (match_header opt fm nmatches).count out_t.separator ≤ 1 := by
  unfold match_header
  split_ifs <;> decide

theorem separator_not_mem_flush_ring (line : Nat) : ∀ (ring : List (List Nat)),
    out_t.separator ∉ flush_ring line ring := by
  intro ring
  induction ring with
  | nil => simp [flush_ring]
  | cons l rest ih =>
    simp only [flush_ring, List.mem_cons, not_or]
    exact ⟨(fun h => by cases h), ih⟩

theorem eng_run_match_block (opt : opt_t) (fm : Nat) (hpt : opt.passthru = false)
    (hsc : opt.show_context = true) (ml : List Nat) (tail : List (List Nat)) (st : eng_t)
    (ret : Nat) (st1 : eng_t) (rest : List (List Nat)) (hml : is_matched opt ml = true)
    (h : eng_run opt fm false (ml :: tail) st = some (ret, st1, rest)) :
    ∃ col ms more, st1.out = st.out ++ match_header opt fm st.nmatches ++
        flush_ring (st.line + 1) st.ring ++
        [out_t.context (st.line + 1) col true ml ms] ++ more ∧
      ∀ e ∈ ctx_lines more, st.line + 1 < e.1 := by
  obtain ⟨ms, mt2, _, hstep⟩ := eng_run_matched opt fm ml tail st hpt hsc hml
  rw [hstep] at h
  by_cases hmax : opt.m ≠ 0 ∧ opt.m = st.nmatches + 1
  · rw [if_pos hmax] at h
    simp only [Option.some.injEq, Prod.mk.injEq] at h
    rw [← h.2.1]
    exact ⟨(mt2.headD ⟨0, 0⟩).start + 1, ms, [], by simp only [List.append_nil],
      by simp [ctx_lines]⟩
  · rw [if_neg hmax] at h
    obtain ⟨more, m1, m2⟩ := eng_run_later opt fm (st.line + 1) hpt tail _ ret st1
      rest (by simp) h
    exact ⟨(mt2.headD ⟨0, 0⟩).start + 1, ms, more, m1, m2⟩

theorem eng_run_binary_match (opt : opt_t) (fm : Nat) (hpt : opt.passthru = false)
    (hsc : opt.show_context = true) (gap : List (List Nat)) (ml : List Nat)
    (tail : List (List Nat)) (st : eng_t) (hh : st.hprint = 0) (hr : st.ring.length ≤ opt.B)
    (hg : ∀ l ∈ gap, is_matched opt l = false) (hml : is_matched opt ml = true) :
    ∃ st1, eng_run opt fm true (gap ++ ml :: tail) st = some (1, st1, tail) ∧
      st1.out = st.out ++ (if fm ≠ 0 ∧ st.nmatches = 0 then [out_t.blank] else []) ++
        [out_t.binary] ∧
      st1.nmatches = st.nmatches := by
  obtain ⟨mt, hgap⟩ := eng_run_gap opt fm true (ml :: tail) hpt gap st hg hh hr
  rw [hgap]
  obtain ⟨ms, hms⟩ := line_spans_total opt.match_ ml
  have hm : opt.v ≠ decide (ms.length ≠ 0) := by
    have := is_matched_of_spans opt ml ms hms
    rw [hml] at this
    simpa using this.symm
  simp only [eng_run, hpt, hms, if_pos hm, hsc, if_true]
  exact ⟨_, rfl, rfl, rfl⟩

theorem eng_run_binary_none (opt : opt_t) (fm : Nat) (hpt : opt.passthru = false)
    (ls : List (List Nat)) (st : eng_t) (hh : st.hprint = 0) (hr : st.ring.length ≤ opt.B)
    (hg : ∀ l ∈ ls, is_matched opt l = false) :
    ∃ st1, eng_run opt fm true ls st = some (if st.nmatches ≠ 0 then 1 else 0, st1, []) ∧
      st1.out = st.out := by
  obtain ⟨mt, hgap⟩ := eng_run_gap opt fm true [] hpt ls st hg hh hr
  rw [List.append_nil] at hgap
  rw [hgap]
  simp only [eng_run]
  exact ⟨_, rfl, rfl⟩

/-- C22 (amended): group separator rule.  In context display mode with
pass-through off and reads that do not fail, at any point of the scan of a
non-binary file at which the next line is a matched line: what is written next
is the header of the match, then the buffered before-context lines, then the
matched line, and everything written later concerns later lines.  The header
holds a `--` line, and then exactly one, iff a context window is configured
(`A` or `B` not 0) and either the file already has an earlier matched line
(`file.nmatches` not 0) or the heading is off; no other `--` is written before
the matched line.  So `--` precedes the first block of a file when the heading
is off, and does not when it is on. -/
theorem C22_group_separator (opt : opt_t) (fuel : Nat) (vars : vars_t) (file : file_t)
    (out : List out_t) (line0 : buf_t) (ml : List Nat) (rest : List (List Nat))
    (hinv : file.buf.start + file.buf.used ≤ file.buf.allocated)
    (hs : no_fail file.f.sched) (hfuel : file.buf.used + file.f.data.length < fuel)
    (hsc : opt.show_context = true) (hbin : file.is_binary = false)
    (hpt : opt.passthru = false)
    (hls : get_lines line0 file = some (ml :: rest)) (hml : is_matched opt ml = true) :
    ∃ ret vars1 file1 out1 col ms more,
      analize_loop opt fuel vars file vars.hused out = some (ret, vars1, file1, out1) ∧
      out1 = out ++ match_header opt vars.files_matched file.nmatches ++
        flush_ring (file.line + 1) (ring_of vars.history vars.hused) ++
        [out_t.context (file.line + 1) col true ml ms] ++ more ∧
      (out_t.separator ∈ match_header opt vars.files_matched file.nmatches ↔
        (opt.A ≠ 0 ∨ opt.B ≠ 0) ∧ (file.nmatches ≠ 0 ∨ opt.heading = false)) ∧
      (match_header opt vars.files_matched file.nmatches).count out_t.separator ≤ 1 ∧
      out_t.separator ∉ flush_ring (file.line + 1) (ring_of vars.history vars.hused) ∧
      ∀ e ∈ ctx_lines more, file.line + 1 < e.1 := by
  obtain ⟨ret, vars1, file1, out1, st, rest1, g1, g2, g3, _⟩ :=
    analize_loop_refines opt fuel vars file vars.hused out hinv hs hfuel rfl
  have hlines : split_lines fuel file.pending = ml :: rest := by
    rw [split_lines_eq_lines_of _ _ (by rw [pending_length]; omega)]
    have := get_lines_eq line0 file hinv hs
    rw [hls] at this
    injection this with this
    exact this.symm
  rw [hlines, hbin] at g2
  obtain ⟨col, ms, more, m1, m2⟩ :=
    eng_run_match_block opt vars.files_matched hpt hsc ml rest (eng_t.of vars file out)
      ret st rest1 hml g2
  rw [← g3] at m1
  exact ⟨ret, vars1, file1, out1, col, ms, more, g1, m1,
    separator_mem_match_header opt vars.files_matched file.nmatches,
    separator_count_match_header opt vars.files_matched file.nmatches,
    separator_not_mem_flush_ring _ _, m2⟩

/-- C22 (amended) at a concrete input: `-A 1 -B 2` with the heading off, a file
whose first line `m` is matched: the `--` line is written before the first
block. -/
theorem C22_group_separator_witness :
    out_of (analize_loop opt_m 5 vars_t.init (file_t.opened [109, 10, 120, 10] []) 0 []) =
      some [out_t.separator, out_t.context 1 1 true [109, 10] [⟨0, 1⟩],
        out_t.context 2 0 false [120, 10] []] ∧
    ∃ ret vars1 file1 out1 col ms more,
      analize_loop opt_m 5 vars_t.init (file_t.opened [109, 10, 120, 10] [])
        vars_t.init.hused [] = some (ret, vars1, file1, out1) ∧
      out1 = [] ++ match_header opt_m vars_t.init.files_matched
          (file_t.opened [109, 10, 120, 10] []).nmatches ++
        flush_ring ((file_t.opened [109, 10, 120, 10] []).line + 1)
          (ring_of vars_t.init.history vars_t.init.hused) ++
        [out_t.context ((file_t.opened [109, 10, 120, 10] []).line + 1) col true [109, 10] ms]
          ++ more ∧
      (out_t.separator ∈ match_header opt_m vars_t.init.files_matched
          (file_t.opened [109, 10, 120, 10] []).nmatches ↔
        (opt_m.A ≠ 0 ∨ opt_m.B ≠ 0) ∧
          ((file_t.opened [109, 10, 120, 10] []).nmatches ≠ 0 ∨ opt_m.heading = false)) ∧
      (match_header opt_m vars_t.init.files_matched
        (file_t.opened [109, 10, 120, 10] []).nmatches).count out_t.separator ≤ 1 ∧
      out_t.separator ∉ flush_ring ((file_t.opened [109, 10, 120, 10] []).line + 1)
        (ring_of vars_t.init.history vars_t.init.hused) ∧
      ∀ e ∈ ctx_lines more, (file_t.opened [109, 10, 120, 10] []).line + 1 < e.1 :=
  ⟨by decide, C22_group_separator opt_m 5 vars_t.init (file_t.opened [109, 10, 120, 10] []) []
    buf_t.empty [109, 10] [[120, 10]] (by decide) (by decide) (by decide) rfl rfl rfl
    (by decide) (by decide)⟩

/-- C22 as stated fails: with `-A 1 -B 2` and the heading off, the file with
the lines `m`, `x` has no matched line before its first line, yet the scan
writes `--` before the first block; with the heading on it writes the heading
and no `--`. -/
theorem C22_first_block_separator_counterexample :
    (file_t.opened [109, 10, 120, 10] []).nmatches = 0 ∧ opt_m.heading = false ∧
    get_lines buf_t.empty (file_t.opened [109, 10, 120, 10] []) = some [[109, 10], [120, 10]] ∧
    is_matched opt_m [109, 10] = true ∧
    out_of (analize_file opt_m vars_t.init (file_t.opened [109, 10, 120, 10] [])) =
      some [out_t.separator, out_t.context 1 1 true [109, 10] [⟨0, 1⟩],
        out_t.context 2 0 false [120, 10] []] ∧
    out_of (analize_file { opt_m with heading := true } vars_t.init
      (file_t.opened [109, 10, 120, 10] [])) =
      some [out_t.heading, out_t.context 1 1 true [109, 10] [⟨0, 1⟩],
        out_t.context 2 0 false [120, 10] []] := by
  decide

/-- C23 (amended): binary short-circuit.  For a file flagged binary that is
scanned in context display mode with pass-through off and reads that do not
fail, `analize_file` returns, and: when no line is matched it writes nothing;
when the lines are some lines that are not matched followed by a matched line
and the rest, it returns 1 and writes the notice `Binary file ... matches`
once, preceded only by the blank line that separates it from the output of
earlier files (when `vars.files_matched` is not 0 and the file has no match
counted), and nothing else: no line content, heading, `--` or context line.
The lines after the first matched line are not read and the match count of the
file is not changed. -/
theorem C23_binary_short_circuit (opt : opt_t) (vars : vars_t) (file : file_t) (line0 : buf_t)
    (ls : List (List Nat))
    (hinv : file.buf.start + file.buf.used ≤ file.buf.allocated)
    (hs : no_fail file.f.sched)
    (hsc : opt.show_context = true) (hbin : file.is_binary = true)
    (hpt : opt.passthru = false) (hls : get_lines line0 file = some ls) :
    ∃ ret vars1 file1 out1,
      analize_file opt vars file = some (ret, vars1, file1, out1) ∧
      ((∀ l ∈ ls, is_matched opt l = false) →
        out1 = [] ∧ ret = (if file.nmatches ≠ 0 then 1 else 0)) ∧
      ∀ gap ml rest, ls = gap ++ ml :: rest → (∀ l ∈ gap, is_matched opt l = false) →
        is_matched opt ml = true →
        ret = 1 ∧
        out1 = (if vars.files_matched ≠ 0 ∧ file.nmatches = 0 then [out_t.blank] else []) ++
          [out_t.binary] ∧
        file1.pending = rest.flatten ∧ file1.nmatches = file.nmatches := by
  obtain ⟨ret, vars1, file1, out1, st, rest1, g1, g2, g3, g4, _⟩ :=
    analize_file_refines opt vars file hinv hs
  have hlines : lines_of file.pending = ls := by
    have := get_lines_eq line0 file hinv hs
    rw [hls] at this
    injection this with this
    exact this.symm
  rw [hlines, hbin] at g2
  refine ⟨ret, vars1, file1, out1, g1, ?_, ?_⟩
  · intro hg
    obtain ⟨st1, h1, h2⟩ := eng_run_binary_none opt vars.files_matched hpt ls
      (eng_t.start vars file) rfl (Nat.zero_le _) hg
    rw [h1] at g2
    simp only [Option.some.injEq, Prod.mk.injEq] at g2
    obtain ⟨e1, e2, _⟩ := g2
    have e3 : out1 = st.out := by rw [← g3]; rfl
    rw [e3, ← e2, h2]
    exact ⟨rfl, e1.symm⟩
  · intro gap ml rest hl hg hml
    subst hl
    obtain ⟨st1, h1, h2, h3⟩ := eng_run_binary_match opt vars.files_matched hpt hsc gap ml rest
      (eng_t.start vars file) rfl (Nat.zero_le _) hg hml
    rw [h1] at g2
    simp only [Option.some.injEq, Prod.mk.injEq] at g2
    obtain ⟨e1, e2, e5⟩ := g2
    have e3 : out1 = st.out := by rw [← g3]; rfl
    have e4 : file1.nmatches = st.nmatches := by rw [← g3]; rfl
    refine ⟨e1.symm, ?_, ?_, ?_⟩
    · rw [e3, ← e2, h2]
      simp [eng_t.start]
    · rw [g4, ← e5]
    · rw [e4, ← e2, h3]
      rfl

/-- C23 (amended) at a concrete input: a binary file with the lines `x`, `abc`,
`abc`, searched for `abc` after another file matched. -/
theorem C23_binary_short_circuit_witness :
    (analize_file opt_abc { vars_t.init with files_matched := 1 }
      { file_t.opened [120, 10, 97, 98, 99, 10, 97, 98, 99, 10] [] with is_binary := true }).map
        (fun r => (r.1, r.2.2.2, r.2.2.1.pending)) =
      some (1, [out_t.blank, out_t.binary], [97, 98, 99, 10]) ∧
    ∃ ret vars1 file1 out1,
      analize_file opt_abc { vars_t.init with files_matched := 1 }
        { file_t.opened [120, 10, 97, 98, 99, 10, 97, 98, 99, 10] [] with is_binary := true } =
        some (ret, vars1, file1, out1) ∧
      ((∀ l ∈ ([[120, 10], [97, 98, 99, 10], [97, 98, 99, 10]] : List (List Nat)),
          is_matched opt_abc l = false) →
        out1 = [] ∧
        ret = (if ({ file_t.opened [120, 10, 97, 98, 99, 10, 97, 98, 99, 10] [] with
          is_binary := true } : file_t).nmatches ≠ 0 then 1 else 0)) ∧
      ∀ gap ml rest, ([[120, 10], [97, 98, 99, 10], [97, 98, 99, 10]] : List (List Nat)) =
          gap ++ ml :: rest → (∀ l ∈ gap, is_matched opt_abc l = false) →
        is_matched opt_abc ml = true →
        ret = 1 ∧
        out1 = (if ({ vars_t.init with files_matched := 1 } : vars_t).files_matched ≠ 0 ∧
            ({ file_t.opened [120, 10, 97, 98, 99, 10, 97, 98, 99, 10] [] with
              is_binary := true } : file_t).nmatches = 0 then [out_t.blank] else []) ++
          [out_t.binary] ∧
        file1.pending = rest.flatten ∧
        file1.nmatches = ({ file_t.opened [120, 10, 97, 98, 99, 10, 97, 98, 99, 10] [] with
          is_binary := true } : file_t).nmatches :=
  ⟨by decide, C23_binary_short_circuit opt_abc { vars_t.init with files_matched := 1 }
    { file_t.opened [120, 10, 97, 98, 99, 10, 97, 98, 99, 10] [] with is_binary := true }
    buf_t.empty [[120, 10], [97, 98, 99, 10], [97, 98, 99, 10]] (by decide) (by decide) rfl rfl
    rfl (by decide)⟩

/-- C23 as stated fails under `--passthru`: a file flagged binary with the
lines `x`, `abc` is scanned in context display mode, its second line is
matched, yet both lines are written and no notice is. -/
theorem C23_passthru_counterexample :
    ({ opt_abc with passthru := true } : opt_t).show_context = true ∧
    is_matched { opt_abc with passthru := true } [97, 98, 99, 10] = true ∧
    (analize_file { opt_abc with passthru := true } vars_t.init
      { file_t.opened [120, 10, 97, 98, 99, 10] [] with is_binary := true }).map
        (fun r => (r.1, r.2.2.2)) =
      some (0, [out_t.line [120, 10], out_t.line [97, 98, 99, 10]]) := by
  decide

set_option maxRecDepth 100000 in
/-- C21: `-1` does not stop the run at the first match.  With the built-in
registry and the options as `main` sets them for `-1` (`opt.one`, hence
`opt.m = 1`), searching `abc`: for the two start paths `a.c` and `b.c`, both
files holding the line `abc`, the loop of `main` over the start paths calls
`process` on each and `process` calls `process_file` on a path that is not a
directory without looking at `vars.total_matches`, so two matched lines are
written and `vars.total_matches` is 2.  When the same two files are the
entries of the start directory `d`, the test of the `for` loop (main.c 1672)
stops the walk after the first one.  A file flagged binary writes its notice
without counting a match, so the walk of `d` continues after it. -/
theorem C21_start_paths_not_stopped :
    (main_process (main_one { (startup opt_abc).1 with one := true, recursive := true }) 10
      (startup opt_abc).2
      [(cstr "a.c", node_t.reg (some ⟨cstr "abc\n", []⟩)),
       (cstr "b.c", node_t.reg (some ⟨cstr "abc\n", []⟩))] node_t.gone).map
        (fun r => (r.2, r.1.total_matches)) =
      some ([pout_t.scan (out_t.context 1 1 true (cstr "abc\n") [⟨0, 3⟩]),
        pout_t.scan (out_t.context 1 1 true (cstr "abc\n") [⟨0, 3⟩])], 2) ∧
    (main_process (main_one { (startup opt_abc).1 with one := true, recursive := true }) 10
      (startup opt_abc).2
      [(cstr "d", node_t.dir (some [(cstr "a.c", node_t.reg (some ⟨cstr "abc\n", []⟩)),
        (cstr "b.c", node_t.reg (some ⟨cstr "abc\n", []⟩))]))] node_t.gone).map
        (fun r => (r.2, r.1.total_matches)) =
      some ([pout_t.scan (out_t.context 1 1 true (cstr "abc\n") [⟨0, 3⟩])], 1) ∧
    (main_process (main_one { (startup opt_abc).1 with one := true, recursive := true }) 10
      (startup opt_abc).2
      [(cstr "d", node_t.dir (some [(cstr "a.c", node_t.reg (some ⟨cstr "abc\n\x00", []⟩)),
        (cstr "b.c", node_t.reg (some ⟨cstr "abc\n", []⟩))]))] node_t.gone).map
        (fun r => (r.2, r.1.total_matches)) =
      some ([pout_t.scan out_t.binary,
        pout_t.scan (out_t.context 1 1 true (cstr "abc\n") [⟨0, 3⟩])], 1) := by
  decide!

set_option maxRecDepth 100000 in
/-- C35: the caseless search stops at a NUL byte.  On the line made of a NUL
byte followed by `abc`, `str_findall` reports the occurrence of `abc` at
offset 1 and `str_casefindall` reports none: `strncasechr` ends its scan at the
first NUL byte although it is given the length (main.c 1120).  So a file
flagged binary with that line gets the notice `Binary file ... matches` for
the pattern `abc` and nothing at all for the same pattern under `-i`. -/
theorem C35_caseless_search_stops_at_nul :
    str_findall (mem_of (cstr "abc")) 3 (mem_of (0 :: cstr "abc\n")) 0 5 OFFSETS_SIZE =
      some [⟨1, 3⟩] ∧
    str_casefindall (mem_of (cstr "abc")) 3 (mem_of (0 :: cstr "abc\n")) 0 5 OFFSETS_SIZE =
      some [] ∧
    strncasechr (mem_of (0 :: cstr "abc\n")) 0 3 65 97 = none ∧
    ((compile (fun _ _ => some (fun _ => none)) (cstr "abc") 0).bind
      (fun re => analize_file { opt_abc with match_ := re } vars_t.init
        { file_t.opened (0 :: cstr "abc\n") [] with is_binary := true })).map
        (fun r => (r.1, r.2.2.2)) = some (1, [out_t.binary]) ∧
    ((compile (fun _ _ => some (fun _ => none)) (cstr "abc") PCRE_CASELESS).bind
      (fun re => analize_file { opt_abc with match_ := re } vars_t.init
        { file_t.opened (0 :: cstr "abc\n") [] with is_binary := true })).map
        (fun r => (r.1, r.2.2.2)) = some (0, []) := by
  decide

set_option maxRecDepth 100000 in
/-- C37: the binary notice is not counted as a match.  For a file flagged
binary whose line `abc` matches, `analize_file` writes the notice and returns 1
while `file->nmatches` is still 0 (the `return 1` of main.c 1383 comes before
`file->nmatches++`).  With the built-in registry, `process_file` on the file
`t.c` holding `abc`, a newline and a NUL byte writes the notice, returns 0 and
leaves `vars.files_matched` and `vars.total_matches` at 0, so `main` returns
`NOMATCH`; for the same file without the NUL byte the counters are 1 and `main`
returns `MATCH`. -/
theorem C37_binary_notice_not_counted :
    (analize_file opt_abc vars_t.init
      { file_t.opened (cstr "abc\n") [] with is_binary := true }).map
        (fun r => (r.1, r.2.2.1.nmatches, r.2.2.2)) = some (1, 0, [out_t.binary]) ∧
    (process_file (startup opt_abc).1 (startup opt_abc).2 (cstr "t.c") (cstr "t.c")
      (some ⟨cstr "abc\n" ++ [0], []⟩)).map
        (fun r => (r.1, r.2.1.files_matched, r.2.1.total_matches, main_status r.2.1)) =
      some (0, 0, 0, NOMATCH) ∧
    (process_file (startup opt_abc).1 (startup opt_abc).2 (cstr "t.c") (cstr "t.c")
      (some ⟨cstr "abc\n" ++ [0], []⟩)).map (fun r => r.2.2) =
      some [pout_t.scan out_t.binary] ∧
    (process_file (startup opt_abc).1 (startup opt_abc).2 (cstr "t.c") (cstr "t.c")
      (some ⟨cstr "abc\n", []⟩)).map
        (fun r => (r.1, r.2.1.files_matched, r.2.1.total_matches, main_status r.2.1)) =
      some (1, 1, 1, MATCH) := by
  decide

set_option maxRecDepth 100000 in
/-- C38: a searchable file can get the `skipped` bit.  The entry `skipped` of
the table `file_types` holds a description instead of extensions, and
`init_exts` registers its comma-separated parts, the first of which is `Files`,
as extensions of the type `skipped` (index 103).  The file name `profiles`
passes the skip check and ends, up to case, with `Files`: `get_filetypes` sets
the bits `skipped` and `text`, and `is_interesting` then yields 0 under the
default type request. -/
theorem C38_skipped_bit_on_searchable_file :
    ((startup opt_abc).1.exts.filter (fun e => e.type = 103)).map (fun e => e.ext) =
      [cstr " normally skipped (default: off)", cstr " but not directories", cstr "Files"] ∧
    (startup opt_abc).2.ft_skipped = some 103 ∧
    is_searchable (file_t.reset (startup opt_abc).2 (cstr "profiles") (cstr "x=1") 0) = true ∧
    (get_filetypes (startup opt_abc).1 (startup opt_abc).2
      (file_t.reset (startup opt_abc).2 (cstr "profiles") (cstr "x=1") 0)).map
        (fun r => (List.range 136).filter (fun j => bf_isset r.2.filetypes j)) =
      some [103, 114] ∧
    (is_interesting (startup opt_abc).1 (startup opt_abc).2
      (file_t.reset (startup opt_abc).2 (cstr "profiles") (cstr "x=1") 0)).map (fun r => r.1) =
      some 0 := by
  decide

set_option maxRecDepth 100000 in
/-- C39: the file-name filter writes through `NULL` for a literal pattern.
`process` calls `simple_match(&opt.G, d_name, strlen(d_name), NULL, 1)`.  For
the pattern `foo`, which `compile` dispatches to `str_findall`, and the name
`foo.c` the occurrence is found and `matches->start` is assigned through the
`NULL` pointer (main.c 970), so the call has no result; for the name `bar.c`
it returns 0.  A pattern dispatched to `re_findall` (here `f.`, the regex
library standing in as a match of the byte `f`) returns 1 without a write:
only `re_findall` tests `mptr`.  The walk of a directory holding `foo.c` with
`-G foo` therefore has no result either. -/
theorem C39_literal_filter_writes_through_null :
    (compile (fun _ _ => some (fun _ => none)) (cstr "foo") 0).map
      (fun re => (re.findall, simple_match_null re (mem_of (cstr "foo.c")) 5 1,
        simple_match_null re (mem_of (cstr "bar.c")) 5 1)) =
      some (findall_t.str_findall, none, some 0) ∧
    (compile (fun _ _ => some (exec_byte 102)) (cstr "f.") 0).map
      (fun re => (re.findall, simple_match_null re (mem_of (cstr "foo.c")) 5 1,
        simple_match_null re (mem_of (cstr "bar.c")) 5 1)) =
      some (findall_t.re_findall, some 1, some 0) ∧
    (main_process
      { (startup opt_abc).1 with
        recursive := true, G := compile (fun _ _ => some (fun _ => none)) (cstr "foo") 0 }
      10 (startup opt_abc).2
      [(cstr "d", node_t.dir (some [(cstr "foo.c", node_t.reg (some ⟨cstr "abc\n", []⟩))]))]
      node_t.gone).isNone = true ∧
    ((main_process
      { (startup opt_abc).1 with
        recursive := true, G := compile (fun _ _ => some (fun _ => none)) (cstr "foo") 0 }
      10 (startup opt_abc).2
      [(cstr "d", node_t.dir (some [(cstr "bar.c", node_t.reg (some ⟨cstr "abc\n", []⟩))]))]
      node_t.gone).map (fun r => r.2)) = some [] := by
  decide!

set_option maxRecDepth 100000 in
theorem parse_colors_loop_fuel : ∀ (fuel : Nat) (eptr : List Nat) (slen : Nat) (f : Int)
    (count : Nat), eptr.length ≤ fuel →
    ∃ r, parse_colors_loop fuel eptr slen f count = some r := by
  intro fuel
  induction fuel with
  | zero =>
    intro eptr slen f count h
    have : eptr = [] := List.length_eq_zero.mp (by omega)
    subst this
    exact ⟨_, rfl⟩
  | succ n ih =>
    intro eptr slen f count h
    unfold parse_colors_loop
    by_cases he : eptr = []
    · rw [if_pos he]
      exact ⟨_, rfl⟩
    · rw [if_neg he]
      simp only []
      have hlen : ((eptr.dropWhile isspace).dropWhile (fun c => decide (c ≠ 32))).length ≤ n := by
        rcases hs : eptr.dropWhile isspace with _ | ⟨c, cs⟩
        · simp
        · have h1 : (eptr.dropWhile isspace).length ≤ eptr.length :=
            (List.dropWhile_sublist _).length_le
          rw [hs] at h1
          have hc : isspace c = false := by
            have := List.head_dropWhile_not isspace eptr (by rw [hs]; simp)
            simpa [hs] using this
          have hc2 : c ≠ 32 := by
            intro e
            rw [e] at hc
            exact absurd hc (by decide)
          have h2 : ((c :: cs).dropWhile (fun c => decide (c ≠ 32))).length ≤ cs.length := by
            rw [List.dropWhile_cons_of_pos (by simpa using hc2)]
            exact (List.dropWhile_sublist _).length_le
          simp only [List.length_cons] at h1
          omega
      split
      · exact ⟨_, rfl⟩
      · split
        · exact ⟨_, rfl⟩
        · exact ⟨_, rfl⟩
        · split
          · exact ⟨_, rfl⟩
          · split_ifs
            · exact ih _ _ _ _ hlen
            · exact ⟨_, rfl⟩

theorem parse_colors_fuel (data : List Nat) :
    ∃ r, parse_colors_loop (strlen data) (strdup data) 2 8096 0 = some r :=
  parse_colors_loop_fuel _ _ _ _ _ (Nat.le_of_eq rfl)

set_option maxRecDepth 100000 in
/-- C31: not every documented long option is accepted.  Each long option that
`print_usage` presents is given to `opt_parse` in the form shown there, as
`main` does with `type_opt_find`, the table `args` and the built-in type
registry.  Five of them are refused with a negative result: `--no-filename`,
`--ignore-dir=name` and `--noignore-dir=name` are unrecognized (the table names
them `without-filename`, `ignore-dirs` and `noignore-dirs`); `--pager=COMMAND`
resolves to an entry with the flags `OPT_NODATA` and gets the message that the
option does not allow an argument; `--line=NUM` resolves to an entry with the
flags `OPT_DATA` whose parser `opt_not_implemented` returns 0, which is not the
length of the argument, and gets the message of an invalid argument, also when
the argument is the next element of `argv`.  All the others are accepted, and
so are the names of the table. -/
theorem C31_documented_options_refused :
    usage_long_options.filter (fun form => !opt_accepts (startup opt_abc).1 form) =
      [[cstr "--line=5"], [cstr "--no-filename"], [cstr "--pager=less"],
        [cstr "--ignore-dir=name"], [cstr "--noignore-dir=name"]] ∧
    (opt_parse (startup opt_abc).1 [cstr "ack", cstr "--no-filename"] args).map
        (fun r => (r.1, r.2.2)) =
      some (-2, [opt_msg_t.unrecognized (cstr "no-filename")]) ∧
    (opt_parse (startup opt_abc).1 [cstr "ack", cstr "--ignore-dir=name"] args).map
        (fun r => (r.1, r.2.2)) =
      some (-2, [opt_msg_t.unrecognized (cstr "ignore-dir=name")]) ∧
    (opt_parse (startup opt_abc).1 [cstr "ack", cstr "--noignore-dir=name"] args).map
        (fun r => (r.1, r.2.2)) =
      some (-2, [opt_msg_t.unrecognized (cstr "noignore-dir=name")]) ∧
    (opt_parse (startup opt_abc).1 [cstr "ack", cstr "--pager=less"] args).map
        (fun r => (r.1, r.2.2)) =
      some (-2, [opt_msg_t.no_argument_allowed true (some (cstr "pager"))]) ∧
    (opt_parse (startup opt_abc).1 [cstr "ack", cstr "--line=5"] args).map
        (fun r => (r.1, r.2.2)) =
      some (-2, [opt_msg_t.not_implemented (some (cstr "line")),
        opt_msg_t.invalid_argument true (some (cstr "line"))]) ∧
    (opt_parse (startup opt_abc).1 [cstr "ack", cstr "--line", cstr "5"] args).map
        (fun r => (r.1, r.2.2)) =
      some (-2, [opt_msg_t.not_implemented (some (cstr "line")),
        opt_msg_t.invalid_argument true (some (cstr "line"))]) ∧
    (opt_parse (startup opt_abc).1 [cstr "ack", cstr "--without-filename"] args).map
        (fun r => (r.1, r.2.2)) = some (2, []) ∧
    (opt_parse (startup opt_abc).1 [cstr "ack", cstr "--ignore-dirs=name"] args).map
        (fun r => (r.1, r.2.2, r.2.1.ignore_dirs.head?)) = some (2, [], some (cstr "name")) ∧
    (opt_parse (startup opt_abc).1 [cstr "ack", cstr "--pager"] args).map
        (fun r => (r.1, r.2.2)) =
      some (2, [opt_msg_t.not_implemented (some (cstr "pager"))]) ∧
    (opt_parse (startup opt_abc).1 [cstr "ack", cstr "--max-count=5"] args).map
        (fun r => (r.1, r.2.2)) = some (2, []) ∧
    (opt_parse (startup opt_abc).1 [cstr "ack", cstr "--max-count=NUM"] args).map
        (fun r => (r.1, r.2.2)) =
      some (-2, [opt_msg_t.invalid_argument true (some (cstr "max-count"))]) := by
  refine ⟨?_, ?_, ?_, ?_, ?_, ?_, ?_, ?_, ?_, ?_, ?_, ?_⟩ <;> decide

/-! ## Lemmas on reads that fail -/

theorem FREAD_any (f : FHANDLE) (size : Nat) :
    ((FREAD f size).fst = -1 ∧ (FREAD f size).snd.fst = [] ∧ (FREAD f size).snd.snd.data = f.data) ∨
    ∃ n : Nat, (FREAD f size).fst = (n : Int) ∧ (FREAD f size).snd.fst = f.data.take n ∧
      (FREAD f size).snd.snd.data = f.data.drop n ∧
      n ≤ size ∧ n ≤ f.data.length ∧ (0 < size → f.data ≠ [] → 0 < n) := by
  unfold FREAD
  rcases hsch : f.sched with _ | ⟨s, rest⟩
  · refine Or.inr ⟨min size f.data.length, rfl, rfl, rfl, by omega, by omega, ?_⟩
    intro h1 h2
    have : 0 < f.data.length := List.length_pos.mpr h2
    omega
  · cases s with
    | fail => exact Or.inl ⟨rfl, rfl, rfl⟩
    | deliver c =>
      refine Or.inr ⟨min (min size (c + 1)) f.data.length, rfl, rfl, rfl, by omega, by omega, ?_⟩
      intro h1 h2
      have : 0 < f.data.length := List.length_pos.mpr h2
      omega

theorem read_file_any (b : buf_t) (f : FHANDLE) (size : Nat) (hsz : 0 < size) (hinv : b.inv) :
    (read_file b f size).snd.fst.inv ∧
    b.allocated ≤ (read_file b f size).snd.fst.allocated ∧
    (∃ size2, 0 < size2 ∧ (read_file b f size).fst = (FREAD f size2).fst ∧
      (read_file b f size).snd.snd = (FREAD f size2).snd.snd ∧
      (read_file b f size).snd.fst.window = b.window ++ (FREAD f size2).snd.fst) ∧
    ((read_file b f size).fst = 0 → f.data = []) ∧
    ((read_file b f size).fst ≤ 0 → (read_file b f size).snd.fst.window = b.window ∧
      (read_file b f size).snd.fst.used = b.used ∧
      (read_file b f size).snd.snd.data = f.data) ∧
    (0 < (read_file b f size).fst →
      (read_file b f size).snd.snd.data.length < f.data.length ∧
      b.used < (read_file b f size).snd.fst.used) := by
  obtain ⟨b2, size2, hpos, hcap, hwin, hused, hal, heq⟩ := read_file_request b f size hsz hinv
  rw [heq]
  rcases FREAD_any f size2 with ⟨h1, h2, h3⟩ | ⟨n, h1, h2, h3, h4, h5, h6⟩
  · have hneg : ¬ (0 : Int) < (FREAD f size2).fst := by rw [h1]; decide
    rw [if_neg hneg]
    refine ⟨?_, hal, ⟨size2, hpos, rfl, rfl, ?_⟩, ?_, ?_, ?_⟩
    · unfold buf_t.inv; simp only; omega
    · simp only [h2, List.append_nil]; exact hwin
    · intro h; simp only at h; rw [h1] at h; cases h
    · intro _; exact ⟨hwin, hused, h3⟩
    · intro h; simp only at h; exact absurd h hneg
  · by_cases hn : 0 < n
    · have hp : (0 : Int) < (FREAD f size2).fst := by rw [h1]; exact_mod_cast hn
      rw [if_pos hp]
      have hto : (FREAD f size2).fst.toNat = n := by rw [h1]; exact Int.toNat_ofNat n
      refine ⟨?_, hal, ⟨size2, hpos, rfl, rfl, ?_⟩, ?_, ?_, ?_⟩
      · unfold buf_t.inv; simp only [hto]; omega
      · apply window_eq_of
        · simp only [List.length_append, window_length, hto, h2, List.length_take]
          omega
        · intro i hi
          simp only [hto] at hi
          simp only [mem_write]
          by_cases hlt : i < b2.used
          · have hc : ¬ (b2.start + b2.used ≤ b2.start + i ∧
                b2.start + i < b2.start + b2.used + (FREAD f size2).snd.fst.length) := by omega
            rw [if_neg hc, List.getD_eq_getElem?_getD,
              List.getElem?_append_left (by rw [window_length]; omega),
              ← List.getD_eq_getElem?_getD, ← hwin, window_getD b2 i hlt]
          · have hlen : (FREAD f size2).snd.fst.length = n := by
              rw [h2, List.length_take]; omega
            have hc : b2.start + b2.used ≤ b2.start + i ∧
                b2.start + i < b2.start + b2.used + (FREAD f size2).snd.fst.length := by
              rw [hlen]; omega
            rw [if_pos hc, List.getD_eq_getElem?_getD (b.window ++ _),
              List.getElem?_append_right (by rw [window_length]; omega),
              ← List.getD_eq_getElem?_getD, window_length]
            congr 1
            omega
      · intro h; simp only at h; rw [h1] at h
        have : n = 0 := by exact_mod_cast h
        omega
      · intro h; simp only at h; rw [h1] at h
        have : (n : Int) ≤ 0 := h
        omega
      · intro _
        simp only [h3, List.length_drop, hto]
        omega
    · have hn0 : n = 0 := by omega
      subst hn0
      have hneg : ¬ (0 : Int) < (FREAD f size2).fst := by rw [h1]; decide
      rw [if_neg hneg]
      refine ⟨?_, hal, ⟨size2, hpos, rfl, rfl, ?_⟩, ?_, ?_, ?_⟩
      · unfold buf_t.inv; simp only; omega
      · simp only [h2, List.take_zero, List.append_nil]; exact hwin
      · intro _
        by_contra hne
        exact absurd (h6 hpos hne) (by omega)
      · intro _; exact ⟨hwin, hused, by simpa using h3⟩
      · intro h; simp only at h; exact absurd h hneg

theorem get_line_loop_any : ∀ (fuel start : Nat) (file : file_t), file.buf.inv →
    file.f.data.length < fuel → start ≤ file.buf.used →
    ∃ ptr file1, get_line_loop fuel start file = some (ptr, file1) ∧
      file1.buf.inv ∧ file.buf.allocated ≤ file1.buf.allocated ∧
      file1.nmatches = file.nmatches ∧ file.buf.window <+: file1.buf.window ∧
      get_line_len ptr file1 ≤ file1.buf.used := by
  intro fuel
  induction fuel with
  | zero => intro start file _ h; omega
  | succ fuel ih =>
    intro start file hinv hfuel hstart
    simp only [get_line_loop]
    rcases hm : memchr file.buf.buf (file.buf.start + start) 0x0a (file.buf.used - start) with _ | p
    · simp only []
      obtain ⟨r1, r2, ⟨size2, _, _, _, r3⟩, _, r5, r6⟩ :=
        read_file_any file.buf file.f BUFFER_SIZE (by decide) hinv
      by_cases hle : (read_file file.buf file.f BUFFER_SIZE).fst ≤ 0
      · rw [if_pos hle]
        refine ⟨_, _, rfl, r1, r2, rfl, ?_, ?_⟩
        · simp only [r3]; exact List.prefix_append _ _
        · simp only [get_line_len]; exact le_refl _
      · rw [if_neg hle]
        have hpos : 0 < (read_file file.buf file.f BUFFER_SIZE).fst := by omega
        obtain ⟨r7, r8⟩ := r6 hpos
        obtain ⟨ptr, file1, h1, h2, h3, h4, h5, h6⟩ :=
          ih file.buf.used
            { file with buf := (read_file file.buf file.f BUFFER_SIZE).snd.fst,
                        f := (read_file file.buf file.f BUFFER_SIZE).snd.snd }
            r1 (by simp only; omega) (by simp only; omega)
        refine ⟨ptr, file1, h1, h2, ?_, h4, ?_, h6⟩
        · simp only at h3; omega
        · simp only at h5
          exact List.IsPrefix.trans (by rw [r3]; exact List.prefix_append _ _) h5
    · simp only []
      obtain ⟨a1, a2, _, _⟩ := memchr_some _ _ _ _ _ hm
      refine ⟨_, _, rfl, hinv, le_refl _, rfl, List.prefix_refl _, ?_⟩
      simp only [get_line_len]
      omega

theorem get_line_any (line : buf_t) (file : file_t) (hinv : file.buf.inv) :
    ∃ len line1 file1, get_line line file = some (len, line1, file1) ∧ file1.buf.inv ∧
      file1.nmatches = file.nmatches ∧ line1.used = len := by
  obtain ⟨ptr, file1, h1, h2, _, h4, _, h6⟩ :=
    get_line_loop_any (file.f.data.length + 1) 0 file hinv (by omega) (Nat.zero_le _)
  obtain ⟨g1, _, g3, _, g5, _, g7, _, _⟩ :=
    get_line_finish_spec line ptr file1 (get_line_len ptr file1) h2 h6 rfl
  refine ⟨(get_line_finish line ptr file1).fst, (get_line_finish line ptr file1).snd.fst,
    (get_line_finish line ptr file1).snd.snd, ?_, g5, ?_, ?_⟩
  · simp only [get_line, h1]
  · rw [g7, h4]
  · rw [g3, g1]

/-- C33: the window invariant.  For a window with `start + used <= allocated`
and a positive `size` (the callers pass `BUFFER_SIZE` and 1024), `read_file`
leaves a window that satisfies the invariant again, with a capacity that is not
smaller, asks `FREAD` for `size2 >= 1` bytes, and the unconsumed bytes
afterwards are those before followed by the bytes delivered, also when it
compacts or grows, and for every answer of the handle, a read error included;
a result 0 is returned only when the file has no byte left.  And `get_line`
on a file whose window satisfies the invariant returns and leaves it
satisfied. -/
theorem C33_byte_window_invariant (b : buf_t) (f : FHANDLE) (size : Nat) (line : buf_t)
    (file : file_t) (hsz : 0 < size) (hb : b.start + b.used ≤ b.allocated)
    (hf : file.buf.start + file.buf.used ≤ file.buf.allocated) :
    ((read_file b f size).snd.fst.start + (read_file b f size).snd.fst.used ≤
      (read_file b f size).snd.fst.allocated) ∧
    b.allocated ≤ (read_file b f size).snd.fst.allocated ∧
    b.window <+: (read_file b f size).snd.fst.window ∧
    (∃ size2, 0 < size2 ∧ (read_file b f size).fst = (FREAD f size2).fst ∧
      (read_file b f size).snd.snd = (FREAD f size2).snd.snd ∧
      (read_file b f size).snd.fst.window = b.window ++ (FREAD f size2).snd.fst) ∧
    ((read_file b f size).fst = 0 → f.data = []) ∧
    ∃ len line1 file1, get_line line file = some (len, line1, file1) ∧
      file1.buf.start + file1.buf.used ≤ file1.buf.allocated := by
  obtain ⟨r1, r2, ⟨size2, r3, r4, r5, r6⟩, r7, _, _⟩ := read_file_any b f size hsz hb
  obtain ⟨len, line1, file1, g1, g2, _, _⟩ := get_line_any line file hf
  exact ⟨r1, r2, by rw [r6]; exact List.prefix_append _ _, ⟨size2, r3, r4, r5, r6⟩, r7,
    len, line1, file1, g1, g2⟩

/-- C33 at concrete inputs: a full window of two bytes that is grown, and a
file whose second read fails. -/
theorem C33_byte_window_invariant_witness :
    ((read_file ⟨mem_of [97, 98], 2, 2, 0⟩ ⟨[99, 10], []⟩ 1024).fst,
      (read_file ⟨mem_of [97, 98], 2, 2, 0⟩ ⟨[99, 10], []⟩ 1024).snd.fst.allocated,
      (read_file ⟨mem_of [97, 98], 2, 2, 0⟩ ⟨[99, 10], []⟩ 1024).snd.fst.window) =
      (2, 1026, [97, 98, 99, 10]) ∧
    (((read_file ⟨mem_of [97, 98], 2, 2, 0⟩ ⟨[99, 10], []⟩ 1024).snd.fst.start +
        (read_file ⟨mem_of [97, 98], 2, 2, 0⟩ ⟨[99, 10], []⟩ 1024).snd.fst.used ≤
      (read_file ⟨mem_of [97, 98], 2, 2, 0⟩ ⟨[99, 10], []⟩ 1024).snd.fst.allocated) ∧
    (⟨mem_of [97, 98], 2, 2, 0⟩ : buf_t).allocated ≤
      (read_file ⟨mem_of [97, 98], 2, 2, 0⟩ ⟨[99, 10], []⟩ 1024).snd.fst.allocated ∧
    (⟨mem_of [97, 98], 2, 2, 0⟩ : buf_t).window <+:
      (read_file ⟨mem_of [97, 98], 2, 2, 0⟩ ⟨[99, 10], []⟩ 1024).snd.fst.window ∧
    (∃ size2, 0 < size2 ∧
      (read_file ⟨mem_of [97, 98], 2, 2, 0⟩ ⟨[99, 10], []⟩ 1024).fst =
        (FREAD ⟨[99, 10], []⟩ size2).fst ∧
      (read_file ⟨mem_of [97, 98], 2, 2, 0⟩ ⟨[99, 10], []⟩ 1024).snd.snd =
        (FREAD ⟨[99, 10], []⟩ size2).snd.snd ∧
      (read_file ⟨mem_of [97, 98], 2, 2, 0⟩ ⟨[99, 10], []⟩ 1024).snd.fst.window =
        (⟨mem_of [97, 98], 2, 2, 0⟩ : buf_t).window ++ (FREAD ⟨[99, 10], []⟩ size2).snd.fst) ∧
    ((read_file ⟨mem_of [97, 98], 2, 2, 0⟩ ⟨[99, 10], []⟩ 1024).fst = 0 →
      (⟨[99, 10], []⟩ : FHANDLE).data = []) ∧
    ∃ len line1 file1,
      get_line buf_t.empty (file_t.opened [97, 98, 99, 10] [ReadStep.deliver 1, ReadStep.fail]) =
        some (len, line1, file1) ∧
      file1.buf.start + file1.buf.used ≤ file1.buf.allocated) :=
  ⟨by decide, C33_byte_window_invariant ⟨mem_of [97, 98], 2, 2, 0⟩ ⟨[99, 10], []⟩ 1024
    buf_t.empty (file_t.opened [97, 98, 99, 10] [ReadStep.deliver 1, ReadStep.fail])
    (by decide) (by decide) (by decide)⟩

theorem str_findall_greedy (P S : List Nat) (hP : P ≠ []) :
    ∀ (n str len : Nat), str + len = S.length →
      ∃ ms, str_findall (mem_of P) P.length (mem_of S) str len n = some ms ∧
        ms.length ≤ n ∧ greedy_spans P S str n ms := by
  have hfl : 0 < P.length := List.length_pos.mpr hP
  intro n
  induction n with
  | zero => intro str len _; exact ⟨[], rfl, le_refl _, rfl⟩
  | succ n ih =>
    intro str len hlen
    simp only [str_findall]
    by_cases h0 : len = 0
    · rw [if_pos h0]
      refine ⟨[], rfl, Nat.zero_le _, ?_⟩
      intro q hq ho
      have := ho.1
      omega
    · rw [if_neg h0]
      obtain ⟨r, hr1, hr2⟩ := _strnstr3_spec (mem_of S) (mem_of P) str len P.length hfl
      rw [hr1]
      cases r with
      | none =>
        refine ⟨[], rfl, Nat.zero_le _, ?_⟩
        intro q hq ho
        rw [occurs_at_iff] at ho
        exact hr2 q hq (by omega) ho.2
      | some p =>
        obtain ⟨a1, a2, a3, a4⟩ := hr2
        obtain ⟨ms, h1, h2, h3⟩ := ih (p + P.length) (len - (p + P.length - str)) (by omega)
        refine ⟨⟨p - str, P.length⟩ :: ms, by simp [h1], by simp; omega, ?_⟩
        have e1 : str + (p - str) = p := by omega
        refine ⟨rfl, ?_, ?_, ?_⟩
        · simp only [e1]
          exact (occurs_at_iff S P p).mpr ⟨by omega, a3⟩
        · intro q hq1 hq2 ho
          simp only [e1] at hq2
          exact a4 q hq1 hq2 ((occurs_at_iff S P q).mp ho).2
        · simp only [e1]
          exact h3

/-- C34: the literal `find_all` finds exactly the greedy occurrences.  For
every non-empty pattern `P`, input `S` and limit `n`, `str_findall` returns at
most `n` spans, each of length `|P|` and with its start counted from the end
of the span before: the absolute position of each span is an occurrence of `P`
in `S`, no occurrence starts between the end of the span before and it, and
when fewer than `n` spans are returned no occurrence starts at or after
the end of the last one.  So the spans are the first `min(n, N)` of the `N`
leftmost non-overlapping occurrences. -/
theorem C34_literal_find_all_greedy (P S : List Nat) (n : Nat) (hP : P ≠ []) :
    ∃ ms, str_findall (mem_of P) P.length (mem_of S) 0 S.length n = some ms ∧
      ms.length ≤ n ∧ greedy_spans P S 0 n ms ∧
      (∀ a ∈ abs_spans 0 ms, a.len = P.length ∧ occurs_at S P a.start) := by
  obtain ⟨ms, h1, h2, h3⟩ := str_findall_greedy P S hP n 0 S.length (by omega)
  refine ⟨ms, h1, h2, h3, ?_⟩
  have key : ∀ (k : Nat) (l : List match_t) (base : Nat), greedy_spans P S base k l →
      ∀ a ∈ abs_spans base l, a.len = P.length ∧ occurs_at S P a.start := by
    intro k
    induction k with
    | zero =>
      intro l base h a ha
      have : l = [] := h
      subst this
      simp [abs_spans] at ha
    | succ k ih =>
      intro l base h a ha
      cases l with
      | nil => simp [abs_spans] at ha
      | cons x xs =>
        obtain ⟨g1, g2, _, g4⟩ := h
        simp only [abs_spans, List.mem_cons] at ha
        rcases ha with rfl | ha
        · exact ⟨g1, g2⟩
        · exact ih xs _ g4 a ha
  exact key n ms 0 h3

/-- C34 at a concrete input: `ab` in `abxabab` with the limits 120 and 2. -/
theorem C34_literal_find_all_greedy_witness :
    str_findall (mem_of [97, 98]) 2 (mem_of [97, 98, 120, 97, 98, 97, 98]) 0 7 OFFSETS_SIZE =
      some [⟨0, 2⟩, ⟨1, 2⟩, ⟨0, 2⟩] ∧
    str_findall (mem_of [97, 98]) 2 (mem_of [97, 98, 120, 97, 98, 97, 98]) 0 7 2 =
      some [⟨0, 2⟩, ⟨1, 2⟩] ∧
    ∃ ms, str_findall (mem_of [97, 98]) ([97, 98] : List Nat).length
        (mem_of [97, 98, 120, 97, 98, 97, 98]) 0
        ([97, 98, 120, 97, 98, 97, 98] : List Nat).length 2 = some ms ∧
      ms.length ≤ 2 ∧ greedy_spans [97, 98] [97, 98, 120, 97, 98, 97, 98] 0 2 ms ∧
      (∀ a ∈ abs_spans 0 ms, a.len = ([97, 98] : List Nat).length ∧
        occurs_at [97, 98, 120, 97, 98, 97, 98] [97, 98] a.start) :=
  ⟨by decide, by decide,
    C34_literal_find_all_greedy [97, 98] [97, 98, 120, 97, 98, 97, 98] 2 (by decide)⟩

theorem mem_slice_append (m : Nat → Nat) (p a b : Nat) :
    mem_slice m p a ++ mem_slice m (p + a) b = mem_slice m p (a + b) := by
  unfold mem_slice
  rw [List.range_add, List.map_append, List.map_map]
  congr 1
  apply List.map_congr_left
  intro i _
  simp only [Function.comp, Nat.add_assoc]

theorem mem_slice_zero (m : Nat → Nat) (p : Nat) : mem_slice m p 0 = [] := rfl

theorem strip_used_spec (buf : Nat → Nat) : ∀ (u : Nat), strip_used buf u ≤ u ∧
    (∀ i, strip_used buf u ≤ i → i < u → buf i = 0x0d ∨ buf i = 0x0a) ∧
    (∀ i, i < u → ¬ (buf i = 0x0d ∨ buf i = 0x0a) → i < strip_used buf u) := by
  intro u
  induction u with
  | zero => exact ⟨le_refl _, fun i _ h => by omega, fun i h _ => by omega⟩
  | succ u ih =>
    obtain ⟨h1, h2, h3⟩ := ih
    simp only [strip_used]
    by_cases hc : buf u = 0x0d ∨ buf u = 0x0a
    · rw [if_pos hc]
      refine ⟨by omega, ?_, ?_⟩
      · intro i hi1 hi2
        by_cases hiu : i = u
        · subst hiu; exact hc
        · exact h2 i hi1 (by omega)
      · intro i hi1 hi2
        by_cases hiu : i = u
        · subst hiu; exact absurd hc hi2
        · exact h3 i (by omega) hi2
    · rw [if_neg hc]
      exact ⟨le_refl _, fun i a b => by omega, fun i a _ => a⟩

theorem out_context_color_spec (cm : List Nat) (buf : Nat → Nat) (ms : List match_t)
    (len : Nat) : ∀ (n ptr i : Nat), i + n ≤ ms.length →
      spans_fit (len - ptr) ((ms.drop i).take n) → ptr ≤ len →
      (out_context_color cm buf ms n ptr i).fst ++
        (if (out_context_color cm buf ms n ptr i).snd < len then
          mem_slice buf (out_context_color cm buf ms n ptr i).snd
            (len - (out_context_color cm buf ms n ptr i).snd) else []) =
        ((color_segs buf len ptr ((ms.drop i).take n)).map (seg_t.render cm)).flatten ∧
      ((color_segs buf len ptr ((ms.drop i).take n)).map seg_t.text).flatten =
        mem_slice buf ptr (len - ptr) := by
  intro n
  induction n with
  | zero =>
    intro ptr i _ _ hp
    simp only [out_context_color, List.take_zero, color_segs, List.map_cons, List.map_nil,
      List.flatten_cons, List.flatten_nil, List.append_nil, List.nil_append, seg_t.render,
      seg_t.text]
    refine ⟨?_, trivial⟩
    split_ifs with h
    · rfl
    · have : len - ptr = 0 := by omega
      rw [this]
      rfl
  | succ n ih =>
    intro ptr i h hfit hp
    have hi : i < ms.length := by omega
    have e1 : ms.getD i ⟨0, 0⟩ = ms[i] := by
      rw [List.getD_eq_getElem?_getD, List.getElem?_eq_getElem hi]
      rfl
    have e2 : (ms.drop i).take (n + 1) = ms[i] :: (ms.drop (i + 1)).take n := by
      rw [List.drop_eq_getElem_cons hi, List.take_succ_cons]
    rw [e2] at hfit ⊢
    obtain ⟨f1, f2, f3⟩ := hfit
    have f3' : spans_fit (len - (ptr + ms[i].start + ms[i].len))
        ((ms.drop (i + 1)).take n) := by
      have : len - ptr - (ms[i].start + ms[i].len) = len - (ptr + ms[i].start + ms[i].len) := by
        omega
      rw [← this]
      exact f3
    obtain ⟨g1, g2⟩ := ih (ptr + ms[i].start + ms[i].len) (i + 1) (by omega) f3' (by omega)
    simp only [out_context_color, e1, color_segs, List.map_cons, List.flatten_cons,
      seg_t.render, seg_t.text, List.nil_append, List.append_assoc]
    constructor
    · rw [← g1]
    · rw [g2, mem_slice_append, mem_slice_append]
      congr 1
      omega

theorem color_segs_hits (buf : Nat → Nat) (len : Nat) : ∀ (ms : List match_t) (ptr : Nat),
    ((color_segs buf len ptr ms).map seg_t.hits).flatten =
      (abs_spans ptr ms).map (fun a => mem_slice buf a.start a.len) := by
  intro ms
  induction ms with
  | nil => intro ptr; rfl
  | cons x xs ih =>
    intro ptr
    simp only [color_segs, List.map_cons, List.flatten_cons, seg_t.hits, List.nil_append,
      List.singleton_append, abs_spans, ih]

theorem _strncasestr_loop_last (m f : Nat → Nat) (ei mi uf lf le ue lm um eptr : Nat) :
    ∀ (fuel : Nat) (o : Option Nat) (p : Nat),
      _strncasestr_loop m f ei mi uf lf le ue lm um eptr fuel o = some (some p) →
      m (p + ei) = le ∨ m (p + ei) = ue := by
  intro fuel
  induction fuel with
  | zero =>
    intro o p h
    cases o with
    | none => simp [_strncasestr_loop] at h
    | some ptr =>
      simp only [_strncasestr_loop] at h
      split_ifs at h
      simp at h
  | succ fuel ih =>
    intro o p h
    cases o with
    | none => simp [_strncasestr_loop] at h
    | some ptr =>
      simp only [_strncasestr_loop] at h
      split_ifs at h with h1 h2
      · simp only [Option.some.injEq] at h
        subst h
        exact h2.1
      · exact ih _ p h
      · simp at h

theorem _strncasestr_last (m f : Nat → Nat) (s sl fl p : Nat)
    (h : _strncasestr m s sl f fl = some (some p)) :
    m (p + (fl - 1)) = tolower (f (fl - 1)) ∨
      m (p + (fl - 1)) = toupper (tolower (f (fl - 1))) := by
  unfold _strncasestr at h
  split_ifs at h with h1 h2
  · simp at h
  · simp only [] at h
    split at h
    · exact _strncasestr_loop_last _ _ _ _ _ _ _ _ _ _ _ _ _ _ h
    · simp at h
  · simp at h

theorem case_not_crlf (c : Nat) (h : c ≠ 0x0d ∧ c ≠ 0x0a) :
    (tolower c ≠ 0x0d ∧ tolower c ≠ 0x0a) ∧
    (toupper (tolower c) ≠ 0x0d ∧ toupper (tolower c) ≠ 0x0a) := by
  unfold toupper tolower
  split_ifs <;> omega

theorem str_findall_fit_strip (pattern : Nat → Nat) (plen : Nat) (m : Nat → Nat) (L E : Nat)
    (hcr : ∀ i, L ≤ i → i < E → m i = 0x0d ∨ m i = 0x0a)
    (hlast : 0 < plen → pattern (plen - 1) ≠ 0x0d ∧ pattern (plen - 1) ≠ 0x0a) :
    ∀ (n str len : Nat), str + len = E → str ≤ L → L ≤ E →
      ∃ ms, str_findall pattern plen m str len n = some ms ∧ spans_fit (L - str) ms := by
  intro n
  induction n with
  | zero => intro str len _ _ _; exact ⟨[], rfl, trivial⟩
  | succ n ih =>
    intro str len hE hs hL
    simp only [str_findall]
    by_cases hlen : len = 0
    · rw [if_pos hlen]; exact ⟨[], rfl, trivial⟩
    · rw [if_neg hlen]
      by_cases hfl : 0 < plen
      · obtain ⟨r, hr1, hr2⟩ := _strnstr3_spec m pattern str len plen hfl
        rw [hr1]
        cases r with
        | none => exact ⟨[], rfl, trivial⟩
        | some p =>
          obtain ⟨a1, a2, a3, _⟩ := hr2
          have hb : m (p + (plen - 1)) = pattern (plen - 1) := a3 (plen - 1) (by omega)
          have hend : p + plen ≤ L := by
            by_contra hc
            have := hcr (p + (plen - 1)) (by omega) (by omega)
            rw [hb] at this
            have hl := hlast hfl
            omega
          obtain ⟨ms, h1, h3⟩ := ih (p + plen) (len - (p + plen - str)) (by omega) hend hL
          refine ⟨⟨p - str, plen⟩ :: ms, by simp [h1], hfl, by simp only; omega, ?_⟩
          have : L - str - (p - str + plen) = L - (p + plen) := by omega
          simp only [this]
          exact h3
      · obtain ⟨r, hr1, hr2⟩ := _strnstr3_total m pattern str len plen
        rw [hr1]
        cases r with
        | none => exact ⟨[], rfl, trivial⟩
        | some p => exact absurd (hr2 p rfl).1 hfl

theorem str_casefindall_fit_strip (pattern : Nat → Nat) (plen : Nat) (m : Nat → Nat) (L E : Nat)
    (hcr : ∀ i, L ≤ i → i < E → m i = 0x0d ∨ m i = 0x0a)
    (hlast : 0 < plen → pattern (plen - 1) ≠ 0x0d ∧ pattern (plen - 1) ≠ 0x0a) :
    ∀ (n str len : Nat), str + len = E → str ≤ L → L ≤ E →
      ∃ ms, str_casefindall pattern plen m str len n = some ms ∧ spans_fit (L - str) ms := by
  intro n
  induction n with
  | zero => intro str len _ _ _; exact ⟨[], rfl, trivial⟩
  | succ n ih =>
    intro str len hE hs hL
    simp only [str_casefindall]
    by_cases hlen : len = 0
    · rw [if_pos hlen]; exact ⟨[], rfl, trivial⟩
    · rw [if_neg hlen]
      obtain ⟨r, hr1, hr2⟩ := _strncasestr_total m pattern str len plen
      rw [hr1]
      cases r with
      | none => exact ⟨[], rfl, trivial⟩
      | some p =>
        obtain ⟨hfl, a1, a2⟩ := hr2 p rfl
        have hb := _strncasestr_last m pattern str len plen p hr1
        have hend : p + plen ≤ L := by
          by_contra hc
          have := hcr (p + (plen - 1)) (by omega) (by omega)
          obtain ⟨c1, c2⟩ := case_not_crlf _ (hlast hfl)
          rcases hb with hb | hb <;> rw [hb] at this <;> omega
        obtain ⟨ms, h1, h3⟩ := ih (p + plen) (len - (p + plen - str)) (by omega) hend hL
        refine ⟨⟨p - str, plen⟩ :: ms, by simp [h1], hfl, by simp only; omega, ?_⟩
        have : L - str - (p - str + plen) = L - (p + plen) := by omega
        simp only [this]
        exact h3

theorem simple_match_fit_strip (re : re_t) (m : Nat → Nat) (used n : Nat)
    (hlit : re.findall ≠ findall_t.re_findall)
    (hP : ∀ j, j < re.plen → re.pattern j ≠ 0x0d ∧ re.pattern j ≠ 0x0a) :
    ∃ ms, simple_match re m used n = some ms ∧ spans_fit (strip_used m used) ms := by
  obtain ⟨s1, s2, _⟩ := strip_used_spec m used
  have hlast : 0 < re.plen → re.pattern (re.plen - 1) ≠ 0x0d ∧ re.pattern (re.plen - 1) ≠ 0x0a :=
    fun h => hP _ (by omega)
  unfold simple_match
  rcases hf : re.findall with _ | _ | _
  · simp only []
    exact str_findall_fit_strip re.pattern re.plen m _ used s2 hlast n 0 used (by omega)
      (Nat.zero_le _) s1
  · simp only []
    exact str_casefindall_fit_strip re.pattern re.plen m _ used s2 hlast n 0 used (by omega)
      (Nat.zero_le _) s1
  · exact absurd hf hlit

theorem bytes_eq_mem_slice (b : buf_t) : b.bytes = mem_slice b.buf 0 b.used := by
  unfold buf_t.bytes mem_slice
  apply List.map_congr_left
  intro i _
  rw [Nat.zero_add]

/-- C40: highlighting preserves the line.  With colour on (and `-o` off), for
every literal strategy (`str_findall` or `str_casefindall`) with a pattern that
holds no CR and no LF byte, and for every line: `find_all` returns spans `ms`,
and `out_context`, called for the matched line with these spans, returns and
writes the line prefix, then the pieces `color_segs` of the line body, then
one newline.  With the colour sequences deleted the pieces are the line up to
`L`, its length without the trailing CR and LF bytes; the highlighted pieces
are, in order, the bytes of the line at the spans reported by `find_all`, each
between the colour-start and the reset sequence. -/
theorem C40_highlight_preserves_line (opt : opt_t) (name : List Nat) (str : buf_t)
    (line column : Nat) (old : List match_t)
    (hc : opt.color = true) (ho : opt.o = false)
    (hlit : opt.match_.findall ≠ findall_t.re_findall)
    (hP : ∀ j, j < opt.match_.plen →
      opt.match_.pattern j ≠ 0x0d ∧ opt.match_.pattern j ≠ 0x0a) :
    ∃ ms, simple_match opt.match_ str.buf str.used OFFSETS_SIZE = some ms ∧
      out_context opt name str line column true (some (store_matches old ms)) ms.length =
        some (out_context_lead opt name line column 58 ++
          ((color_segs str.buf (strip_used str.buf str.used) 0 ms).map
            (seg_t.render opt.color_match)).flatten ++ [10],
          { str with used := strip_used str.buf str.used }) ∧
      ((color_segs str.buf (strip_used str.buf str.used) 0 ms).map seg_t.text).flatten =
        str.bytes.take (strip_used str.buf str.used) ∧
      ((color_segs str.buf (strip_used str.buf str.used) 0 ms).map seg_t.hits).flatten =
        (abs_spans 0 ms).map (fun a => mem_slice str.buf a.start a.len) ∧
      strip_used str.buf str.used ≤ str.used ∧
      (∀ i, strip_used str.buf str.used ≤ i → i < str.used →
        str.buf i = 0x0d ∨ str.buf i = 0x0a) ∧
      (∀ i, i < str.used → ¬ (str.buf i = 0x0d ∨ str.buf i = 0x0a) →
        i < strip_used str.buf str.used) := by
  obtain ⟨ms, h1, h2⟩ := simple_match_fit_strip opt.match_ str.buf str.used OFFSETS_SIZE hlit hP
  obtain ⟨s1, s2, s3⟩ := strip_used_spec str.buf str.used
  have hdt : ((store_matches old ms).drop 0).take ms.length = ms := by
    unfold store_matches
    rw [List.drop_zero, List.take_left']
    rfl
  obtain ⟨c1, c2⟩ := out_context_color_spec opt.color_match str.buf
    (store_matches old ms) (strip_used str.buf str.used) ms.length 0 0
    (by unfold store_matches; simp) (by rw [hdt]; exact h2) (Nat.zero_le _)
  rw [hdt] at c1 c2
  refine ⟨ms, h1, ?_, ?_, color_segs_hits _ _ ms 0, s1, s2, s3⟩
  · unfold out_context
    simp only [ho, Bool.false_eq_true, if_false]
    by_cases hn : ms.length = 0
    · have hnil : ms = [] := List.length_eq_zero.mp hn
      subst hnil
      simp only [List.length_nil, true_or, if_true, color_segs, List.map_cons, List.map_nil,
        List.flatten_cons, List.flatten_nil, seg_t.render, List.append_nil, Nat.sub_zero,
        bytes_eq_mem_slice]
    · have hcond : ¬ (ms.length = 0 ∨ ¬ opt.color = true) := by
        rw [hc]
        simp [hn]
      rw [if_neg hcond]
      simp only [List.append_assoc]
      rw [← c1]
      simp
  · rw [c2, Nat.sub_zero, bytes_eq_mem_slice]
    unfold mem_slice
    rw [← List.map_take, List.take_range]
    congr 2
    omega

set_option maxRecDepth 100000 in
/-- C40 at a concrete input: with the colour sequence `ESC[30;43m` and the
pattern `abc`, the line `xabcy` ending in CR LF of the file `f.c` is written as
the prefix of line 3, then `x`, the colour sequence, `abc`, the reset sequence,
`y` and a newline. -/
theorem C40_highlight_preserves_line_witness :
    (out_context { opt_abc with color := true, color_match := cstr "\x1b[30;43m" } (cstr "f.c") ⟨mem_of (cstr "xabcy\r\n"), 7, 7, 0⟩ 3 2 true
        (some (store_matches [] [⟨1, 3⟩])) 1).map (fun r => r.1) =
      some (cstr "f.c:3\x1b[0m\x1b[K:x\x1b[30;43mabc\x1b[0m\x1b[Ky\n") ∧
    ({ opt_abc with color := true, color_match := cstr "\x1b[30;43m" }.color = true) ∧
    ({ opt_abc with color := true, color_match := cstr "\x1b[30;43m" }.o = false) ∧
    ({ opt_abc with color := true, color_match := cstr "\x1b[30;43m" }.match_.findall ≠ findall_t.re_findall) ∧
    (∀ j, j < { opt_abc with color := true, color_match := cstr "\x1b[30;43m" }.match_.plen →
      { opt_abc with color := true, color_match := cstr "\x1b[30;43m" }.match_.pattern j ≠ 0x0d ∧ { opt_abc with color := true, color_match := cstr "\x1b[30;43m" }.match_.pattern j ≠ 0x0a) ∧
    ∃ ms, simple_match { opt_abc with color := true, color_match := cstr "\x1b[30;43m" }.match_ (⟨mem_of (cstr "xabcy\r\n"), 7, 7, 0⟩ : buf_t).buf (⟨mem_of (cstr "xabcy\r\n"), 7, 7, 0⟩ : buf_t).used OFFSETS_SIZE = some ms ∧
      out_context { opt_abc with color := true, color_match := cstr "\x1b[30;43m" } (cstr "f.c") ⟨mem_of (cstr "xabcy\r\n"), 7, 7, 0⟩ 3 2 true (some (store_matches [] ms)) ms.length =
        some (out_context_lead { opt_abc with color := true, color_match := cstr "\x1b[30;43m" } (cstr "f.c") 3 2 58 ++
          ((color_segs (⟨mem_of (cstr "xabcy\r\n"), 7, 7, 0⟩ : buf_t).buf (strip_used (⟨mem_of (cstr "xabcy\r\n"), 7, 7, 0⟩ : buf_t).buf (⟨mem_of (cstr "xabcy\r\n"), 7, 7, 0⟩ : buf_t).used) 0 ms).map
            (seg_t.render { opt_abc with color := true, color_match := cstr "\x1b[30;43m" }.color_match)).flatten ++ [10],
          { (⟨mem_of (cstr "xabcy\r\n"), 7, 7, 0⟩ : buf_t) with used := strip_used (⟨mem_of (cstr "xabcy\r\n"), 7, 7, 0⟩ : buf_t).buf (⟨mem_of (cstr "xabcy\r\n"), 7, 7, 0⟩ : buf_t).used }) ∧
      ((color_segs (⟨mem_of (cstr "xabcy\r\n"), 7, 7, 0⟩ : buf_t).buf (strip_used (⟨mem_of (cstr "xabcy\r\n"), 7, 7, 0⟩ : buf_t).buf (⟨mem_of (cstr "xabcy\r\n"), 7, 7, 0⟩ : buf_t).used) 0 ms).map
          seg_t.text).flatten =
        (⟨mem_of (cstr "xabcy\r\n"), 7, 7, 0⟩ : buf_t).bytes.take (strip_used (⟨mem_of (cstr "xabcy\r\n"), 7, 7, 0⟩ : buf_t).buf (⟨mem_of (cstr "xabcy\r\n"), 7, 7, 0⟩ : buf_t).used) ∧
      ((color_segs (⟨mem_of (cstr "xabcy\r\n"), 7, 7, 0⟩ : buf_t).buf (strip_used (⟨mem_of (cstr "xabcy\r\n"), 7, 7, 0⟩ : buf_t).buf (⟨mem_of (cstr "xabcy\r\n"), 7, 7, 0⟩ : buf_t).used) 0 ms).map
          seg_t.hits).flatten =
        (abs_spans 0 ms).map (fun a => mem_slice (⟨mem_of (cstr "xabcy\r\n"), 7, 7, 0⟩ : buf_t).buf a.start a.len) ∧
      strip_used (⟨mem_of (cstr "xabcy\r\n"), 7, 7, 0⟩ : buf_t).buf (⟨mem_of (cstr "xabcy\r\n"), 7, 7, 0⟩ : buf_t).used ≤ (⟨mem_of (cstr "xabcy\r\n"), 7, 7, 0⟩ : buf_t).used ∧
      (∀ i, strip_used (⟨mem_of (cstr "xabcy\r\n"), 7, 7, 0⟩ : buf_t).buf (⟨mem_of (cstr "xabcy\r\n"), 7, 7, 0⟩ : buf_t).used ≤ i → i < (⟨mem_of (cstr "xabcy\r\n"), 7, 7, 0⟩ : buf_t).used →
        (⟨mem_of (cstr "xabcy\r\n"), 7, 7, 0⟩ : buf_t).buf i = 0x0d ∨ (⟨mem_of (cstr "xabcy\r\n"), 7, 7, 0⟩ : buf_t).buf i = 0x0a) ∧
      (∀ i, i < (⟨mem_of (cstr "xabcy\r\n"), 7, 7, 0⟩ : buf_t).used → ¬ ((⟨mem_of (cstr "xabcy\r\n"), 7, 7, 0⟩ : buf_t).buf i = 0x0d ∨ (⟨mem_of (cstr "xabcy\r\n"), 7, 7, 0⟩ : buf_t).buf i = 0x0a) →
        i < strip_used (⟨mem_of (cstr "xabcy\r\n"), 7, 7, 0⟩ : buf_t).buf (⟨mem_of (cstr "xabcy\r\n"), 7, 7, 0⟩ : buf_t).used) :=
  ⟨by decide, rfl, rfl, by decide, by decide,
    C40_highlight_preserves_line { opt_abc with color := true, color_match := cstr "\x1b[30;43m" } (cstr "f.c") ⟨mem_of (cstr "xabcy\r\n"), 7, 7, 0⟩ 3 2 [] rfl rfl (by decide) (by decide)⟩

/-! ## Lemmas on the window capacity -/

theorem analyse_internals_buf (vars : vars_t) (file : file_t) (b : buf_t)
    (h1 : (read_file b file.f 1024).fst = (read_file file.buf file.f 1024).fst)
    (h2 : (read_file b file.f 1024).snd.fst.buf = (read_file file.buf file.f 1024).snd.fst.buf) :
    analyse_internals vars { file with buf := b } =
      (analyse_internals vars file).map (fun r => (r.1, r.2.1,
        { r.2.2 with buf := (read_file b file.f 1024).snd.fst,
                     f := (read_file b file.f 1024).snd.snd })) := by
  unfold analyse_internals
  simp only [h1, h2]
  split_ifs
  · rfl
  · rcases memchr (read_file file.buf file.f 1024).snd.fst.buf 0 10
      (read_file file.buf file.f 1024).fst.toNat with _ | ptr
    · rfl
    · simp only []
      rcases analyse_header (read_file file.buf file.f 1024).snd.fst.buf ptr with _ | r
      · rfl
      · rcases r with _ | t
        · rfl
        · rfl
  · rcases memchr (read_file file.buf file.f 1024).snd.fst.buf 0 0
      (read_file file.buf file.f 1024).fst.toNat with _ | ptr
    · rfl
    · rfl
  · rfl

theorem get_filetypes_buf (opt : opt_t) (vars : vars_t) (file : file_t) (b : buf_t)
    (h1 : (read_file b file.f 1024).fst = (read_file file.buf file.f 1024).fst)
    (h2 : (read_file b file.f 1024).snd.fst.buf = (read_file file.buf file.f 1024).snd.fst.buf) :
    (get_filetypes opt vars { file with buf := b }).map
      (fun r => (r.2.filetypes, r.2.is_binary)) =
    (get_filetypes opt vars file).map (fun r => (r.2.filetypes, r.2.is_binary)) := by
  have hA := analyse_internals_buf vars { file with type_processed := true } b h1 h2
  unfold get_filetypes
  by_cases hp : file.type_processed = true
  · simp only [hp, if_true, Option.map_some']
  · simp only [hp, if_false]
    have hs : is_searchable { file with buf := b, type_processed := true } =
        is_searchable { file with type_processed := true } := rfl
    simp only [hs]
    by_cases hsr : is_searchable { file with type_processed := true } = true
    · simp only [hsr, not_true_eq_false, if_false]
      have hA2 : analyse_internals vars { file with buf := b, type_processed := true } =
          (analyse_internals vars { file with type_processed := true }).map (fun r => (r.1, r.2.1,
            { r.2.2 with buf := (read_file b file.f 1024).snd.fst,
                         f := (read_file b file.f 1024).snd.snd })) := hA
      rw [hA2]
      rcases analyse_internals vars { file with type_processed := true } with _ | ⟨t, v2, f2⟩
      · rfl
      · simp only [Option.map_some']
        simp only [Bool.false_eq_true, if_false]
        split
        · rfl
        · rename_i r2 hE
          by_cases hc : (get_filetypes_exts f2.name f2.namelen opt.exts r2.1 r2.2).2 ≠ 0 ∧
              ¬ f2.is_binary = true
          · simp only [hc, ne_eq, not_false_eq_true, and_self, if_true]
            rcases v2.ft_text with _ | tx
            · rfl
            · rfl
          · simp only [hc, if_false]
            rfl
    · simp only [hsr, not_false_eq_true, if_true]
      rcases vars.ft_skipped with _ | sk
      · rfl
      · rfl

theorem read_file_fresh_fst (b : buf_t) (f : FHANDLE) (hs : b.start = 0) (hu : b.used = 0) :
    (read_file b f 1024).fst = (FREAD f (sniff_request b)).fst ∧
    (read_file b f 1024).snd.fst.buf =
      (if 0 < (FREAD f (sniff_request b)).fst then
        mem_write b.buf 0 (FREAD f (sniff_request b)).snd.fst else b.buf) := by
  rw [read_file_fresh b f hs hu]
  split_ifs
  · exact ⟨rfl, rfl⟩
  · exact ⟨rfl, rfl⟩

/-- C36 (amended): the classification depends on the capacity only through the
bytes that the one read of the sniff delivers.  For a file whose window is
empty at offset 0, as `process_file` leaves it, and any other capacity `c` of
that window: when the read requested under either capacity (1024 bytes for the
capacity 0, the whole capacity otherwise) delivers the same bytes,
`get_filetypes` computes the same bit set and the same `is_binary` flag; this
is so in particular when the reads are served in full and both requests cover
the whole file. -/
theorem C36_classification_same_read (opt : opt_t) (vars : vars_t) (file : file_t) (c : Nat)
    (hs : file.buf.start = 0) (hu : file.buf.used = 0) :
    ((FREAD file.f (sniff_request { file.buf with allocated := c })).fst =
        (FREAD file.f (sniff_request file.buf)).fst →
      (FREAD file.f (sniff_request { file.buf with allocated := c })).snd.fst =
        (FREAD file.f (sniff_request file.buf)).snd.fst →
      (get_filetypes opt vars { file with buf := { file.buf with allocated := c } }).map
        (fun r => (r.2.filetypes, r.2.is_binary)) =
      (get_filetypes opt vars file).map (fun r => (r.2.filetypes, r.2.is_binary))) ∧
    (file.f.sched = [] → file.f.data.length ≤ sniff_request file.buf →
      file.f.data.length ≤ sniff_request { file.buf with allocated := c } →
      (get_filetypes opt vars { file with buf := { file.buf with allocated := c } }).map
        (fun r => (r.2.filetypes, r.2.is_binary)) =
      (get_filetypes opt vars file).map (fun r => (r.2.filetypes, r.2.is_binary))) := by
  have main : (FREAD file.f (sniff_request { file.buf with allocated := c })).fst =
        (FREAD file.f (sniff_request file.buf)).fst →
      (FREAD file.f (sniff_request { file.buf with allocated := c })).snd.fst =
        (FREAD file.f (sniff_request file.buf)).snd.fst →
      (get_filetypes opt vars { file with buf := { file.buf with allocated := c } }).map
        (fun r => (r.2.filetypes, r.2.is_binary)) =
      (get_filetypes opt vars file).map (fun r => (r.2.filetypes, r.2.is_binary)) := by
    intro hd1 hd2
    obtain ⟨a1, a2⟩ := read_file_fresh_fst { file.buf with allocated := c } file.f hs hu
    obtain ⟨b1, b2⟩ := read_file_fresh_fst file.buf file.f hs hu
    apply get_filetypes_buf
    · rw [a1, b1, hd1]
    · rw [a2, b2, hd1, hd2]
  refine ⟨main, ?_⟩
  intro hsch h1 h2
  have hfr : ∀ size, file.f.data.length ≤ size →
      FREAD file.f size = ((file.f.data.length : Int), file.f.data, ⟨[], []⟩) := by
    intro size hsz
    unfold FREAD
    rw [hsch]
    simp only [Nat.min_eq_right hsz, List.take_length, List.drop_length]
  apply main
  · rw [hfr _ h1, hfr _ h2]
  · rw [hfr _ h1, hfr _ h2]

set_option maxRecDepth 100000 in
/-- C36 (amended) at a concrete input: the file `x.c` holding `int x;` is
classified in the same way with a fresh window and with a window of 66560
bytes. -/
theorem C36_classification_same_read_witness :
    (get_filetypes (startup opt_abc).1 (startup opt_abc).2
      (file_t.reset (startup opt_abc).2 (cstr "x.c") (cstr "int x;") 66560)).map
        (fun r => ((List.range 136).filter (fun j => bf_isset r.2.filetypes j), r.2.is_binary)) =
      some ([10, 17, 114], false) ∧
    ((FREAD (file_t.reset (startup opt_abc).2 (cstr "x.c") (cstr "int x;") 0).f
          (sniff_request
            { (file_t.reset (startup opt_abc).2 (cstr "x.c") (cstr "int x;") 0).buf with
              allocated := 66560 })).fst =
        (FREAD (file_t.reset (startup opt_abc).2 (cstr "x.c") (cstr "int x;") 0).f
          (sniff_request (file_t.reset (startup opt_abc).2 (cstr "x.c") (cstr "int x;") 0).buf)).fst →
      (FREAD (file_t.reset (startup opt_abc).2 (cstr "x.c") (cstr "int x;") 0).f
          (sniff_request
            { (file_t.reset (startup opt_abc).2 (cstr "x.c") (cstr "int x;") 0).buf with
              allocated := 66560 })).snd.fst =
        (FREAD (file_t.reset (startup opt_abc).2 (cstr "x.c") (cstr "int x;") 0).f
          (sniff_request
            (file_t.reset (startup opt_abc).2 (cstr "x.c") (cstr "int x;") 0).buf)).snd.fst →
      (get_filetypes (startup opt_abc).1 (startup opt_abc).2
        { file_t.reset (startup opt_abc).2 (cstr "x.c") (cstr "int x;") 0 with
          buf := { (file_t.reset (startup opt_abc).2 (cstr "x.c") (cstr "int x;") 0).buf with
            allocated := 66560 } }).map (fun r => (r.2.filetypes, r.2.is_binary)) =
      (get_filetypes (startup opt_abc).1 (startup opt_abc).2
        (file_t.reset (startup opt_abc).2 (cstr "x.c") (cstr "int x;") 0)).map
          (fun r => (r.2.filetypes, r.2.is_binary))) ∧
    ((file_t.reset (startup opt_abc).2 (cstr "x.c") (cstr "int x;") 0).f.sched = [] →
      (file_t.reset (startup opt_abc).2 (cstr "x.c") (cstr "int x;") 0).f.data.length ≤
        sniff_request (file_t.reset (startup opt_abc).2 (cstr "x.c") (cstr "int x;") 0).buf →
      (file_t.reset (startup opt_abc).2 (cstr "x.c") (cstr "int x;") 0).f.data.length ≤
        sniff_request
          { (file_t.reset (startup opt_abc).2 (cstr "x.c") (cstr "int x;") 0).buf with
            allocated := 66560 } →
      (get_filetypes (startup opt_abc).1 (startup opt_abc).2
        { file_t.reset (startup opt_abc).2 (cstr "x.c") (cstr "int x;") 0 with
          buf := { (file_t.reset (startup opt_abc).2 (cstr "x.c") (cstr "int x;") 0).buf with
            allocated := 66560 } }).map (fun r => (r.2.filetypes, r.2.is_binary)) =
      (get_filetypes (startup opt_abc).1 (startup opt_abc).2
        (file_t.reset (startup opt_abc).2 (cstr "x.c") (cstr "int x;") 0)).map
          (fun r => (r.2.filetypes, r.2.is_binary))) :=
  ⟨by decide, C36_classification_same_read (startup opt_abc).1 (startup opt_abc).2
    (file_t.reset (startup opt_abc).2 (cstr "x.c") (cstr "int x;") 0) 66560 rfl rfl⟩

theorem get_filetypes_sniff (opt : opt_t) (vars : vars_t) (file file' : file_t)
    (hn : file'.name = file.name) (hl : file'.namelen = file.namelen)
    (hf : file'.filetypes = file.filetypes)
    (hp : file.type_processed = false) (hp' : file'.type_processed = false)
    (hs : is_searchable { file with type_processed := true } = true)
    (ha : (analyse_internals vars { file' with type_processed := true }).map
        (fun r => (r.1, r.2.2.is_binary)) =
      (analyse_internals vars { file with type_processed := true }).map
        (fun r => (r.1, r.2.2.is_binary))) :
    (get_filetypes opt vars file').map (fun r => (r.2.filetypes, r.2.is_binary)) =
      (get_filetypes opt vars file).map (fun r => (r.2.filetypes, r.2.is_binary)) := by
  have hs' : is_searchable { file' with type_processed := true } = true := by
    have e : is_searchable { file' with type_processed := true } =
        is_searchable { file with type_processed := true } := by
      unfold is_searchable
      simp only [hn, hl]
    rw [e, hs]
  obtain ⟨t, v2, f2, hai, ⟨i1, i2, i3, _⟩, ⟨j1, j2, j3, j4, j5⟩, _⟩ :=
    analyse_internals_total vars { file with type_processed := true }
  obtain ⟨t', v2', f2', hai', ⟨i1', i2', i3', _⟩, ⟨j1', j2', j3', j4', j5'⟩, _⟩ :=
    analyse_internals_total vars { file' with type_processed := true }
  rw [hai, hai'] at ha
  simp only [Option.map_some', Option.some.injEq, Prod.mk.injEq] at ha
  obtain ⟨ht, hb⟩ := ha
  have k1 : f2'.filetypes = f2.filetypes := by rw [i1', i1]; exact hf
  have k2 : f2'.name = f2.name := by rw [i2', i2]; exact hn
  have k3 : f2'.namelen = f2.namelen := by rw [i3', i3]; exact hl
  rw [get_filetypes_searchable opt vars file hp hs t v2 f2 hai,
    get_filetypes_searchable opt vars file' hp' hs' t' v2' f2' hai']
  simp only [k1, k2, k3, ht, hb, j1, j3, j4, j1', j3', j4']
  split
  · rfl
  · rename_i r2 hE
    by_cases hc : (get_filetypes_exts f2.name f2.namelen opt.exts r2.1 r2.2).2 ≠ 0 ∧
        ¬ f2.is_binary = true
    · simp only [hc, ne_eq, not_false_eq_true, and_self, if_true]
      rcases vars.ft_text with _ | tx
      · rfl
      · simp only [Option.map_some', hb]
        split_ifs <;> rfl
    · simp only [hc, if_false]
      simp only [Option.map_some', hb]

set_option maxRecDepth 100000 in
/-- C36 (counterexample): the file `a.c` holding 1024 bytes `a` and then one NUL
byte is classified as text (types cc, cpp and text) when its window has the
capacity 0, and as binary (types binary, cc and cpp) when the window has kept a
capacity of 66560 bytes from an earlier file: the sniff then reads and inspects
the NUL byte that lies after the first 1024 bytes. -/
theorem C36_capacity_changes_classification :
    (get_filetypes (startup opt_abc).1 (startup opt_abc).2
      (file_t.reset (startup opt_abc).2 (cstr "a.c") (List.replicate 1024 97 ++ [0]) 0)).map
        (fun r => ((List.range 136).filter (fun j => bf_isset r.2.filetypes j), r.2.is_binary)) =
      some ([10, 17, 114], false) ∧
    (get_filetypes (startup opt_abc).1 (startup opt_abc).2
      (file_t.reset (startup opt_abc).2 (cstr "a.c") (List.replicate 1024 97 ++ [0]) 66560)).map
        (fun r => ((List.range 136).filter (fun j => bf_isset r.2.filetypes j), r.2.is_binary)) =
      some ([8, 10, 17], true) := by
  have hl : (List.replicate 1024 97 ++ [0]).length = 1025 := by
    rw [List.length_append, List.length_replicate]
    rfl
  have key0 : (FREAD ⟨List.replicate 1024 97 ++ [0], []⟩ 1024) =
      ((1024 : Int), List.replicate 1024 97, ⟨[0], []⟩) := by
    unfold FREAD
    simp only [hl]
    rw [show min 1024 1025 = 1024 from rfl, List.take_left' (List.length_replicate _ _),
      List.drop_left' (List.length_replicate _ _)]
    rfl
  have key1 : (FREAD ⟨List.replicate 1024 97 ++ [0], []⟩ 66560) =
      ((1025 : Int), List.replicate 1024 97 ++ [0], ⟨[], []⟩) := by
    unfold FREAD
    simp only [hl]
    rw [show min 66560 1025 = 1025 from rfl, List.take_of_length_le (by omega),
      List.drop_of_length_le (by omega)]
    rfl
  have sn0 : sniffed { file_t.reset (startup opt_abc).2 (cstr "a.c")
      (List.replicate 1024 97 ++ [0]) 0 with type_processed := true } =
        97 :: List.replicate 1023 97 := by
    rw [sniffed_fresh _ rfl rfl]
    have e : sniff_request { file_t.reset (startup opt_abc).2 (cstr "a.c")
        (List.replicate 1024 97 ++ [0]) 0 with type_processed := true }.buf = 1024 := rfl
    have e2 : { file_t.reset (startup opt_abc).2 (cstr "a.c")
        (List.replicate 1024 97 ++ [0]) 0 with type_processed := true }.f =
        ⟨List.replicate 1024 97 ++ [0], []⟩ := rfl
    rw [e, e2, key0]
    rfl
  have sn1 : sniffed { file_t.reset (startup opt_abc).2 (cstr "a.c")
      (List.replicate 1024 97 ++ [0]) 66560 with type_processed := true } =
        97 :: (List.replicate 1023 97 ++ [0]) := by
    rw [sniffed_fresh _ rfl rfl]
    have e : sniff_request { file_t.reset (startup opt_abc).2 (cstr "a.c")
        (List.replicate 1024 97 ++ [0]) 66560 with type_processed := true }.buf = 66560 := rfl
    have e2 : { file_t.reset (startup opt_abc).2 (cstr "a.c")
        (List.replicate 1024 97 ++ [0]) 66560 with type_processed := true }.f =
        ⟨List.replicate 1024 97 ++ [0], []⟩ := rfl
    rw [e, e2, key1]
    rfl
  have a0 : (analyse_internals (startup opt_abc).2 { file_t.reset (startup opt_abc).2 (cstr "a.c")
      (List.replicate 1024 97 ++ [0]) 0 with type_processed := true }).map
        (fun r => (r.1, r.2.2.is_binary)) = some (cstr "text", false) := by
    obtain ⟨v1, f1, h1, h2, _, _⟩ := analyse_internals_plain (startup opt_abc).2 _ 97 _ sn0
      (by decide) (by decide)
    have hz : ¬ (0 : Nat) ∈ 97 :: List.replicate 1023 97 := by
      intro h
      rcases List.mem_cons.mp h with h | h
      · cases h
      · exact absurd (List.mem_replicate.mp h).2 (by decide)
    rw [if_neg hz] at h1 h2
    rw [h1]
    simp only [Option.map_some', h2]
    rfl
  have a1 : (analyse_internals (startup opt_abc).2 { file_t.reset (startup opt_abc).2 (cstr "a.c")
      (List.replicate 1024 97 ++ [0]) 66560 with type_processed := true }).map
        (fun r => (r.1, r.2.2.is_binary)) = some (cstr "binary", true) := by
    obtain ⟨v1, f1, h1, h2, _, _⟩ := analyse_internals_plain (startup opt_abc).2 _ 97 _ sn1
      (by decide) (by decide)
    have hz : (0 : Nat) ∈ 97 :: (List.replicate 1023 97 ++ [0]) :=
      List.mem_cons_of_mem _ (List.mem_append_right _ (List.mem_singleton.mpr rfl))
    rw [if_pos hz] at h1 h2
    rw [h1]
    simp only [Option.map_some', h2]
  have b0 : (analyse_internals (startup opt_abc).2 { file_t.reset (startup opt_abc).2 (cstr "a.c")
      (cstr "a") 0 with type_processed := true }).map
        (fun r => (r.1, r.2.2.is_binary)) = some (cstr "text", false) := by decide
  have b1 : (analyse_internals (startup opt_abc).2 { file_t.reset (startup opt_abc).2 (cstr "a.c")
      [97, 0] 0 with type_processed := true }).map
        (fun r => (r.1, r.2.2.is_binary)) = some (cstr "binary", true) := by decide
  have g0 := get_filetypes_sniff (startup opt_abc).1 (startup opt_abc).2
    (file_t.reset (startup opt_abc).2 (cstr "a.c") (cstr "a") 0)
    (file_t.reset (startup opt_abc).2 (cstr "a.c") (List.replicate 1024 97 ++ [0]) 0)
    rfl rfl rfl rfl rfl (by decide) (a0.trans b0.symm)
  have g1 := get_filetypes_sniff (startup opt_abc).1 (startup opt_abc).2
    (file_t.reset (startup opt_abc).2 (cstr "a.c") [97, 0] 0)
    (file_t.reset (startup opt_abc).2 (cstr "a.c") (List.replicate 1024 97 ++ [0]) 66560)
    rfl rfl rfl rfl rfl (by decide) (a1.trans b1.symm)
  have c0 : (get_filetypes (startup opt_abc).1 (startup opt_abc).2
      (file_t.reset (startup opt_abc).2 (cstr "a.c") (cstr "a") 0)).map
        (fun r => ((List.range 136).filter (fun j => bf_isset r.2.filetypes j), r.2.is_binary)) =
      some ([10, 17, 114], false) := by decide
  have c1 : (get_filetypes (startup opt_abc).1 (startup opt_abc).2
      (file_t.reset (startup opt_abc).2 (cstr "a.c") [97, 0] 0)).map
        (fun r => ((List.range 136).filter (fun j => bf_isset r.2.filetypes j), r.2.is_binary)) =
      some ([8, 10, 17], true) := by decide
  have lift : ∀ x y : Option (vars_t × file_t),
      x.map (fun r => (r.2.filetypes, r.2.is_binary)) =
        y.map (fun r => (r.2.filetypes, r.2.is_binary)) →
      x.map (fun r => ((List.range 136).filter (fun j => bf_isset r.2.filetypes j),
          r.2.is_binary)) =
        y.map (fun r => ((List.range 136).filter (fun j => bf_isset r.2.filetypes j),
          r.2.is_binary)) := by
    intro x y h
    rcases x with _ | x <;> rcases y with _ | y
    · rfl
    · cases h
    · cases h
    · simp only [Option.map_some', Option.some.injEq, Prod.mk.injEq] at h ⊢
      rw [h.1, h.2]
      exact ⟨rfl, rfl⟩
  exact ⟨(lift _ _ g0).trans c0, (lift _ _ g1).trans c1⟩

end Ack
